import Mathlib

/-!
Verification of the promise-based mutexes of the mutex.js repository.

Embedded code:
* makeVipMutex (src/unnamed/part_001; the class form src/VipMutex.js and the
  second half of src/unnamed/part_002 are the same algorithm): an ordinary
  promise chain (_lineUp, with a waiter count _count), a VIP promise chain
  (_lineUpAsVip, rooted at a head sentinel _vipLock created by _initVipLock
  and resolved by _vipKey), a release closure for ordinary holders (_getKey)
  that drains the VIP chain under an internal guard mutex (_mtx), and the
  entry points lock(_isVIP), lockVip, _run, run, runVip.
* Mutex (src/mutex.js, also the first half of src/unnamed/part_002): a plain
  FIFO promise chain whose unlock closure is () => resolve(), discarding any
  arguments a caller passes.

The embedding is a small-step operational model of the cooperatively
scheduled promise runtime: promises are heap cells resolved at most once;
every .then continuation / await resumption of the source is a Reaction that
is parked on its source promise while that promise is pending and moves to a
FIFO microtask queue when it resolves; external events (a task calling lock,
lockVip, or an unlock closure) may interleave arbitrarily with microtask
processing, exactly as client code interleaves with mutex code in the
single-threaded runtime.  Ghost fields (chains, timestamps, the event log)
record history only and never influence behaviour.
-/

set_option maxHeartbeats 4000000
set_option linter.unusedVariables false

namespace VipM

/-! Promise identifiers (heap addresses of promise cells) and task/waiter
identifiers (one per acquisition request) are plain naturals. -/

/-- Life cycle of one acquisition request.
idle: has not called yet; waitGuard: a lockVip call parked on the internal
guard mutex before its queue-membership check; queued: appended to a chain,
waiting for its key promise; holding: key promise resolved (admitted);
releasing: an ordinary holder whose _getKey body is running (it parked on the
guard or on the VIP tail); released: release complete. -/
inductive Status where
  | idle | waitGuard | queued | holding | releasing | released
deriving DecidableEq

/-- Which chain a request was appended to. -/
inductive Lane where
  | ordL | vipL
deriving DecidableEq

/-- Shape of the key (unlock closure) handed to the request.
ordKey is the closure produced by _getKey(resolve) (guarded VIP drain);
simpleKey is the closure (async () => resolve()) used for VIP requests,
including VIP requests that fall back to the ordinary chain on an idle
mutex. -/
inductive Kind where
  | ordKey | simpleKey
deriving DecidableEq

/-- Per-request record.  myLock is the promise the request itself resolves on
release; srcP is the promise its key continuation was chained onto (ghost
copy of the .then source).  appendedAt / admittedAt / drainedAt are ghost
timestamps. -/
structure Client where
  status : Status := .idle
  lane : Lane := .ordL
  kind : Kind := .ordKey
  myLock : Nat := 0
  srcP : Nat := 0
  appendedAt : Option Nat := none
  admittedAt : Option Nat := none
  drainedAt : Option Nat := none
deriving DecidableEq

/-- Parked or queued continuations, one constructor per .then / await site of
the source.
thenKey src c: the continuation of (_lock.then(() => myKey)) or
  (_vipLock.then(() => myKey)); firing it delivers the key to c (admission).
vipCheck src c myLock g: the body of lock(true) resumed after
  (await _mtx.lock()); src is the previous guard tail, g the fresh guard lock
  this call holds until it unlocks the guard.
relDrain src c myLock g: the _getKey body resumed after (await _mtx.lock()).
relFinish src c myLock g: the _getKey body resumed after (await _vipLock);
  src is the VIP tail snapshot taken at the drain. -/
inductive Reaction where
  | thenKey (src : Nat) (c : Nat)
  | vipCheck (src : Nat) (c : Nat) (myLock : Nat) (g : Nat)
  | relDrain (src : Nat) (c : Nat) (myLock : Nat) (g : Nat)
  | relFinish (src : Nat) (c : Nat) (myLock : Nat) (g : Nat)
deriving DecidableEq

namespace Reaction

/-- The promise a reaction is chained onto. -/
def src : Reaction → Nat
  | .thenKey s _ => s
  | .vipCheck s _ _ _ => s
  | .relDrain s _ _ _ => s
  | .relFinish s _ _ _ => s

/-- The request a reaction belongs to. -/
def client : Reaction → Nat
  | .thenKey _ c => c
  | .vipCheck _ c _ _ => c
  | .relDrain _ c _ _ => c
  | .relFinish _ c _ _ => c

/-- The guard lock held by a guard-path reaction, if any. -/
def guard : Reaction → Option Nat
  | .thenKey _ _ => none
  | .vipCheck _ _ _ g => some g
  | .relDrain _ _ _ g => some g
  | .relFinish _ _ _ g => some g

end Reaction

/-- Which guard-mutex acquisition produced a guard-chain entry. -/
inductive GKind where
  | chk | rel
deriving DecidableEq

/-- Ghost record of one acquisition of the internal guard mutex _mtx:
the requesting task c, the guard lock g it will resolve on unlock, the
previous guard tail sg it waited on, and the call site. -/
structure GEntry where
  c : Nat
  g : Nat
  sg : Nat
  k : GKind
deriving DecidableEq

/-- Ghost log events recording the operations of one run of the _getKey
release body (claim C6). -/
inductive REvent where
  | gotGuard (c : Nat)
  | headResolved (c : Nat)
  | awaitedTail (c : Nat)
  | reArmed (c : Nat)
  | decremented (c : Nat)
  | resolvedOwn (c : Nat)
  | guardReleased (c : Nat)
deriving DecidableEq

/-- The owning request of a log event. -/
def REvent.client : REvent → Nat
  | .gotGuard c => c
  | .headResolved c => c
  | .awaitedTail c => c
  | .reArmed c => c
  | .decremented c => c
  | .resolvedOwn c => c
  | .guardReleased c => c

/-- Global state of one makeVipMutex instance together with its clients.
nextP: promise allocation counter.  resolvedAt p: none while p is pending,
some t once p was resolved at time t.  waiting: reactions parked on pending
promises; queue: the FIFO microtask queue of reactions whose source has
resolved.  lockTail is _lock, vipHead the promise the current _vipKey
resolves, vipTail is _vipLock, guardTail the tail of the internal guard
mutex chain, count is _count (a JavaScript number, hence an integer).
ordChain, vipChain, vipDone, guardChain, log and time are ghost history. -/
structure St where
  nextP : Nat
  resolvedAt : Nat → Option Nat
  waiting : List Reaction
  queue : List Reaction
  lockTail : Nat
  vipHead : Nat
  vipTail : Nat
  guardTail : Nat
  count : Int
  clients : Nat → Client
  time : Nat
  ordChain : List Nat
  vipChain : List Nat
  vipDone : List Nat
  guardChain : List GEntry
  log : List REvent

/-- p has been resolved. -/
def res (s : St) (p : Nat) : Prop := (s.resolvedAt p).isSome

instance (s : St) (p : Nat) : Decidable (res s p) := by
  unfold res; infer_instance

/-- Chain a continuation onto promise p (a .then call or an await): if p is
already resolved the continuation is scheduled onto the microtask queue,
otherwise it parks on p. -/
def addReaction (r : Reaction) (s : St) : St :=
  if (s.resolvedAt r.src).isSome then { s with queue := s.queue ++ [r] }
  else { s with waiting := s.waiting ++ [r] }

/-- Resolve promise p (a call of a resolve function): a no-op if p is already
resolved, otherwise p is marked resolved and every reaction parked on p moves
to the microtask queue in registration order. -/
def resolveP (p : Nat) (s : St) : St :=
  if (s.resolvedAt p).isSome then s
  else
    { s with
      resolvedAt := fun q => if q = p then some s.time else s.resolvedAt q,
      waiting := s.waiting.filter (fun r => ¬ r.src = p),
      queue := s.queue ++ s.waiting.filter (fun r => r.src = p) }

/-- Pointwise update of the client map. -/
def upd (f : Nat → Client) (c : Nat) (cl : Client) : Nat → Client :=
  fun d => if d = c then cl else f d

/-- lock() with _isVIP = false (part_001 lines 91-115, non-VIP branch):
myLock = new Promise((resolve) => (myKey = _getKey(resolve))), then
_lineUp(myKey, myLock) runs synchronously: promiseOfKey = _lock.then(() =>
myKey); _lock = myLock; _count++. -/
def doLock (c : Nat) (s : St) : St :=
  { addReaction (.thenKey s.lockTail c) { s with nextP := s.nextP + 1 } with
    lockTail := s.nextP,
    count := s.count + 1,
    clients := upd s.clients c
      { status := .queued, lane := .ordL, kind := .ordKey, myLock := s.nextP,
        srcP := s.lockTail, appendedAt := some s.time },
    ordChain := s.ordChain ++ [c],
    time := s.time + 1 }

/-- lockVip() = lock(true) up to its suspension point (part_001 lines
95-99): myLock = new Promise((resolve) => (myKey = async () => resolve()));
then _mtx.lock() allocates the fresh guard lock g, chains the guard key onto
the previous guard tail, advances the guard tail, and the caller suspends on
the guard key (the vipCheck reaction). -/
def doLockVip (c : Nat) (s : St) : St :=
  { addReaction (.vipCheck s.guardTail c s.nextP (s.nextP + 1)) { s with nextP := s.nextP + 2 } with
    guardTail := s.nextP + 1,
    clients := upd s.clients c
      { status := .waitGuard, lane := .vipL, kind := .simpleKey, myLock := s.nextP,
        srcP := 0, appendedAt := none },
    guardChain := s.guardChain ++ [⟨c, s.nextP + 1, s.guardTail, .chk⟩],
    time := s.time + 1 }

/-- A caller invokes a simpleKey unlock closure (async () => resolve()):
the only effect is resolving the caller's own lock. -/
def doReleaseSimple (c : Nat) (s : St) : St :=
  { resolveP (s.clients c).myLock s with
    clients := upd s.clients c
      { s.clients c with status := .released },
    time := s.time + 1 }

/-- A caller invokes an ordKey unlock closure (the async body produced by
_getKey, part_001 lines 65-66): the body runs to (await _mtx.lock()), which
allocates the fresh guard lock g, chains onto the previous guard tail and
suspends (the relDrain reaction). -/
def doReleaseOrd (c : Nat) (s : St) : St :=
  { addReaction (.relDrain s.guardTail c (s.clients c).myLock s.nextP) { s with nextP := s.nextP + 1 } with
    guardTail := s.nextP,
    clients := upd s.clients c
      { s.clients c with status := if (s.clients c).status = .holding then .releasing else (s.clients c).status },
    guardChain := s.guardChain ++ [⟨c, s.nextP, s.guardTail, .rel⟩],
    time := s.time + 1 }

/-- Run one scheduled reaction (one microtask). -/
def fire (r : Reaction) (s : St) : St :=
  match r with
  | .thenKey _ c =>
      -- (_lock.then(() => myKey)) resolves: the caller of lock is admitted.
      { s with
        clients := upd s.clients c
          { s.clients c with status := .holding, admittedAt := some s.time },
        time := s.time + 1 }
  | .vipCheck _ c p g =>
      -- body of lock(true) after acquiring the guard (part_001 lines 100-114)
      if 0 < s.count then
        -- _lineUpAsVip(myKey, myLock) inside the try block, then the finally
        -- block releases the guard
        { resolveP g { addReaction (.thenKey s.vipTail c) s with vipTail := p } with
          clients := upd s.clients c
            { s.clients c with status := .queued, lane := .vipL, srcP := s.vipTail, appendedAt := some s.time },
          vipChain := s.vipChain ++ [c],
          time := s.time + 1 }
      else
        -- the finally block releases the guard, then the fall-through
        -- _lineUp(myKey, myLock) appends to the ordinary chain
        { addReaction (.thenKey s.lockTail c) (resolveP g s) with
          lockTail := p,
          count := s.count + 1,
          clients := upd s.clients c
            { s.clients c with status := .queued, lane := .ordL, srcP := s.lockTail, appendedAt := some s.time },
          ordChain := s.ordChain ++ [c],
          time := s.time + 1 }
  | .relDrain _ c p g =>
      -- the _getKey body after acquiring the guard (part_001 lines 67-71):
      -- _vipKey(); await _vipLock  (the tail is read after _vipKey()).
      { addReaction (.relFinish s.vipTail c p g) (resolveP s.vipHead s) with
        clients := upd s.clients c
          { s.clients c with drainedAt := some s.time },
        log := s.log ++ [.gotGuard c, .headResolved c, .awaitedTail c],
        time := s.time + 1 }
  | .relFinish _ c p g =>
      -- the _getKey body after (await _vipLock) (part_001 lines 72-78):
      -- _initVipLock(); _count--; resolve(); finally _unlockMtx().
      { resolveP g (resolveP p { s with nextP := s.nextP + 1, vipHead := s.nextP, vipTail := s.nextP, count := s.count - 1 }) with
        clients := upd s.clients c
          { s.clients c with status := .released },
        vipDone := s.vipDone ++ s.vipChain,
        vipChain := [],
        log := s.log ++ [.reArmed c, .decremented c, .resolvedOwn c, .guardReleased c],
        time := s.time + 1 }

/-- Pop the microtask queue head and run it. -/
def stepFire (s : St) : St :=
  match s.queue with
  | [] => s
  | r :: rest => fire r { s with queue := rest }

/-- Construction state (makeVipMutex body): promise 0 is _lock, already
resolved; promise 1 is the already-resolved tail of the fresh guard mutex
_mtx; promise 2 is the pending first VIP sentinel made by _initVipLock(). -/
def init : St where
  nextP := 3
  resolvedAt := fun p => if p = 0 ∨ p = 1 then some 0 else none
  waiting := []
  queue := []
  lockTail := 0
  vipHead := 2
  vipTail := 2
  guardTail := 1
  count := 0
  clients := fun _ => {}
  time := 1
  ordChain := []
  vipChain := []
  vipDone := []
  guardChain := []
  log := []

/-- All possible behaviours: tasks may call lock or lockVip once per request
id, any task that has been handed an unlock closure may invoke it (also
repeatedly, which the source cannot prevent), and the runtime may run the
next microtask. -/
inductive Step : St → St → Prop where
  | lockCall (s : St) (c : Nat) (h : (s.clients c).status = .idle) :
      Step s (doLock c s)
  | lockVipCall (s : St) (c : Nat) (h : (s.clients c).status = .idle) :
      Step s (doLockVip c s)
  | releaseSimple (s : St) (c : Nat) (hk : (s.clients c).kind = .simpleKey)
      (h : (s.clients c).status = .holding ∨ (s.clients c).status = .released) :
      Step s (doReleaseSimple c s)
  | releaseOrd (s : St) (c : Nat) (hk : (s.clients c).kind = .ordKey)
      (h : (s.clients c).status = .holding ∨ (s.clients c).status = .releasing
           ∨ (s.clients c).status = .released) :
      Step s (doReleaseOrd c s)
  | fireHead (s : St) (r : Reaction) (rest : List Reaction)
      (h : s.queue = r :: rest) :
      Step s (fire r { s with queue := rest })

/-- Protocol-compliant behaviours: each admitted waiter invokes its unlock
closure at most once (the release steps are only taken from the holding
state). -/
inductive StepG : St → St → Prop where
  | lockCall (s : St) (c : Nat) (h : (s.clients c).status = .idle) :
      StepG s (doLock c s)
  | lockVipCall (s : St) (c : Nat) (h : (s.clients c).status = .idle) :
      StepG s (doLockVip c s)
  | releaseSimple (s : St) (c : Nat) (hk : (s.clients c).kind = .simpleKey)
      (h : (s.clients c).status = .holding) :
      StepG s (doReleaseSimple c s)
  | releaseOrd (s : St) (c : Nat) (hk : (s.clients c).kind = .ordKey)
      (h : (s.clients c).status = .holding) :
      StepG s (doReleaseOrd c s)
  | fireHead (s : St) (r : Reaction) (rest : List Reaction)
      (h : s.queue = r :: rest) :
      StepG s (fire r { s with queue := rest })

/-- Reachable states. -/
def Reachable (s : St) : Prop := Relation.ReflTransGen Step init s

/-- States reachable by protocol-compliant behaviours. -/
def ReachableG (s : St) : Prop := Relation.ReflTransGen StepG init s

/-! Concrete executions.

Trace a: ordinary requests 0 and 1; request 0 releases, request 1 is
admitted, VIP request 2 queues, then request 0 invokes its unlock closure a
second time, which re-runs the _getKey body, resolves the re-armed VIP head
sentinel and admits VIP 2 while 1 is still holding.
Trace b: a single ordinary request acquires and releases, then invokes its
unlock closure a second time.
Trace c: a single lockVip call on the idle mutex (falls back to the ordinary
chain), admitted, then released; a protocol-compliant run.
Trace e (extends trace c before the release): the fallback VIP 0 holds the
mutex, ordinary request 1 queues, VIP request 2 queues in the VIP chain,
then holder 0 releases: ordinary request 1 is admitted while VIP 2 is still
queued; a protocol-compliant run. -/

def a1 : St := doLock 0 init
def a2 : St := stepFire a1
def a3 : St := doLock 1 a2
def a4 : St := doReleaseOrd 0 a3
def a5 : St := stepFire a4
def a6 : St := stepFire a5
def a7 : St := stepFire a6
def a8 : St := doLockVip 2 a7
def a9 : St := stepFire a8
def a10 : St := doReleaseOrd 0 a9
def a11 : St := stepFire a10
def a12 : St := stepFire a11
def b1 : St := doLock 0 init
def b2 : St := stepFire b1
def b3 : St := doReleaseOrd 0 b2
def b4 : St := stepFire b3
def b5 : St := stepFire b4
def b6 : St := doReleaseOrd 0 b5
def b7 : St := stepFire b6
def b8 : St := stepFire b7
def c1 : St := doLockVip 0 init
def c2 : St := stepFire c1
def c3 : St := stepFire c2
def c4 : St := doReleaseSimple 0 c3
def e4 : St := doLock 1 c3
def e5 : St := doLockVip 2 e4
def e6 : St := stepFire e5
def e7 : St := doReleaseSimple 0 e6
def e8 : St := stepFire e7
def f1 : St := doLock 0 init
def f2 : St := stepFire f1
def f3 : St := doLockVip 3 f2
def f4 : St := stepFire f3
def f5 : St := doReleaseOrd 0 f4
def f6 : St := stepFire f5
def f7 : St := stepFire f6
def f8 : St := doReleaseSimple 3 f7
def g1 : St := doLock 0 init
def g2 : St := stepFire g1
def g3 : St := doLockVip 1 g2
def g4 : St := stepFire g3
def g5 : St := doLockVip 2 g4
def g6 : St := stepFire g5
def g7 : St := doReleaseOrd 0 g6
def g8 : St := stepFire g7
def g9 : St := stepFire g8
def g10 : St := doReleaseSimple 1 g9
def g11 : St := stepFire g10


/-- The events of the drain phase of one _getKey run, in source order. -/
def canon3 (c : Nat) : List REvent :=
  [.gotGuard c, .headResolved c, .awaitedTail c]

/-- The complete event sequence of one _getKey run, in source order: acquire
the guard, resolve the VIP head sentinel, await the VIP tail, re-arm a fresh
sentinel, decrement the count, resolve the own lock, release the guard. -/
def canon7 (c : Nat) : List REvent :=
  [.gotGuard c, .headResolved c, .awaitedTail c, .reArmed c, .decremented c,
   .resolvedOwn c, .guardReleased c]

/-- The logged release events belonging to request c. -/
def logFor (s : St) (c : Nat) : List REvent :=
  s.log.filter (fun ev => ev.client == c)

/-- Inductive invariant of the VIP mutex under protocol-compliant behaviour
(each admitted waiter releases at most once).  ordChain and
vipDone ++ vipChain are the ghost call-order lists of the two admission
chains; guardChain is the ghost acquisition order of the internal guard
mutex. -/
structure Inv (s : St) : Prop where
  ordNodup : s.ordChain.Nodup
  vipNodup : (s.vipDone ++ s.vipChain).Nodup
  ordMem : ∀ c, c ∈ s.ordChain ↔ ((s.clients c).lane = .ordL ∧
      (s.clients c).status ≠ .idle ∧ (s.clients c).status ≠ .waitGuard)
  vipMem : ∀ c, c ∈ s.vipDone ++ s.vipChain ↔ ((s.clients c).lane = .vipL ∧
      (s.clients c).status ≠ .idle ∧ (s.clients c).status ≠ .waitGuard)
  vipDoneRel : ∀ c ∈ s.vipDone, (s.clients c).status = .released
  vipKind : ∀ c, (s.clients c).lane = .vipL → (s.clients c).status ≠ .idle →
      (s.clients c).kind = .simpleKey
  relKind : ∀ c, (s.clients c).status = .releasing → (s.clients c).kind = .ordKey
  statusRes : ∀ c, (s.clients c).status ≠ .idle →
      (res s (s.clients c).myLock ↔ (s.clients c).status = .released)
  admSrcRes : ∀ c, ((s.clients c).status = .holding ∨
      (s.clients c).status = .releasing ∨ (s.clients c).status = .released) →
      res s (s.clients c).srcP
  lockTailEq : s.lockTail = (s.ordChain.getLast?).elim 0 (fun c => (s.clients c).myLock)
  vipTailEq : s.vipTail = (s.vipChain.getLast?).elim s.vipHead (fun c => (s.clients c).myLock)
  guardTailEq : s.guardTail = (s.guardChain.getLast?).elim 1 GEntry.g
  ordLink : List.Chain' (fun a b => (s.clients b).srcP = (s.clients a).myLock) s.ordChain
  ordHead : ∀ c, s.ordChain.head? = some c → (s.clients c).srcP = 0
  vipLink : List.Chain' (fun a b => (s.clients b).srcP = (s.clients a).myLock) s.vipChain
  vipHeadLink : ∀ c, s.vipChain.head? = some c → (s.clients c).srcP = s.vipHead
  ordStatusChain : List.Chain' (fun a b =>
      (s.clients b).status ≠ .queued → (s.clients a).status = .released) s.ordChain
  vipStatusChain : List.Chain' (fun a b =>
      (s.clients b).status ≠ .queued → (s.clients a).status = .released) s.vipChain
  thenKeyShape : ∀ src c, (.thenKey src c : Reaction) ∈ s.waiting ++ s.queue →
      (s.clients c).status = .queued ∧ src = (s.clients c).srcP
  vipCheckShape : ∀ src c p g, (.vipCheck src c p g : Reaction) ∈ s.waiting ++ s.queue →
      (s.clients c).status = .waitGuard ∧ p = (s.clients c).myLock ∧
      (⟨c, g, src, .chk⟩ : GEntry) ∈ s.guardChain
  relDrainShape : ∀ src c p g, (.relDrain src c p g : Reaction) ∈ s.waiting ++ s.queue →
      (s.clients c).status = .releasing ∧ p = (s.clients c).myLock ∧
      (⟨c, g, src, .rel⟩ : GEntry) ∈ s.guardChain ∧ (s.clients c).drainedAt = none
  relFinishShape : ∀ src c p g, (.relFinish src c p g : Reaction) ∈ s.waiting ++ s.queue →
      (s.clients c).status = .releasing ∧ p = (s.clients c).myLock ∧
      src = s.vipTail ∧
      (∃ sg, (⟨c, g, sg, .rel⟩ : GEntry) ∈ s.guardChain ∧ res s sg) ∧
      (s.clients c).drainedAt ≠ none
  queuedThenKey : ∀ c, (s.clients c).status = .queued →
      (.thenKey (s.clients c).srcP c : Reaction) ∈ s.waiting ++ s.queue
  waitGuardCheck : ∀ c, (s.clients c).status = .waitGuard →
      ∃ src g, (.vipCheck src c (s.clients c).myLock g : Reaction) ∈ s.waiting ++ s.queue
  releasingReact : ∀ c, (s.clients c).status = .releasing →
      ∃ src g, ((.relDrain src c (s.clients c).myLock g : Reaction) ∈ s.waiting ++ s.queue ∨
        (.relFinish src c (s.clients c).myLock g : Reaction) ∈ s.waiting ++ s.queue)
  reactUnique : (s.waiting ++ s.queue).Pairwise (fun r1 r2 => r1.client ≠ r2.client)
  hotRes : ∀ r ∈ s.queue, res s r.src
  parkedNotRes : ∀ r ∈ s.waiting, ¬ res s r.src
  guardNodupG : (s.guardChain.map GEntry.g).Nodup
  guardLink : List.Chain' (fun e1 e2 => e2.sg = e1.g) s.guardChain
  guardHead : ∀ e, s.guardChain.head? = some e → e.sg = 1
  guardDoneNoReact : ∀ e ∈ s.guardChain, res s e.g →
      ∀ r ∈ s.waiting ++ s.queue, r.guard ≠ some e.g
  guardResChain : List.Chain' (fun e1 e2 => res s e2.g → res s e1.g) s.guardChain
  countEq : s.count = ((s.ordChain.filter (fun c =>
      ¬((s.clients c).status = .released ∧ (s.clients c).kind = .ordKey))).length : Int)
  vipNonempty : s.vipChain ≠ [] → 0 < s.count
  vipHeadRes : res s s.vipHead →
      ∃ src c p g, (.relFinish src c p g : Reaction) ∈ s.waiting ++ s.queue
  vipHeadNotLock : ∀ c, (s.clients c).status ≠ .idle → (s.clients c).myLock ≠ s.vipHead
  vipHeadNotGuard : ∀ e ∈ s.guardChain, s.vipHead ≠ e.g
  myLockNotGuard : ∀ c, (s.clients c).status ≠ .idle →
      ∀ e ∈ s.guardChain, (s.clients c).myLock ≠ e.g
  lockInj : ∀ c d, (s.clients c).status ≠ .idle → (s.clients d).status ≠ .idle →
      (s.clients c).myLock = (s.clients d).myLock → c = d
  lockBound : ∀ c, (s.clients c).status ≠ .idle →
      (s.clients c).myLock < s.nextP ∧ 3 ≤ (s.clients c).myLock
  guardBound : ∀ e ∈ s.guardChain, e.g < s.nextP ∧ 3 ≤ e.g ∧ e.sg < s.nextP
  vipHeadBound : 2 ≤ s.vipHead ∧ s.vipHead < s.nextP
  fresh : ∀ p, s.nextP ≤ p → s.resolvedAt p = none
  nextPBound : 3 ≤ s.nextP
  resZero : res s 0 ∧ res s 1
  timeRes : ∀ p t, s.resolvedAt p = some t → t < s.time
  timeAdm : ∀ c t, (s.clients c).admittedAt = some t → t < s.time
  timeApp : ∀ c t, (s.clients c).appendedAt = some t → t < s.time
  timeDrain : ∀ c t, (s.clients c).drainedAt = some t → t < s.time
  admitSome : ∀ c, ((s.clients c).status = .holding ∨
      (s.clients c).status = .releasing ∨ (s.clients c).status = .released) →
      ((s.clients c).admittedAt).isSome
  admitNone : ∀ c, ((s.clients c).status = .idle ∨ (s.clients c).status = .waitGuard ∨
      (s.clients c).status = .queued) → (s.clients c).admittedAt = none
  ordAdmitChain : List.Chain' (fun a b => ∀ tb, (s.clients b).admittedAt = some tb →
      ∃ ta, (s.clients a).admittedAt = some ta ∧ ta < tb) s.ordChain
  vipAdmitChain : List.Chain' (fun a b => ∀ tb, (s.clients b).admittedAt = some tb →
      ∃ ta, (s.clients a).admittedAt = some ta ∧ ta < tb) (s.vipDone ++ s.vipChain)
  drainOrd : ∀ c, (s.clients c).drainedAt ≠ none → (s.clients c).kind = .ordKey
  logNone : ∀ c, (s.clients c).drainedAt = none → logFor s c = []
  logSome : ∀ c, (s.clients c).drainedAt ≠ none →
      ((∃ src p g, (.relFinish src c p g : Reaction) ∈ s.waiting ++ s.queue) →
        logFor s c = canon3 c) ∧
      ((¬ ∃ src p g, (.relFinish src c p g : Reaction) ∈ s.waiting ++ s.queue) →
        logFor s c = canon7 c)
  holdOne : ∀ c d, (s.clients c).status = .holding → (s.clients d).status = .holding →
      c = d
  vipActiveHead : ∀ d ∈ s.vipChain, (s.clients d).status ≠ .queued → res s s.vipHead
  ordKindLane : ∀ c, (s.clients c).kind = .ordKey → (s.clients c).status ≠ .idle →
      (s.clients c).lane = .ordL
  waitGuardLane : ∀ c, (s.clients c).status = .waitGuard → (s.clients c).lane = .vipL
  drainNone : ∀ c, ((s.clients c).status = .idle ∨ (s.clients c).status = .waitGuard ∨
      (s.clients c).status = .queued ∨ (s.clients c).status = .holding) →
      (s.clients c).drainedAt = none
  relDrained : ∀ c, (s.clients c).status = .released → (s.clients c).kind = .ordKey →
      (s.clients c).drainedAt ≠ none
  entryNotIdle : ∀ e ∈ s.guardChain, (s.clients e.c).status ≠ .idle
  chkUnique : ∀ e1 ∈ s.guardChain, ∀ e2 ∈ s.guardChain,
      e1.k = .chk → e2.k = .chk → e1.c = e2.c → e1 = e2
  chkApp : ∀ e ∈ s.guardChain, e.k = .chk →
      (s.clients e.c).appendedAt = s.resolvedAt e.g
  guardTimeChain : List.Chain' (fun e1 e2 => ∀ t2, s.resolvedAt e2.g = some t2 →
      ∃ t1, s.resolvedAt e1.g = some t1 ∧ t1 < t2) s.guardChain
  vipAppSome : ∀ c ∈ s.vipDone ++ s.vipChain, ((s.clients c).appendedAt).isSome
  vipAppChain : List.Chain' (fun a b => ∀ tb, (s.clients b).appendedAt = some tb →
      ∃ ta, (s.clients a).appendedAt = some ta ∧ ta < tb) (s.vipDone ++ s.vipChain)
  appStatus : ∀ c, (s.clients c).appendedAt ≠ none →
      (s.clients c).status ≠ .idle ∧ (s.clients c).status ≠ .waitGuard

/-- Invoking the unlock closure handed to request c of the VipMutex,
dispatching on the shape of the key the request was given. -/
def doRelease (c : Nat) (s : St) : St :=
  match (s.clients c).kind with
  | .ordKey => doReleaseOrd c s
  | .simpleKey => doReleaseSimple c s

/-- Semantics of a JavaScript try/finally block whose finalizer is a state
action that cannot itself throw: the finalizer runs on the normal path and
on the throwing path alike, and the outcome of the body is propagated
unchanged. -/
def tryFinally {σ ε α : Type} (body : Except ε α) (fin : σ → σ) (s : σ) : σ × Except ε α :=
  match body with
  | .ok v => (fin s, .ok v)
  | .error e => (fin s, .error e)

/-- The part of _run after the caller was admitted (part_001 lines 129-136):
try { return await executor(...args) } finally { unlock() }.  The executor
receives the forwarded arguments and produces an outcome (a value or a
failure of its own); the finalizer is the unlock closure of request c.
The same body implements run (ordinary) and runVip (VIP). -/
def runBody {ε α : Type} (c : Nat) (executor : List Nat → Except ε α) (args : List Nat) (s : St) : St × Except ε α :=
  tryFinally (executor args) (doRelease c) s

end VipM

namespace PlainM

/-- Promise fulfillment values of the plain mutex model: undefined (what
resolve() passes) or the unlock closure of request c (what a key promise
yields to its caller). -/
inductive Val where
  | undef | keyFn (c : Nat)
deriving DecidableEq

/-- Life cycle of one acquire request of the plain mutex. -/
inductive PStatus where
  | idle | queued | holding | released
deriving DecidableEq

/-- Per-request record for the plain mutex: myLock is the promise this
request resolves on release, srcP the promise its key was chained onto
(ghost), received the value its key promise delivered. -/
structure PClient where
  status : PStatus := .idle
  myLock : Nat := 0
  srcP : Nat := 0
  received : Option Val := none
  admittedAt : Option Nat := none
deriving DecidableEq

/-- The key continuation of one lock() call (mutex.js lines 51-56):
whoToWaitFor.then(() => { _admitNext(); return _unlock }). -/
structure PReaction where
  src : Nat
  c : Nat
deriving DecidableEq

/-- State of one Mutex() instance (mutex.js): mutexSlot is _mutex.lock (the
lock promise of the slot entry), line is the _lineUp array (each entry keeps
its lock promise and the request that owns it; the entry key promise is
represented by the pending reaction), together with a promise heap carrying
fulfillment values and the microtask queue.  hist and time are ghost. -/
structure PSt where
  nextP : Nat
  resolvedVal : Nat → Option Val
  waiting : List PReaction
  queue : List PReaction
  mutexSlot : Nat
  line : List (Nat × Nat)
  clients : Nat → PClient
  time : Nat
  hist : List Nat

/-- Pointwise update of the client map. -/
def upd (f : Nat → PClient) (c : Nat) (cl : PClient) : Nat → PClient :=
  fun d => if d = c then cl else f d

/-- p has been fulfilled. -/
def pres (s : PSt) (p : Nat) : Prop := (s.resolvedVal p).isSome

instance (s : PSt) (p : Nat) : Decidable (pres s p) := by
  unfold pres; infer_instance

/-- Chain a continuation onto a promise: scheduled at once if the promise is
already fulfilled, parked otherwise. -/
def addReaction (r : PReaction) (s : PSt) : PSt :=
  if (s.resolvedVal r.src).isSome then { s with queue := s.queue ++ [r] }
  else { s with waiting := s.waiting ++ [r] }

/-- Fulfill promise p with value v: a no-op if p is already fulfilled,
otherwise the parked reactions on p are scheduled in registration order. -/
def resolveP (p : Nat) (v : Val) (s : PSt) : PSt :=
  if (s.resolvedVal p).isSome then s
  else
    { s with
      resolvedVal := fun q => if q = p then some v else s.resolvedVal q,
      waiting := s.waiting.filter (fun r => ¬ r.src = p),
      queue := s.queue ++ s.waiting.filter (fun r => r.src = p) }

/-- this.lock() (mutex.js lines 38-58): create the caller lock promise
(whose resolve function the unlock closure will call with no arguments),
read whoToWaitFor (the lock of the last entry in line, or the slot entry
when the line is empty), chain the key continuation onto it, and push the
new (lock, key) entry onto the line.  psrc is the whoToWaitFor
computation: the lock of the last entry in line, or the slot entry when the
line is empty. -/
def psrc (s : PSt) : Nat :=
  match s.line.getLast? with
  | none => s.mutexSlot
  | some e => e.1

def plock (c : Nat) (s : PSt) : PSt :=
  { addReaction ⟨psrc s, c⟩ { s with nextP := s.nextP + 1 } with
    line := s.line ++ [(s.nextP, c)],
    clients := upd s.clients c { status := .queued, myLock := s.nextP, srcP := psrc s },
    hist := s.hist ++ [c],
    time := s.time + 1 }

/-- Run a scheduled key continuation: _admitNext() shifts the first line
entry into the mutex slot, and the key promise yields the unlock closure of
its own request, which is thereby admitted. -/
def pfire (r : PReaction) (s : PSt) : PSt :=
  { (match s.line with
     | [] => s
     | e :: rest => { s with mutexSlot := e.1, line := rest }) with
    clients := upd s.clients r.c { s.clients r.c with status := .holding, received := some (.keyFn r.c), admittedAt := some s.time },
    time := s.time + 1 }

/-- The caller invokes its unlock closure, possibly passing arguments:
_unlock = () => resolve() declares no parameters, so args is discarded and
the lock promise is fulfilled with undefined (mutex.js lines 42-45; the
comment there says the explicit zero-argument resolve() call discards a
malicious caller arguments). -/
def prelease (c : Nat) (args : List Val) (s : PSt) : PSt :=
  { resolveP (s.clients c).myLock .undef s with
    clients := upd s.clients c { s.clients c with status := .released },
    time := s.time + 1 }

/-- Pop the microtask queue head and run it. -/
def pstepFire (s : PSt) : PSt :=
  match s.queue with
  | [] => s
  | r :: rest => pfire r { s with queue := rest }

/-- Construction state: _mutex = { lock: Promise.resolve(), key: null }; the
slot lock is promise 0, fulfilled with undefined; the line is empty. -/
def pinit : PSt where
  nextP := 1
  resolvedVal := fun p => if p = 0 then some .undef else none
  waiting := []
  queue := []
  mutexSlot := 0
  line := []
  clients := fun _ => {}
  time := 1
  hist := []

/-- All behaviours of one plain mutex instance: requests call lock, any
request that was handed an unlock closure may invoke it with any argument
list (also repeatedly), and the runtime runs microtasks. -/
inductive PStep : PSt → PSt → Prop where
  | lockCall (s : PSt) (c : Nat) (h : (s.clients c).status = .idle) :
      PStep s (plock c s)
  | releaseCall (s : PSt) (c : Nat) (args : List Val)
      (h : (s.clients c).status = .holding ∨ (s.clients c).status = .released) :
      PStep s (prelease c args s)
  | fireHead (s : PSt) (r : PReaction) (rest : List PReaction)
      (h : s.queue = r :: rest) :
      PStep s (pfire r { s with queue := rest })

/-- Protocol-compliant behaviours: release is invoked once, from holding. -/
inductive PStepG : PSt → PSt → Prop where
  | lockCall (s : PSt) (c : Nat) (h : (s.clients c).status = .idle) :
      PStepG s (plock c s)
  | releaseCall (s : PSt) (c : Nat) (args : List Val)
      (h : (s.clients c).status = .holding) :
      PStepG s (prelease c args s)
  | fireHead (s : PSt) (r : PReaction) (rest : List PReaction)
      (h : s.queue = r :: rest) :
      PStepG s (pfire r { s with queue := rest })

/-- Reachable states of the plain mutex. -/
def PReachable (s : PSt) : Prop := Relation.ReflTransGen PStep pinit s

/-- States reachable by protocol-compliant behaviours. -/
def PReachableG (s : PSt) : Prop := Relation.ReflTransGen PStepG pinit s

/-! Concrete execution of the plain mutex: requests 0 and 1 line up,
request 0 is admitted and releases passing junk arguments, request 1 is
admitted. -/

def q1 : PSt := plock 0 pinit
def q2 : PSt := pstepFire q1
def q3 : PSt := plock 1 q2
def q4 : PSt := prelease 0 [.keyFn 7, .undef] q3
def q5 : PSt := pstepFire q4

/-- Inductive invariant of the plain mutex under protocol-compliant
behaviour.  hist is the ghost call-order list; the conjuncts tie the promise
chain, the line array, the slot and the reaction multiset to it. -/
structure PInv (s : PSt) : Prop where
  histNodup : s.hist.Nodup
  histMem : ∀ c, c ∈ s.hist ↔ (s.clients c).status ≠ .idle
  statusRes : ∀ c, (s.clients c).status ≠ .idle →
      (pres s (s.clients c).myLock ↔ (s.clients c).status = .released)
  srcLink : List.Chain' (fun a b => (s.clients b).srcP = (s.clients a).myLock) s.hist
  srcHead : ∀ c, s.hist.head? = some c → (s.clients c).srcP = 0
  statusChain : List.Chain' (fun a b =>
      (s.clients b).status ≠ .queued → (s.clients a).status = .released) s.hist
  reactShape : ∀ r ∈ s.waiting ++ s.queue,
      (s.clients r.c).status = .queued ∧ r.src = (s.clients r.c).srcP
  reactExists : ∀ c, (s.clients c).status = .queued →
      (⟨(s.clients c).srcP, c⟩ : PReaction) ∈ s.waiting ++ s.queue
  reactUnique : (s.waiting ++ s.queue).Pairwise (fun r1 r2 => r1.c ≠ r2.c)
  hotRes : ∀ r ∈ s.queue, pres s r.src
  parkedNotRes : ∀ r ∈ s.waiting, ¬ pres s r.src
  lockInj : ∀ c d, (s.clients c).status ≠ .idle → (s.clients d).status ≠ .idle →
      (s.clients c).myLock = (s.clients d).myLock → c = d
  lockBound : ∀ c, (s.clients c).status ≠ .idle →
      (s.clients c).myLock < s.nextP ∧ 1 ≤ (s.clients c).myLock
  fresh : ∀ p, s.nextP ≤ p → s.resolvedVal p = none
  nextPos : 1 ≤ s.nextP
  resZero : pres s 0
  lineLocks : ∀ e ∈ s.line, e.1 = (s.clients e.2).myLock
  lineQueued : s.line.map Prod.snd =
      s.hist.filter (fun d => (s.clients d).status == .queued)
  slotEmpty : s.line = [] →
      s.mutexSlot = ((s.hist.getLast?).map fun d => (s.clients d).myLock).getD 0
  valUndef : ∀ p v, s.resolvedVal p = some v → v = .undef
  recvOwn : ∀ c, (s.clients c).status = .holding →
      (s.clients c).received = some (.keyFn c)
  timeBound : ∀ c t, (s.clients c).admittedAt = some t → t < s.time
  admitSome : ∀ c, (s.clients c).status = .holding ∨ (s.clients c).status = .released →
      ((s.clients c).admittedAt).isSome
  admitNone : ∀ c, (s.clients c).status = .idle ∨ (s.clients c).status = .queued →
      (s.clients c).admittedAt = none
  admitChain : List.Chain' (fun a b => ∀ tb, (s.clients b).admittedAt = some tb →
      ∃ ta, (s.clients a).admittedAt = some ta ∧ ta < tb) s.hist

end PlainM

namespace VipM

theorem stepG_step {s t : St} (h : StepG s t) : Step s t := by
  cases h with
  | lockCall c h => exact .lockCall s c h
  | lockVipCall c h => exact .lockVipCall s c h
  | releaseSimple c hk h => exact .releaseSimple s c hk (Or.inl h)
  | releaseOrd c hk h => exact .releaseOrd s c hk (Or.inl h)
  | fireHead r rest h => exact .fireHead s r rest h

theorem reachableG_reachable {s : St} (h : ReachableG s) : Reachable s := by
  induction h with
  | refl => exact .refl
  | tail _ h2 ih => exact .tail ih (stepG_step h2)

/-- Firing the queue head is a step. -/
theorem stepG_fire (s : St) (h : s.queue ≠ []) : StepG s (stepFire s) := by
  match hq : s.queue with
  | [] => exact absurd hq h
  | r :: rest =>
      have : stepFire s = fire r { s with queue := rest } := by
        unfold stepFire; rw [hq]
      rw [this]
      exact .fireHead s r rest hq

theorem step_fire (s : St) (h : s.queue ≠ []) : Step s (stepFire s) := by
  exact stepG_step (stepG_fire s h)

end VipM

namespace VipM


theorem reach_a12 : Reachable a12 := by
  have h1 : Step init a1 := .lockCall init 0 (by decide)
  have h2 : Step a1 a2 := step_fire a1 (by decide)
  have h3 : Step a2 a3 := .lockCall a2 1 (by decide)
  have h4 : Step a3 a4 := .releaseOrd a3 0 (by decide) (Or.inl (by decide))
  have h5 : Step a4 a5 := step_fire a4 (by decide)
  have h6 : Step a5 a6 := step_fire a5 (by decide)
  have h7 : Step a6 a7 := step_fire a6 (by decide)
  have h8 : Step a7 a8 := .lockVipCall a7 2 (by decide)
  have h9 : Step a8 a9 := step_fire a8 (by decide)
  have h10 : Step a9 a10 := .releaseOrd a9 0 (by decide) (Or.inr (Or.inr (by decide)))
  have h11 : Step a10 a11 := step_fire a10 (by decide)
  have h12 : Step a11 a12 := step_fire a11 (by decide)
  exact Relation.ReflTransGen.refl |>.tail h1 |>.tail h2 |>.tail h3 |>.tail h4 |>.tail h5 |>.tail h6 |>.tail h7 |>.tail h8 |>.tail h9 |>.tail h10 |>.tail h11 |>.tail h12


theorem reach_b5 : ReachableG b5 := by
  have h1 : StepG init b1 := .lockCall init 0 (by decide)
  have h2 : StepG b1 b2 := stepG_fire b1 (by decide)
  have h3 : StepG b2 b3 := .releaseOrd b2 0 (by decide) (by decide)
  have h4 : StepG b3 b4 := stepG_fire b3 (by decide)
  have h5 : StepG b4 b5 := stepG_fire b4 (by decide)
  exact Relation.ReflTransGen.refl |>.tail h1 |>.tail h2 |>.tail h3 |>.tail h4 |>.tail h5

theorem reach_b8 : Reachable b8 := by
  have h6 : Step b5 b6 := .releaseOrd b5 0 (by decide) (Or.inr (Or.inr (by decide)))
  have h7 : Step b6 b7 := step_fire b6 (by decide)
  have h8 : Step b7 b8 := step_fire b7 (by decide)
  exact reachableG_reachable reach_b5 |>.tail h6 |>.tail h7 |>.tail h8


theorem reach_c3 : ReachableG c3 := by
  have h1 : StepG init c1 := .lockVipCall init 0 (by decide)
  have h2 : StepG c1 c2 := stepG_fire c1 (by decide)
  have h3 : StepG c2 c3 := stepG_fire c2 (by decide)
  exact Relation.ReflTransGen.refl |>.tail h1 |>.tail h2 |>.tail h3

theorem reach_c4 : ReachableG c4 :=
  .tail reach_c3 (.releaseSimple c3 0 (by decide) (by decide))


theorem reach_e8 : ReachableG e8 := by
  have h1 : StepG c3 e4 := .lockCall c3 1 (by decide)
  have h2 : StepG e4 e5 := .lockVipCall e4 2 (by decide)
  have h3 : StepG e5 e6 := stepG_fire e5 (by decide)
  have h4 : StepG e6 e7 := .releaseSimple e6 0 (by decide) (by decide)
  have h5 : StepG e7 e8 := stepG_fire e7 (by decide)
  exact reach_c3 |>.tail h1 |>.tail h2 |>.tail h3 |>.tail h4 |>.tail h5

end VipM

namespace VipM

/-- C1 (counterexample): the claim quantifies over every sequence of
lock/lockVip/release steps.  In the reachable state a12, requests 1 and 2
are simultaneously in the holding state: after ordinary holder 0 released
and ordinary waiter 1 was admitted, a second invocation of the unlock
closure of 0 re-ran the _getKey body, resolved the re-armed VIP head
sentinel and admitted VIP request 2 while 1 still held the mutex. -/
theorem double_release_two_holders :
    Reachable a12 ∧ (a12.clients 1).status = .holding ∧
      (a12.clients 2).status = .holding ∧ (1 : Nat) ≠ 2 :=
  ⟨reach_a12, by decide, by decide, by decide⟩

/-- C2 (counterexample): in the protocol-compliant run reaching e8, the
holder (request 0, a VIP that fell back to the ordinary chain while the
mutex was idle) invokes its release while VIP request 2 is queued in the VIP
chain; the release resolves only the holder's own lock, so the next ordinary
waiter 1 is admitted while VIP 2 is still queued, unadmitted and
unreleased. -/
theorem fallback_holder_skips_vip :
    ReachableG e8 ∧
      (e6.clients 0).status = .holding ∧ e6.vipChain = [2] ∧
      (e6.clients 2).status = .queued ∧ e7 = doReleaseSimple 0 e6 ∧
      (e8.clients 1).status = .holding ∧ (e8.clients 1).lane = .ordL ∧
      (e8.clients 2).status = .queued ∧ e8.vipChain = [2] :=
  ⟨reach_e8, by decide, by decide, by decide, rfl, by decide, by decide,
    by decide, by decide⟩

/-- C5 (counterexample): a lockVip call on the idle mutex is not
behaviourally equivalent to an ordinary lock call.  Both runs consist of one
request that is admitted and then releases exactly once; the ordinary run
ends with count 0, the idle-VIP run ends with count 1 (the simple VIP unlock
closure never decrements the count), observably diverging from an ordinary
request. -/
theorem idle_vip_not_equivalent :
    ReachableG c4 ∧ (c4.clients 0).status = .released ∧ c4.count = 1 ∧
      ReachableG b5 ∧ (b5.clients 0).status = .released ∧ b5.count = 0 :=
  ⟨reach_c4, by decide, by decide, reach_b5, by decide, by decide⟩

/-- C7 (code bug, evaluation at the failing input): one lockVip call on the
idle mutex falls back to the ordinary chain (incrementing count), is
admitted and releases.  In the resulting protocol-compliant state the
ordinary chain held exactly the one request, which is released, no reaction
is pending and no other request was ever made, yet count is still 1: the
count was incremented by the fallback append but its release (the simple VIP
unlock closure) never decrements it. -/
theorem idle_vip_count_leak :
    ReachableG c4 ∧ c4.count = 1 ∧ (c4.clients 0).status = .released ∧
      c4.ordChain = [0] ∧ c4.vipChain = [] ∧ c4.vipDone = [] ∧
      c4.queue = [] ∧ c4.waiting = [] :=
  ⟨reach_c4, by decide, by decide, by decide, by decide, by decide,
    by decide, by decide⟩

/-- C8 (counterexample): request 0 acquires and releases the mutex (state
b5, count 0); invoking its unlock closure a second time re-runs the _getKey
body and decrements the count again (state b8, count -1): the second release
is not a no-op and changes the ordinary-waiter count. -/
theorem double_release_changes_count :
    Reachable b8 ∧ b5.count = 0 ∧ b8.count = -1 ∧
      (b8.clients 0).status = .released :=
  ⟨reach_b8, by decide, by decide, by decide⟩

end VipM

/-! Generic list helpers. -/

/-- Extract the relation between any two (not necessarily adjacent) elements
of a list from a chain along a transitive relation. -/
theorem chain_rel_of_split {α : Type} {R : α → α → Prop} {l : List α}
    (hc : List.Chain' R l) (htr : ∀ a b c, R a b → R b c → R a c) :
    ∀ l1 x l2 y l3, l = l1 ++ x :: (l2 ++ y :: l3) → R x y := by
  intro l1 x l2 y l3 hl
  induction l2 generalizing l1 x with
  | nil =>
      subst hl
      exact (List.chain'_append_cons_cons.mp hc).2.1
  | cons z l2t ih =>
      have hl2 : l = l1 ++ x :: z :: (l2t ++ y :: l3) := by simpa using hl
      subst hl2
      have hxz : R x z := (List.chain'_append_cons_cons.mp hc).2.1
      have hzy : R z y := by
        apply ih (l1 ++ [x]) z
        simp
      exact htr x z y hxz hzy

namespace PlainM

/-! Rewriting API for the plain-model effect functions. -/

theorem addReaction_pos {r : PReaction} {s : PSt} (h : pres s r.src) :
    addReaction r s = { s with queue := s.queue ++ [r] } := by
  have h' : (s.resolvedVal r.src).isSome = true := h
  unfold addReaction
  simp [h']

theorem addReaction_neg {r : PReaction} {s : PSt} (h : ¬ pres s r.src) :
    addReaction r s = { s with waiting := s.waiting ++ [r] } := by
  have h' : (s.resolvedVal r.src).isSome = false := by
    revert h; unfold pres; cases (s.resolvedVal r.src).isSome <;> simp
  unfold addReaction
  simp [h']

theorem resolveP_pos {p : Nat} {v : Val} {s : PSt} (h : pres s p) :
    resolveP p v s = s := by
  have h' : (s.resolvedVal p).isSome = true := h
  unfold resolveP
  simp [h']

theorem resolveP_neg {p : Nat} {v : Val} {s : PSt} (h : ¬ pres s p) :
    resolveP p v s =
      { s with
        resolvedVal := fun q => if q = p then some v else s.resolvedVal q,
        waiting := s.waiting.filter (fun r => ¬ r.src = p),
        queue := s.queue ++ s.waiting.filter (fun r => r.src = p) } := by
  have h' : (s.resolvedVal p).isSome = false := by
    revert h; unfold pres; cases (s.resolvedVal p).isSome <;> simp
  unfold resolveP
  simp [h']

theorem upd_same (f : Nat → PClient) (c : Nat) (cl : PClient) :
    upd f c cl c = cl := by
  unfold upd
  simp

theorem upd_ne (f : Nat → PClient) {c d : Nat} (cl : PClient) (h : d ≠ c) :
    upd f c cl d = f d := by
  unfold upd
  simp [h]

end PlainM

theorem mem_of_getLast?_eq {α : Type} {l : List α} {a : α}
    (h : l.getLast? = some a) : a ∈ l := by
  cases List.eq_nil_or_concat l with
  | inl h0 => subst h0; simp at h
  | inr h0 =>
      obtain ⟨L, b, rfl⟩ := h0
      rw [List.concat_eq_append] at *
      rw [List.getLast?_concat] at h
      cases h
      simp

namespace PlainM

/-- The waiting-or-queued reaction multiset is preserved by resolution. -/
theorem resolveP_WQ_perm (p : Nat) (v : Val) (s : PSt) :
    ((resolveP p v s).waiting ++ (resolveP p v s).queue).Perm
      (s.waiting ++ s.queue) := by
  by_cases h : pres s p
  · rw [resolveP_pos h]
  · rw [resolveP_neg h]
    refine .trans (List.Perm.append_left _ List.perm_append_comm) ?_
    rw [← List.append_assoc]
    refine List.Perm.append_right _ ?_
    refine .trans List.perm_append_comm ?_
    have h4 := List.filter_append_perm (fun r => decide (r.src = p)) s.waiting
    simpa [decide_not] using h4

/-- Resolution only adds resolvedness. -/
theorem pres_resolveP (p : Nat) (v : Val) (s : PSt) (q : Nat) :
    pres (resolveP p v s) q ↔ pres s q ∨ q = p := by
  by_cases h : pres s p
  · rw [resolveP_pos h]
    constructor
    · exact fun hq => Or.inl hq
    · rintro (hq | rfl)
      · exact hq
      · exact h
  · rw [resolveP_neg h]
    unfold pres
    by_cases hqp : q = p <;> simp [hqp]

theorem pstatus_trans (f : Nat → PClient) (a b c : Nat)
    (hab : (f b).status ≠ .queued → (f a).status = .released)
    (hbc : (f c).status ≠ .queued → (f b).status = .released) :
    (f c).status ≠ .queued → (f a).status = .released := by
  intro hc2
  apply hab
  rw [hbc hc2]
  intro hx
  cases hx

theorem padmit_trans (f : Nat → PClient) (a b c : Nat)
    (hab : ∀ tb, (f b).admittedAt = some tb →
      ∃ ta, (f a).admittedAt = some ta ∧ ta < tb)
    (hbc : ∀ tb, (f c).admittedAt = some tb →
      ∃ ta, (f b).admittedAt = some ta ∧ ta < tb) :
    ∀ tb, (f c).admittedAt = some tb →
      ∃ ta, (f a).admittedAt = some ta ∧ ta < tb := by
  intro tc htc
  obtain ⟨tb, htb, hlt⟩ := hbc tc htc
  obtain ⟨ta, hta, hlt2⟩ := hab tb htb
  exact ⟨ta, hta, lt_trans hlt2 hlt⟩

end PlainM

namespace PlainM

/-- With an empty history, whoToWaitFor is the initial slot promise 0. -/
theorem psrc_nil {s : PSt} (hInv : PInv s) (h : s.hist = []) : psrc s = 0 := by
  have hline : s.line = [] := by
    have hq := hInv.lineQueued
    rw [h] at hq
    simpa [List.map_eq_nil_iff] using hq
  have hslot := hInv.slotEmpty hline
  rw [h] at hslot
  unfold psrc
  rw [hline]
  simpa using hslot

/-- With a nonempty history, whoToWaitFor is the lock promise of the most
recently appended request. -/
theorem psrc_concat {s : PSt} (hInv : PInv s) {L : List Nat} {z : Nat}
    (h : s.hist = L ++ [z]) : psrc s = (s.clients z).myLock := by
  cases hline : s.line with
  | nil =>
      have hslot := hInv.slotEmpty hline
      rw [h] at hslot
      rw [List.getLast?_concat] at hslot
      unfold psrc
      rw [hline]
      simpa using hslot
  | cons e0 lt =>
      have hzq : (s.clients z).status = .queued := by
        by_contra hzq
        have hall : ∀ y ∈ s.hist, ¬ ((s.clients y).status == .queued) = true := by
          intro y hy
          rw [h] at hy
          rcases List.mem_append.mp hy with hyL | hyz
          · obtain ⟨u, v, huv⟩ := List.append_of_mem hyL
            have hsplit : s.hist = u ++ y :: (v ++ z :: []) := by
              rw [h, huv]; simp
            have hrel := chain_rel_of_split hInv.statusChain
              (pstatus_trans s.clients) u y v z [] hsplit
            have hrel2 : (s.clients y).status = .released := hrel hzq
            simp [hrel2]
          · have : y = z := by simpa using hyz
            subst this
            simpa using hzq
        have hfilter : s.hist.filter (fun d => (s.clients d).status == .queued) = [] :=
          List.filter_eq_nil_iff.mpr hall
        have hq := hInv.lineQueued
        rw [hfilter, List.map_eq_nil_iff] at hq
        rw [hline] at hq
        exact (List.cons_ne_nil _ _) hq
      have hfL : (s.hist.filter fun d => (s.clients d).status == .queued).getLast?
          = some z := by
        rw [h, List.filter_append]
        have : List.filter (fun d => (s.clients d).status == .queued) [z] = [z] := by
          simp [hzq]
        rw [this, List.getLast?_concat]
      have hmap := hInv.lineQueued
      have hlast : (s.line.getLast?).map Prod.snd = some z := by
        rw [← List.getLast?_map, hmap, hfL]
      obtain ⟨e, he, he2⟩ : ∃ e, s.line.getLast? = some e ∧ e.2 = z := by
        cases hcase : s.line.getLast? with
        | none => rw [hcase] at hlast; simp at hlast
        | some e =>
            rw [hcase] at hlast
            exact ⟨e, rfl, by simpa using hlast⟩
      have hmem : e ∈ s.line := mem_of_getLast?_eq he
      have hlock := hInv.lineLocks e hmem
      unfold psrc
      rw [he]
      show e.1 = (s.clients z).myLock
      rw [hlock, he2]

end PlainM

theorem chain'_concat_of {α : Type} {R : α → α → Prop} {l : List α} {c : α}
    (hc : List.Chain' R l) (hlast : ∀ z, l.getLast? = some z → R z c) :
    List.Chain' R (l ++ [c]) := by
  rw [List.chain'_append]
  refine ⟨hc, List.chain'_singleton c, ?_⟩
  intro x hx y hy
  simp at hy
  subst hy
  exact hlast x hx

namespace PlainM

theorem pinv_init : PInv pinit := {
  histNodup := by simp [pinit]
  histMem := by intro c; simp [pinit]
  statusRes := by intro c h; simp [pinit] at h
  srcLink := by simp [pinit]
  srcHead := by intro c h; simp [pinit] at h
  statusChain := by simp [pinit]
  reactShape := by intro r hr; simp [pinit] at hr
  reactExists := by intro c h; simp [pinit] at h
  reactUnique := by simp [pinit]
  hotRes := by intro r hr; simp [pinit] at hr
  parkedNotRes := by intro r hr; simp [pinit] at hr
  lockInj := by intro c d h1; simp [pinit] at h1
  lockBound := by intro c h1; simp [pinit] at h1
  fresh := by
    intro p hp
    have hp1 : 1 ≤ p := hp
    have hp0 : p ≠ 0 := by omega
    simp [pinit, hp0]
  nextPos := by simp [pinit]
  resZero := by simp [pinit, pres]
  lineLocks := by intro e he; simp [pinit] at he
  lineQueued := by simp [pinit]
  slotEmpty := by intro h; simp [pinit]
  valUndef := by
    intro p v h
    by_cases hp : p = 0
    · simp [pinit, hp] at h
      exact h.symm
    · simp [pinit, hp] at h
  recvOwn := by intro c h; simp [pinit] at h
  timeBound := by intro c t h; simp [pinit] at h
  admitSome := by intro c h; rcases h with h | h <;> simp [pinit] at h
  admitNone := by intro c h; simp [pinit]
  admitChain := by simp [pinit]
}

end PlainM

theorem chain'_of_eq_on {α : Type} {R S : α → α → Prop} {l : List α}
    (hc : List.Chain' R l) (h : ∀ a ∈ l, ∀ b ∈ l, R a b → S a b) :
    List.Chain' S l := by
  have h2 := List.Chain'.iff_mem.mp hc
  exact (List.Chain'.imp (fun a b hab => h a hab.1 b hab.2.1 hab.2.2) h2)

theorem concat_of_getLast? {α : Type} {l : List α} {z : α}
    (h : l.getLast? = some z) : ∃ L, l = L ++ [z] := by
  cases List.eq_nil_or_concat l with
  | inl h0 => subst h0; simp at h
  | inr h0 =>
      obtain ⟨L, b, rfl⟩ := h0
      rw [List.concat_eq_append] at *
      rw [List.getLast?_concat] at h
      cases h
      exact ⟨L, rfl⟩

namespace PlainM

theorem resolveP_clients (p : Nat) (v : Val) (s : PSt) :
    (resolveP p v s).clients = s.clients := by
  unfold resolveP; split <;> rfl

theorem resolveP_line (p : Nat) (v : Val) (s : PSt) :
    (resolveP p v s).line = s.line := by
  unfold resolveP; split <;> rfl

theorem resolveP_slot (p : Nat) (v : Val) (s : PSt) :
    (resolveP p v s).mutexSlot = s.mutexSlot := by
  unfold resolveP; split <;> rfl

theorem resolveP_hist (p : Nat) (v : Val) (s : PSt) :
    (resolveP p v s).hist = s.hist := by
  unfold resolveP; split <;> rfl

theorem resolveP_nextP (p : Nat) (v : Val) (s : PSt) :
    (resolveP p v s).nextP = s.nextP := by
  unfold resolveP; split <;> rfl

theorem resolveP_time (p : Nat) (v : Val) (s : PSt) :
    (resolveP p v s).time = s.time := by
  unfold resolveP; split <;> rfl

/-- Unfolding of plock into a single state literal. -/
theorem plock_eq (c : Nat) (s : PSt) :
    plock c s = { s with
      nextP := s.nextP + 1,
      waiting := if pres s (psrc s) then s.waiting else s.waiting ++ [⟨psrc s, c⟩],
      queue := if pres s (psrc s) then s.queue ++ [⟨psrc s, c⟩] else s.queue,
      line := s.line ++ [(s.nextP, c)],
      clients := upd s.clients c { status := .queued, myLock := s.nextP, srcP := psrc s },
      hist := s.hist ++ [c],
      time := s.time + 1 } := by
  by_cases h : pres s (psrc s)
  · rw [if_pos h, if_pos h]
    unfold plock
    rw [@addReaction_pos ⟨psrc s, c⟩ { s with nextP := s.nextP + 1 } (by exact h)]
  · rw [if_neg h, if_neg h]
    unfold plock
    rw [@addReaction_neg ⟨psrc s, c⟩ { s with nextP := s.nextP + 1 } (by exact h)]

end PlainM

namespace PlainM

theorem pinv_plock {s : PSt} {c : Nat} (hInv : PInv s)
    (hc : (s.clients c).status = .idle) : PInv (plock c s) := by
  have hcni : c ∉ s.hist := fun hmem => ((hInv.histMem c).mp hmem) hc
  have hfreshL : ¬ pres s s.nextP := by
    unfold pres
    rw [hInv.fresh s.nextP le_rfl]
    simp
  have hlastSrc : ∀ z, s.hist.getLast? = some z → psrc s = (s.clients z).myLock := by
    intro z hz
    obtain ⟨L, hL⟩ := concat_of_getLast? hz
    exact psrc_concat hInv hL
  have hWQmem : ∀ x : PReaction,
      x ∈ (if pres s (psrc s) then s.waiting else s.waiting ++ [⟨psrc s, c⟩]) ++
        (if pres s (psrc s) then s.queue ++ [⟨psrc s, c⟩] else s.queue) ↔
      x ∈ s.waiting ++ s.queue ∨ x = ⟨psrc s, c⟩ := by
    intro x
    by_cases hp : pres s (psrc s) <;> simp [hp, List.mem_append] <;> tauto
  rw [plock_eq]
  constructor
  all_goals try dsimp only
  case histNodup =>
    refine List.Nodup.append hInv.histNodup (by simp) ?_
    intro a ha hb
    simp at hb
    subst hb
    exact hcni ha
  case histMem =>
    intro d
    by_cases hdc : d = c
    · subst hdc
      rw [upd_same]
      simp
    · rw [upd_ne _ _ hdc]
      simp only [List.mem_append, List.mem_singleton, hdc, or_false]
      exact hInv.histMem d
  case statusRes =>
    intro d hne
    by_cases hdc : d = c
    · subst hdc
      rw [upd_same] at hne ⊢
      constructor
      · intro hp
        exact absurd hp hfreshL
      · intro hcon
        cases hcon
    · rw [upd_ne _ _ hdc] at hne ⊢
      exact hInv.statusRes d hne
  case srcLink =>
    apply chain'_concat_of
    · refine chain'_of_eq_on hInv.srcLink ?_
      intro a ha b hb hab
      have hac : a ≠ c := fun h => hcni (h ▸ ha)
      have hbc : b ≠ c := fun h => hcni (h ▸ hb)
      rw [upd_ne _ _ hbc, upd_ne _ _ hac]
      exact hab
    · intro z hz
      have hzmem := mem_of_getLast?_eq hz
      have hzc : z ≠ c := fun h => hcni (h ▸ hzmem)
      rw [upd_same, upd_ne _ _ hzc]
      exact (hlastSrc z hz).symm ▸ rfl
  case srcHead =>
    intro d hd
    cases hhist : s.hist with
    | nil =>
        rw [hhist] at hd
        simp at hd
        subst hd
        rw [upd_same]
        show psrc s = 0
        exact psrc_nil hInv hhist
    | cons h0 ht =>
        rw [hhist] at hd
        simp at hd
        subst hd
        have h0mem : h0 ∈ s.hist := by rw [hhist]; exact List.mem_cons_self _ _
        have h0c : h0 ≠ c := fun h => hcni (h ▸ h0mem)
        rw [upd_ne _ _ h0c]
        exact hInv.srcHead h0 (by rw [hhist]; rfl)
  case statusChain =>
    apply chain'_concat_of
    · refine chain'_of_eq_on hInv.statusChain ?_
      intro a ha b hb hab
      have hac : a ≠ c := fun h => hcni (h ▸ ha)
      have hbc : b ≠ c := fun h => hcni (h ▸ hb)
      rw [upd_ne _ _ hbc, upd_ne _ _ hac]
      exact hab
    · intro z hz
      rw [upd_same]
      intro hcon
      exact absurd rfl hcon
  case reactShape =>
    intro r hr
    rcases (hWQmem r).mp hr with hro | hrn
    · obtain ⟨hq, hsrc⟩ := hInv.reactShape r hro
      have hrc : r.c ≠ c := by
        intro h
        rw [h, hc] at hq
        cases hq
      rw [upd_ne _ _ hrc]
      exact ⟨hq, hsrc⟩
    · subst hrn
      dsimp only
      rw [upd_same]
      exact ⟨rfl, rfl⟩
  case reactExists =>
    intro d hq
    by_cases hdc : d = c
    · subst hdc
      rw [upd_same]
      exact (hWQmem _).mpr (Or.inr rfl)
    · rw [upd_ne _ _ hdc] at hq ⊢
      exact (hWQmem _).mpr (Or.inl (hInv.reactExists d hq))
  case reactUnique =>
    have hnew : ∀ r ∈ s.waiting ++ s.queue, r.c ≠ c := by
      intro r hr hcon
      have hq := (hInv.reactShape r hr).1
      rw [hcon, hc] at hq
      cases hq
    have htarget : List.Pairwise (fun r1 r2 => r1.c ≠ r2.c)
        ((s.waiting ++ s.queue) ++ [⟨psrc s, c⟩]) := by
      rw [List.pairwise_append]
      refine ⟨hInv.reactUnique, by simp, ?_⟩
      intro r hr y hy
      simp at hy
      subst hy
      exact hnew r hr
    by_cases hp : pres s (psrc s)
    · rw [if_pos hp, if_pos hp, ← List.append_assoc]
      exact htarget
    · rw [if_neg hp, if_neg hp]
      have hperm : ((s.waiting ++ [(⟨psrc s, c⟩ : PReaction)]) ++ s.queue).Perm
          ((s.waiting ++ s.queue) ++ [(⟨psrc s, c⟩ : PReaction)]) := by
        rw [List.append_assoc, List.append_assoc]
        exact List.Perm.append_left _ List.perm_append_comm
      exact (List.Perm.pairwise_iff (fun h => Ne.symm h) hperm).mpr htarget
  case hotRes =>
    intro r hr
    by_cases hp : pres s (psrc s)
    · rw [if_pos hp] at hr
      rcases List.mem_append.mp hr with h | h
      · exact hInv.hotRes r h
      · simp at h
        subst h
        exact hp
    · rw [if_neg hp] at hr
      exact hInv.hotRes r hr
  case parkedNotRes =>
    intro r hr
    by_cases hp : pres s (psrc s)
    · rw [if_pos hp] at hr
      exact hInv.parkedNotRes r hr
    · rw [if_neg hp] at hr
      rcases List.mem_append.mp hr with h | h
      · exact hInv.parkedNotRes r h
      · simp at h
        subst h
        exact hp
  case lockInj =>
    intro c1 d1 h1 h2 heq
    by_cases hc1 : c1 = c <;> by_cases hd1 : d1 = c
    · rw [hc1, hd1]
    · subst hc1
      rw [upd_same] at heq
      rw [upd_ne _ _ hd1] at heq h2
      have := (hInv.lockBound d1 h2).1
      dsimp only at heq
      omega
    · subst hd1
      rw [upd_same] at heq
      rw [upd_ne _ _ hc1] at heq h1
      have := (hInv.lockBound c1 h1).1
      dsimp only at heq
      omega
    · rw [upd_ne _ _ hc1] at heq h1
      rw [upd_ne _ _ hd1] at heq h2
      exact hInv.lockInj c1 d1 h1 h2 heq
  case lockBound =>
    intro d hd
    by_cases hdc : d = c
    · subst hdc
      rw [upd_same]
      have := hInv.nextPos
      dsimp only
      constructor <;> omega
    · rw [upd_ne _ _ hdc] at hd ⊢
      have := hInv.lockBound d hd
      constructor <;> omega
  case fresh =>
    intro p hp
    apply hInv.fresh
    omega
  case nextPos =>
    have := hInv.nextPos
    omega
  case resZero => exact hInv.resZero
  case lineLocks =>
    intro e he
    rcases List.mem_append.mp he with h | h
    · have he2 : e.2 ∈ s.line.map Prod.snd := List.mem_map_of_mem Prod.snd h
      rw [hInv.lineQueued] at he2
      have hq := (List.mem_filter.mp he2).2
      have hq2 : (s.clients e.2).status = .queued := by simpa using hq
      have hec : e.2 ≠ c := by
        intro hcon
        rw [hcon, hc] at hq2
        cases hq2
      rw [upd_ne _ _ hec]
      exact hInv.lineLocks e h
    · simp at h
      subst h
      rw [upd_same]
  case lineQueued =>
    rw [List.map_append, List.filter_append]
    have hfc : List.filter (fun d => (upd s.clients c { status := .queued, myLock := s.nextP, srcP := psrc s } d).status == .queued) [c] = [c] := by
      simp [upd_same]
    have hfh : List.filter (fun d => (upd s.clients c { status := .queued, myLock := s.nextP, srcP := psrc s } d).status == .queued) s.hist
        = List.filter (fun d => (s.clients d).status == .queued) s.hist := by
      apply List.filter_congr
      intro d hd
      have hdc : d ≠ c := fun h => hcni (h ▸ hd)
      rw [upd_ne _ _ hdc]
    rw [hfc, hfh, hInv.lineQueued]
    simp
  case slotEmpty =>
    intro h
    exact absurd h (by simp)
  case valUndef => exact hInv.valUndef
  case recvOwn =>
    intro d hd
    by_cases hdc : d = c
    · subst hdc
      rw [upd_same] at hd
      cases hd
    · rw [upd_ne _ _ hdc] at hd ⊢
      exact hInv.recvOwn d hd
  case timeBound =>
    intro d t hd
    by_cases hdc : d = c
    · subst hdc
      rw [upd_same] at hd
      cases hd
    · rw [upd_ne _ _ hdc] at hd
      have := hInv.timeBound d t hd
      omega
  case admitSome =>
    intro d hd
    by_cases hdc : d = c
    · subst hdc
      rw [upd_same] at hd
      rcases hd with hd | hd <;> cases hd
    · rw [upd_ne _ _ hdc] at hd ⊢
      exact hInv.admitSome d hd
  case admitNone =>
    intro d hd
    by_cases hdc : d = c
    · subst hdc
      rw [upd_same]
    · rw [upd_ne _ _ hdc] at hd ⊢
      exact hInv.admitNone d hd
  case admitChain =>
    apply chain'_concat_of
    · refine chain'_of_eq_on hInv.admitChain ?_
      intro a ha b hb hab
      have hac : a ≠ c := fun h => hcni (h ▸ ha)
      have hbc : b ≠ c := fun h => hcni (h ▸ hb)
      rw [upd_ne _ _ hbc, upd_ne _ _ hac]
      exact hab
    · intro z hz tb htb
      rw [upd_same] at htb
      cases htb

end PlainM

namespace PlainM

theorem pinv_prelease {s : PSt} {c : Nat} (args : List Val) (hInv : PInv s)
    (hc : (s.clients c).status = .holding) : PInv (prelease c args s) := by
  have hcni : (s.clients c).status ≠ .idle := by rw [hc]; intro h; cases h
  have hnotres : ¬ pres s (s.clients c).myLock := by
    intro hp
    have := (hInv.statusRes c hcni).mp hp
    rw [hc] at this
    cases this
  have hmyLock : ∀ x, (upd s.clients c { s.clients c with status := .released } x).myLock
      = (s.clients x).myLock := by
    intro x
    by_cases hxc : x = c
    · subst hxc; rw [upd_same]
    · rw [upd_ne _ _ hxc]
  have hsrcP : ∀ x, (upd s.clients c { s.clients c with status := .released } x).srcP
      = (s.clients x).srcP := by
    intro x
    by_cases hxc : x = c
    · subst hxc; rw [upd_same]
    · rw [upd_ne _ _ hxc]
  have hadm : ∀ x, (upd s.clients c { s.clients c with status := .released } x).admittedAt
      = (s.clients x).admittedAt := by
    intro x
    by_cases hxc : x = c
    · subst hxc; rw [upd_same]
    · rw [upd_ne _ _ hxc]
  have hne : ∀ x, (upd s.clients c { s.clients c with status := .released } x).status ≠ .idle
      ↔ (s.clients x).status ≠ .idle := by
    intro x
    by_cases hxc : x = c
    · subst hxc
      rw [upd_same]
      constructor
      · intro _; exact hcni
      · intro _ h2; cases h2
    · rw [upd_ne _ _ hxc]
  have hperm := resolveP_WQ_perm (s.clients c).myLock .undef s
  constructor
  all_goals try dsimp only [prelease]
  case histNodup =>
    rw [resolveP_hist]
    exact hInv.histNodup
  case histMem =>
    intro d
    rw [resolveP_hist, hne d]
    exact hInv.histMem d
  case statusRes =>
    intro d hd
    rw [hmyLock d]
    have hd2 : (s.clients d).status ≠ .idle := (hne d).mp hd
    have hpres : pres (prelease c args s) (s.clients d).myLock ↔
        pres s (s.clients d).myLock ∨ (s.clients d).myLock = (s.clients c).myLock := by
      exact pres_resolveP (s.clients c).myLock .undef s (s.clients d).myLock
    rw [show pres { resolveP (s.clients c).myLock Val.undef s with
        clients := upd s.clients c { s.clients c with status := PStatus.released },
        time := s.time + 1 } (s.clients d).myLock
      ↔ pres (resolveP (s.clients c).myLock Val.undef s) (s.clients d).myLock from Iff.rfl]
    rw [pres_resolveP]
    by_cases hdc : d = c
    · subst hdc
      rw [upd_same]
      simp [hc]
    · rw [upd_ne _ _ hdc]
      constructor
      · rintro (hp | heq)
        · exact (hInv.statusRes d hd2).mp hp
        · exact absurd (hInv.lockInj d c hd2 hcni heq) hdc
      · intro hrel
        exact Or.inl ((hInv.statusRes d hd2).mpr hrel)
  case srcLink =>
    rw [resolveP_hist]
    refine chain'_of_eq_on hInv.srcLink ?_
    intro a ha b hb hab
    rw [hsrcP b, hmyLock a]
    exact hab
  case srcHead =>
    intro d hd
    rw [resolveP_hist] at hd
    rw [hsrcP d]
    exact hInv.srcHead d hd
  case statusChain =>
    rw [resolveP_hist]
    refine chain'_of_eq_on hInv.statusChain ?_
    intro a ha b hb hab
    by_cases hbc : b = c
    · subst hbc
      intro _
      have hold : (s.clients a).status = .released := by
        apply hab
        rw [hc]
        intro hx
        cases hx
      have hac : a ≠ b := by
        intro h
        rw [h, hc] at hold
        cases hold
      rw [upd_ne _ _ hac]
      exact hold
    · by_cases hac : a = c
      · subst hac
        intro hb2
        rw [upd_ne _ _ hbc] at hb2
        have := hab hb2
        rw [hc] at this
        cases this
      · rw [upd_ne _ _ hbc, upd_ne _ _ hac]
        exact hab
  case reactShape =>
    intro r hr
    have hro : r ∈ s.waiting ++ s.queue := (List.Perm.mem_iff hperm).mp hr
    obtain ⟨hq, hsrc⟩ := hInv.reactShape r hro
    have hrc : r.c ≠ c := by
      intro h
      rw [h, hc] at hq
      cases hq
    rw [upd_ne _ _ hrc]
    exact ⟨hq, hsrc⟩
  case reactExists =>
    intro d hq
    by_cases hdc : d = c
    · subst hdc
      rw [upd_same] at hq
      cases hq
    · rw [upd_ne _ _ hdc] at hq
      have := hInv.reactExists d hq
      rw [hsrcP d]
      exact (List.Perm.mem_iff hperm).mpr this
  case reactUnique =>
    exact (List.Perm.pairwise_iff (fun h => Ne.symm h) hperm).mpr hInv.reactUnique
  case hotRes =>
    intro r hr
    rw [show pres { resolveP (s.clients c).myLock Val.undef s with
        clients := upd s.clients c { s.clients c with status := PStatus.released },
        time := s.time + 1 } r.src
      ↔ pres (resolveP (s.clients c).myLock Val.undef s) r.src from Iff.rfl]
    rw [pres_resolveP]
    rw [show ({ resolveP (s.clients c).myLock Val.undef s with
        clients := upd s.clients c { s.clients c with status := PStatus.released },
        time := s.time + 1 } : PSt).queue
      = (resolveP (s.clients c).myLock Val.undef s).queue from rfl] at hr
    rw [resolveP_neg hnotres] at hr
    rcases List.mem_append.mp hr with h | h
    · exact Or.inl (hInv.hotRes r h)
    · have := (List.mem_filter.mp h).2
      simp at this
      exact Or.inr this
  case parkedNotRes =>
    intro r hr
    rw [show ({ resolveP (s.clients c).myLock Val.undef s with
        clients := upd s.clients c { s.clients c with status := PStatus.released },
        time := s.time + 1 } : PSt).waiting
      = (resolveP (s.clients c).myLock Val.undef s).waiting from rfl] at hr
    rw [resolveP_neg hnotres] at hr
    have h1 := (List.mem_filter.mp hr).1
    have h2 := (List.mem_filter.mp hr).2
    simp at h2
    rw [show pres { resolveP (s.clients c).myLock Val.undef s with
        clients := upd s.clients c { s.clients c with status := PStatus.released },
        time := s.time + 1 } r.src
      ↔ pres (resolveP (s.clients c).myLock Val.undef s) r.src from Iff.rfl]
    rw [pres_resolveP]
    rintro (hp | heq)
    · exact hInv.parkedNotRes r h1 hp
    · exact h2 heq
  case lockInj =>
    intro c1 d1 h1 h2 heq
    rw [hmyLock c1, hmyLock d1] at heq
    exact hInv.lockInj c1 d1 ((hne c1).mp h1) ((hne d1).mp h2) heq
  case lockBound =>
    intro d hd
    rw [hmyLock d, resolveP_nextP]
    exact hInv.lockBound d ((hne d).mp hd)
  case fresh =>
    intro p hp
    rw [resolveP_nextP] at hp
    rw [resolveP_neg hnotres]
    have hlt := (hInv.lockBound c hcni).1
    have hpc : p ≠ (s.clients c).myLock := by omega
    simp only [hpc, if_false]
    exact hInv.fresh p hp
  case nextPos =>
    rw [resolveP_nextP]
    exact hInv.nextPos
  case resZero =>
    rw [show pres { resolveP (s.clients c).myLock Val.undef s with
        clients := upd s.clients c { s.clients c with status := PStatus.released },
        time := s.time + 1 } 0
      ↔ pres (resolveP (s.clients c).myLock Val.undef s) 0 from Iff.rfl]
    rw [pres_resolveP]
    exact Or.inl hInv.resZero
  case lineLocks =>
    intro e he
    rw [resolveP_line] at he
    rw [hmyLock e.2]
    exact hInv.lineLocks e he
  case lineQueued =>
    rw [resolveP_line, resolveP_hist]
    rw [hInv.lineQueued]
    apply List.filter_congr
    intro d hd
    by_cases hdc : d = c
    · subst hdc
      rw [upd_same]
      rw [hc]
      rfl
    · rw [upd_ne _ _ hdc]
  case slotEmpty =>
    intro h
    rw [resolveP_line] at h
    rw [resolveP_slot, resolveP_hist]
    have := hInv.slotEmpty h
    cases hcase : s.hist.getLast? with
    | none =>
        rw [hcase] at this
        simpa using this
    | some z =>
        rw [hcase] at this
        simp only [Option.map_some', Option.getD_some]
        rw [hmyLock z]
        simpa using this
  case valUndef =>
    intro p v h
    rw [show ({ resolveP (s.clients c).myLock Val.undef s with
        clients := upd s.clients c { s.clients c with status := PStatus.released },
        time := s.time + 1 } : PSt).resolvedVal
      = (resolveP (s.clients c).myLock Val.undef s).resolvedVal from rfl] at h
    rw [resolveP_neg hnotres] at h
    dsimp only at h
    by_cases hpc : p = (s.clients c).myLock
    · rw [if_pos hpc] at h
      cases h
      rfl
    · rw [if_neg hpc] at h
      exact hInv.valUndef p v h
  case recvOwn =>
    intro d hd
    by_cases hdc : d = c
    · subst hdc
      rw [upd_same] at hd
      cases hd
    · rw [upd_ne _ _ hdc] at hd ⊢
      exact hInv.recvOwn d hd
  case timeBound =>
    intro d t hd
    rw [hadm d] at hd
    have := hInv.timeBound d t hd
    omega
  case admitSome =>
    intro d hd
    rw [hadm d]
    by_cases hdc : d = c
    · subst hdc
      exact hInv.admitSome _ (Or.inl hc)
    · rw [upd_ne _ _ hdc] at hd
      exact hInv.admitSome d hd
  case admitNone =>
    intro d hd
    rw [hadm d]
    by_cases hdc : d = c
    · subst hdc
      rw [upd_same] at hd
      rcases hd with hd | hd <;> cases hd
    · rw [upd_ne _ _ hdc] at hd
      exact hInv.admitNone d hd
  case admitChain =>
    rw [resolveP_hist]
    refine chain'_of_eq_on hInv.admitChain ?_
    intro a ha b hb hab
    rw [hadm a, hadm b]
    exact hab

end PlainM

theorem chain'_of_forall_mem {α : Type} {R : α → α → Prop} {l : List α}
    (h : ∀ a ∈ l, ∀ b ∈ l, R a b) : List.Chain' R l := by
  induction l with
  | nil => exact List.chain'_nil
  | cons a t ih =>
      rw [List.chain'_cons']
      refine ⟨?_, ih ?_⟩
      · intro y hy
        have hyt : y ∈ t := by
          cases t with
          | nil => simp at hy
          | cons b t2 => simp at hy; subst hy; exact List.mem_cons_self _ _
        exact h a (List.mem_cons_self _ _) y (List.mem_cons_of_mem _ hyt)
      · intro x hx y hy
        exact h x (List.mem_cons_of_mem _ hx) y (List.mem_cons_of_mem _ hy)

theorem chain'_of_snd {α : Type} {R : α → α → Prop} {x : α} {l : List α}
    (h : ∀ a b, b ∈ l → R a b) : List.Chain' R (x :: l) := by
  induction l generalizing x with
  | nil => exact List.chain'_singleton x
  | cons b t ih =>
      rw [List.chain'_cons]
      exact ⟨h x b (List.mem_cons_self _ _),
        ih (fun a y hy => h a y (List.mem_cons_of_mem _ hy))⟩

theorem chain'_append_cons {α : Type} {R : α → α → Prop} {l1 l2 : List α} {d : α}
    (h1 : List.Chain' R l1) (h2 : List.Chain' R (d :: l2))
    (hlink : ∀ z, l1.getLast? = some z → R z d) :
    List.Chain' R (l1 ++ d :: l2) := by
  rw [List.chain'_append]
  refine ⟨h1, h2, ?_⟩
  intro x hx y hy
  have hyd : d = y := by simpa using hy
  subst hyd
  exact hlink x hx

namespace PlainM

theorem pinv_pfire {s : PSt} {r : PReaction} {rest : List PReaction}
    (hInv : PInv s) (hq : s.queue = r :: rest) :
    PInv (pfire r { s with queue := rest }) := by
  have hrQ : r ∈ s.queue := by rw [hq]; exact List.mem_cons_self _ _
  have hrWQ : r ∈ s.waiting ++ s.queue := List.mem_append.mpr (Or.inr hrQ)
  obtain ⟨hdq, hsrcr⟩ := hInv.reactShape r hrWQ
  have hhot : pres s r.src := hInv.hotRes r hrQ
  have hdne : (s.clients r.c).status ≠ .idle := by rw [hdq]; intro h; cases h
  have hdmem : r.c ∈ s.hist := (hInv.histMem r.c).mpr hdne
  obtain ⟨l1, l2, hsplit⟩ := List.append_of_mem hdmem
  have hnodup := hInv.histNodup
  rw [hsplit] at hnodup
  have hdl1 : r.c ∉ l1 := by
    intro hx
    rcases List.nodup_append.mp hnodup with ⟨_, _, hdisj⟩
    exact hdisj hx (List.mem_cons_self _ _)
  have hdl2 : r.c ∉ l2 := by
    rcases List.nodup_append.mp hnodup with ⟨_, hnd2, _⟩
    exact (List.nodup_cons.mp hnd2).1
  have hl1rel : ∀ x ∈ l1, (s.clients x).status = .released := by
    cases List.eq_nil_or_concat l1 with
    | inl h0 =>
        subst h0
        intro x hx
        simp at hx
    | inr h0 =>
        obtain ⟨l1h, a, hl1⟩ := h0
        rw [List.concat_eq_append] at hl1
        have hsp2 : s.hist = l1h ++ a :: r.c :: l2 := by rw [hsplit, hl1]; simp
        have hadj : (s.clients r.c).srcP = (s.clients a).myLock := by
          have hch := hInv.srcLink
          rw [hsp2] at hch
          exact (List.chain'_append_cons_cons.mp hch).2.1
        have hamem : a ∈ s.hist := by rw [hsp2]; simp
        have hane : (s.clients a).status ≠ .idle := (hInv.histMem a).mp hamem
        have hareL : (s.clients a).status = .released := by
          apply (hInv.statusRes a hane).mp
          rw [← hadj, ← hsrcr]
          exact hhot
        intro x hx
        rw [hl1] at hx
        rcases List.mem_append.mp hx with hxh | hxa
        · obtain ⟨u, v, huv⟩ := List.append_of_mem hxh
          have hsp3 : s.hist = u ++ x :: (v ++ a :: (r.c :: l2)) := by
            rw [hsp2, huv]
            simp
          have hrel := chain_rel_of_split hInv.statusChain
            (pstatus_trans s.clients) u x v a (r.c :: l2) hsp3
          apply hrel
          rw [hareL]
          intro hcon
          cases hcon
        · have hxa2 : x = a := by simpa using hxa
          subst hxa2
          exact hareL
  have hl2q : ∀ y ∈ l2, (s.clients y).status = .queued := by
    intro y hy
    obtain ⟨u, v, huv⟩ := List.append_of_mem hy
    have hsp3 : s.hist = l1 ++ r.c :: (u ++ y :: v) := by rw [hsplit, huv]
    by_contra hyq
    have hrel := chain_rel_of_split hInv.statusChain
      (pstatus_trans s.clients) l1 r.c u y v hsp3
    have hcon := hrel hyq
    rw [hdq] at hcon
    cases hcon
  have hmapline : s.line.map Prod.snd = r.c :: l2 := by
    rw [hInv.lineQueued, hsplit, List.filter_append]
    have hfl1 : l1.filter (fun d => (s.clients d).status == .queued) = [] := by
      apply List.filter_eq_nil_iff.mpr
      intro x hx
      rw [hl1rel x hx]
      simp
    have hfl2 : l2.filter (fun d => (s.clients d).status == .queued) = l2 := by
      apply List.filter_eq_self.mpr
      intro y hy
      rw [hl2q y hy]
      simp
    rw [hfl1]
    rw [List.filter_cons_of_pos (by rw [hdq]; simp)]
    rw [hfl2]
    simp
  obtain ⟨e, lt, hline⟩ : ∃ e lt, s.line = e :: lt := by
    cases hl : s.line with
    | nil => rw [hl] at hmapline; simp at hmapline
    | cons e lt => exact ⟨e, lt, rfl⟩
  have he2 : e.2 = r.c ∧ lt.map Prod.snd = l2 := by
    rw [hline] at hmapline
    simpa using hmapline
  have he1 : e.1 = (s.clients r.c).myLock := by
    have hll := hInv.lineLocks e (by rw [hline]; exact List.mem_cons_self _ _)
    rw [he2.1] at hll
    exact hll
  have hT : pfire r { s with queue := rest } =
      { s with
        queue := rest,
        mutexSlot := e.1,
        line := lt,
        clients := upd s.clients r.c { s.clients r.c with status := .holding, received := some (.keyFn r.c), admittedAt := some s.time },
        time := s.time + 1 } := by
    unfold pfire
    dsimp only
    rw [hline]
  rw [hT]
  have hmyLockF : ∀ x, (upd s.clients r.c { s.clients r.c with status := .holding, received := some (.keyFn r.c), admittedAt := some s.time } x).myLock = (s.clients x).myLock := by
    intro x
    by_cases hxc : x = r.c
    · subst hxc; rw [upd_same]
    · rw [upd_ne _ _ hxc]
  have hsrcPF : ∀ x, (upd s.clients r.c { s.clients r.c with status := .holding, received := some (.keyFn r.c), admittedAt := some s.time } x).srcP = (s.clients x).srcP := by
    intro x
    by_cases hxc : x = r.c
    · subst hxc; rw [upd_same]
    · rw [upd_ne _ _ hxc]
  have hneF : ∀ x, (upd s.clients r.c { s.clients r.c with status := .holding, received := some (.keyFn r.c), admittedAt := some s.time } x).status ≠ .idle
      ↔ (s.clients x).status ≠ .idle := by
    intro x
    by_cases hxc : x = r.c
    · subst hxc
      rw [upd_same]
      constructor
      · intro _; exact hdne
      · intro _ h2; cases h2
    · rw [upd_ne _ _ hxc]
  have hPW := hInv.reactUnique
  rw [hq] at hPW
  rcases List.pairwise_append.mp hPW with ⟨pW, pQ, cross⟩
  have hnotr : ∀ x ∈ s.waiting ++ rest, x.c ≠ r.c := by
    intro x hx
    rcases List.mem_append.mp hx with hxw | hxr
    · exact cross x hxw r (List.mem_cons_self _ _)
    · exact Ne.symm ((List.pairwise_cons.mp pQ).1 x hxr)
  have hrestQ : ∀ x ∈ rest, x ∈ s.queue := by
    intro x hx
    rw [hq]
    exact List.mem_cons_of_mem _ hx
  constructor
  all_goals try dsimp only
  case histNodup => exact hInv.histNodup
  case histMem =>
    intro d
    rw [hneF d]
    exact hInv.histMem d
  case statusRes =>
    intro d hd
    rw [hmyLockF d]
    by_cases hdc : d = r.c
    · subst hdc
      rw [upd_same]
      constructor
      · intro hp
        have hrel := (hInv.statusRes r.c hdne).mp hp
        rw [hdq] at hrel
        cases hrel
      · intro hcon
        cases hcon
    · rw [upd_ne _ _ hdc]
      exact hInv.statusRes d ((hneF d).mp hd)
  case srcLink =>
    refine chain'_of_eq_on hInv.srcLink ?_
    intro a ha b hb hab
    rw [hsrcPF b, hmyLockF a]
    exact hab
  case srcHead =>
    intro d hd
    rw [hsrcPF d]
    exact hInv.srcHead d hd
  case statusChain =>
    rw [hsplit]
    refine chain'_append_cons ?_ ?_ ?_
    · refine chain'_of_forall_mem ?_
      intro a ha b hb
      intro _
      have hac : a ≠ r.c := fun h => hdl1 (h ▸ ha)
      rw [upd_ne _ _ hac]
      exact hl1rel a ha
    · refine chain'_of_snd ?_
      intro a b hb
      intro hP
      exfalso
      have hbc : b ≠ r.c := fun h => hdl2 (h ▸ hb)
      rw [upd_ne _ _ hbc] at hP
      exact hP (hl2q b hb)
    · intro z hz
      intro _
      have hzmem : z ∈ l1 := mem_of_getLast?_eq hz
      have hzc : z ≠ r.c := fun h => hdl1 (h ▸ hzmem)
      rw [upd_ne _ _ hzc]
      exact hl1rel z hzmem
  case reactShape =>
    intro x hx
    have hxold : x ∈ s.waiting ++ s.queue := by
      rcases List.mem_append.mp hx with hxw | hxr
      · exact List.mem_append.mpr (Or.inl hxw)
      · exact List.mem_append.mpr (Or.inr (hrestQ x hxr))
    obtain ⟨hq2, hs2⟩ := hInv.reactShape x hxold
    have hxc := hnotr x hx
    rw [upd_ne _ _ hxc]
    exact ⟨hq2, hs2⟩
  case reactExists =>
    intro d hqd
    by_cases hdc : d = r.c
    · subst hdc
      rw [upd_same] at hqd
      cases hqd
    · rw [upd_ne _ _ hdc] at hqd ⊢
      have hold := hInv.reactExists d hqd
      rcases List.mem_append.mp hold with hw | hqq
      · exact List.mem_append.mpr (Or.inl hw)
      · rw [hq] at hqq
        rcases List.mem_cons.mp hqq with heq | hrest
        · exfalso
          apply hdc
          have : (⟨(s.clients d).srcP, d⟩ : PReaction).c = r.c := by rw [heq]
          simpa using this
        · exact List.mem_append.mpr (Or.inr hrest)
  case reactUnique =>
    refine List.Pairwise.sublist ?_ hPW
    exact List.Sublist.append_left (List.sublist_cons_self _ _) _
  case hotRes =>
    intro x hx
    exact hInv.hotRes x (hrestQ x hx)
  case parkedNotRes =>
    intro x hx
    exact hInv.parkedNotRes x hx
  case lockInj =>
    intro c1 d1 h1 h2 heq
    rw [hmyLockF c1, hmyLockF d1] at heq
    exact hInv.lockInj c1 d1 ((hneF c1).mp h1) ((hneF d1).mp h2) heq
  case lockBound =>
    intro d hd
    rw [hmyLockF d]
    exact hInv.lockBound d ((hneF d).mp hd)
  case fresh => exact hInv.fresh
  case nextPos => exact hInv.nextPos
  case resZero => exact hInv.resZero
  case lineLocks =>
    intro x hx
    have hxline : x ∈ s.line := by
      rw [hline]
      exact List.mem_cons_of_mem _ hx
    rw [hmyLockF x.2]
    exact hInv.lineLocks x hxline
  case lineQueued =>
    rw [hsplit, List.filter_append]
    have hfl1 : l1.filter (fun d => (upd s.clients r.c { s.clients r.c with status := .holding, received := some (.keyFn r.c), admittedAt := some s.time } d).status == .queued) = [] := by
      apply List.filter_eq_nil_iff.mpr
      intro x hx
      have hxc : x ≠ r.c := fun h => hdl1 (h ▸ hx)
      rw [upd_ne _ _ hxc, hl1rel x hx]
      simp
    have hfl2 : l2.filter (fun d => (upd s.clients r.c { s.clients r.c with status := .holding, received := some (.keyFn r.c), admittedAt := some s.time } d).status == .queued) = l2 := by
      apply List.filter_eq_self.mpr
      intro y hy
      have hyc : y ≠ r.c := fun h => hdl2 (h ▸ hy)
      rw [upd_ne _ _ hyc, hl2q y hy]
      simp
    rw [hfl1]
    rw [List.filter_cons_of_neg (by rw [upd_same]; simp)]
    rw [hfl2]
    rw [he2.2]
    simp
  case slotEmpty =>
    intro h
    have hl2nil : l2 = [] := by
      rw [← he2.2, h]
      simp
    subst hl2nil
    rw [hsplit, List.getLast?_concat]
    simp only [Option.map_some', Option.getD_some]
    rw [upd_same]
    rw [he1]
  case valUndef => exact hInv.valUndef
  case recvOwn =>
    intro d hd
    by_cases hdc : d = r.c
    · subst hdc
      rw [upd_same]
    · rw [upd_ne _ _ hdc] at hd ⊢
      exact hInv.recvOwn d hd
  case timeBound =>
    intro d t hd
    by_cases hdc : d = r.c
    · subst hdc
      rw [upd_same] at hd
      have ht : t = s.time := by
        have : some s.time = some t := by rw [← hd]
        cases this
        rfl
      omega
    · rw [upd_ne _ _ hdc] at hd
      have := hInv.timeBound d t hd
      omega
  case admitSome =>
    intro d hd
    by_cases hdc : d = r.c
    · subst hdc
      rw [upd_same]
      rfl
    · rw [upd_ne _ _ hdc] at hd ⊢
      exact hInv.admitSome d hd
  case admitNone =>
    intro d hd
    by_cases hdc : d = r.c
    · subst hdc
      rw [upd_same] at hd
      rcases hd with hd | hd <;> cases hd
    · rw [upd_ne _ _ hdc] at hd ⊢
      exact hInv.admitNone d hd
  case admitChain =>
    rw [hsplit]
    have holdChain := hInv.admitChain
    rw [hsplit] at holdChain
    refine chain'_append_cons ?_ ?_ ?_
    · have hleft := (List.chain'_append.mp holdChain).1
      refine chain'_of_eq_on hleft ?_
      intro a ha b hb hab
      have hac : a ≠ r.c := fun h => hdl1 (h ▸ ha)
      have hbc : b ≠ r.c := fun h => hdl1 (h ▸ hb)
      rw [upd_ne _ _ hbc, upd_ne _ _ hac]
      exact hab
    · refine chain'_of_snd ?_
      intro a b hb tb htb
      exfalso
      have hbc : b ≠ r.c := fun h => hdl2 (h ▸ hb)
      rw [upd_ne _ _ hbc] at htb
      have := hInv.admitNone b (Or.inr (hl2q b hb))
      rw [this] at htb
      cases htb
    · intro z hz tb htb
      have hzmem : z ∈ l1 := mem_of_getLast?_eq hz
      have hzc : z ≠ r.c := fun h => hdl1 (h ▸ hzmem)
      rw [upd_same] at htb
      have htb2 : tb = s.time := by
        have : some s.time = some tb := by rw [← htb]
        cases this
        rfl
      rw [upd_ne _ _ hzc]
      have hsome := hInv.admitSome z (Or.inr (hl1rel z hzmem))
      obtain ⟨ta, hta⟩ := Option.isSome_iff_exists.mp hsome
      refine ⟨ta, hta, ?_⟩
      have := hInv.timeBound z ta hta
      omega

end PlainM

namespace PlainM

theorem pinv_stepG {s t : PSt} (hInv : PInv s) (h : PStepG s t) : PInv t := by
  cases h with
  | lockCall c hc => exact pinv_plock hInv hc
  | releaseCall c args hc => exact pinv_prelease args hInv hc
  | fireHead r rest hq => exact pinv_pfire hInv hq

theorem pinv_reachableG {s : PSt} (h : PReachableG s) : PInv s := by
  induction h with
  | refl => exact pinv_init
  | tail _ h2 ih => exact pinv_stepG ih h2

/-- FIFO of the plain mutex: along the ghost call-order list, a later
request is admitted strictly after any earlier one. -/
theorem fifo_hist {s : PSt} (h : PReachableG s) {u v w : List Nat} {x d : Nat}
    (hsplit : s.hist = u ++ x :: (v ++ d :: w)) {td : Nat}
    (htd : (s.clients d).admittedAt = some td) :
    ∃ tc, (s.clients x).admittedAt = some tc ∧ tc < td := by
  have hInv := pinv_reachableG h
  exact chain_rel_of_split hInv.admitChain (padmit_trans s.clients) u x v d w hsplit td htd

theorem reach_q2 : PReachableG q2 := by
  have h1 : PStepG pinit q1 := .lockCall pinit 0 (by decide)
  have h2 : PStepG q1 q2 := by
    have hq : q1.queue = (⟨0, 0⟩ : PReaction) :: [] := by decide
    have : pstepFire q1 = pfire ⟨0, 0⟩ { q1 with queue := [] } := by
      unfold pstepFire
      rw [hq]
    rw [show q2 = pfire ⟨0, 0⟩ { q1 with queue := [] } from this]
    exact .fireHead q1 ⟨0, 0⟩ [] hq
  exact Relation.ReflTransGen.refl |>.tail h1 |>.tail h2

theorem reach_q5 : PReachableG q5 := by
  have h3 : PStepG q2 q3 := .lockCall q2 1 (by decide)
  have h4 : PStepG q3 q4 := .releaseCall q3 0 [.keyFn 7, .undef] (by decide)
  have h5 : PStepG q4 q5 := by
    have hq : q4.queue = (⟨1, 1⟩ : PReaction) :: [] := by decide
    have : pstepFire q4 = pfire ⟨1, 1⟩ { q4 with queue := [] } := by
      unfold pstepFire
      rw [hq]
    rw [show q5 = pfire ⟨1, 1⟩ { q4 with queue := [] } from this]
    exact .fireHead q4 ⟨1, 1⟩ [] hq
  exact reach_q2 |>.tail h3 |>.tail h4 |>.tail h5

end PlainM

theorem mem_mem_split {α : Type} {l : List α} {x y : α}
    (hx : x ∈ l) (hy : y ∈ l) (hne : x ≠ y) :
    (∃ u v w, l = u ++ x :: (v ++ y :: w)) ∨
    (∃ u v w, l = u ++ y :: (v ++ x :: w)) := by
  induction l with
  | nil => cases hx
  | cons a t ih =>
      rcases List.mem_cons.mp hx with rfl | hxt
      · have hyt : y ∈ t := by
          rcases List.mem_cons.mp hy with rfl | h
          · exact absurd rfl hne
          · exact h
        obtain ⟨v, w, rfl⟩ := List.append_of_mem hyt
        exact Or.inl ⟨[], v, w, rfl⟩
      · rcases List.mem_cons.mp hy with rfl | hyt
        · obtain ⟨v, w, rfl⟩ := List.append_of_mem hxt
          exact Or.inr ⟨[], v, w, rfl⟩
        · rcases ih hxt hyt with ⟨u, v, w, rfl⟩ | ⟨u, v, w, rfl⟩
          · exact Or.inl ⟨a :: u, v, w, rfl⟩
          · exact Or.inr ⟨a :: u, v, w, rfl⟩

theorem otime_trans {α : Type} (g : α → Option Nat) (a b c : α)
    (hab : ∀ tb, g b = some tb → ∃ ta, g a = some ta ∧ ta < tb)
    (hbc : ∀ tb, g c = some tb → ∃ ta, g b = some ta ∧ ta < tb) :
    ∀ tb, g c = some tb → ∃ ta, g a = some ta ∧ ta < tb := by
  intro tc htc
  obtain ⟨tb, htb, hlt⟩ := hbc tc htc
  obtain ⟨ta, hta, hlt2⟩ := hab tb htb
  exact ⟨ta, hta, lt_trans hlt2 hlt⟩

theorem split_of_mem_ne_last {α : Type} {l : List α} {d z : α}
    (hd : d ∈ l) (hz : l.getLast? = some z) (hne : d ≠ z) :
    ∃ u v, l = u ++ d :: (v ++ z :: []) := by
  cases List.eq_nil_or_concat l with
  | inl h0 => subst h0; cases hd
  | inr h0 =>
      obtain ⟨L, b, rfl⟩ := h0
      rw [List.concat_eq_append] at *
      rw [List.getLast?_concat] at hz
      cases hz
      have hdL : d ∈ L := by
        rcases List.mem_append.mp hd with h | h
        · exact h
        · simp at h; exact absurd h hne
      obtain ⟨u, v, rfl⟩ := List.append_of_mem hdL
      exact ⟨u, v, by simp⟩

namespace VipM

/-! Rewriting API for the VipMutex effect functions. -/

theorem addReaction_pos_v {r : Reaction} {s : St} (h : res s r.src) :
    addReaction r s = { s with queue := s.queue ++ [r] } := by
  have h' : (s.resolvedAt r.src).isSome = true := h
  unfold addReaction
  simp [h']

theorem addReaction_neg_v {r : Reaction} {s : St} (h : ¬ res s r.src) :
    addReaction r s = { s with waiting := s.waiting ++ [r] } := by
  have h' : (s.resolvedAt r.src).isSome = false := by
    revert h; unfold res; cases (s.resolvedAt r.src).isSome <;> simp
  unfold addReaction
  simp [h']

theorem resolveP_pos_v {p : Nat} {s : St} (h : res s p) :
    resolveP p s = s := by
  have h' : (s.resolvedAt p).isSome = true := h
  unfold resolveP
  simp [h']

theorem resolveP_neg_v {p : Nat} {s : St} (h : ¬ res s p) :
    resolveP p s =
      { s with
        resolvedAt := fun q => if q = p then some s.time else s.resolvedAt q,
        waiting := s.waiting.filter (fun r => ¬ r.src = p),
        queue := s.queue ++ s.waiting.filter (fun r => r.src = p) } := by
  have h' : (s.resolvedAt p).isSome = false := by
    revert h; unfold res; cases (s.resolvedAt p).isSome <;> simp
  unfold resolveP
  simp [h']

theorem upd_same_cl (f : Nat → Client) (c : Nat) (cl : Client) :
    upd f c cl c = cl := by
  unfold upd
  simp

theorem upd_ne_cl (f : Nat → Client) {c d : Nat} (cl : Client) (h : d ≠ c) :
    upd f c cl d = f d := by
  unfold upd
  simp [h]

theorem resolveP_WQ_perm_v (p : Nat) (s : St) :
    ((resolveP p s).waiting ++ (resolveP p s).queue).Perm
      (s.waiting ++ s.queue) := by
  by_cases h : res s p
  · rw [resolveP_pos_v h]
  · rw [resolveP_neg_v h]
    refine .trans (List.Perm.append_left _ List.perm_append_comm) ?_
    rw [← List.append_assoc]
    refine List.Perm.append_right _ ?_
    refine .trans List.perm_append_comm ?_
    have h4 := List.filter_append_perm (fun r => decide (r.src = p)) s.waiting
    simpa [decide_not] using h4

theorem addReaction_WQ_perm (r : Reaction) (s : St) :
    ((addReaction r s).waiting ++ (addReaction r s).queue).Perm
      ((s.waiting ++ s.queue) ++ [r]) := by
  by_cases h : res s r.src
  · rw [addReaction_pos_v h]
    simp [List.append_assoc]
  · rw [addReaction_neg_v h]
    have h2 : ((s.waiting ++ [r]) ++ s.queue).Perm (s.waiting ++ (s.queue ++ [r])) := by
      rw [List.append_assoc]
      exact List.Perm.append_left _ List.perm_append_comm
    simpa [List.append_assoc] using h2

theorem res_resolveP (p : Nat) (s : St) (q : Nat) :
    res (resolveP p s) q ↔ res s q ∨ q = p := by
  by_cases h : res s p
  · rw [resolveP_pos_v h]
    constructor
    · exact fun hq => Or.inl hq
    · rintro (hq | rfl)
      · exact hq
      · exact h
  · rw [resolveP_neg_v h]
    unfold res
    by_cases hqp : q = p <;> simp [hqp]

theorem addReaction_resolvedAt0 (r : Reaction) (s : St) :
    (addReaction r s).resolvedAt = s.resolvedAt := by
  unfold addReaction
  split <;> rfl

theorem res_addReaction (r : Reaction) (s : St) (q : Nat) :
    res (addReaction r s) q ↔ res s q := by
  unfold res
  rw [addReaction_resolvedAt0]

theorem resolveP_at_ne {p q : Nat} (s : St) (h : q ≠ p) :
    (resolveP p s).resolvedAt q = s.resolvedAt q := by
  by_cases hp : res s p
  · rw [resolveP_pos_v hp]
  · rw [resolveP_neg_v hp]
    simp [h]

theorem resolveP_at_self {p : Nat} {s : St} (h : ¬ res s p) :
    (resolveP p s).resolvedAt p = some s.time := by
  rw [resolveP_neg_v h]
  simp

theorem addReaction_clients (r : Reaction) (s : St) :
    (addReaction r s).clients = s.clients := by
  unfold addReaction
  split <;> rfl

theorem resolveP_clients_v (p : Nat) (s : St) :
    (resolveP p s).clients = s.clients := by
  unfold resolveP
  split <;> rfl

theorem vstatus_trans (f : Nat → Client) (a b c : Nat)
    (hab : (f b).status ≠ .queued → (f a).status = .released)
    (hbc : (f c).status ≠ .queued → (f b).status = .released) :
    (f c).status ≠ .queued → (f a).status = .released := by
  intro hc2
  apply hab
  rw [hbc hc2]
  intro hx
  cases hx

end VipM

namespace VipM

/-! Consequences of the invariant used across the preservation proofs. -/

theorem ord_before_released {s : St} (hInv : Inv s) {u v w : List Nat} {x d : Nat}
    (hsplit : s.ordChain = u ++ x :: (v ++ d :: w))
    (hd2 : (s.clients d).status ≠ .queued) : (s.clients x).status = .released :=
  chain_rel_of_split hInv.ordStatusChain
    (fun a b c hab hbc => vstatus_trans s.clients a b c hab hbc)
    u x v d w hsplit hd2

theorem vip_before_released {s : St} (hInv : Inv s) {u v w : List Nat} {x d : Nat}
    (hsplit : s.vipChain = u ++ x :: (v ++ d :: w))
    (hd2 : (s.clients d).status ≠ .queued) : (s.clients x).status = .released :=
  chain_rel_of_split hInv.vipStatusChain
    (fun a b c hab hbc => vstatus_trans s.clients a b c hab hbc)
    u x v d w hsplit hd2

theorem react_client_unique {s : St} (hInv : Inv s) {r1 r2 : Reaction}
    (h1 : r1 ∈ s.waiting ++ s.queue) (h2 : r2 ∈ s.waiting ++ s.queue)
    (hc : r1.client = r2.client) : r1 = r2 := by
  by_contra hne
  have hsym : Symmetric (fun x y : Reaction => x.client ≠ y.client) :=
    fun x y h => fun he => h he.symm
  have := List.Pairwise.forall hsym hInv.reactUnique h1 h2 hne
  exact this hc

theorem reaction_status {s : St} (hInv : Inv s) {r : Reaction}
    (hr : r ∈ s.waiting ++ s.queue) :
    (s.clients r.client).status = .queued ∨
    (s.clients r.client).status = .waitGuard ∨
    (s.clients r.client).status = .releasing := by
  cases r with
  | thenKey src c => exact Or.inl (hInv.thenKeyShape src c hr).1
  | vipCheck src c p g => exact Or.inr (Or.inl (hInv.vipCheckShape src c p g hr).1)
  | relDrain src c p g => exact Or.inr (Or.inr (hInv.relDrainShape src c p g hr).1)
  | relFinish src c p g => exact Or.inr (Or.inr (hInv.relFinishShape src c p g hr).1)

theorem releasing_unique {s : St} (hInv : Inv s) {c d : Nat}
    (hc : (s.clients c).status = .releasing)
    (hd : (s.clients d).status = .releasing) : c = d := by
  by_contra hne
  have hcne : (s.clients c).status ≠ .idle := by rw [hc]; intro h; cases h
  have hdne : (s.clients d).status ≠ .idle := by rw [hd]; intro h; cases h
  have hcmem : c ∈ s.ordChain := (hInv.ordMem c).mpr
    ⟨hInv.ordKindLane c (hInv.relKind c hc) hcne, hcne, by rw [hc]; intro h; cases h⟩
  have hdmem : d ∈ s.ordChain := (hInv.ordMem d).mpr
    ⟨hInv.ordKindLane d (hInv.relKind d hd) hdne, hdne, by rw [hd]; intro h; cases h⟩
  rcases mem_mem_split hcmem hdmem hne with ⟨u, v, w, hsp⟩ | ⟨u, v, w, hsp⟩
  · have := ord_before_released hInv hsp (by rw [hd]; intro h; cases h)
    rw [hc] at this
    cases this
  · have := ord_before_released hInv hsp (by rw [hc]; intro h; cases h)
    rw [hd] at this
    cases this

theorem guard_active_unique {s : St} (hInv : Inv s) {e1 e2 : GEntry}
    (h1 : e1 ∈ s.guardChain) (h2 : e2 ∈ s.guardChain)
    (hs1 : res s e1.sg) (hg1 : ¬ res s e1.g)
    (hs2 : res s e2.sg) (hg2 : ¬ res s e2.g) : e1 = e2 := by
  by_contra hne
  have key : ∀ (ea eb : GEntry), ∀ u v w, s.guardChain = u ++ ea :: (v ++ eb :: w) →
      res s eb.sg → ¬ res s ea.g → False := by
    intro ea eb u v w hsp hsb hga
    have hchain := hInv.guardLink
    rw [hsp] at hchain
    rw [show u ++ ea :: (v ++ eb :: w) = (u ++ ea :: v) ++ eb :: w by simp] at hchain
    rcases List.chain'_append.mp hchain with ⟨hl, _, hcross⟩
    obtain ⟨z, hz⟩ : ∃ z, (u ++ ea :: v).getLast? = some z := by
      cases hzc : (u ++ ea :: v).getLast? with
      | none =>
          rw [List.getLast?_eq_none_iff] at hzc
          simp at hzc
      | some z => exact ⟨z, rfl⟩
    have hlink : eb.sg = z.g := hcross z hz eb (by simp)
    have hzg : res s z.g := by rw [← hlink]; exact hsb
    have hz2 : (ea :: v).getLast? = some z := by
      rw [← List.getLast?_append_of_ne_nil u (List.cons_ne_nil ea v)]
      exact hz
    rcases List.mem_cons.mp (mem_of_getLast?_eq hz2) with rfl | hzv
    · exact hga hzg
    · obtain ⟨u1, v1, rfl⟩ := List.append_of_mem hzv
      have hsp2 : s.guardChain = u ++ ea :: (u1 ++ z :: (v1 ++ eb :: w)) := by
        rw [hsp]; simp
      have hREL := chain_rel_of_split hInv.guardResChain
        (fun a b c hab hbc h => hab (hbc h)) u ea u1 z (v1 ++ eb :: w)
        (by rw [hsp2])
      exact hga (hREL hzg)
  rcases mem_mem_split h1 h2 hne with ⟨u, v, w, hsp⟩ | ⟨u, v, w, hsp⟩
  · exact key e1 e2 u v w hsp hs2 hg1
  · exact key e2 e1 u v w hsp hs1 hg2

end VipM

namespace VipM

theorem vipChain_released {s : St} (hInv : Inv s) (hres : res s s.vipTail) :
    ∀ d ∈ s.vipChain, (s.clients d).status = .released := by
  intro d hd
  cases hvc : s.vipChain.getLast? with
  | none =>
      rw [List.getLast?_eq_none_iff] at hvc
      rw [hvc] at hd
      cases hd
  | some z =>
      have hzmem : z ∈ s.vipChain := mem_of_getLast?_eq hvc
      have hztail : s.vipTail = (s.clients z).myLock := by
        rw [hInv.vipTailEq, hvc]
        rfl
      have hzne : (s.clients z).status ≠ .idle := by
        have := (hInv.vipMem z).mp (List.mem_append.mpr (Or.inr hzmem))
        exact this.2.1
      have hzrel : (s.clients z).status = .released := by
        apply (hInv.statusRes z hzne).mp
        rw [← hztail]
        exact hres
      by_cases hdz : d = z
      · rw [hdz]; exact hzrel
      · obtain ⟨u, v, hsp⟩ := split_of_mem_ne_last hd hvc hdz
        exact vip_before_released hInv hsp (by rw [hzrel]; intro h; cases h)

theorem count_zero_all_done {s : St} (hInv : Inv s) (h : s.count ≤ 0) :
    ∀ x ∈ s.ordChain, (s.clients x).status = .released ∧ (s.clients x).kind = .ordKey := by
  have hc := hInv.countEq
  have hlen : (s.ordChain.filter (fun c =>
      ¬((s.clients c).status = .released ∧ (s.clients c).kind = .ordKey))).length = 0 := by
    omega
  rw [List.length_eq_zero] at hlen
  intro x hx
  by_contra hcon
  have : x ∈ s.ordChain.filter (fun c =>
      ¬((s.clients c).status = .released ∧ (s.clients c).kind = .ordKey)) := by
    rw [List.mem_filter]
    refine ⟨hx, ?_⟩
    simp only [decide_eq_true_eq]
    exact hcon
  rw [hlen] at this
  cases this

theorem res_lockTail_of_count_zero {s : St} (hInv : Inv s) (h : s.count ≤ 0) :
    res s s.lockTail := by
  cases hoc : s.ordChain.getLast? with
  | none =>
      have : s.lockTail = 0 := by
        rw [hInv.lockTailEq, hoc]
        rfl
      rw [this]
      exact hInv.resZero.1
  | some z =>
      have hzmem : z ∈ s.ordChain := mem_of_getLast?_eq hoc
      have hzrel := (count_zero_all_done hInv h z hzmem).1
      have hzne : (s.clients z).status ≠ .idle := by rw [hzrel]; intro hh; cases hh
      have : s.lockTail = (s.clients z).myLock := by
        rw [hInv.lockTailEq, hoc]
        rfl
      rw [this]
      exact (hInv.statusRes z hzne).mpr hzrel

theorem no_ord_thenKey_hot_while_releasing {s : St} (hInv : Inv s) {c : Nat}
    (hc : (s.clients c).status = .releasing) {src d : Nat}
    (hd : (.thenKey src d : Reaction) ∈ s.queue)
    (hlane : (s.clients d).lane = .ordL) : False := by
  have hdWQ : (.thenKey src d : Reaction) ∈ s.waiting ++ s.queue :=
    List.mem_append.mpr (Or.inr hd)
  obtain ⟨hdq, hsrc⟩ := hInv.thenKeyShape src d hdWQ
  have hhot : res s src := hInv.hotRes _ hd
  have hdne : (s.clients d).status ≠ .idle := by rw [hdq]; intro h; cases h
  have hdmem : d ∈ s.ordChain := (hInv.ordMem d).mpr
    ⟨hlane, hdne, by rw [hdq]; intro h; cases h⟩
  have hcne : (s.clients c).status ≠ .idle := by rw [hc]; intro h; cases h
  have hcmem : c ∈ s.ordChain := (hInv.ordMem c).mpr
    ⟨hInv.ordKindLane c (hInv.relKind c hc) hcne, hcne, by rw [hc]; intro h; cases h⟩
  have hcd : c ≠ d := by
    intro h
    rw [h, hdq] at hc
    cases hc
  obtain ⟨u, v, hsplit⟩ := List.append_of_mem hdmem
  rcases List.mem_append.mp (hsplit ▸ hcmem) with hcu | hcv
  · -- c strictly before d: compare c with the predecessor of d
    cases List.eq_nil_or_concat u with
    | inl h0 =>
        subst h0
        simp at hcu
    | inr h0 =>
        obtain ⟨u1, z, rfl⟩ := h0
        rw [List.concat_eq_append] at *
        have hsp2 : s.ordChain = u1 ++ z :: d :: v := by rw [hsplit]; simp
        have hadj : (s.clients d).srcP = (s.clients z).myLock := by
          have hch := hInv.ordLink
          rw [hsp2] at hch
          exact (List.chain'_append_cons_cons.mp hch).2.1
        have hzmem : z ∈ s.ordChain := by rw [hsp2]; simp
        have hzne : (s.clients z).status ≠ .idle := ((hInv.ordMem z).mp hzmem).2.1
        have hzrel : (s.clients z).status = .released := by
          apply (hInv.statusRes z hzne).mp
          rw [← hadj, ← hsrc]
          exact hhot
        rcases List.mem_append.mp hcu with hcu1 | hcz
        · obtain ⟨u2, v2, rfl⟩ := List.append_of_mem hcu1
          have hsp3 : s.ordChain = u2 ++ c :: (v2 ++ z :: (d :: v)) := by
            rw [hsp2]; simp
          have := ord_before_released hInv hsp3 (by rw [hzrel]; intro h; cases h)
          rw [hc] at this
          cases this
        · have : c = z := by simpa using hcz
          rw [this, hzrel] at hc
          cases hc
  · rcases List.mem_cons.mp hcv with rfl | hcv2
    · exact hcd rfl
    · obtain ⟨u2, v2, rfl⟩ := List.append_of_mem hcv2
      have hsp3 : s.ordChain = u ++ d :: (u2 ++ c :: v2) := by rw [hsplit]
      have := ord_before_released hInv hsp3 (by rw [hc]; intro h; cases h)
      rw [hdq] at this
      cases this

theorem no_relFinish_of_vipCheck_hot {s : St} (hInv : Inv s) {src c p g : Nat}
    (hq : (.vipCheck src c p g : Reaction) ∈ s.queue) :
    ∀ src2 c2 p2 g2, (.relFinish src2 c2 p2 g2 : Reaction) ∉ s.waiting ++ s.queue := by
  intro src2 c2 p2 g2 hrf
  have hWQ : (.vipCheck src c p g : Reaction) ∈ s.waiting ++ s.queue :=
    List.mem_append.mpr (Or.inr hq)
  obtain ⟨-, -, hent⟩ := hInv.vipCheckShape src c p g hWQ
  have hhot : res s (⟨c, g, src, .chk⟩ : GEntry).sg := hInv.hotRes _ hq
  have hgne : ¬ res s (⟨c, g, src, .chk⟩ : GEntry).g := by
    intro hres
    exact hInv.guardDoneNoReact _ hent hres _ hWQ rfl
  obtain ⟨-, -, -, ⟨sg2, hent2, hsg2⟩, -⟩ := hInv.relFinishShape src2 c2 p2 g2 hrf
  have hgne2 : ¬ res s (⟨c2, g2, sg2, .rel⟩ : GEntry).g := by
    intro hres
    exact hInv.guardDoneNoReact _ hent2 hres _ hrf rfl
  have := guard_active_unique hInv hent hent2 hhot hgne hsg2 hgne2
  cases this

end VipM

namespace VipM

theorem inv_init : Inv init := by
  refine {
    ordNodup := List.nodup_nil, vipNodup := List.nodup_nil,
    ordMem := ?ordMem, vipMem := ?vipMem, vipDoneRel := ?vipDoneRel, vipKind := ?vipKind, relKind := ?relKind,
    statusRes := ?statusRes, admSrcRes := ?admSrcRes,
    lockTailEq := rfl, vipTailEq := rfl, guardTailEq := rfl,
    ordLink := List.chain'_nil, ordHead := ?ordHead, vipLink := List.chain'_nil,
    vipHeadLink := ?vipHeadLink, ordStatusChain := List.chain'_nil,
    vipStatusChain := List.chain'_nil,
    thenKeyShape := ?thenKeyShape, vipCheckShape := ?vipCheckShape, relDrainShape := ?relDrainShape,
    relFinishShape := ?relFinishShape, queuedThenKey := ?queuedThenKey, waitGuardCheck := ?waitGuardCheck,
    releasingReact := ?releasingReact, reactUnique := List.Pairwise.nil,
    hotRes := ?hotRes, parkedNotRes := ?parkedNotRes,
    guardNodupG := List.nodup_nil, guardLink := List.chain'_nil, guardHead := ?guardHead,
    guardDoneNoReact := ?guardDoneNoReact, guardResChain := List.chain'_nil,
    countEq := rfl, vipNonempty := ?vipNonempty, vipHeadRes := ?vipHeadRes, vipHeadNotLock := ?vipHeadNotLock,
    vipHeadNotGuard := ?vipHeadNotGuard, myLockNotGuard := ?myLockNotGuard, lockInj := ?lockInj, lockBound := ?lockBound,
    guardBound := ?guardBound, vipHeadBound := by decide, fresh := ?fresh,
    nextPBound := by decide, resZero := by decide, timeRes := ?timeRes, timeAdm := ?timeAdm,
    timeApp := ?timeApp, timeDrain := ?timeDrain, admitSome := ?admitSome, admitNone := ?admitNone,
    ordAdmitChain := List.chain'_nil, vipAdmitChain := List.chain'_nil,
    drainOrd := ?drainOrd, logNone := ?logNone, logSome := ?logSome, holdOne := ?holdOne,
    vipActiveHead := ?vipActiveHead, ordKindLane := ?ordKindLane, waitGuardLane := ?waitGuardLane, drainNone := ?drainNone,
    relDrained := ?relDrained, entryNotIdle := ?entryNotIdle, chkUnique := ?chkUnique, chkApp := ?chkApp,
    guardTimeChain := List.chain'_nil, vipAppSome := ?vipAppSome,
    vipAppChain := List.chain'_nil, appStatus := ?appStatus }
  case ordMem =>
    intro c
    constructor
    · intro h; cases h
    · rintro ⟨-, h2, -⟩; exact absurd rfl h2
  case vipMem =>
    intro c
    constructor
    · intro h; cases h
    · rintro ⟨-, h2, -⟩; exact absurd rfl h2
  case vipDoneRel => intro c h; cases h
  case vipKind => intro c _ h2; exact absurd rfl h2
  case relKind => intro c h; cases h
  case statusRes => intro c h; exact absurd rfl h
  case admSrcRes => rintro c (h | h | h) <;> cases h
  case ordHead => intro c h; cases h
  case vipHeadLink => intro c h; cases h
  case thenKeyShape => intro src c h; cases h
  case vipCheckShape => intro src c p g h; cases h
  case relDrainShape => intro src c p g h; cases h
  case relFinishShape => intro src c p g h; cases h
  case queuedThenKey => intro c h; cases h
  case waitGuardCheck => intro c h; cases h
  case releasingReact => intro c h; cases h
  case hotRes => intro r h; cases h
  case parkedNotRes => intro r h; cases h
  case guardHead => intro e h; cases h
  case guardDoneNoReact => intro e h; cases h
  case vipNonempty => intro h; exact absurd rfl h
  case vipHeadRes => intro h; exact absurd h (by decide)
  case vipHeadNotLock => intro c h; exact absurd rfl h
  case vipHeadNotGuard => intro e h; cases h
  case myLockNotGuard => intro c h; exact absurd rfl h
  case lockInj => intro c d h; exact absurd rfl h
  case lockBound => intro c h; exact absurd rfl h
  case guardBound => intro e h; cases h
  case fresh =>
    intro p hp
    have hp3 : 3 ≤ p := hp
    show (if p = 0 ∨ p = 1 then some 0 else none) = none
    rw [if_neg]
    omega
  case timeRes =>
    intro p t h
    by_cases hp : p = 0 ∨ p = 1
    · have h2 : some 0 = some t := by
        rw [show init.resolvedAt p = (if p = 0 ∨ p = 1 then some 0 else none) from rfl,
          if_pos hp] at h
        exact h
      injection h2 with h3
      show t < 1
      omega
    · rw [show init.resolvedAt p = (if p = 0 ∨ p = 1 then some 0 else none) from rfl,
        if_neg hp] at h
      cases h
  case timeAdm => intro c t h; cases h
  case timeApp => intro c t h; cases h
  case timeDrain => intro c t h; cases h
  case admitSome => rintro c (h | h | h) <;> cases h
  case admitNone => intro c _; rfl
  case drainOrd => intro c h; exact absurd rfl h
  case logNone => intro c _; rfl
  case logSome => intro c h; exact absurd rfl h
  case holdOne => intro c d h; cases h
  case vipActiveHead => intro d h; cases h
  case ordKindLane => intro c _ _; rfl
  case waitGuardLane => intro c h; cases h
  case drainNone => intro c _; rfl
  case relDrained => intro c h; cases h
  case entryNotIdle => intro e h; cases h
  case chkUnique => intro e1 h; cases h
  case chkApp => intro e h; cases h
  case vipAppSome => intro c h; cases h
  case appStatus => intro c h; exact absurd rfl h

end VipM

namespace VipM

theorem resolveP_count (p : Nat) (s : St) : (resolveP p s).count = s.count := by
  unfold resolveP; split <;> rfl

theorem resolveP_ordChain (p : Nat) (s : St) : (resolveP p s).ordChain = s.ordChain := by
  unfold resolveP; split <;> rfl

theorem resolveP_vipChain (p : Nat) (s : St) : (resolveP p s).vipChain = s.vipChain := by
  unfold resolveP; split <;> rfl

theorem resolveP_vipDone (p : Nat) (s : St) : (resolveP p s).vipDone = s.vipDone := by
  unfold resolveP; split <;> rfl

theorem resolveP_guardChain (p : Nat) (s : St) : (resolveP p s).guardChain = s.guardChain := by
  unfold resolveP; split <;> rfl

theorem resolveP_log (p : Nat) (s : St) : (resolveP p s).log = s.log := by
  unfold resolveP; split <;> rfl

theorem resolveP_lockTail (p : Nat) (s : St) : (resolveP p s).lockTail = s.lockTail := by
  unfold resolveP; split <;> rfl

theorem resolveP_vipHead (p : Nat) (s : St) : (resolveP p s).vipHead = s.vipHead := by
  unfold resolveP; split <;> rfl

theorem resolveP_vipTail (p : Nat) (s : St) : (resolveP p s).vipTail = s.vipTail := by
  unfold resolveP; split <;> rfl

theorem resolveP_guardTail (p : Nat) (s : St) : (resolveP p s).guardTail = s.guardTail := by
  unfold resolveP; split <;> rfl

theorem resolveP_nextP_v (p : Nat) (s : St) : (resolveP p s).nextP = s.nextP := by
  unfold resolveP; split <;> rfl

theorem resolveP_time_v (p : Nat) (s : St) : (resolveP p s).time = s.time := by
  unfold resolveP; split <;> rfl

theorem hot_addReaction {s : St} (r : Reaction)
    (h : ∀ x ∈ s.queue, res s x.src) :
    ∀ x ∈ (addReaction r s).queue, res (addReaction r s) x.src := by
  intro x hx
  rw [res_addReaction]
  by_cases hr : res s r.src
  · rw [addReaction_pos_v hr] at hx
    rcases List.mem_append.mp hx with hx2 | hx2
    · exact h x hx2
    · have : x = r := by simpa using hx2
      rw [this]
      exact hr
  · rw [addReaction_neg_v hr] at hx
    exact h x hx

theorem parked_addReaction {s : St} (r : Reaction)
    (h : ∀ x ∈ s.waiting, ¬ res s x.src) :
    ∀ x ∈ (addReaction r s).waiting, ¬ res (addReaction r s) x.src := by
  intro x hx
  rw [res_addReaction]
  by_cases hr : res s r.src
  · rw [addReaction_pos_v hr] at hx
    exact h x hx
  · rw [addReaction_neg_v hr] at hx
    rcases List.mem_append.mp hx with hx2 | hx2
    · exact h x hx2
    · have : x = r := by simpa using hx2
      rw [this]
      exact hr

theorem hot_resolveP {s : St} (p : Nat)
    (h : ∀ x ∈ s.queue, res s x.src) :
    ∀ x ∈ (resolveP p s).queue, res (resolveP p s) x.src := by
  intro x hx
  rw [res_resolveP]
  by_cases hp : res s p
  · rw [resolveP_pos_v hp] at hx
    exact Or.inl (h x hx)
  · rw [resolveP_neg_v hp] at hx
    rcases List.mem_append.mp hx with hx2 | hx2
    · exact Or.inl (h x hx2)
    · rw [List.mem_filter] at hx2
      exact Or.inr (by simpa using hx2.2)

theorem parked_resolveP {s : St} (p : Nat)
    (h : ∀ x ∈ s.waiting, ¬ res s x.src) :
    ∀ x ∈ (resolveP p s).waiting, ¬ res (resolveP p s) x.src := by
  intro x hx
  rw [res_resolveP]
  by_cases hp : res s p
  · rw [resolveP_pos_v hp] at hx
    rintro (hr | rfl)
    · exact h x hx hr
    · exact h x hx hp
  · rw [resolveP_neg_v hp] at hx
    rw [List.mem_filter] at hx
    rintro (hr | hsp)
    · exact h x hx.1 hr
    · have := hx.2
      simp [hsp] at this

/-- Unfolding of doLock into a single state literal. -/
theorem doLock_eq (c : Nat) (s : St) :
    doLock c s = { s with
      nextP := s.nextP + 1,
      waiting := if res s s.lockTail then s.waiting
        else s.waiting ++ [.thenKey s.lockTail c],
      queue := if res s s.lockTail then s.queue ++ [.thenKey s.lockTail c]
        else s.queue,
      lockTail := s.nextP,
      count := s.count + 1,
      clients := upd s.clients c
        { status := .queued, lane := .ordL, kind := .ordKey, myLock := s.nextP,
          srcP := s.lockTail, appendedAt := some s.time },
      ordChain := s.ordChain ++ [c],
      time := s.time + 1 } := by
  by_cases h : res s s.lockTail
  · rw [if_pos h, if_pos h]
    unfold doLock
    rw [@addReaction_pos_v (.thenKey s.lockTail c) { s with nextP := s.nextP + 1 } (by exact h)]
  · rw [if_neg h, if_neg h]
    unfold doLock
    rw [@addReaction_neg_v (.thenKey s.lockTail c) { s with nextP := s.nextP + 1 } (by exact h)]

/-- Unfolding of doLockVip into a single state literal. -/
theorem doLockVip_eq (c : Nat) (s : St) :
    doLockVip c s = { s with
      nextP := s.nextP + 2,
      waiting := if res s s.guardTail then s.waiting
        else s.waiting ++ [.vipCheck s.guardTail c s.nextP (s.nextP + 1)],
      queue := if res s s.guardTail then
        s.queue ++ [.vipCheck s.guardTail c s.nextP (s.nextP + 1)] else s.queue,
      guardTail := s.nextP + 1,
      clients := upd s.clients c
        { status := .waitGuard, lane := .vipL, kind := .simpleKey, myLock := s.nextP,
          srcP := 0, appendedAt := none },
      guardChain := s.guardChain ++ [⟨c, s.nextP + 1, s.guardTail, .chk⟩],
      time := s.time + 1 } := by
  by_cases h : res s s.guardTail
  · rw [if_pos h, if_pos h]
    unfold doLockVip
    rw [@addReaction_pos_v (.vipCheck s.guardTail c s.nextP (s.nextP + 1))
      { s with nextP := s.nextP + 2 } (by exact h)]
  · rw [if_neg h, if_neg h]
    unfold doLockVip
    rw [@addReaction_neg_v (.vipCheck s.guardTail c s.nextP (s.nextP + 1))
      { s with nextP := s.nextP + 2 } (by exact h)]

/-- Unfolding of doReleaseOrd into a single state literal. -/
theorem doReleaseOrd_eq (c : Nat) (s : St) :
    doReleaseOrd c s = { s with
      nextP := s.nextP + 1,
      waiting := if res s s.guardTail then s.waiting
        else s.waiting ++ [.relDrain s.guardTail c (s.clients c).myLock s.nextP],
      queue := if res s s.guardTail then
        s.queue ++ [.relDrain s.guardTail c (s.clients c).myLock s.nextP] else s.queue,
      guardTail := s.nextP,
      clients := upd s.clients c { s.clients c with
        status := if (s.clients c).status = .holding then .releasing
          else (s.clients c).status },
      guardChain := s.guardChain ++ [⟨c, s.nextP, s.guardTail, .rel⟩],
      time := s.time + 1 } := by
  by_cases h : res s s.guardTail
  · rw [if_pos h, if_pos h]
    unfold doReleaseOrd
    rw [@addReaction_pos_v (.relDrain s.guardTail c (s.clients c).myLock s.nextP)
      { s with nextP := s.nextP + 1 } (by exact h)]
  · rw [if_neg h, if_neg h]
    unfold doReleaseOrd
    rw [@addReaction_neg_v (.relDrain s.guardTail c (s.clients c).myLock s.nextP)
      { s with nextP := s.nextP + 1 } (by exact h)]

/-- Unfolding of doReleaseSimple into a single state literal. -/
theorem doReleaseSimple_eq (c : Nat) (s : St) :
    doReleaseSimple c s = { s with
      resolvedAt := if res s (s.clients c).myLock then s.resolvedAt
        else fun q => if q = (s.clients c).myLock then some s.time else s.resolvedAt q,
      waiting := if res s (s.clients c).myLock then s.waiting
        else s.waiting.filter (fun r => ¬ r.src = (s.clients c).myLock),
      queue := if res s (s.clients c).myLock then s.queue
        else s.queue ++ s.waiting.filter (fun r => r.src = (s.clients c).myLock),
      clients := upd s.clients c { s.clients c with status := .released },
      time := s.time + 1 } := by
  by_cases h : res s (s.clients c).myLock
  · rw [if_pos h, if_pos h, if_pos h]
    unfold doReleaseSimple
    rw [resolveP_pos_v h]
  · rw [if_neg h, if_neg h, if_neg h]
    unfold doReleaseSimple
    rw [resolveP_neg_v h]

end VipM

namespace VipM

theorem inv_doLock {s : St} {c : Nat} (hInv : Inv s)
    (hc : (s.clients c).status = .idle) : Inv (doLock c s) := by
  have hcni : c ∉ s.ordChain := fun hmem => ((hInv.ordMem c).mp hmem).2.1 hc
  have hcnv : c ∉ s.vipDone ++ s.vipChain := fun hmem => ((hInv.vipMem c).mp hmem).2.1 hc
  have hcng : ∀ e ∈ s.guardChain, e.c ≠ c :=
    fun e he hcon => hInv.entryNotIdle e he (hcon ▸ hc)
  have hfreshL : ¬ res s s.nextP := by
    unfold res
    rw [hInv.fresh s.nextP le_rfl]
    simp
  have hnoc : ∀ r ∈ s.waiting ++ s.queue, r.client ≠ c := by
    intro r hr hcon
    rcases reaction_status hInv hr with h | h | h <;> rw [hcon, hc] at h <;> cases h
  have hlastSrc : ∀ z, s.ordChain.getLast? = some z →
      s.lockTail = (s.clients z).myLock := by
    intro z hz
    rw [hInv.lockTailEq, hz]
    rfl
  have hWQmem : ∀ x : Reaction,
      x ∈ (if res s s.lockTail then s.waiting
          else s.waiting ++ [(.thenKey s.lockTail c : Reaction)]) ++
        (if res s s.lockTail then s.queue ++ [(.thenKey s.lockTail c : Reaction)]
          else s.queue) ↔
      x ∈ s.waiting ++ s.queue ∨ x = .thenKey s.lockTail c := by
    intro x
    by_cases hp : res s s.lockTail <;> simp [hp, List.mem_append] <;> tauto
  rw [doLock_eq]
  constructor
  all_goals try dsimp only
  case ordNodup =>
    refine List.Nodup.append hInv.ordNodup (by simp) ?_
    intro a ha hb
    simp at hb
    subst hb
    exact hcni ha
  case vipNodup => exact hInv.vipNodup
  case ordMem =>
    intro d
    by_cases hdc : d = c
    · subst hdc
      rw [upd_same_cl]
      refine ⟨fun _ => ⟨rfl, (by intro h; cases h), (by intro h; cases h)⟩, fun _ => ?_⟩
      exact List.mem_append.mpr (Or.inr (List.mem_singleton.mpr rfl))
    · rw [upd_ne_cl _ _ hdc]
      simp only [List.mem_append, List.mem_singleton, hdc, or_false]
      exact hInv.ordMem d
  case vipMem =>
    intro d
    by_cases hdc : d = c
    · subst hdc
      rw [upd_same_cl]
      refine ⟨fun h => absurd h hcnv, ?_⟩
      rintro ⟨h1, -, -⟩
      cases h1
    · rw [upd_ne_cl _ _ hdc]
      exact hInv.vipMem d
  case vipDoneRel =>
    intro d hd
    have hdc : d ≠ c := fun h => hcnv (h ▸ List.mem_append.mpr (Or.inl hd))
    rw [upd_ne_cl _ _ hdc]
    exact hInv.vipDoneRel d hd
  case vipKind =>
    intro d h1 h2
    by_cases hdc : d = c
    · subst hdc
      rw [upd_same_cl] at h1
      cases h1
    · rw [upd_ne_cl _ _ hdc] at h1 h2 ⊢
      exact hInv.vipKind d h1 h2
  case relKind =>
    intro d h1
    by_cases hdc : d = c
    · subst hdc
      rw [upd_same_cl] at h1
      cases h1
    · rw [upd_ne_cl _ _ hdc] at h1 ⊢
      exact hInv.relKind d h1
  case statusRes =>
    intro d hne
    by_cases hdc : d = c
    · subst hdc
      rw [upd_same_cl] at hne ⊢
      constructor
      · intro hp
        exact absurd hp hfreshL
      · intro hcon
        cases hcon
    · rw [upd_ne_cl _ _ hdc] at hne ⊢
      exact hInv.statusRes d hne
  case admSrcRes =>
    intro d hd
    by_cases hdc : d = c
    · subst hdc
      rw [upd_same_cl] at hd
      rcases hd with h | h | h <;> cases h
    · rw [upd_ne_cl _ _ hdc] at hd ⊢
      exact hInv.admSrcRes d hd
  case lockTailEq =>
    rw [List.getLast?_concat]
    show s.nextP = (upd s.clients c _ c).myLock
    rw [upd_same_cl]
  case vipTailEq =>
    cases hvc : s.vipChain.getLast? with
    | none =>
        rw [hInv.vipTailEq, hvc]
        rfl
    | some z =>
        have hzc : z ≠ c := fun h =>
          hcnv (h ▸ List.mem_append.mpr (Or.inr (mem_of_getLast?_eq hvc)))
        rw [hInv.vipTailEq, hvc]
        show (s.clients z).myLock = (upd s.clients c _ z).myLock
        rw [upd_ne_cl _ _ hzc]
  case guardTailEq => exact hInv.guardTailEq
  case ordLink =>
    apply chain'_concat_of
    · refine chain'_of_eq_on hInv.ordLink ?_
      intro a ha b hb hab
      have hac : a ≠ c := fun h => hcni (h ▸ ha)
      have hbc : b ≠ c := fun h => hcni (h ▸ hb)
      rw [upd_ne_cl _ _ hbc, upd_ne_cl _ _ hac]
      exact hab
    · intro z hz
      have hzc : z ≠ c := fun h => hcni (h ▸ mem_of_getLast?_eq hz)
      rw [upd_same_cl, upd_ne_cl _ _ hzc]
      exact hlastSrc z hz
  case ordHead =>
    intro d hd
    cases hoc : s.ordChain with
    | nil =>
        rw [hoc] at hd
        simp at hd
        subst hd
        rw [upd_same_cl]
        show s.lockTail = 0
        rw [hInv.lockTailEq, show s.ordChain.getLast? = none from by rw [hoc]; rfl]
        rfl
    | cons h0 ht =>
        rw [hoc] at hd
        simp at hd
        subst hd
        have h0mem : h0 ∈ s.ordChain := by rw [hoc]; exact List.mem_cons_self _ _
        have h0c : h0 ≠ c := fun h => hcni (h ▸ h0mem)
        rw [upd_ne_cl _ _ h0c]
        exact hInv.ordHead h0 (by rw [hoc]; rfl)
  case vipLink =>
    refine chain'_of_eq_on hInv.vipLink ?_
    intro a ha b hb hab
    have hac : a ≠ c := fun h => hcnv (h ▸ List.mem_append.mpr (Or.inr ha))
    have hbc : b ≠ c := fun h => hcnv (h ▸ List.mem_append.mpr (Or.inr hb))
    rw [upd_ne_cl _ _ hbc, upd_ne_cl _ _ hac]
    exact hab
  case vipHeadLink =>
    intro d hd
    have hdc : d ≠ c := fun h =>
      hcnv (h ▸ List.mem_append.mpr (Or.inr (List.mem_of_mem_head? hd)))
    rw [upd_ne_cl _ _ hdc]
    exact hInv.vipHeadLink d hd
  case ordStatusChain =>
    apply chain'_concat_of
    · refine chain'_of_eq_on hInv.ordStatusChain ?_
      intro a ha b hb hab
      have hac : a ≠ c := fun h => hcni (h ▸ ha)
      have hbc : b ≠ c := fun h => hcni (h ▸ hb)
      rw [upd_ne_cl _ _ hbc, upd_ne_cl _ _ hac]
      exact hab
    · intro z hz
      rw [upd_same_cl]
      intro hcon
      exact absurd rfl hcon
  case vipStatusChain =>
    refine chain'_of_eq_on hInv.vipStatusChain ?_
    intro a ha b hb hab
    have hac : a ≠ c := fun h => hcnv (h ▸ List.mem_append.mpr (Or.inr ha))
    have hbc : b ≠ c := fun h => hcnv (h ▸ List.mem_append.mpr (Or.inr hb))
    rw [upd_ne_cl _ _ hbc, upd_ne_cl _ _ hac]
    exact hab
  case thenKeyShape =>
    intro src d hr
    rcases (hWQmem _).mp hr with hro | hrn
    · have hdc : d ≠ c := hnoc _ hro
      rw [upd_ne_cl _ _ hdc]
      exact hInv.thenKeyShape src d hro
    · cases hrn
      rw [upd_same_cl]
      exact ⟨rfl, rfl⟩
  case vipCheckShape =>
    intro src d p g hr
    rcases (hWQmem _).mp hr with hro | hrn
    · have hdc : d ≠ c := hnoc _ hro
      rw [upd_ne_cl _ _ hdc]
      exact hInv.vipCheckShape src d p g hro
    · cases hrn
  case relDrainShape =>
    intro src d p g hr
    rcases (hWQmem _).mp hr with hro | hrn
    · have hdc : d ≠ c := hnoc _ hro
      rw [upd_ne_cl _ _ hdc]
      exact hInv.relDrainShape src d p g hro
    · cases hrn
  case relFinishShape =>
    intro src d p g hr
    rcases (hWQmem _).mp hr with hro | hrn
    · have hdc : d ≠ c := hnoc _ hro
      rw [upd_ne_cl _ _ hdc]
      exact hInv.relFinishShape src d p g hro
    · cases hrn
  case queuedThenKey =>
    intro d hd
    by_cases hdc : d = c
    · subst hdc
      rw [upd_same_cl]
      exact (hWQmem _).mpr (Or.inr rfl)
    · rw [upd_ne_cl _ _ hdc] at hd ⊢
      exact (hWQmem _).mpr (Or.inl (hInv.queuedThenKey d hd))
  case waitGuardCheck =>
    intro d hd
    by_cases hdc : d = c
    · subst hdc
      rw [upd_same_cl] at hd
      cases hd
    · rw [upd_ne_cl _ _ hdc] at hd ⊢
      obtain ⟨src, g, hm⟩ := hInv.waitGuardCheck d hd
      exact ⟨src, g, (hWQmem _).mpr (Or.inl hm)⟩
  case releasingReact =>
    intro d hd
    by_cases hdc : d = c
    · subst hdc
      rw [upd_same_cl] at hd
      cases hd
    · rw [upd_ne_cl _ _ hdc] at hd ⊢
      obtain ⟨src, g, hm | hm⟩ := hInv.releasingReact d hd
      · exact ⟨src, g, Or.inl ((hWQmem _).mpr (Or.inl hm))⟩
      · exact ⟨src, g, Or.inr ((hWQmem _).mpr (Or.inl hm))⟩
  case reactUnique =>
    have htarget : ((s.waiting ++ s.queue) ++
        [(.thenKey s.lockTail c : Reaction)]).Pairwise
          (fun r1 r2 => r1.client ≠ r2.client) := by
      rw [List.pairwise_append]
      refine ⟨hInv.reactUnique, by simp, ?_⟩
      intro r hr y hy
      simp at hy
      subst hy
      exact hnoc r hr
    by_cases hp : res s s.lockTail
    · rw [if_pos hp, if_pos hp, ← List.append_assoc]
      exact htarget
    · rw [if_neg hp, if_neg hp]
      have hperm : ((s.waiting ++ [(.thenKey s.lockTail c : Reaction)]) ++ s.queue).Perm
          ((s.waiting ++ s.queue) ++ [(.thenKey s.lockTail c : Reaction)]) := by
        rw [List.append_assoc, List.append_assoc]
        exact List.Perm.append_left _ List.perm_append_comm
      exact (List.Perm.pairwise_iff (fun h => Ne.symm h) hperm).mpr htarget
  case hotRes =>
    intro r hr
    by_cases hp : res s s.lockTail
    · rw [if_pos hp] at hr
      rcases List.mem_append.mp hr with h | h
      · exact hInv.hotRes r h
      · simp at h
        subst h
        exact hp
    · rw [if_neg hp] at hr
      exact hInv.hotRes r hr
  case parkedNotRes =>
    intro r hr
    by_cases hp : res s s.lockTail
    · rw [if_pos hp] at hr
      exact hInv.parkedNotRes r hr
    · rw [if_neg hp] at hr
      rcases List.mem_append.mp hr with h | h
      · exact hInv.parkedNotRes r h
      · simp at h
        subst h
        exact hp
  case guardNodupG => exact hInv.guardNodupG
  case guardLink => exact hInv.guardLink
  case guardHead => exact hInv.guardHead
  case guardDoneNoReact =>
    intro e he hres r hr
    rcases (hWQmem r).mp hr with hro | hrn
    · exact hInv.guardDoneNoReact e he hres r hro
    · subst hrn
      intro hcon
      cases hcon
  case guardResChain => exact hInv.guardResChain
  case countEq =>
    have hfc : List.filter (fun d => decide ¬((upd s.clients c
        { status := .queued, lane := .ordL, kind := .ordKey, myLock := s.nextP,
          srcP := s.lockTail, appendedAt := some s.time } d).status = .released ∧
        (upd s.clients c
        { status := .queued, lane := .ordL, kind := .ordKey, myLock := s.nextP,
          srcP := s.lockTail, appendedAt := some s.time } d).kind = .ordKey)) [c] = [c] := by
      simp [upd_same_cl]
    have hfh : List.filter (fun d => decide ¬((upd s.clients c
        { status := .queued, lane := .ordL, kind := .ordKey, myLock := s.nextP,
          srcP := s.lockTail, appendedAt := some s.time } d).status = .released ∧
        (upd s.clients c
        { status := .queued, lane := .ordL, kind := .ordKey, myLock := s.nextP,
          srcP := s.lockTail, appendedAt := some s.time } d).kind = .ordKey)) s.ordChain
        = List.filter (fun d => decide ¬((s.clients d).status = .released ∧
          (s.clients d).kind = .ordKey)) s.ordChain := by
      apply List.filter_congr
      intro d hd
      have hdc : d ≠ c := fun h => hcni (h ▸ hd)
      rw [upd_ne_cl _ _ hdc]
    rw [List.filter_append, hfc, hfh, List.length_append, List.length_singleton]
    have := hInv.countEq
    push_cast
    omega
  case vipNonempty =>
    intro h
    have := hInv.vipNonempty h
    omega
  case vipHeadRes =>
    intro h
    obtain ⟨src, c2, p, g, hm⟩ := hInv.vipHeadRes h
    exact ⟨src, c2, p, g, (hWQmem _).mpr (Or.inl hm)⟩
  case vipHeadNotLock =>
    intro d hd
    by_cases hdc : d = c
    · subst hdc
      rw [upd_same_cl]
      have := hInv.vipHeadBound
      show s.nextP ≠ s.vipHead
      omega
    · rw [upd_ne_cl _ _ hdc] at hd ⊢
      exact hInv.vipHeadNotLock d hd
  case vipHeadNotGuard => exact hInv.vipHeadNotGuard
  case myLockNotGuard =>
    intro d hd e he
    by_cases hdc : d = c
    · subst hdc
      rw [upd_same_cl]
      have := (hInv.guardBound e he).1
      show s.nextP ≠ e.g
      omega
    · rw [upd_ne_cl _ _ hdc] at hd ⊢
      exact hInv.myLockNotGuard d hd e he
  case lockInj =>
    intro c1 d1 h1 h2 heq
    by_cases hc1 : c1 = c <;> by_cases hd1 : d1 = c
    · rw [hc1, hd1]
    · subst hc1
      rw [upd_same_cl] at heq
      rw [upd_ne_cl _ _ hd1] at heq h2
      have := (hInv.lockBound d1 h2).1
      dsimp only at heq
      omega
    · subst hd1
      rw [upd_same_cl] at heq
      rw [upd_ne_cl _ _ hc1] at heq h1
      have := (hInv.lockBound c1 h1).1
      dsimp only at heq
      omega
    · rw [upd_ne_cl _ _ hc1] at heq h1
      rw [upd_ne_cl _ _ hd1] at heq h2
      exact hInv.lockInj c1 d1 h1 h2 heq
  case lockBound =>
    intro d hd
    by_cases hdc : d = c
    · subst hdc
      rw [upd_same_cl]
      have := hInv.nextPBound
      dsimp only
      constructor <;> omega
    · rw [upd_ne_cl _ _ hdc] at hd ⊢
      have := hInv.lockBound d hd
      constructor <;> omega
  case guardBound =>
    intro e he
    have := hInv.guardBound e he
    refine ⟨by omega, by omega, by omega⟩
  case vipHeadBound =>
    have := hInv.vipHeadBound
    constructor <;> omega
  case fresh =>
    intro p hp
    apply hInv.fresh
    omega
  case nextPBound =>
    have := hInv.nextPBound
    omega
  case resZero => exact hInv.resZero
  case timeRes =>
    intro p t h
    have := hInv.timeRes p t h
    omega
  case timeAdm =>
    intro d t hd
    by_cases hdc : d = c
    · subst hdc
      rw [upd_same_cl] at hd
      cases hd
    · rw [upd_ne_cl _ _ hdc] at hd
      have := hInv.timeAdm d t hd
      omega
  case timeApp =>
    intro d t hd
    by_cases hdc : d = c
    · subst hdc
      rw [upd_same_cl] at hd
      injection hd with hd2
      omega
    · rw [upd_ne_cl _ _ hdc] at hd
      have := hInv.timeApp d t hd
      omega
  case timeDrain =>
    intro d t hd
    by_cases hdc : d = c
    · subst hdc
      rw [upd_same_cl] at hd
      cases hd
    · rw [upd_ne_cl _ _ hdc] at hd
      have := hInv.timeDrain d t hd
      omega
  case admitSome =>
    intro d hd
    by_cases hdc : d = c
    · subst hdc
      rw [upd_same_cl] at hd
      rcases hd with h | h | h <;> cases h
    · rw [upd_ne_cl _ _ hdc] at hd ⊢
      exact hInv.admitSome d hd
  case admitNone =>
    intro d hd
    by_cases hdc : d = c
    · subst hdc
      rw [upd_same_cl]
    · rw [upd_ne_cl _ _ hdc] at hd ⊢
      exact hInv.admitNone d hd
  case ordAdmitChain =>
    apply chain'_concat_of
    · refine chain'_of_eq_on hInv.ordAdmitChain ?_
      intro a ha b hb hab
      have hac : a ≠ c := fun h => hcni (h ▸ ha)
      have hbc : b ≠ c := fun h => hcni (h ▸ hb)
      rw [upd_ne_cl _ _ hbc, upd_ne_cl _ _ hac]
      exact hab
    · intro z hz tb htb
      rw [upd_same_cl] at htb
      cases htb
  case vipAdmitChain =>
    refine chain'_of_eq_on hInv.vipAdmitChain ?_
    intro a ha b hb hab
    have hac : a ≠ c := fun h => hcnv (h ▸ ha)
    have hbc : b ≠ c := fun h => hcnv (h ▸ hb)
    rw [upd_ne_cl _ _ hbc, upd_ne_cl _ _ hac]
    exact hab
  case drainOrd =>
    intro d hd
    by_cases hdc : d = c
    · subst hdc
      rw [upd_same_cl]
    · rw [upd_ne_cl _ _ hdc] at hd ⊢
      exact hInv.drainOrd d hd
  case logNone =>
    intro d hd
    by_cases hdc : d = c
    · rw [hdc]
      exact hInv.logNone c (hInv.drainNone c (Or.inl hc))
    · rw [upd_ne_cl _ _ hdc] at hd
      exact hInv.logNone d hd
  case logSome =>
    intro d hd
    by_cases hdc : d = c
    · subst hdc
      rw [upd_same_cl] at hd
      exact absurd rfl hd
    · rw [upd_ne_cl _ _ hdc] at hd
      constructor
      · intro hex
        apply (hInv.logSome d hd).1
        obtain ⟨src, p, g, hm⟩ := hex
        rcases (hWQmem _).mp hm with hro | hcon
        · exact ⟨src, p, g, hro⟩
        · cases hcon
      · intro hnex
        apply (hInv.logSome d hd).2
        rintro ⟨src, p, g, hm⟩
        exact hnex ⟨src, p, g, (hWQmem _).mpr (Or.inl hm)⟩
  case holdOne =>
    intro c1 d1 h1 h2
    by_cases hc1 : c1 = c
    · subst hc1
      rw [upd_same_cl] at h1
      cases h1
    · by_cases hd1 : d1 = c
      · subst hd1
        rw [upd_same_cl] at h2
        cases h2
      · rw [upd_ne_cl _ _ hc1] at h1
        rw [upd_ne_cl _ _ hd1] at h2
        exact hInv.holdOne c1 d1 h1 h2
  case vipActiveHead =>
    intro d hd hne
    have hdc : d ≠ c := fun h => hcnv (h ▸ List.mem_append.mpr (Or.inr hd))
    rw [upd_ne_cl _ _ hdc] at hne
    exact hInv.vipActiveHead d hd hne
  case ordKindLane =>
    intro d h1 h2
    by_cases hdc : d = c
    · subst hdc
      rw [upd_same_cl]
    · rw [upd_ne_cl _ _ hdc] at h1 h2 ⊢
      exact hInv.ordKindLane d h1 h2
  case waitGuardLane =>
    intro d hd
    by_cases hdc : d = c
    · subst hdc
      rw [upd_same_cl] at hd
      cases hd
    · rw [upd_ne_cl _ _ hdc] at hd ⊢
      exact hInv.waitGuardLane d hd
  case drainNone =>
    intro d hd
    by_cases hdc : d = c
    · subst hdc
      rw [upd_same_cl]
    · rw [upd_ne_cl _ _ hdc] at hd ⊢
      exact hInv.drainNone d hd
  case relDrained =>
    intro d h1 h2
    by_cases hdc : d = c
    · subst hdc
      rw [upd_same_cl] at h1
      cases h1
    · rw [upd_ne_cl _ _ hdc] at h1 h2 ⊢
      exact hInv.relDrained d h1 h2
  case entryNotIdle =>
    intro e he
    rw [upd_ne_cl _ _ (hcng e he)]
    exact hInv.entryNotIdle e he
  case chkUnique => exact hInv.chkUnique
  case chkApp =>
    intro e he hk
    rw [upd_ne_cl _ _ (hcng e he)]
    exact hInv.chkApp e he hk
  case guardTimeChain => exact hInv.guardTimeChain
  case vipAppSome =>
    intro d hd
    have hdc : d ≠ c := fun h => hcnv (h ▸ hd)
    rw [upd_ne_cl _ _ hdc]
    exact hInv.vipAppSome d hd
  case vipAppChain =>
    refine chain'_of_eq_on hInv.vipAppChain ?_
    intro a ha b hb hab
    have hac : a ≠ c := fun h => hcnv (h ▸ ha)
    have hbc : b ≠ c := fun h => hcnv (h ▸ hb)
    rw [upd_ne_cl _ _ hbc, upd_ne_cl _ _ hac]
    exact hab
  case appStatus =>
    intro d hd
    by_cases hdc : d = c
    · subst hdc
      rw [upd_same_cl]
      exact ⟨(by intro h; cases h), (by intro h; cases h)⟩
    · rw [upd_ne_cl _ _ hdc] at hd ⊢
      exact hInv.appStatus d hd

end VipM

namespace VipM

theorem inv_doLockVip {s : St} {c : Nat} (hInv : Inv s)
    (hc : (s.clients c).status = .idle) : Inv (doLockVip c s) := by
  have hcni : c ∉ s.ordChain := fun hmem => ((hInv.ordMem c).mp hmem).2.1 hc
  have hcnv : c ∉ s.vipDone ++ s.vipChain := fun hmem => ((hInv.vipMem c).mp hmem).2.1 hc
  have hcng : ∀ e ∈ s.guardChain, e.c ≠ c :=
    fun e he hcon => hInv.entryNotIdle e he (hcon ▸ hc)
  have hfreshL : ¬ res s s.nextP := by
    unfold res
    rw [hInv.fresh s.nextP le_rfl]
    simp
  have hfresh2 : ¬ res s (s.nextP + 1) := by
    unfold res
    rw [hInv.fresh (s.nextP + 1) (by omega)]
    simp
  have hgtb : s.guardTail < s.nextP := by
    cases hgc : s.guardChain.getLast? with
    | none =>
        have h1 : s.guardTail = 1 := by rw [hInv.guardTailEq, hgc]; rfl
        have := hInv.nextPBound
        omega
    | some z =>
        have h1 : s.guardTail = z.g := by rw [hInv.guardTailEq, hgc]; rfl
        have := (hInv.guardBound z (mem_of_getLast?_eq hgc)).1
        omega
  have hnoc : ∀ r ∈ s.waiting ++ s.queue, r.client ≠ c := by
    intro r hr hcon
    rcases reaction_status hInv hr with h | h | h <;> rw [hcon, hc] at h <;> cases h
  have hWQmem : ∀ x : Reaction,
      x ∈ (if res s s.guardTail then s.waiting
          else s.waiting ++ [(.vipCheck s.guardTail c s.nextP (s.nextP + 1) : Reaction)]) ++
        (if res s s.guardTail then
          s.queue ++ [(.vipCheck s.guardTail c s.nextP (s.nextP + 1) : Reaction)]
          else s.queue) ↔
      x ∈ s.waiting ++ s.queue ∨ x = .vipCheck s.guardTail c s.nextP (s.nextP + 1) := by
    intro x
    by_cases hp : res s s.guardTail <;> simp [hp, List.mem_append] <;> tauto
  rw [doLockVip_eq]
  constructor
  all_goals try dsimp only
  case ordNodup => exact hInv.ordNodup
  case vipNodup => exact hInv.vipNodup
  case ordMem =>
    intro d
    by_cases hdc : d = c
    · subst hdc
      rw [upd_same_cl]
      refine ⟨fun h => absurd h hcni, ?_⟩
      rintro ⟨h1, -, -⟩
      cases h1
    · rw [upd_ne_cl _ _ hdc]
      exact hInv.ordMem d
  case vipMem =>
    intro d
    by_cases hdc : d = c
    · subst hdc
      rw [upd_same_cl]
      refine ⟨fun h => absurd h hcnv, ?_⟩
      rintro ⟨-, -, h3⟩
      exact absurd rfl h3
    · rw [upd_ne_cl _ _ hdc]
      exact hInv.vipMem d
  case vipDoneRel =>
    intro d hd
    have hdc : d ≠ c := fun h => hcnv (h ▸ List.mem_append.mpr (Or.inl hd))
    rw [upd_ne_cl _ _ hdc]
    exact hInv.vipDoneRel d hd
  case vipKind =>
    intro d h1 h2
    by_cases hdc : d = c
    · subst hdc
      rw [upd_same_cl]
    · rw [upd_ne_cl _ _ hdc] at h1 h2 ⊢
      exact hInv.vipKind d h1 h2
  case relKind =>
    intro d h1
    by_cases hdc : d = c
    · subst hdc
      rw [upd_same_cl] at h1
      cases h1
    · rw [upd_ne_cl _ _ hdc] at h1 ⊢
      exact hInv.relKind d h1
  case statusRes =>
    intro d hne
    by_cases hdc : d = c
    · subst hdc
      rw [upd_same_cl] at hne ⊢
      constructor
      · intro hp
        exact absurd hp hfreshL
      · intro hcon
        cases hcon
    · rw [upd_ne_cl _ _ hdc] at hne ⊢
      exact hInv.statusRes d hne
  case admSrcRes =>
    intro d hd
    by_cases hdc : d = c
    · subst hdc
      rw [upd_same_cl] at hd
      rcases hd with h | h | h <;> cases h
    · rw [upd_ne_cl _ _ hdc] at hd ⊢
      exact hInv.admSrcRes d hd
  case lockTailEq =>
    cases hoc : s.ordChain.getLast? with
    | none =>
        rw [hInv.lockTailEq, hoc]
        rfl
    | some z =>
        have hzc : z ≠ c := fun h => hcni (h ▸ mem_of_getLast?_eq hoc)
        rw [hInv.lockTailEq, hoc]
        show (s.clients z).myLock = (upd s.clients c _ z).myLock
        rw [upd_ne_cl _ _ hzc]
  case vipTailEq =>
    cases hvc : s.vipChain.getLast? with
    | none =>
        rw [hInv.vipTailEq, hvc]
        rfl
    | some z =>
        have hzc : z ≠ c := fun h =>
          hcnv (h ▸ List.mem_append.mpr (Or.inr (mem_of_getLast?_eq hvc)))
        rw [hInv.vipTailEq, hvc]
        show (s.clients z).myLock = (upd s.clients c _ z).myLock
        rw [upd_ne_cl _ _ hzc]
  case guardTailEq =>
    rw [List.getLast?_concat]
    rfl
  case ordLink =>
    refine chain'_of_eq_on hInv.ordLink ?_
    intro a ha b hb hab
    have hac : a ≠ c := fun h => hcni (h ▸ ha)
    have hbc : b ≠ c := fun h => hcni (h ▸ hb)
    rw [upd_ne_cl _ _ hbc, upd_ne_cl _ _ hac]
    exact hab
  case ordHead =>
    intro d hd
    have hdc : d ≠ c := fun h => hcni (h ▸ List.mem_of_mem_head? hd)
    rw [upd_ne_cl _ _ hdc]
    exact hInv.ordHead d hd
  case vipLink =>
    refine chain'_of_eq_on hInv.vipLink ?_
    intro a ha b hb hab
    have hac : a ≠ c := fun h => hcnv (h ▸ List.mem_append.mpr (Or.inr ha))
    have hbc : b ≠ c := fun h => hcnv (h ▸ List.mem_append.mpr (Or.inr hb))
    rw [upd_ne_cl _ _ hbc, upd_ne_cl _ _ hac]
    exact hab
  case vipHeadLink =>
    intro d hd
    have hdc : d ≠ c := fun h =>
      hcnv (h ▸ List.mem_append.mpr (Or.inr (List.mem_of_mem_head? hd)))
    rw [upd_ne_cl _ _ hdc]
    exact hInv.vipHeadLink d hd
  case ordStatusChain =>
    refine chain'_of_eq_on hInv.ordStatusChain ?_
    intro a ha b hb hab
    have hac : a ≠ c := fun h => hcni (h ▸ ha)
    have hbc : b ≠ c := fun h => hcni (h ▸ hb)
    rw [upd_ne_cl _ _ hbc, upd_ne_cl _ _ hac]
    exact hab
  case vipStatusChain =>
    refine chain'_of_eq_on hInv.vipStatusChain ?_
    intro a ha b hb hab
    have hac : a ≠ c := fun h => hcnv (h ▸ List.mem_append.mpr (Or.inr ha))
    have hbc : b ≠ c := fun h => hcnv (h ▸ List.mem_append.mpr (Or.inr hb))
    rw [upd_ne_cl _ _ hbc, upd_ne_cl _ _ hac]
    exact hab
  case thenKeyShape =>
    intro src d hr
    rcases (hWQmem _).mp hr with hro | hrn
    · have hdc : d ≠ c := hnoc _ hro
      rw [upd_ne_cl _ _ hdc]
      exact hInv.thenKeyShape src d hro
    · cases hrn
  case vipCheckShape =>
    intro src d p g hr
    rcases (hWQmem _).mp hr with hro | hrn
    · have hdc : d ≠ c := hnoc _ hro
      rw [upd_ne_cl _ _ hdc]
      obtain ⟨h1, h2, h3⟩ := hInv.vipCheckShape src d p g hro
      exact ⟨h1, h2, List.mem_append.mpr (Or.inl h3)⟩
    · cases hrn
      rw [upd_same_cl]
      exact ⟨rfl, rfl, List.mem_append.mpr (Or.inr (List.mem_singleton.mpr rfl))⟩
  case relDrainShape =>
    intro src d p g hr
    rcases (hWQmem _).mp hr with hro | hrn
    · have hdc : d ≠ c := hnoc _ hro
      rw [upd_ne_cl _ _ hdc]
      obtain ⟨h1, h2, h3, h4⟩ := hInv.relDrainShape src d p g hro
      exact ⟨h1, h2, List.mem_append.mpr (Or.inl h3), h4⟩
    · cases hrn
  case relFinishShape =>
    intro src d p g hr
    rcases (hWQmem _).mp hr with hro | hrn
    · have hdc : d ≠ c := hnoc _ hro
      rw [upd_ne_cl _ _ hdc]
      obtain ⟨h1, h2, h3, ⟨sg, h4, h5⟩, h6⟩ := hInv.relFinishShape src d p g hro
      exact ⟨h1, h2, h3, ⟨sg, List.mem_append.mpr (Or.inl h4), h5⟩, h6⟩
    · cases hrn
  case queuedThenKey =>
    intro d hd
    by_cases hdc : d = c
    · subst hdc
      rw [upd_same_cl] at hd
      cases hd
    · rw [upd_ne_cl _ _ hdc] at hd ⊢
      exact (hWQmem _).mpr (Or.inl (hInv.queuedThenKey d hd))
  case waitGuardCheck =>
    intro d hd
    by_cases hdc : d = c
    · subst hdc
      rw [upd_same_cl]
      exact ⟨s.guardTail, s.nextP + 1, (hWQmem _).mpr (Or.inr rfl)⟩
    · rw [upd_ne_cl _ _ hdc] at hd ⊢
      obtain ⟨src, g, hm⟩ := hInv.waitGuardCheck d hd
      exact ⟨src, g, (hWQmem _).mpr (Or.inl hm)⟩
  case releasingReact =>
    intro d hd
    by_cases hdc : d = c
    · subst hdc
      rw [upd_same_cl] at hd
      cases hd
    · rw [upd_ne_cl _ _ hdc] at hd ⊢
      obtain ⟨src, g, hm | hm⟩ := hInv.releasingReact d hd
      · exact ⟨src, g, Or.inl ((hWQmem _).mpr (Or.inl hm))⟩
      · exact ⟨src, g, Or.inr ((hWQmem _).mpr (Or.inl hm))⟩
  case reactUnique =>
    have htarget : ((s.waiting ++ s.queue) ++
        [(.vipCheck s.guardTail c s.nextP (s.nextP + 1) : Reaction)]).Pairwise
          (fun r1 r2 => r1.client ≠ r2.client) := by
      rw [List.pairwise_append]
      refine ⟨hInv.reactUnique, by simp, ?_⟩
      intro r hr y hy
      simp at hy
      subst hy
      exact hnoc r hr
    by_cases hp : res s s.guardTail
    · rw [if_pos hp, if_pos hp, ← List.append_assoc]
      exact htarget
    · rw [if_neg hp, if_neg hp]
      have hperm : ((s.waiting ++
          [(.vipCheck s.guardTail c s.nextP (s.nextP + 1) : Reaction)]) ++ s.queue).Perm
          ((s.waiting ++ s.queue) ++
            [(.vipCheck s.guardTail c s.nextP (s.nextP + 1) : Reaction)]) := by
        rw [List.append_assoc, List.append_assoc]
        exact List.Perm.append_left _ List.perm_append_comm
      exact (List.Perm.pairwise_iff (fun h => Ne.symm h) hperm).mpr htarget
  case hotRes =>
    intro r hr
    by_cases hp : res s s.guardTail
    · rw [if_pos hp] at hr
      rcases List.mem_append.mp hr with h | h
      · exact hInv.hotRes r h
      · simp at h
        subst h
        exact hp
    · rw [if_neg hp] at hr
      exact hInv.hotRes r hr
  case parkedNotRes =>
    intro r hr
    by_cases hp : res s s.guardTail
    · rw [if_pos hp] at hr
      exact hInv.parkedNotRes r hr
    · rw [if_neg hp] at hr
      rcases List.mem_append.mp hr with h | h
      · exact hInv.parkedNotRes r h
      · simp at h
        subst h
        exact hp
  case guardNodupG =>
    rw [List.map_append]
    refine List.Nodup.append hInv.guardNodupG (by simp) ?_
    intro a ha hb
    simp at hb
    subst hb
    obtain ⟨e, he, heg⟩ := List.mem_map.mp ha
    have := (hInv.guardBound e he).1
    omega
  case guardLink =>
    apply chain'_concat_of
    · exact hInv.guardLink
    · intro z hz
      show s.guardTail = z.g
      rw [hInv.guardTailEq, hz]
      rfl
  case guardHead =>
    intro e he
    cases hgc : s.guardChain with
    | nil =>
        rw [hgc] at he
        simp at he
        subst he
        show s.guardTail = 1
        rw [hInv.guardTailEq, show s.guardChain.getLast? = none from by rw [hgc]; rfl]
        rfl
    | cons e0 t =>
        rw [hgc] at he
        simp at he
        subst he
        exact hInv.guardHead e0 (by rw [hgc]; rfl)
  case guardDoneNoReact =>
    intro e he hres r hr
    rcases List.mem_append.mp he with heo | hen
    · rcases (hWQmem r).mp hr with hro | hrn
      · exact hInv.guardDoneNoReact e heo hres r hro
      · subst hrn
        intro hcon
        injection hcon with h2
        have := (hInv.guardBound e heo).1
        omega
    · have hee : e = ⟨c, s.nextP + 1, s.guardTail, .chk⟩ := by simpa using hen
      subst hee
      exact absurd hres hfresh2
  case guardResChain =>
    apply chain'_concat_of
    · exact hInv.guardResChain
    · intro z hz hres
      exact absurd hres hfresh2
  case countEq =>
    have hfh : List.filter (fun d => decide ¬((upd s.clients c
        { status := .waitGuard, lane := .vipL, kind := .simpleKey, myLock := s.nextP,
          srcP := 0, appendedAt := none } d).status = .released ∧
        (upd s.clients c
        { status := .waitGuard, lane := .vipL, kind := .simpleKey, myLock := s.nextP,
          srcP := 0, appendedAt := none } d).kind = .ordKey)) s.ordChain
        = List.filter (fun d => decide ¬((s.clients d).status = .released ∧
          (s.clients d).kind = .ordKey)) s.ordChain := by
      apply List.filter_congr
      intro d hd
      have hdc : d ≠ c := fun h => hcni (h ▸ hd)
      rw [upd_ne_cl _ _ hdc]
    rw [hfh]
    exact hInv.countEq
  case vipNonempty => exact hInv.vipNonempty
  case vipHeadRes =>
    intro h
    obtain ⟨src, c2, p, g, hm⟩ := hInv.vipHeadRes h
    exact ⟨src, c2, p, g, (hWQmem _).mpr (Or.inl hm)⟩
  case vipHeadNotLock =>
    intro d hd
    by_cases hdc : d = c
    · subst hdc
      rw [upd_same_cl]
      have := hInv.vipHeadBound
      show s.nextP ≠ s.vipHead
      omega
    · rw [upd_ne_cl _ _ hdc] at hd ⊢
      exact hInv.vipHeadNotLock d hd
  case vipHeadNotGuard =>
    intro e he
    rcases List.mem_append.mp he with heo | hen
    · exact hInv.vipHeadNotGuard e heo
    · have hee : e = ⟨c, s.nextP + 1, s.guardTail, .chk⟩ := by simpa using hen
      subst hee
      have := hInv.vipHeadBound
      show s.vipHead ≠ s.nextP + 1
      omega
  case myLockNotGuard =>
    intro d hd e he
    rcases List.mem_append.mp he with heo | hen
    · by_cases hdc : d = c
      · subst hdc
        rw [upd_same_cl]
        have := (hInv.guardBound e heo).1
        show s.nextP ≠ e.g
        omega
      · rw [upd_ne_cl _ _ hdc] at hd ⊢
        exact hInv.myLockNotGuard d hd e heo
    · have hee : e = ⟨c, s.nextP + 1, s.guardTail, .chk⟩ := by simpa using hen
      subst hee
      by_cases hdc : d = c
      · subst hdc
        rw [upd_same_cl]
        show s.nextP ≠ s.nextP + 1
        omega
      · rw [upd_ne_cl _ _ hdc] at hd ⊢
        have := (hInv.lockBound d hd).1
        show (s.clients d).myLock ≠ s.nextP + 1
        omega
  case lockInj =>
    intro c1 d1 h1 h2 heq
    by_cases hc1 : c1 = c <;> by_cases hd1 : d1 = c
    · rw [hc1, hd1]
    · subst hc1
      rw [upd_same_cl] at heq
      rw [upd_ne_cl _ _ hd1] at heq h2
      have := (hInv.lockBound d1 h2).1
      dsimp only at heq
      omega
    · subst hd1
      rw [upd_same_cl] at heq
      rw [upd_ne_cl _ _ hc1] at heq h1
      have := (hInv.lockBound c1 h1).1
      dsimp only at heq
      omega
    · rw [upd_ne_cl _ _ hc1] at heq h1
      rw [upd_ne_cl _ _ hd1] at heq h2
      exact hInv.lockInj c1 d1 h1 h2 heq
  case lockBound =>
    intro d hd
    by_cases hdc : d = c
    · subst hdc
      rw [upd_same_cl]
      have := hInv.nextPBound
      dsimp only
      constructor <;> omega
    · rw [upd_ne_cl _ _ hdc] at hd ⊢
      have := hInv.lockBound d hd
      constructor <;> omega
  case guardBound =>
    intro e he
    rcases List.mem_append.mp he with heo | hen
    · have := hInv.guardBound e heo
      refine ⟨by omega, by omega, by omega⟩
    · have hee : e = ⟨c, s.nextP + 1, s.guardTail, .chk⟩ := by simpa using hen
      subst hee
      have := hInv.nextPBound
      refine ⟨by show s.nextP + 1 < s.nextP + 2; omega,
        by show 3 ≤ s.nextP + 1; omega, by show s.guardTail < s.nextP + 2; omega⟩
  case vipHeadBound =>
    have := hInv.vipHeadBound
    constructor <;> omega
  case fresh =>
    intro p hp
    apply hInv.fresh
    omega
  case nextPBound =>
    have := hInv.nextPBound
    omega
  case resZero => exact hInv.resZero
  case timeRes =>
    intro p t h
    have := hInv.timeRes p t h
    omega
  case timeAdm =>
    intro d t hd
    by_cases hdc : d = c
    · subst hdc
      rw [upd_same_cl] at hd
      cases hd
    · rw [upd_ne_cl _ _ hdc] at hd
      have := hInv.timeAdm d t hd
      omega
  case timeApp =>
    intro d t hd
    by_cases hdc : d = c
    · subst hdc
      rw [upd_same_cl] at hd
      cases hd
    · rw [upd_ne_cl _ _ hdc] at hd
      have := hInv.timeApp d t hd
      omega
  case timeDrain =>
    intro d t hd
    by_cases hdc : d = c
    · subst hdc
      rw [upd_same_cl] at hd
      cases hd
    · rw [upd_ne_cl _ _ hdc] at hd
      have := hInv.timeDrain d t hd
      omega
  case admitSome =>
    intro d hd
    by_cases hdc : d = c
    · subst hdc
      rw [upd_same_cl] at hd
      rcases hd with h | h | h <;> cases h
    · rw [upd_ne_cl _ _ hdc] at hd ⊢
      exact hInv.admitSome d hd
  case admitNone =>
    intro d hd
    by_cases hdc : d = c
    · subst hdc
      rw [upd_same_cl]
    · rw [upd_ne_cl _ _ hdc] at hd ⊢
      exact hInv.admitNone d hd
  case ordAdmitChain =>
    refine chain'_of_eq_on hInv.ordAdmitChain ?_
    intro a ha b hb hab
    have hac : a ≠ c := fun h => hcni (h ▸ ha)
    have hbc : b ≠ c := fun h => hcni (h ▸ hb)
    rw [upd_ne_cl _ _ hbc, upd_ne_cl _ _ hac]
    exact hab
  case vipAdmitChain =>
    refine chain'_of_eq_on hInv.vipAdmitChain ?_
    intro a ha b hb hab
    have hac : a ≠ c := fun h => hcnv (h ▸ ha)
    have hbc : b ≠ c := fun h => hcnv (h ▸ hb)
    rw [upd_ne_cl _ _ hbc, upd_ne_cl _ _ hac]
    exact hab
  case drainOrd =>
    intro d hd
    by_cases hdc : d = c
    · subst hdc
      rw [upd_same_cl] at hd
      exact absurd rfl hd
    · rw [upd_ne_cl _ _ hdc] at hd ⊢
      exact hInv.drainOrd d hd
  case logNone =>
    intro d hd
    by_cases hdc : d = c
    · rw [hdc]
      exact hInv.logNone c (hInv.drainNone c (Or.inl hc))
    · rw [upd_ne_cl _ _ hdc] at hd
      exact hInv.logNone d hd
  case logSome =>
    intro d hd
    by_cases hdc : d = c
    · subst hdc
      rw [upd_same_cl] at hd
      exact absurd rfl hd
    · rw [upd_ne_cl _ _ hdc] at hd
      constructor
      · intro hex
        apply (hInv.logSome d hd).1
        obtain ⟨src, p, g, hm⟩ := hex
        rcases (hWQmem _).mp hm with hro | hcon
        · exact ⟨src, p, g, hro⟩
        · cases hcon
      · intro hnex
        apply (hInv.logSome d hd).2
        rintro ⟨src, p, g, hm⟩
        exact hnex ⟨src, p, g, (hWQmem _).mpr (Or.inl hm)⟩
  case holdOne =>
    intro c1 d1 h1 h2
    by_cases hc1 : c1 = c
    · subst hc1
      rw [upd_same_cl] at h1
      cases h1
    · by_cases hd1 : d1 = c
      · subst hd1
        rw [upd_same_cl] at h2
        cases h2
      · rw [upd_ne_cl _ _ hc1] at h1
        rw [upd_ne_cl _ _ hd1] at h2
        exact hInv.holdOne c1 d1 h1 h2
  case vipActiveHead =>
    intro d hd hne
    have hdc : d ≠ c := fun h => hcnv (h ▸ List.mem_append.mpr (Or.inr hd))
    rw [upd_ne_cl _ _ hdc] at hne
    exact hInv.vipActiveHead d hd hne
  case ordKindLane =>
    intro d h1 h2
    by_cases hdc : d = c
    · subst hdc
      rw [upd_same_cl] at h1
      cases h1
    · rw [upd_ne_cl _ _ hdc] at h1 h2 ⊢
      exact hInv.ordKindLane d h1 h2
  case waitGuardLane =>
    intro d hd
    by_cases hdc : d = c
    · subst hdc
      rw [upd_same_cl]
    · rw [upd_ne_cl _ _ hdc] at hd ⊢
      exact hInv.waitGuardLane d hd
  case drainNone =>
    intro d hd
    by_cases hdc : d = c
    · subst hdc
      rw [upd_same_cl]
    · rw [upd_ne_cl _ _ hdc] at hd ⊢
      exact hInv.drainNone d hd
  case relDrained =>
    intro d h1 h2
    by_cases hdc : d = c
    · subst hdc
      rw [upd_same_cl] at h1
      cases h1
    · rw [upd_ne_cl _ _ hdc] at h1 h2 ⊢
      exact hInv.relDrained d h1 h2
  case entryNotIdle =>
    intro e he
    rcases List.mem_append.mp he with heo | hen
    · rw [upd_ne_cl _ _ (hcng e heo)]
      exact hInv.entryNotIdle e heo
    · have hee : e = ⟨c, s.nextP + 1, s.guardTail, .chk⟩ := by simpa using hen
      subst hee
      rw [upd_same_cl]
      intro h
      cases h
  case chkUnique =>
    intro e1 he1 e2 he2 hk1 hk2 hcc
    rcases List.mem_append.mp he1 with h1o | h1n <;>
      rcases List.mem_append.mp he2 with h2o | h2n
    · exact hInv.chkUnique e1 h1o e2 h2o hk1 hk2 hcc
    · have hee : e2 = ⟨c, s.nextP + 1, s.guardTail, .chk⟩ := by simpa using h2n
      subst hee
      exact absurd (hcc ▸ rfl : e1.c = c) (hcng e1 h1o)
    · have hee : e1 = ⟨c, s.nextP + 1, s.guardTail, .chk⟩ := by simpa using h1n
      subst hee
      exact absurd (hcc ▸ rfl : e2.c = c) (hcng e2 h2o)
    · have hee1 : e1 = ⟨c, s.nextP + 1, s.guardTail, .chk⟩ := by simpa using h1n
      have hee2 : e2 = ⟨c, s.nextP + 1, s.guardTail, .chk⟩ := by simpa using h2n
      rw [hee1, hee2]
  case chkApp =>
    intro e he hk
    rcases List.mem_append.mp he with heo | hen
    · rw [upd_ne_cl _ _ (hcng e heo)]
      exact hInv.chkApp e heo hk
    · have hee : e = ⟨c, s.nextP + 1, s.guardTail, .chk⟩ := by simpa using hen
      subst hee
      rw [upd_same_cl]
      exact (hInv.fresh (s.nextP + 1) (by omega)).symm
  case guardTimeChain =>
    apply chain'_concat_of
    · exact hInv.guardTimeChain
    · intro z hz t2 ht2
      rw [show s.resolvedAt (⟨c, s.nextP + 1, s.guardTail, GKind.chk⟩ : GEntry).g = none
        from hInv.fresh (s.nextP + 1) (by omega)] at ht2
      cases ht2
  case vipAppSome =>
    intro d hd
    have hdc : d ≠ c := fun h => hcnv (h ▸ hd)
    rw [upd_ne_cl _ _ hdc]
    exact hInv.vipAppSome d hd
  case vipAppChain =>
    refine chain'_of_eq_on hInv.vipAppChain ?_
    intro a ha b hb hab
    have hac : a ≠ c := fun h => hcnv (h ▸ ha)
    have hbc : b ≠ c := fun h => hcnv (h ▸ hb)
    rw [upd_ne_cl _ _ hbc, upd_ne_cl _ _ hac]
    exact hab
  case appStatus =>
    intro d hd
    by_cases hdc : d = c
    · subst hdc
      rw [upd_same_cl] at hd
      exact absurd rfl hd
    · rw [upd_ne_cl _ _ hdc] at hd ⊢
      exact hInv.appStatus d hd

end VipM

theorem chain'_rebuild {α : Type} {R S : α → α → Prop} {l1 l2 : List α} {c : α}
    (hchain : List.Chain' R (l1 ++ c :: l2))
    (hS1 : ∀ a ∈ l1, ∀ b ∈ l1, R a b → S a b)
    (hS2 : ∀ a b, b ∈ l2 → S a b)
    (hlink : ∀ z, l1.getLast? = some z → R z c → S z c) :
    List.Chain' S (l1 ++ c :: l2) := by
  rcases List.chain'_append.mp hchain with ⟨h1, h2, hcross⟩
  apply chain'_append_cons (chain'_of_eq_on h1 hS1) (chain'_of_snd hS2)
  intro z hz
  exact hlink z hz (hcross z hz c rfl)

namespace VipM

theorem inv_doReleaseSimple {s : St} {c : Nat} (hInv : Inv s)
    (hk : (s.clients c).kind = .simpleKey)
    (hc : (s.clients c).status = .holding) : Inv (doReleaseSimple c s) := by
  have hcne : (s.clients c).status ≠ .idle := by rw [hc]; intro h; cases h
  have hnres : ¬ res s (s.clients c).myLock := by
    intro hres
    have := (hInv.statusRes c hcne).mp hres
    rw [hc] at this
    cases this
  have hmlb := hInv.lockBound c hcne
  have hnoc : ∀ r ∈ s.waiting ++ s.queue, r.client ≠ c := by
    intro r hr hcon
    rcases reaction_status hInv hr with h | h | h <;> rw [hcon, hc] at h <;> cases h
  have hWQperm := resolveP_WQ_perm_v (s.clients c).myLock s
  have hWQmem : ∀ x : Reaction,
      x ∈ (resolveP (s.clients c).myLock s).waiting ++
        (resolveP (s.clients c).myLock s).queue ↔ x ∈ s.waiting ++ s.queue :=
    fun x => hWQperm.mem_iff
  have hres2 : ∀ q, ((resolveP (s.clients c).myLock s).resolvedAt q).isSome ↔
      res s q ∨ q = (s.clients c).myLock :=
    fun q => res_resolveP (s.clients c).myLock s q
  have hmyF : ∀ x, (upd s.clients c { s.clients c with status := .released } x).myLock
      = (s.clients x).myLock := by
    intro x
    by_cases hxc : x = c
    · subst hxc; rw [upd_same_cl]
    · rw [upd_ne_cl _ _ hxc]
  have hsrcF : ∀ x, (upd s.clients c { s.clients c with status := .released } x).srcP
      = (s.clients x).srcP := by
    intro x
    by_cases hxc : x = c
    · subst hxc; rw [upd_same_cl]
    · rw [upd_ne_cl _ _ hxc]
  have hkindF : ∀ x, (upd s.clients c { s.clients c with status := .released } x).kind
      = (s.clients x).kind := by
    intro x
    by_cases hxc : x = c
    · subst hxc; rw [upd_same_cl]
    · rw [upd_ne_cl _ _ hxc]
  have hlaneF : ∀ x, (upd s.clients c { s.clients c with status := .released } x).lane
      = (s.clients x).lane := by
    intro x
    by_cases hxc : x = c
    · subst hxc; rw [upd_same_cl]
    · rw [upd_ne_cl _ _ hxc]
  have hadmF : ∀ x, (upd s.clients c { s.clients c with status := .released } x).admittedAt
      = (s.clients x).admittedAt := by
    intro x
    by_cases hxc : x = c
    · subst hxc; rw [upd_same_cl]
    · rw [upd_ne_cl _ _ hxc]
  have happF : ∀ x, (upd s.clients c { s.clients c with status := .released } x).appendedAt
      = (s.clients x).appendedAt := by
    intro x
    by_cases hxc : x = c
    · subst hxc; rw [upd_same_cl]
    · rw [upd_ne_cl _ _ hxc]
  have hdrF : ∀ x, (upd s.clients c { s.clients c with status := .released } x).drainedAt
      = (s.clients x).drainedAt := by
    intro x
    by_cases hxc : x = c
    · subst hxc; rw [upd_same_cl]
    · rw [upd_ne_cl _ _ hxc]
  have hneF : ∀ x, (upd s.clients c { s.clients c with status := .released } x).status ≠ .idle
      → (s.clients x).status ≠ .idle := by
    intro x
    by_cases hxc : x = c
    · subst hxc; intro _; exact hcne
    · rw [upd_ne_cl _ _ hxc]; exact id
  have hstF : ∀ x, x ≠ c →
      (upd s.clients c { s.clients c with status := .released } x).status
      = (s.clients x).status := by
    intro x hxc
    rw [upd_ne_cl _ _ hxc]
  have hcdr : (s.clients c).drainedAt = none :=
    hInv.drainNone c (Or.inr (Or.inr (Or.inr hc)))
  unfold doReleaseSimple
  constructor
  all_goals try dsimp only
  case ordNodup => rw [resolveP_ordChain]; exact hInv.ordNodup
  case vipNodup => rw [resolveP_vipDone, resolveP_vipChain]; exact hInv.vipNodup
  case ordMem =>
    intro d
    rw [resolveP_ordChain]
    by_cases hdc : d = c
    · rw [hdc, upd_same_cl]
      have hold := hInv.ordMem c
      rw [hc] at hold
      constructor
      · intro hm
        exact ⟨(hold.mp hm).1, (by intro h; cases h), (by intro h; cases h)⟩
      · rintro ⟨hl, -, -⟩
        exact hold.mpr ⟨hl, (by intro h; cases h), (by intro h; cases h)⟩
    · rw [upd_ne_cl _ _ hdc]
      exact hInv.ordMem d
  case vipMem =>
    intro d
    rw [resolveP_vipDone, resolveP_vipChain]
    by_cases hdc : d = c
    · rw [hdc, upd_same_cl]
      have hold := hInv.vipMem c
      rw [hc] at hold
      constructor
      · intro hm
        exact ⟨(hold.mp hm).1, (by intro h; cases h), (by intro h; cases h)⟩
      · rintro ⟨hl, -, -⟩
        exact hold.mpr ⟨hl, (by intro h; cases h), (by intro h; cases h)⟩
    · rw [upd_ne_cl _ _ hdc]
      exact hInv.vipMem d
  case vipDoneRel =>
    intro d hd
    rw [resolveP_vipDone] at hd
    by_cases hdc : d = c
    · subst hdc
      rw [upd_same_cl]
    · rw [upd_ne_cl _ _ hdc]
      exact hInv.vipDoneRel d hd
  case vipKind =>
    intro d h1 h2
    rw [hlaneF] at h1
    rw [hkindF]
    by_cases hdc : d = c
    · subst hdc
      exact hk
    · rw [hstF d hdc] at h2
      exact hInv.vipKind d h1 h2
  case relKind =>
    intro d h1
    by_cases hdc : d = c
    · subst hdc
      rw [upd_same_cl] at h1
      cases h1
    · rw [hstF d hdc] at h1
      rw [hkindF]
      exact hInv.relKind d h1
  case statusRes =>
    intro d hne
    show ((resolveP (s.clients c).myLock s).resolvedAt _).isSome ↔ _
    rw [hres2, hmyF]
    by_cases hdc : d = c
    · subst hdc
      rw [upd_same_cl]
      exact ⟨fun _ => rfl, fun _ => Or.inr rfl⟩
    · rw [hstF d hdc]
      rw [hstF d hdc] at hne
      have hne2 : (s.clients d).myLock ≠ (s.clients c).myLock := by
        intro hh
        exact hdc (hInv.lockInj d c hne hcne hh)
      constructor
      · rintro (hr | hr)
        · exact (hInv.statusRes d hne).mp hr
        · exact absurd hr hne2
      · intro hr
        exact Or.inl ((hInv.statusRes d hne).mpr hr)
  case admSrcRes =>
    intro d hd
    show ((resolveP (s.clients c).myLock s).resolvedAt _).isSome
    rw [hres2, hsrcF]
    by_cases hdc : d = c
    · rw [hdc]
      exact Or.inl (hInv.admSrcRes c (Or.inl hc))
    · rw [hstF d hdc] at hd
      exact Or.inl (hInv.admSrcRes d hd)
  case lockTailEq =>
    rw [resolveP_lockTail, resolveP_ordChain, hInv.lockTailEq]
    cases hoc : s.ordChain.getLast? with
    | none => rfl
    | some z =>
        show (s.clients z).myLock = (upd s.clients c _ z).myLock
        exact (hmyF z).symm
  case vipTailEq =>
    rw [resolveP_vipTail, resolveP_vipChain, resolveP_vipHead, hInv.vipTailEq]
    cases hvc : s.vipChain.getLast? with
    | none => rfl
    | some z =>
        show (s.clients z).myLock = (upd s.clients c _ z).myLock
        exact (hmyF z).symm
  case guardTailEq =>
    rw [resolveP_guardTail, resolveP_guardChain]
    exact hInv.guardTailEq
  case ordLink =>
    rw [resolveP_ordChain]
    refine chain'_of_eq_on hInv.ordLink ?_
    intro a _ b _ hab
    rw [hsrcF, hmyF]
    exact hab
  case ordHead =>
    intro d hd
    rw [resolveP_ordChain] at hd
    rw [hsrcF]
    exact hInv.ordHead d hd
  case vipLink =>
    rw [resolveP_vipChain]
    refine chain'_of_eq_on hInv.vipLink ?_
    intro a _ b _ hab
    rw [hsrcF, hmyF]
    exact hab
  case vipHeadLink =>
    intro d hd
    rw [resolveP_vipChain] at hd
    rw [hsrcF, resolveP_vipHead]
    exact hInv.vipHeadLink d hd
  case ordStatusChain =>
    rw [resolveP_ordChain]
    by_cases hcm : c ∈ s.ordChain
    · obtain ⟨l1, l2, hsp⟩ := List.append_of_mem hcm
      have hnd := hInv.ordNodup
      rw [hsp] at hnd
      have hcl2 : c ∉ l2 := by
        rcases List.nodup_append.mp hnd with ⟨-, hnd2, -⟩
        exact (List.nodup_cons.mp hnd2).1
      have hl2q : ∀ y ∈ l2, (s.clients y).status = .queued := by
        intro y hy
        obtain ⟨u, v, huv⟩ := List.append_of_mem hy
        by_contra hyq
        have := ord_before_released hInv (by rw [hsp, huv]) hyq
        rw [hc] at this
        cases this
      rw [hsp]
      refine chain'_rebuild (hsp ▸ hInv.ordStatusChain) ?_ ?_ ?_
      · intro a ha b hb hab
        have hac : a ≠ c := by
          intro h
          rcases List.nodup_append.mp hnd with ⟨-, -, hdisj⟩
          exact hdisj (h ▸ ha) (List.mem_cons_self _ _)
        have hbc : b ≠ c := by
          intro h
          rcases List.nodup_append.mp hnd with ⟨-, -, hdisj⟩
          exact hdisj (h ▸ hb) (List.mem_cons_self _ _)
        rw [hstF a hac, hstF b hbc]
        exact hab
      · intro a b hb
        have hbc : b ≠ c := fun h => hcl2 (h ▸ hb)
        rw [hstF b hbc]
        rw [hl2q b hb]
        intro hcon
        exact absurd rfl hcon
      · intro z hz hzc
        have hznec : z ≠ c := by
          intro h
          rcases List.nodup_append.mp hnd with ⟨-, -, hdisj⟩
          exact hdisj (h ▸ mem_of_getLast?_eq hz) (List.mem_cons_self _ _)
        intro _
        rw [hstF z hznec]
        apply hzc
        rw [hc]
        intro h
        cases h
    · refine chain'_of_eq_on hInv.ordStatusChain ?_
      intro a ha b hb hab
      have hac : a ≠ c := fun h => hcm (h ▸ ha)
      have hbc : b ≠ c := fun h => hcm (h ▸ hb)
      rw [hstF a hac, hstF b hbc]
      exact hab
  case vipStatusChain =>
    rw [resolveP_vipChain]
    by_cases hcm : c ∈ s.vipChain
    · obtain ⟨l1, l2, hsp⟩ := List.append_of_mem hcm
      have hnd : (l1 ++ c :: l2).Nodup := by
        have := hInv.vipNodup
        rw [hsp] at this
        exact (List.nodup_append.mp this).2.1
      have hcl2 : c ∉ l2 := by
        rcases List.nodup_append.mp hnd with ⟨-, hnd2, -⟩
        exact (List.nodup_cons.mp hnd2).1
      have hl2q : ∀ y ∈ l2, (s.clients y).status = .queued := by
        intro y hy
        obtain ⟨u, v, huv⟩ := List.append_of_mem hy
        by_contra hyq
        have := vip_before_released hInv (by rw [hsp, huv]) hyq
        rw [hc] at this
        cases this
      rw [hsp]
      refine chain'_rebuild (hsp ▸ hInv.vipStatusChain) ?_ ?_ ?_
      · intro a ha b hb hab
        have hac : a ≠ c := by
          intro h
          rcases List.nodup_append.mp hnd with ⟨-, -, hdisj⟩
          exact hdisj (h ▸ ha) (List.mem_cons_self _ _)
        have hbc : b ≠ c := by
          intro h
          rcases List.nodup_append.mp hnd with ⟨-, -, hdisj⟩
          exact hdisj (h ▸ hb) (List.mem_cons_self _ _)
        rw [hstF a hac, hstF b hbc]
        exact hab
      · intro a b hb
        have hbc : b ≠ c := fun h => hcl2 (h ▸ hb)
        rw [hstF b hbc]
        rw [hl2q b hb]
        intro hcon
        exact absurd rfl hcon
      · intro z hz hzc
        have hznec : z ≠ c := by
          intro h
          rcases List.nodup_append.mp hnd with ⟨-, -, hdisj⟩
          exact hdisj (h ▸ mem_of_getLast?_eq hz) (List.mem_cons_self _ _)
        intro _
        rw [hstF z hznec]
        apply hzc
        rw [hc]
        intro h
        cases h
    · refine chain'_of_eq_on hInv.vipStatusChain ?_
      intro a ha b hb hab
      have hac : a ≠ c := fun h => hcm (h ▸ ha)
      have hbc : b ≠ c := fun h => hcm (h ▸ hb)
      rw [hstF a hac, hstF b hbc]
      exact hab
  case thenKeyShape =>
    intro src d hr
    rw [hWQmem] at hr
    have hdc : d ≠ c := hnoc _ hr
    rw [hstF d hdc, hsrcF]
    exact hInv.thenKeyShape src d hr
  case vipCheckShape =>
    intro src d p g hr
    rw [hWQmem] at hr
    have hdc : d ≠ c := hnoc _ hr
    rw [hstF d hdc, hmyF, resolveP_guardChain]
    exact hInv.vipCheckShape src d p g hr
  case relDrainShape =>
    intro src d p g hr
    rw [hWQmem] at hr
    have hdc : d ≠ c := hnoc _ hr
    rw [hstF d hdc, hmyF, resolveP_guardChain, hdrF]
    exact hInv.relDrainShape src d p g hr
  case relFinishShape =>
    intro src d p g hr
    rw [hWQmem] at hr
    have hdc : d ≠ c := hnoc _ hr
    rw [hstF d hdc, hmyF, resolveP_guardChain, hdrF, resolveP_vipTail]
    obtain ⟨h1, h2, h3, ⟨sg, h4, h5⟩, h6⟩ := hInv.relFinishShape src d p g hr
    refine ⟨h1, h2, h3, ⟨sg, h4, ?_⟩, h6⟩
    show ((resolveP (s.clients c).myLock s).resolvedAt sg).isSome
    rw [hres2]
    exact Or.inl h5
  case queuedThenKey =>
    intro d hd
    by_cases hdc : d = c
    · subst hdc
      rw [upd_same_cl] at hd
      cases hd
    · rw [hstF d hdc] at hd
      rw [hsrcF]
      exact (hWQmem _).mpr (hInv.queuedThenKey d hd)
  case waitGuardCheck =>
    intro d hd
    by_cases hdc : d = c
    · subst hdc
      rw [upd_same_cl] at hd
      cases hd
    · rw [hstF d hdc] at hd
      rw [hmyF]
      obtain ⟨src, g, hm⟩ := hInv.waitGuardCheck d hd
      exact ⟨src, g, (hWQmem _).mpr hm⟩
  case releasingReact =>
    intro d hd
    by_cases hdc : d = c
    · subst hdc
      rw [upd_same_cl] at hd
      cases hd
    · rw [hstF d hdc] at hd
      rw [hmyF]
      obtain ⟨src, g, hm | hm⟩ := hInv.releasingReact d hd
      · exact ⟨src, g, Or.inl ((hWQmem _).mpr hm)⟩
      · exact ⟨src, g, Or.inr ((hWQmem _).mpr hm)⟩
  case reactUnique =>
    exact (List.Perm.pairwise_iff (fun h => Ne.symm h) hWQperm).mpr hInv.reactUnique
  case hotRes =>
    exact hot_resolveP (s.clients c).myLock hInv.hotRes
  case parkedNotRes =>
    exact parked_resolveP (s.clients c).myLock hInv.parkedNotRes
  case guardNodupG => rw [resolveP_guardChain]; exact hInv.guardNodupG
  case guardLink => rw [resolveP_guardChain]; exact hInv.guardLink
  case guardHead =>
    intro e he
    rw [resolveP_guardChain] at he
    exact hInv.guardHead e he
  case guardDoneNoReact =>
    intro e he hres r hr
    rw [resolveP_guardChain] at he
    rw [hWQmem] at hr
    have hres3 : res s e.g := by
      rcases (hres2 e.g).mp hres with h | h
      · exact h
      · exact absurd h.symm (hInv.myLockNotGuard c hcne e he)
    exact hInv.guardDoneNoReact e he hres3 r hr
  case guardResChain =>
    rw [resolveP_guardChain]
    refine chain'_of_eq_on hInv.guardResChain ?_
    intro a ha b hb hab hres
    have hres3 : res s b.g := by
      rcases (hres2 b.g).mp hres with h | h
      · exact h
      · exact absurd h.symm (hInv.myLockNotGuard c hcne b hb)
    show ((resolveP (s.clients c).myLock s).resolvedAt a.g).isSome
    rw [hres2]
    exact Or.inl (hab hres3)
  case countEq =>
    rw [resolveP_count, resolveP_ordChain]
    have hfh : List.filter (fun d => decide ¬((upd s.clients c
        { s.clients c with status := .released } d).status = .released ∧
        (upd s.clients c { s.clients c with status := .released } d).kind = .ordKey))
        s.ordChain
        = List.filter (fun d => decide ¬((s.clients d).status = .released ∧
          (s.clients d).kind = .ordKey)) s.ordChain := by
      apply List.filter_congr
      intro d hd
      by_cases hdc : d = c
      · subst hdc
        rw [upd_same_cl]
        simp [hc, hk]
      · rw [upd_ne_cl _ _ hdc]
    rw [hfh]
    exact hInv.countEq
  case vipNonempty =>
    rw [resolveP_vipChain, resolveP_count]
    exact hInv.vipNonempty
  case vipHeadRes =>
    intro h
    have h2 := (hres2 (resolveP (s.clients c).myLock s).vipHead).mp h
    rw [resolveP_vipHead] at h2
    rcases h2 with h | h
    · obtain ⟨src, c2, p, g, hm⟩ := hInv.vipHeadRes h
      exact ⟨src, c2, p, g, (hWQmem _).mpr hm⟩
    · exact absurd h.symm (hInv.vipHeadNotLock c hcne)
  case vipHeadNotLock =>
    intro d hd
    rw [hmyF, resolveP_vipHead]
    exact hInv.vipHeadNotLock d (hneF d hd)
  case vipHeadNotGuard =>
    intro e he
    rw [resolveP_guardChain] at he
    rw [resolveP_vipHead]
    exact hInv.vipHeadNotGuard e he
  case myLockNotGuard =>
    intro d hd e he
    rw [resolveP_guardChain] at he
    rw [hmyF]
    exact hInv.myLockNotGuard d (hneF d hd) e he
  case lockInj =>
    intro c1 d1 h1 h2 heq
    rw [hmyF, hmyF] at heq
    exact hInv.lockInj c1 d1 (hneF c1 h1) (hneF d1 h2) heq
  case lockBound =>
    intro d hd
    rw [hmyF, resolveP_nextP_v]
    exact hInv.lockBound d (hneF d hd)
  case guardBound =>
    intro e he
    rw [resolveP_guardChain] at he
    rw [resolveP_nextP_v]
    exact hInv.guardBound e he
  case vipHeadBound =>
    rw [resolveP_vipHead, resolveP_nextP_v]
    exact hInv.vipHeadBound
  case fresh =>
    intro p hp
    rw [resolveP_nextP_v] at hp
    rw [resolveP_at_ne s (by
      intro hh
      have := hmlb.1
      omega)]
    exact hInv.fresh p hp
  case nextPBound =>
    rw [resolveP_nextP_v]
    exact hInv.nextPBound
  case resZero =>
    constructor
    · show ((resolveP (s.clients c).myLock s).resolvedAt 0).isSome
      rw [hres2]
      exact Or.inl hInv.resZero.1
    · show ((resolveP (s.clients c).myLock s).resolvedAt 1).isSome
      rw [hres2]
      exact Or.inl hInv.resZero.2
  case timeRes =>
    intro p t h
    by_cases hpm : p = (s.clients c).myLock
    · subst hpm
      rw [resolveP_at_self hnres] at h
      injection h with h2
      omega
    · rw [resolveP_at_ne s hpm] at h
      have := hInv.timeRes p t h
      omega
  case timeAdm =>
    intro d t hd
    rw [hadmF] at hd
    have := hInv.timeAdm d t hd
    omega
  case timeApp =>
    intro d t hd
    rw [happF] at hd
    have := hInv.timeApp d t hd
    omega
  case timeDrain =>
    intro d t hd
    rw [hdrF] at hd
    have := hInv.timeDrain d t hd
    omega
  case admitSome =>
    intro d hd
    rw [hadmF]
    by_cases hdc : d = c
    · rw [hdc]
      exact hInv.admitSome c (Or.inl hc)
    · rw [hstF d hdc] at hd
      exact hInv.admitSome d hd
  case admitNone =>
    intro d hd
    rw [hadmF]
    by_cases hdc : d = c
    · subst hdc
      rw [upd_same_cl] at hd
      rcases hd with h | h | h <;> cases h
    · rw [hstF d hdc] at hd
      exact hInv.admitNone d hd
  case ordAdmitChain =>
    rw [resolveP_ordChain]
    refine chain'_of_eq_on hInv.ordAdmitChain ?_
    intro a _ b _ hab
    rw [hadmF, hadmF]
    exact hab
  case vipAdmitChain =>
    rw [resolveP_vipDone, resolveP_vipChain]
    refine chain'_of_eq_on hInv.vipAdmitChain ?_
    intro a _ b _ hab
    rw [hadmF, hadmF]
    exact hab
  case drainOrd =>
    intro d hd
    rw [hdrF] at hd
    rw [hkindF]
    exact hInv.drainOrd d hd
  case logNone =>
    intro d hd
    rw [hdrF] at hd
    show (resolveP (s.clients c).myLock s).log.filter _ = _
    rw [resolveP_log]
    exact hInv.logNone d hd
  case logSome =>
    intro d hd
    rw [hdrF] at hd
    have hold := hInv.logSome d hd
    constructor
    · intro hex
      show (resolveP (s.clients c).myLock s).log.filter _ = _
      rw [resolveP_log]
      apply hold.1
      obtain ⟨src, p, g, hm⟩ := hex
      exact ⟨src, p, g, (hWQmem _).mp hm⟩
    · intro hnex
      show (resolveP (s.clients c).myLock s).log.filter _ = _
      rw [resolveP_log]
      apply hold.2
      rintro ⟨src, p, g, hm⟩
      exact hnex ⟨src, p, g, (hWQmem _).mpr hm⟩
  case holdOne =>
    intro c1 d1 h1 h2
    by_cases hc1 : c1 = c
    · subst hc1
      rw [upd_same_cl] at h1
      cases h1
    · by_cases hd1 : d1 = c
      · subst hd1
        rw [upd_same_cl] at h2
        cases h2
      · rw [hstF c1 hc1] at h1
        rw [hstF d1 hd1] at h2
        exact hInv.holdOne c1 d1 h1 h2
  case vipActiveHead =>
    intro d hd hne
    rw [resolveP_vipChain] at hd
    rw [resolveP_vipHead]
    show ((resolveP (s.clients c).myLock s).resolvedAt s.vipHead).isSome
    rw [hres2]
    by_cases hdc : d = c
    · rw [hdc] at hd
      exact Or.inl (hInv.vipActiveHead c hd (by rw [hc]; intro h; cases h))
    · rw [hstF d hdc] at hne
      exact Or.inl (hInv.vipActiveHead d hd hne)
  case ordKindLane =>
    intro d h1 h2
    rw [hkindF] at h1
    rw [hlaneF]
    exact hInv.ordKindLane d h1 (hneF d h2)
  case waitGuardLane =>
    intro d hd
    by_cases hdc : d = c
    · subst hdc
      rw [upd_same_cl] at hd
      cases hd
    · rw [hstF d hdc] at hd
      rw [hlaneF]
      exact hInv.waitGuardLane d hd
  case drainNone =>
    intro d hd
    rw [hdrF]
    by_cases hdc : d = c
    · subst hdc
      rw [upd_same_cl] at hd
      rcases hd with h | h | h | h <;> cases h
    · rw [hstF d hdc] at hd
      exact hInv.drainNone d hd
  case relDrained =>
    intro d h1 h2
    by_cases hdc : d = c
    · subst hdc
      rw [hkindF] at h2
      rw [hk] at h2
      cases h2
    · rw [hstF d hdc] at h1
      rw [hkindF] at h2
      rw [hdrF]
      exact hInv.relDrained d h1 h2
  case entryNotIdle =>
    intro e he
    rw [resolveP_guardChain] at he
    by_cases hec : e.c = c
    · rw [hec, upd_same_cl]
      intro h
      cases h
    · rw [hstF e.c hec]
      exact hInv.entryNotIdle e he
  case chkUnique =>
    intro e1 he1 e2 he2
    rw [resolveP_guardChain] at he1 he2
    exact hInv.chkUnique e1 he1 e2 he2
  case chkApp =>
    intro e he hkk
    rw [resolveP_guardChain] at he
    rw [happF, resolveP_at_ne s (fun hh => hInv.myLockNotGuard c hcne e he hh.symm)]
    exact hInv.chkApp e he hkk
  case guardTimeChain =>
    rw [resolveP_guardChain]
    refine chain'_of_eq_on hInv.guardTimeChain ?_
    intro a ha b hb hab
    rw [resolveP_at_ne s (fun hh => hInv.myLockNotGuard c hcne b hb hh.symm),
      resolveP_at_ne s (fun hh => hInv.myLockNotGuard c hcne a ha hh.symm)]
    exact hab
  case vipAppSome =>
    intro d hd
    rw [resolveP_vipDone, resolveP_vipChain] at hd
    rw [happF]
    exact hInv.vipAppSome d hd
  case vipAppChain =>
    rw [resolveP_vipDone, resolveP_vipChain]
    refine chain'_of_eq_on hInv.vipAppChain ?_
    intro a _ b _ hab
    rw [happF, happF]
    exact hab
  case appStatus =>
    intro d hd
    rw [happF] at hd
    by_cases hdc : d = c
    · subst hdc
      rw [upd_same_cl]
      exact ⟨(by intro h; cases h), (by intro h; cases h)⟩
    · rw [hstF d hdc]
      exact hInv.appStatus d hd

end VipM

namespace VipM

theorem inv_doReleaseOrd {s : St} {c : Nat} (hInv : Inv s)
    (hk : (s.clients c).kind = .ordKey)
    (hc : (s.clients c).status = .holding) : Inv (doReleaseOrd c s) := by
  have hcne : (s.clients c).status ≠ .idle := by rw [hc]; intro h; cases h
  have hlane : (s.clients c).lane = .ordL := hInv.ordKindLane c hk hcne
  have hnres : ¬ res s (s.clients c).myLock := by
    intro hres
    have := (hInv.statusRes c hcne).mp hres
    rw [hc] at this
    cases this
  have hcnv : c ∉ s.vipDone ++ s.vipChain := by
    intro hm
    have := ((hInv.vipMem c).mp hm).1
    rw [hlane] at this
    cases this
  have hcdr : (s.clients c).drainedAt = none :=
    hInv.drainNone c (Or.inr (Or.inr (Or.inr hc)))
  have hfreshL : ¬ res s s.nextP := by
    unfold res
    rw [hInv.fresh s.nextP le_rfl]
    simp
  have hgtb : s.guardTail < s.nextP := by
    cases hgc : s.guardChain.getLast? with
    | none =>
        have h1 : s.guardTail = 1 := by rw [hInv.guardTailEq, hgc]; rfl
        have := hInv.nextPBound
        omega
    | some z =>
        have h1 : s.guardTail = z.g := by rw [hInv.guardTailEq, hgc]; rfl
        have := (hInv.guardBound z (mem_of_getLast?_eq hgc)).1
        omega
  have hnoc : ∀ r ∈ s.waiting ++ s.queue, r.client ≠ c := by
    intro r hr hcon
    rcases reaction_status hInv hr with h | h | h <;> rw [hcon, hc] at h <;> cases h
  have hmyF : ∀ x, (upd s.clients c { s.clients c with status := .releasing } x).myLock
      = (s.clients x).myLock := by
    intro x
    by_cases hxc : x = c
    · subst hxc; rw [upd_same_cl]
    · rw [upd_ne_cl _ _ hxc]
  have hsrcF : ∀ x, (upd s.clients c { s.clients c with status := .releasing } x).srcP
      = (s.clients x).srcP := by
    intro x
    by_cases hxc : x = c
    · subst hxc; rw [upd_same_cl]
    · rw [upd_ne_cl _ _ hxc]
  have hkindF : ∀ x, (upd s.clients c { s.clients c with status := .releasing } x).kind
      = (s.clients x).kind := by
    intro x
    by_cases hxc : x = c
    · subst hxc; rw [upd_same_cl]
    · rw [upd_ne_cl _ _ hxc]
  have hlaneF : ∀ x, (upd s.clients c { s.clients c with status := .releasing } x).lane
      = (s.clients x).lane := by
    intro x
    by_cases hxc : x = c
    · subst hxc; rw [upd_same_cl]
    · rw [upd_ne_cl _ _ hxc]
  have hadmF : ∀ x, (upd s.clients c { s.clients c with status := .releasing } x).admittedAt
      = (s.clients x).admittedAt := by
    intro x
    by_cases hxc : x = c
    · subst hxc; rw [upd_same_cl]
    · rw [upd_ne_cl _ _ hxc]
  have happF : ∀ x, (upd s.clients c { s.clients c with status := .releasing } x).appendedAt
      = (s.clients x).appendedAt := by
    intro x
    by_cases hxc : x = c
    · subst hxc; rw [upd_same_cl]
    · rw [upd_ne_cl _ _ hxc]
  have hdrF : ∀ x, (upd s.clients c { s.clients c with status := .releasing } x).drainedAt
      = (s.clients x).drainedAt := by
    intro x
    by_cases hxc : x = c
    · subst hxc; rw [upd_same_cl]
    · rw [upd_ne_cl _ _ hxc]
  have hneF : ∀ x, (upd s.clients c { s.clients c with status := .releasing } x).status ≠ .idle
      → (s.clients x).status ≠ .idle := by
    intro x
    by_cases hxc : x = c
    · subst hxc; intro _; exact hcne
    · rw [upd_ne_cl _ _ hxc]; exact id
  have hstF : ∀ x, x ≠ c →
      (upd s.clients c { s.clients c with status := .releasing } x).status
      = (s.clients x).status := by
    intro x hxc
    rw [upd_ne_cl _ _ hxc]
  have hWQmem : ∀ x : Reaction,
      x ∈ (if res s s.guardTail then s.waiting
          else s.waiting ++ [(.relDrain s.guardTail c (s.clients c).myLock s.nextP : Reaction)]) ++
        (if res s s.guardTail then
          s.queue ++ [(.relDrain s.guardTail c (s.clients c).myLock s.nextP : Reaction)]
          else s.queue) ↔
      x ∈ s.waiting ++ s.queue ∨ x = .relDrain s.guardTail c (s.clients c).myLock s.nextP := by
    intro x
    by_cases hp : res s s.guardTail <;> simp [hp, List.mem_append] <;> tauto
  rw [doReleaseOrd_eq, if_pos hc]
  constructor
  all_goals try dsimp only
  case ordNodup => exact hInv.ordNodup
  case vipNodup => exact hInv.vipNodup
  case ordMem =>
    intro d
    by_cases hdc : d = c
    · rw [hdc, upd_same_cl]
      have hold := hInv.ordMem c
      rw [hc] at hold
      constructor
      · intro hm
        exact ⟨(hold.mp hm).1, (by intro h; cases h), (by intro h; cases h)⟩
      · rintro ⟨hl, -, -⟩
        exact hold.mpr ⟨hl, (by intro h; cases h), (by intro h; cases h)⟩
    · rw [upd_ne_cl _ _ hdc]
      exact hInv.ordMem d
  case vipMem =>
    intro d
    by_cases hdc : d = c
    · rw [hdc, upd_same_cl]
      have hold := hInv.vipMem c
      rw [hc] at hold
      constructor
      · intro hm
        exact ⟨(hold.mp hm).1, (by intro h; cases h), (by intro h; cases h)⟩
      · rintro ⟨hl, -, -⟩
        exact hold.mpr ⟨hl, (by intro h; cases h), (by intro h; cases h)⟩
    · rw [upd_ne_cl _ _ hdc]
      exact hInv.vipMem d
  case vipDoneRel =>
    intro d hd
    have hdc : d ≠ c := fun h => hcnv (h ▸ List.mem_append.mpr (Or.inl hd))
    rw [hstF d hdc]
    exact hInv.vipDoneRel d hd
  case vipKind =>
    intro d h1 h2
    rw [hlaneF] at h1
    rw [hkindF]
    by_cases hdc : d = c
    · rw [hdc] at h1
      rw [hlane] at h1
      cases h1
    · rw [hstF d hdc] at h2
      exact hInv.vipKind d h1 h2
  case relKind =>
    intro d h1
    rw [hkindF]
    by_cases hdc : d = c
    · rw [hdc]
      exact hk
    · rw [hstF d hdc] at h1
      exact hInv.relKind d h1
  case statusRes =>
    intro d hne
    by_cases hdc : d = c
    · rw [hdc, upd_same_cl]
      constructor
      · intro hp
        exact absurd hp hnres
      · intro hcon
        cases hcon
    · rw [upd_ne_cl _ _ hdc]
      rw [upd_ne_cl _ _ hdc] at hne
      exact hInv.statusRes d hne
  case admSrcRes =>
    intro d hd
    rw [hsrcF]
    by_cases hdc : d = c
    · rw [hdc]
      exact hInv.admSrcRes c (Or.inl hc)
    · rw [hstF d hdc] at hd
      exact hInv.admSrcRes d hd
  case lockTailEq =>
    rw [hInv.lockTailEq]
    cases hoc : s.ordChain.getLast? with
    | none => rfl
    | some z =>
        show (s.clients z).myLock = (upd s.clients c _ z).myLock
        exact (hmyF z).symm
  case vipTailEq =>
    rw [hInv.vipTailEq]
    cases hvc : s.vipChain.getLast? with
    | none => rfl
    | some z =>
        show (s.clients z).myLock = (upd s.clients c _ z).myLock
        exact (hmyF z).symm
  case guardTailEq =>
    rw [List.getLast?_concat]
    rfl
  case ordLink =>
    refine chain'_of_eq_on hInv.ordLink ?_
    intro a _ b _ hab
    rw [hsrcF, hmyF]
    exact hab
  case ordHead =>
    intro d hd
    rw [hsrcF]
    exact hInv.ordHead d hd
  case vipLink =>
    refine chain'_of_eq_on hInv.vipLink ?_
    intro a _ b _ hab
    rw [hsrcF, hmyF]
    exact hab
  case vipHeadLink =>
    intro d hd
    rw [hsrcF]
    exact hInv.vipHeadLink d hd
  case ordStatusChain =>
    have hcm : c ∈ s.ordChain := (hInv.ordMem c).mpr
      ⟨hlane, hcne, by rw [hc]; intro h; cases h⟩
    obtain ⟨l1, l2, hsp⟩ := List.append_of_mem hcm
    have hnd := hInv.ordNodup
    rw [hsp] at hnd
    have hcl2 : c ∉ l2 := by
      rcases List.nodup_append.mp hnd with ⟨-, hnd2, -⟩
      exact (List.nodup_cons.mp hnd2).1
    have hl2q : ∀ y ∈ l2, (s.clients y).status = .queued := by
      intro y hy
      obtain ⟨u, v, huv⟩ := List.append_of_mem hy
      by_contra hyq
      have := ord_before_released hInv (by rw [hsp, huv]) hyq
      rw [hc] at this
      cases this
    rw [hsp]
    refine chain'_rebuild (hsp ▸ hInv.ordStatusChain) ?_ ?_ ?_
    · intro a ha b hb hab
      have hac : a ≠ c := by
        intro h
        rcases List.nodup_append.mp hnd with ⟨-, -, hdisj⟩
        exact hdisj (h ▸ ha) (List.mem_cons_self _ _)
      have hbc : b ≠ c := by
        intro h
        rcases List.nodup_append.mp hnd with ⟨-, -, hdisj⟩
        exact hdisj (h ▸ hb) (List.mem_cons_self _ _)
      rw [hstF a hac, hstF b hbc]
      exact hab
    · intro a b hb
      have hbc : b ≠ c := fun h => hcl2 (h ▸ hb)
      rw [hstF b hbc]
      rw [hl2q b hb]
      intro hcon
      exact absurd rfl hcon
    · intro z hz hzc
      have hznec : z ≠ c := by
        intro h
        rcases List.nodup_append.mp hnd with ⟨-, -, hdisj⟩
        exact hdisj (h ▸ mem_of_getLast?_eq hz) (List.mem_cons_self _ _)
      intro _
      rw [hstF z hznec]
      apply hzc
      rw [hc]
      intro h
      cases h
  case vipStatusChain =>
    have hcm : c ∉ s.vipChain := fun hm => hcnv (List.mem_append.mpr (Or.inr hm))
    refine chain'_of_eq_on hInv.vipStatusChain ?_
    intro a ha b hb hab
    have hac : a ≠ c := fun h => hcm (h ▸ ha)
    have hbc : b ≠ c := fun h => hcm (h ▸ hb)
    rw [hstF a hac, hstF b hbc]
    exact hab
  case thenKeyShape =>
    intro src d hr
    rcases (hWQmem _).mp hr with hro | hrn
    · have hdc : d ≠ c := hnoc _ hro
      rw [hstF d hdc, hsrcF]
      exact hInv.thenKeyShape src d hro
    · cases hrn
  case vipCheckShape =>
    intro src d p g hr
    rcases (hWQmem _).mp hr with hro | hrn
    · have hdc : d ≠ c := hnoc _ hro
      rw [hstF d hdc, hmyF]
      obtain ⟨h1, h2, h3⟩ := hInv.vipCheckShape src d p g hro
      exact ⟨h1, h2, List.mem_append.mpr (Or.inl h3)⟩
    · cases hrn
  case relDrainShape =>
    intro src d p g hr
    rcases (hWQmem _).mp hr with hro | hrn
    · have hdc : d ≠ c := hnoc _ hro
      rw [hstF d hdc, hmyF, hdrF]
      obtain ⟨h1, h2, h3, h4⟩ := hInv.relDrainShape src d p g hro
      exact ⟨h1, h2, List.mem_append.mpr (Or.inl h3), h4⟩
    · cases hrn
      rw [upd_same_cl]
      refine ⟨rfl, rfl, List.mem_append.mpr (Or.inr (List.mem_singleton.mpr rfl)), ?_⟩
      exact hcdr
  case relFinishShape =>
    intro src d p g hr
    rcases (hWQmem _).mp hr with hro | hrn
    · have hdc : d ≠ c := hnoc _ hro
      rw [hstF d hdc, hmyF, hdrF]
      obtain ⟨h1, h2, h3, ⟨sg, h4, h5⟩, h6⟩ := hInv.relFinishShape src d p g hro
      exact ⟨h1, h2, h3, ⟨sg, List.mem_append.mpr (Or.inl h4), h5⟩, h6⟩
    · cases hrn
  case queuedThenKey =>
    intro d hd
    by_cases hdc : d = c
    · rw [hdc, upd_same_cl] at hd
      cases hd
    · rw [hstF d hdc] at hd
      rw [hsrcF]
      exact (hWQmem _).mpr (Or.inl (hInv.queuedThenKey d hd))
  case waitGuardCheck =>
    intro d hd
    by_cases hdc : d = c
    · rw [hdc, upd_same_cl] at hd
      cases hd
    · rw [hstF d hdc] at hd
      rw [hmyF]
      obtain ⟨src, g, hm⟩ := hInv.waitGuardCheck d hd
      exact ⟨src, g, (hWQmem _).mpr (Or.inl hm)⟩
  case releasingReact =>
    intro d hd
    by_cases hdc : d = c
    · rw [hdc, upd_same_cl]
      exact ⟨s.guardTail, s.nextP, Or.inl ((hWQmem _).mpr (Or.inr rfl))⟩
    · rw [hstF d hdc] at hd
      rw [hmyF]
      obtain ⟨src, g, hm | hm⟩ := hInv.releasingReact d hd
      · exact ⟨src, g, Or.inl ((hWQmem _).mpr (Or.inl hm))⟩
      · exact ⟨src, g, Or.inr ((hWQmem _).mpr (Or.inl hm))⟩
  case reactUnique =>
    have htarget : ((s.waiting ++ s.queue) ++
        [(.relDrain s.guardTail c (s.clients c).myLock s.nextP : Reaction)]).Pairwise
          (fun r1 r2 => r1.client ≠ r2.client) := by
      rw [List.pairwise_append]
      refine ⟨hInv.reactUnique, by simp, ?_⟩
      intro r hr y hy
      simp at hy
      subst hy
      exact hnoc r hr
    by_cases hp : res s s.guardTail
    · rw [if_pos hp, if_pos hp, ← List.append_assoc]
      exact htarget
    · rw [if_neg hp, if_neg hp]
      have hperm : ((s.waiting ++
          [(.relDrain s.guardTail c (s.clients c).myLock s.nextP : Reaction)]) ++ s.queue).Perm
          ((s.waiting ++ s.queue) ++
            [(.relDrain s.guardTail c (s.clients c).myLock s.nextP : Reaction)]) := by
        rw [List.append_assoc, List.append_assoc]
        exact List.Perm.append_left _ List.perm_append_comm
      exact (List.Perm.pairwise_iff (fun h => Ne.symm h) hperm).mpr htarget
  case hotRes =>
    intro r hr
    by_cases hp : res s s.guardTail
    · rw [if_pos hp] at hr
      rcases List.mem_append.mp hr with h | h
      · exact hInv.hotRes r h
      · simp at h
        subst h
        exact hp
    · rw [if_neg hp] at hr
      exact hInv.hotRes r hr
  case parkedNotRes =>
    intro r hr
    by_cases hp : res s s.guardTail
    · rw [if_pos hp] at hr
      exact hInv.parkedNotRes r hr
    · rw [if_neg hp] at hr
      rcases List.mem_append.mp hr with h | h
      · exact hInv.parkedNotRes r h
      · simp at h
        subst h
        exact hp
  case guardNodupG =>
    rw [List.map_append]
    refine List.Nodup.append hInv.guardNodupG (by simp) ?_
    intro a ha hb
    simp at hb
    subst hb
    obtain ⟨e, he, heg⟩ := List.mem_map.mp ha
    have := (hInv.guardBound e he).1
    omega
  case guardLink =>
    apply chain'_concat_of
    · exact hInv.guardLink
    · intro z hz
      show s.guardTail = z.g
      rw [hInv.guardTailEq, hz]
      rfl
  case guardHead =>
    intro e he
    cases hgc : s.guardChain with
    | nil =>
        rw [hgc] at he
        simp at he
        subst he
        show s.guardTail = 1
        rw [hInv.guardTailEq, show s.guardChain.getLast? = none from by rw [hgc]; rfl]
        rfl
    | cons e0 t =>
        rw [hgc] at he
        simp at he
        subst he
        exact hInv.guardHead e0 (by rw [hgc]; rfl)
  case guardDoneNoReact =>
    intro e he hres r hr
    rcases List.mem_append.mp he with heo | hen
    · rcases (hWQmem r).mp hr with hro | hrn
      · exact hInv.guardDoneNoReact e heo hres r hro
      · subst hrn
        intro hcon
        injection hcon with h2
        have := (hInv.guardBound e heo).1
        omega
    · have hee : e = ⟨c, s.nextP, s.guardTail, .rel⟩ := by simpa using hen
      subst hee
      exact absurd hres hfreshL
  case guardResChain =>
    apply chain'_concat_of
    · exact hInv.guardResChain
    · intro z hz hres
      exact absurd hres hfreshL
  case countEq =>
    have hfh : List.filter (fun d => decide ¬((upd s.clients c
        { s.clients c with status := .releasing } d).status = .released ∧
        (upd s.clients c { s.clients c with status := .releasing } d).kind = .ordKey))
        s.ordChain
        = List.filter (fun d => decide ¬((s.clients d).status = .released ∧
          (s.clients d).kind = .ordKey)) s.ordChain := by
      apply List.filter_congr
      intro d hd
      by_cases hdc : d = c
      · subst hdc
        rw [upd_same_cl]
        simp [hc]
      · rw [upd_ne_cl _ _ hdc]
    rw [hfh]
    exact hInv.countEq
  case vipNonempty => exact hInv.vipNonempty
  case vipHeadRes =>
    intro h
    obtain ⟨src, c2, p, g, hm⟩ := hInv.vipHeadRes h
    exact ⟨src, c2, p, g, (hWQmem _).mpr (Or.inl hm)⟩
  case vipHeadNotLock =>
    intro d hd
    rw [hmyF]
    exact hInv.vipHeadNotLock d (hneF d hd)
  case vipHeadNotGuard =>
    intro e he
    rcases List.mem_append.mp he with heo | hen
    · exact hInv.vipHeadNotGuard e heo
    · have hee : e = ⟨c, s.nextP, s.guardTail, .rel⟩ := by simpa using hen
      subst hee
      have := hInv.vipHeadBound
      show s.vipHead ≠ s.nextP
      omega
  case myLockNotGuard =>
    intro d hd e he
    rw [hmyF]
    rcases List.mem_append.mp he with heo | hen
    · exact hInv.myLockNotGuard d (hneF d hd) e heo
    · have hee : e = ⟨c, s.nextP, s.guardTail, .rel⟩ := by simpa using hen
      subst hee
      have := (hInv.lockBound d (hneF d hd)).1
      show (s.clients d).myLock ≠ s.nextP
      omega
  case lockInj =>
    intro c1 d1 h1 h2 heq
    rw [hmyF, hmyF] at heq
    exact hInv.lockInj c1 d1 (hneF c1 h1) (hneF d1 h2) heq
  case lockBound =>
    intro d hd
    rw [hmyF]
    have := hInv.lockBound d (hneF d hd)
    constructor <;> omega
  case guardBound =>
    intro e he
    rcases List.mem_append.mp he with heo | hen
    · have := hInv.guardBound e heo
      refine ⟨by omega, by omega, by omega⟩
    · have hee : e = ⟨c, s.nextP, s.guardTail, .rel⟩ := by simpa using hen
      subst hee
      have := hInv.nextPBound
      refine ⟨by show s.nextP < s.nextP + 1; omega,
        by show 3 ≤ s.nextP; omega, by show s.guardTail < s.nextP + 1; omega⟩
  case vipHeadBound =>
    have := hInv.vipHeadBound
    constructor <;> omega
  case fresh =>
    intro p hp
    apply hInv.fresh
    omega
  case nextPBound =>
    have := hInv.nextPBound
    omega
  case resZero => exact hInv.resZero
  case timeRes =>
    intro p t h
    have := hInv.timeRes p t h
    omega
  case timeAdm =>
    intro d t hd
    rw [hadmF] at hd
    have := hInv.timeAdm d t hd
    omega
  case timeApp =>
    intro d t hd
    rw [happF] at hd
    have := hInv.timeApp d t hd
    omega
  case timeDrain =>
    intro d t hd
    rw [hdrF] at hd
    have := hInv.timeDrain d t hd
    omega
  case admitSome =>
    intro d hd
    rw [hadmF]
    by_cases hdc : d = c
    · rw [hdc]
      exact hInv.admitSome c (Or.inl hc)
    · rw [hstF d hdc] at hd
      exact hInv.admitSome d hd
  case admitNone =>
    intro d hd
    rw [hadmF]
    by_cases hdc : d = c
    · rw [hdc, upd_same_cl] at hd
      rcases hd with h | h | h <;> cases h
    · rw [hstF d hdc] at hd
      exact hInv.admitNone d hd
  case ordAdmitChain =>
    refine chain'_of_eq_on hInv.ordAdmitChain ?_
    intro a _ b _ hab
    rw [hadmF, hadmF]
    exact hab
  case vipAdmitChain =>
    refine chain'_of_eq_on hInv.vipAdmitChain ?_
    intro a _ b _ hab
    rw [hadmF, hadmF]
    exact hab
  case drainOrd =>
    intro d hd
    rw [hdrF] at hd
    rw [hkindF]
    exact hInv.drainOrd d hd
  case logNone =>
    intro d hd
    rw [hdrF] at hd
    exact hInv.logNone d hd
  case logSome =>
    intro d hd
    rw [hdrF] at hd
    have hold := hInv.logSome d hd
    constructor
    · intro hex
      apply hold.1
      obtain ⟨src, p, g, hm⟩ := hex
      rcases (hWQmem _).mp hm with hro | hcon
      · exact ⟨src, p, g, hro⟩
      · cases hcon
    · intro hnex
      apply hold.2
      rintro ⟨src, p, g, hm⟩
      exact hnex ⟨src, p, g, (hWQmem _).mpr (Or.inl hm)⟩
  case holdOne =>
    intro c1 d1 h1 h2
    by_cases hc1 : c1 = c
    · rw [hc1, upd_same_cl] at h1
      cases h1
    · by_cases hd1 : d1 = c
      · rw [hd1, upd_same_cl] at h2
        cases h2
      · rw [hstF c1 hc1] at h1
        rw [hstF d1 hd1] at h2
        exact hInv.holdOne c1 d1 h1 h2
  case vipActiveHead =>
    intro d hd hne
    have hdc : d ≠ c := fun h => hcnv (h ▸ List.mem_append.mpr (Or.inr hd))
    rw [hstF d hdc] at hne
    exact hInv.vipActiveHead d hd hne
  case ordKindLane =>
    intro d h1 h2
    rw [hkindF] at h1
    rw [hlaneF]
    exact hInv.ordKindLane d h1 (hneF d h2)
  case waitGuardLane =>
    intro d hd
    by_cases hdc : d = c
    · rw [hdc, upd_same_cl] at hd
      cases hd
    · rw [hstF d hdc] at hd
      rw [hlaneF]
      exact hInv.waitGuardLane d hd
  case drainNone =>
    intro d hd
    rw [hdrF]
    by_cases hdc : d = c
    · rw [hdc]
      exact hcdr
    · rw [hstF d hdc] at hd
      exact hInv.drainNone d hd
  case relDrained =>
    intro d h1 h2
    by_cases hdc : d = c
    · rw [hdc, upd_same_cl] at h1
      cases h1
    · rw [hstF d hdc] at h1
      rw [hkindF] at h2
      rw [hdrF]
      exact hInv.relDrained d h1 h2
  case entryNotIdle =>
    intro e he
    rcases List.mem_append.mp he with heo | hen
    · by_cases hec : e.c = c
      · rw [hec, upd_same_cl]
        intro h
        cases h
      · rw [hstF e.c hec]
        exact hInv.entryNotIdle e heo
    · have hee : e = ⟨c, s.nextP, s.guardTail, .rel⟩ := by simpa using hen
      subst hee
      rw [upd_same_cl]
      intro h
      cases h
  case chkUnique =>
    intro e1 he1 e2 he2 hk1 hk2 hcc
    rcases List.mem_append.mp he1 with h1o | h1n <;>
      rcases List.mem_append.mp he2 with h2o | h2n
    · exact hInv.chkUnique e1 h1o e2 h2o hk1 hk2 hcc
    · have hee : e2 = ⟨c, s.nextP, s.guardTail, .rel⟩ := by simpa using h2n
      rw [hee] at hk2
      cases hk2
    · have hee : e1 = ⟨c, s.nextP, s.guardTail, .rel⟩ := by simpa using h1n
      rw [hee] at hk1
      cases hk1
    · have hee1 : e1 = ⟨c, s.nextP, s.guardTail, .rel⟩ := by simpa using h1n
      have hee2 : e2 = ⟨c, s.nextP, s.guardTail, .rel⟩ := by simpa using h2n
      rw [hee1, hee2]
  case chkApp =>
    intro e he hkk
    rcases List.mem_append.mp he with heo | hen
    · rw [happF]
      exact hInv.chkApp e heo hkk
    · have hee : e = ⟨c, s.nextP, s.guardTail, .rel⟩ := by simpa using hen
      rw [hee] at hkk
      cases hkk
  case guardTimeChain =>
    apply chain'_concat_of
    · exact hInv.guardTimeChain
    · intro z hz t2 ht2
      rw [show s.resolvedAt (⟨c, s.nextP, s.guardTail, GKind.rel⟩ : GEntry).g = none
        from hInv.fresh s.nextP le_rfl] at ht2
      cases ht2
  case vipAppSome =>
    intro d hd
    rw [happF]
    exact hInv.vipAppSome d hd
  case vipAppChain =>
    refine chain'_of_eq_on hInv.vipAppChain ?_
    intro a _ b _ hab
    rw [happF, happF]
    exact hab
  case appStatus =>
    intro d hd
    rw [happF] at hd
    by_cases hdc : d = c
    · rw [hdc, upd_same_cl]
      exact ⟨(by intro h; cases h), (by intro h; cases h)⟩
    · rw [hstF d hdc]
      exact hInv.appStatus d hd

end VipM

namespace VipM

/-- While any ordinary-chain member is active (admitted but not yet fully
released), no ordinary admission microtask can be scheduled. -/
theorem no_ord_active_hot {s : St} (hInv : Inv s) {c : Nat}
    (hcmem : c ∈ s.ordChain)
    (hc1 : (s.clients c).status ≠ .queued)
    (hc2 : (s.clients c).status ≠ .released) {src d : Nat}
    (hd : (.thenKey src d : Reaction) ∈ s.queue)
    (hlane : (s.clients d).lane = .ordL) : False := by
  have hdWQ : (.thenKey src d : Reaction) ∈ s.waiting ++ s.queue :=
    List.mem_append.mpr (Or.inr hd)
  obtain ⟨hdq, hsrc⟩ := hInv.thenKeyShape src d hdWQ
  have hhot : res s src := hInv.hotRes _ hd
  have hdne : (s.clients d).status ≠ .idle := by rw [hdq]; intro h; cases h
  have hdmem : d ∈ s.ordChain := (hInv.ordMem d).mpr
    ⟨hlane, hdne, by rw [hdq]; intro h; cases h⟩
  have hcd : c ≠ d := by
    intro h
    rw [h, hdq] at hc1
    exact hc1 rfl
  obtain ⟨u, v, hsplit⟩ := List.append_of_mem hdmem
  rcases List.mem_append.mp (hsplit ▸ hcmem) with hcu | hcv
  · cases List.eq_nil_or_concat u with
    | inl h0 =>
        subst h0
        simp at hcu
    | inr h0 =>
        obtain ⟨u1, z, rfl⟩ := h0
        rw [List.concat_eq_append] at *
        have hsp2 : s.ordChain = u1 ++ z :: d :: v := by rw [hsplit]; simp
        have hadj : (s.clients d).srcP = (s.clients z).myLock := by
          have hch := hInv.ordLink
          rw [hsp2] at hch
          exact (List.chain'_append_cons_cons.mp hch).2.1
        have hzmem : z ∈ s.ordChain := by rw [hsp2]; simp
        have hzne : (s.clients z).status ≠ .idle := ((hInv.ordMem z).mp hzmem).2.1
        have hzrel : (s.clients z).status = .released := by
          apply (hInv.statusRes z hzne).mp
          rw [← hadj, ← hsrc]
          exact hhot
        rcases List.mem_append.mp hcu with hcu1 | hcz
        · obtain ⟨u2, v2, rfl⟩ := List.append_of_mem hcu1
          have hsp3 : s.ordChain = u2 ++ c :: (v2 ++ z :: (d :: v)) := by
            rw [hsp2]; simp
          exact hc2 (ord_before_released hInv hsp3 (by rw [hzrel]; intro h; cases h))
        · have : c = z := by simpa using hcz
          rw [this] at hc2
          exact hc2 hzrel
  · rcases List.mem_cons.mp hcv with rfl | hcv2
    · exact hcd rfl
    · obtain ⟨u2, v2, rfl⟩ := List.append_of_mem hcv2
      have hsp3 : s.ordChain = u ++ d :: (u2 ++ c :: v2) := by rw [hsplit]
      have := ord_before_released hInv hsp3 hc1
      rw [this] at hdq
      cases hdq

/-- While any VIP-chain member is active, no VIP admission microtask can be
scheduled. -/
theorem no_vip_active_hot {s : St} (hInv : Inv s) {c : Nat}
    (hcmem : c ∈ s.vipChain)
    (hc1 : (s.clients c).status ≠ .queued)
    (hc2 : (s.clients c).status ≠ .released) {src d : Nat}
    (hd : (.thenKey src d : Reaction) ∈ s.queue)
    (hlane : (s.clients d).lane = .vipL) : False := by
  have hdWQ : (.thenKey src d : Reaction) ∈ s.waiting ++ s.queue :=
    List.mem_append.mpr (Or.inr hd)
  obtain ⟨hdq, hsrc⟩ := hInv.thenKeyShape src d hdWQ
  have hhot : res s src := hInv.hotRes _ hd
  have hdne : (s.clients d).status ≠ .idle := by rw [hdq]; intro h; cases h
  have hdmem : d ∈ s.vipChain := by
    have := (hInv.vipMem d).mpr ⟨hlane, hdne, by rw [hdq]; intro h; cases h⟩
    rcases List.mem_append.mp this with hdd | hdv
    · have := hInv.vipDoneRel d hdd
      rw [this] at hdq
      cases hdq
    · exact hdv
  have hcd : c ≠ d := by
    intro h
    rw [h, hdq] at hc1
    exact hc1 rfl
  obtain ⟨u, v, hsplit⟩ := List.append_of_mem hdmem
  rcases List.mem_append.mp (hsplit ▸ hcmem) with hcu | hcv
  · cases List.eq_nil_or_concat u with
    | inl h0 =>
        subst h0
        simp at hcu
    | inr h0 =>
        obtain ⟨u1, z, rfl⟩ := h0
        rw [List.concat_eq_append] at *
        have hsp2 : s.vipChain = u1 ++ z :: d :: v := by rw [hsplit]; simp
        have hadj : (s.clients d).srcP = (s.clients z).myLock := by
          have hch := hInv.vipLink
          rw [hsp2] at hch
          exact (List.chain'_append_cons_cons.mp hch).2.1
        have hzmem : z ∈ s.vipChain := by rw [hsp2]; simp
        have hzne : (s.clients z).status ≠ .idle :=
          ((hInv.vipMem z).mp (List.mem_append.mpr (Or.inr hzmem))).2.1
        have hzrel : (s.clients z).status = .released := by
          apply (hInv.statusRes z hzne).mp
          rw [← hadj, ← hsrc]
          exact hhot
        rcases List.mem_append.mp hcu with hcu1 | hcz
        · obtain ⟨u2, v2, rfl⟩ := List.append_of_mem hcu1
          have hsp3 : s.vipChain = u2 ++ c :: (v2 ++ z :: (d :: v)) := by
            rw [hsp2]; simp
          exact hc2 (vip_before_released hInv hsp3 (by rw [hzrel]; intro h; cases h))
        · have : c = z := by simpa using hcz
          rw [this] at hc2
          exact hc2 hzrel
  · rcases List.mem_cons.mp hcv with rfl | hcv2
    · exact hcd rfl
    · obtain ⟨u2, v2, rfl⟩ := List.append_of_mem hcv2
      have hsp3 : s.vipChain = u ++ d :: (u2 ++ c :: v2) := by rw [hsplit]
      have := vip_before_released hInv hsp3 hc1
      rw [this] at hdq
      cases hdq

end VipM

namespace VipM

theorem inv_fire_thenKey {s : St} {src c : Nat} {rest : List Reaction}
    (hInv : Inv s) (hq : s.queue = (.thenKey src c : Reaction) :: rest) :
    Inv (fire (.thenKey src c) { s with queue := rest }) := by
  have hrQ : (.thenKey src c : Reaction) ∈ s.queue := by
    rw [hq]; exact List.mem_cons_self _ _
  have hrWQ : (.thenKey src c : Reaction) ∈ s.waiting ++ s.queue :=
    List.mem_append.mpr (Or.inr hrQ)
  obtain ⟨hcq, hsrc⟩ := hInv.thenKeyShape src c hrWQ
  have hhot : res s src := hInv.hotRes _ hrQ
  have hcne : (s.clients c).status ≠ .idle := by rw [hcq]; intro h; cases h
  have hcnw : (s.clients c).status ≠ .waitGuard := by rw [hcq]; intro h; cases h
  have hcnd : c ∉ s.vipDone := by
    intro h
    have := hInv.vipDoneRel c h
    rw [hcq] at this
    cases this
  have hcdr : (s.clients c).drainedAt = none :=
    hInv.drainNone c (Or.inr (Or.inr (Or.inl hcq)))
  have hnres : ¬ res s (s.clients c).myLock := by
    intro hres
    have := (hInv.statusRes c hcne).mp hres
    rw [hcq] at this
    cases this
  have hPW := hInv.reactUnique
  rw [hq] at hPW
  rcases List.pairwise_append.mp hPW with ⟨pW, pQ, cross⟩
  have hnotc : ∀ x ∈ s.waiting ++ rest, x.client ≠ c := by
    intro x hx
    rcases List.mem_append.mp hx with hxw | hxr
    · exact cross x hxw _ (List.mem_cons_self _ _)
    · rcases List.pairwise_cons.mp pQ with ⟨hhead, -⟩
      intro hcon
      exact hhead x hxr hcon.symm
  have hWQsub : ∀ x ∈ s.waiting ++ rest, x ∈ s.waiting ++ s.queue := by
    intro x hx
    rcases List.mem_append.mp hx with hxw | hxr
    · exact List.mem_append.mpr (Or.inl hxw)
    · exact List.mem_append.mpr (Or.inr (by rw [hq]; exact List.mem_cons_of_mem _ hxr))
  have hWQback : ∀ x, x ∈ s.waiting ++ s.queue → x.client ≠ c →
      x ∈ s.waiting ++ rest := by
    intro x hx hxc
    rcases List.mem_append.mp hx with hxw | hxq
    · exact List.mem_append.mpr (Or.inl hxw)
    · rw [hq] at hxq
      rcases List.mem_cons.mp hxq with rfl | hxr
      · exact absurd rfl hxc
      · exact List.mem_append.mpr (Or.inr hxr)
  have hmyF : ∀ x, (upd s.clients c
      { s.clients c with status := .holding, admittedAt := some s.time } x).myLock
      = (s.clients x).myLock := by
    intro x
    by_cases hxc : x = c
    · subst hxc; rw [upd_same_cl]
    · rw [upd_ne_cl _ _ hxc]
  have hsrcF : ∀ x, (upd s.clients c
      { s.clients c with status := .holding, admittedAt := some s.time } x).srcP
      = (s.clients x).srcP := by
    intro x
    by_cases hxc : x = c
    · subst hxc; rw [upd_same_cl]
    · rw [upd_ne_cl _ _ hxc]
  have hkindF : ∀ x, (upd s.clients c
      { s.clients c with status := .holding, admittedAt := some s.time } x).kind
      = (s.clients x).kind := by
    intro x
    by_cases hxc : x = c
    · subst hxc; rw [upd_same_cl]
    · rw [upd_ne_cl _ _ hxc]
  have hlaneF : ∀ x, (upd s.clients c
      { s.clients c with status := .holding, admittedAt := some s.time } x).lane
      = (s.clients x).lane := by
    intro x
    by_cases hxc : x = c
    · subst hxc; rw [upd_same_cl]
    · rw [upd_ne_cl _ _ hxc]
  have happF : ∀ x, (upd s.clients c
      { s.clients c with status := .holding, admittedAt := some s.time } x).appendedAt
      = (s.clients x).appendedAt := by
    intro x
    by_cases hxc : x = c
    · subst hxc; rw [upd_same_cl]
    · rw [upd_ne_cl _ _ hxc]
  have hdrF : ∀ x, (upd s.clients c
      { s.clients c with status := .holding, admittedAt := some s.time } x).drainedAt
      = (s.clients x).drainedAt := by
    intro x
    by_cases hxc : x = c
    · subst hxc; rw [upd_same_cl]
    · rw [upd_ne_cl _ _ hxc]
  have hneF : ∀ x, (upd s.clients c
      { s.clients c with status := .holding, admittedAt := some s.time } x).status ≠ .idle
      → (s.clients x).status ≠ .idle := by
    intro x
    by_cases hxc : x = c
    · subst hxc; intro _; exact hcne
    · rw [upd_ne_cl _ _ hxc]; exact id
  have hstF : ∀ x, x ≠ c →
      (upd s.clients c
        { s.clients c with status := .holding, admittedAt := some s.time } x).status
      = (s.clients x).status := by
    intro x hxc
    rw [upd_ne_cl _ _ hxc]
  have hordHR : ∀ a b, a ∈ s.ordChain → b ∈ s.ordChain →
      (s.clients a).status = .holding → (s.clients b).status = .releasing → False := by
    intro a b ham hbm h1 h2
    have hab : a ≠ b := by
      intro h
      rw [h, h2] at h1
      cases h1
    rcases mem_mem_split ham hbm hab with ⟨u, v, w, hsp⟩ | ⟨u, v, w, hsp⟩
    · have := ord_before_released hInv hsp (by rw [h2]; intro h; cases h)
      rw [h1] at this
      cases this
    · have := ord_before_released hInv hsp (by rw [h1]; intro h; cases h)
      rw [h2] at this
      cases this
  have hrelkill : ∀ d1, (s.clients d1).status = .holding →
      (∃ src2 c2 p2 g2, (.relFinish src2 c2 p2 g2 : Reaction) ∈ s.waiting ++ s.queue) →
      (s.clients d1).lane = .ordL → False := by
    rintro d1 h1 ⟨src2, c2, p2, g2, hm⟩ hl
    obtain ⟨hc2rel, -, -, -, -⟩ := hInv.relFinishShape src2 c2 p2 g2 hm
    have hc2ne : (s.clients c2).status ≠ .idle := by rw [hc2rel]; intro h; cases h
    have hc2m : c2 ∈ s.ordChain := (hInv.ordMem c2).mpr
      ⟨hInv.ordKindLane c2 (hInv.relKind c2 hc2rel) hc2ne, hc2ne,
        by rw [hc2rel]; intro h; cases h⟩
    have hd1ne : (s.clients d1).status ≠ .idle := by rw [h1]; intro h; cases h
    have hd1m : d1 ∈ s.ordChain := (hInv.ordMem d1).mpr
      ⟨hl, hd1ne, by rw [h1]; intro h; cases h⟩
    exact hordHR d1 c2 hd1m hc2m h1 hc2rel
  have hT : fire (.thenKey src c) { s with queue := rest } =
      { s with
        queue := rest,
        clients := upd s.clients c
          { s.clients c with status := .holding, admittedAt := some s.time },
        time := s.time + 1 } := by
    unfold fire
    rfl
  rw [hT]
  constructor
  all_goals try dsimp only
  case ordNodup => exact hInv.ordNodup
  case vipNodup => exact hInv.vipNodup
  case ordMem =>
    intro d
    by_cases hdc : d = c
    · rw [hdc, upd_same_cl]
      have hold := hInv.ordMem c
      rw [hcq] at hold
      constructor
      · intro hm
        exact ⟨(hold.mp hm).1, (by intro h; cases h), (by intro h; cases h)⟩
      · rintro ⟨hl, -, -⟩
        exact hold.mpr ⟨hl, (by intro h; cases h), (by intro h; cases h)⟩
    · rw [upd_ne_cl _ _ hdc]
      exact hInv.ordMem d
  case vipMem =>
    intro d
    by_cases hdc : d = c
    · rw [hdc, upd_same_cl]
      have hold := hInv.vipMem c
      rw [hcq] at hold
      constructor
      · intro hm
        exact ⟨(hold.mp hm).1, (by intro h; cases h), (by intro h; cases h)⟩
      · rintro ⟨hl, -, -⟩
        exact hold.mpr ⟨hl, (by intro h; cases h), (by intro h; cases h)⟩
    · rw [upd_ne_cl _ _ hdc]
      exact hInv.vipMem d
  case vipDoneRel =>
    intro d hd
    have hdc : d ≠ c := fun h => hcnd (h ▸ hd)
    rw [hstF d hdc]
    exact hInv.vipDoneRel d hd
  case vipKind =>
    intro d h1 h2
    rw [hlaneF] at h1
    rw [hkindF]
    exact hInv.vipKind d h1 (hneF d h2)
  case relKind =>
    intro d h1
    rw [hkindF]
    by_cases hdc : d = c
    · rw [hdc, upd_same_cl] at h1
      cases h1
    · rw [hstF d hdc] at h1
      exact hInv.relKind d h1
  case statusRes =>
    intro d hne
    by_cases hdc : d = c
    · rw [hdc, upd_same_cl]
      constructor
      · intro hp
        exact absurd hp hnres
      · intro hcon
        cases hcon
    · rw [upd_ne_cl _ _ hdc]
      rw [upd_ne_cl _ _ hdc] at hne
      exact hInv.statusRes d hne
  case admSrcRes =>
    intro d hd
    rw [hsrcF]
    by_cases hdc : d = c
    · rw [hdc, ← hsrc]
      exact hhot
    · rw [hstF d hdc] at hd
      exact hInv.admSrcRes d hd
  case lockTailEq =>
    rw [hInv.lockTailEq]
    cases hoc : s.ordChain.getLast? with
    | none => rfl
    | some z =>
        show (s.clients z).myLock = (upd s.clients c _ z).myLock
        exact (hmyF z).symm
  case vipTailEq =>
    rw [hInv.vipTailEq]
    cases hvc : s.vipChain.getLast? with
    | none => rfl
    | some z =>
        show (s.clients z).myLock = (upd s.clients c _ z).myLock
        exact (hmyF z).symm
  case guardTailEq => exact hInv.guardTailEq
  case ordLink =>
    refine chain'_of_eq_on hInv.ordLink ?_
    intro a _ b _ hab
    rw [hsrcF, hmyF]
    exact hab
  case ordHead =>
    intro d hd
    rw [hsrcF]
    exact hInv.ordHead d hd
  case vipLink =>
    refine chain'_of_eq_on hInv.vipLink ?_
    intro a _ b _ hab
    rw [hsrcF, hmyF]
    exact hab
  case vipHeadLink =>
    intro d hd
    rw [hsrcF]
    exact hInv.vipHeadLink d hd
  case thenKeyShape =>
    intro src2 d hr
    have hdc : d ≠ c := hnotc _ hr
    rw [hstF d hdc, hsrcF]
    exact hInv.thenKeyShape src2 d (hWQsub _ hr)
  case vipCheckShape =>
    intro src2 d p g hr
    have hdc : d ≠ c := hnotc _ hr
    rw [hstF d hdc, hmyF]
    exact hInv.vipCheckShape src2 d p g (hWQsub _ hr)
  case relDrainShape =>
    intro src2 d p g hr
    have hdc : d ≠ c := hnotc _ hr
    rw [hstF d hdc, hmyF, hdrF]
    exact hInv.relDrainShape src2 d p g (hWQsub _ hr)
  case relFinishShape =>
    intro src2 d p g hr
    have hdc : d ≠ c := hnotc _ hr
    rw [hstF d hdc, hmyF, hdrF]
    exact hInv.relFinishShape src2 d p g (hWQsub _ hr)
  case queuedThenKey =>
    intro d hd
    by_cases hdc : d = c
    · rw [hdc, upd_same_cl] at hd
      cases hd
    · rw [hstF d hdc] at hd
      rw [hsrcF]
      refine hWQback _ (hInv.queuedThenKey d hd) ?_
      exact hdc
  case waitGuardCheck =>
    intro d hd
    by_cases hdc : d = c
    · rw [hdc, upd_same_cl] at hd
      cases hd
    · rw [hstF d hdc] at hd
      rw [hmyF]
      obtain ⟨src2, g, hm⟩ := hInv.waitGuardCheck d hd
      exact ⟨src2, g, hWQback _ hm hdc⟩
  case releasingReact =>
    intro d hd
    by_cases hdc : d = c
    · rw [hdc, upd_same_cl] at hd
      cases hd
    · rw [hstF d hdc] at hd
      rw [hmyF]
      obtain ⟨src2, g, hm | hm⟩ := hInv.releasingReact d hd
      · exact ⟨src2, g, Or.inl (hWQback _ hm hdc)⟩
      · exact ⟨src2, g, Or.inr (hWQback _ hm hdc)⟩
  case reactUnique =>
    refine List.Pairwise.sublist ?_ hInv.reactUnique
    rw [hq]
    exact List.Sublist.append_left (List.sublist_cons_self _ _) _
  case hotRes =>
    intro r hr
    exact hInv.hotRes r (by rw [hq]; exact List.mem_cons_of_mem _ hr)
  case parkedNotRes =>
    intro r hr
    exact hInv.parkedNotRes r hr
  case guardNodupG => exact hInv.guardNodupG
  case guardLink => exact hInv.guardLink
  case guardHead => exact hInv.guardHead
  case guardDoneNoReact =>
    intro e he hres r hr
    exact hInv.guardDoneNoReact e he hres r (hWQsub _ hr)
  case guardResChain => exact hInv.guardResChain
  case countEq =>
    have hfh : List.filter (fun d => decide ¬((upd s.clients c
        { s.clients c with status := .holding, admittedAt := some s.time } d).status
          = .released ∧
        (upd s.clients c
        { s.clients c with status := .holding, admittedAt := some s.time } d).kind
          = .ordKey)) s.ordChain
        = List.filter (fun d => decide ¬((s.clients d).status = .released ∧
          (s.clients d).kind = .ordKey)) s.ordChain := by
      apply List.filter_congr
      intro d hd
      by_cases hdc : d = c
      · subst hdc
        rw [upd_same_cl]
        simp [hcq]
      · rw [upd_ne_cl _ _ hdc]
    rw [hfh]
    exact hInv.countEq
  case vipNonempty => exact hInv.vipNonempty
  case vipHeadRes =>
    intro h
    obtain ⟨src2, c2, p, g, hm⟩ := hInv.vipHeadRes h
    obtain ⟨hc2rel, -, -, -, -⟩ := hInv.relFinishShape src2 c2 p g hm
    have hc2c : (Reaction.relFinish src2 c2 p g).client ≠ c := by
      intro hcon
      have : c2 = c := hcon
      rw [this, hcq] at hc2rel
      cases hc2rel
    exact ⟨src2, c2, p, g, hWQback _ hm hc2c⟩
  case vipHeadNotLock =>
    intro d hd
    rw [hmyF]
    exact hInv.vipHeadNotLock d (hneF d hd)
  case vipHeadNotGuard => exact hInv.vipHeadNotGuard
  case myLockNotGuard =>
    intro d hd e he
    rw [hmyF]
    exact hInv.myLockNotGuard d (hneF d hd) e he
  case lockInj =>
    intro c1 d1 h1 h2 heq
    rw [hmyF, hmyF] at heq
    exact hInv.lockInj c1 d1 (hneF c1 h1) (hneF d1 h2) heq
  case lockBound =>
    intro d hd
    rw [hmyF]
    exact hInv.lockBound d (hneF d hd)
  case guardBound =>
    intro e he
    exact hInv.guardBound e he
  case vipHeadBound => exact hInv.vipHeadBound
  case fresh =>
    intro p hp
    exact hInv.fresh p hp
  case nextPBound => exact hInv.nextPBound
  case resZero => exact hInv.resZero
  case timeRes =>
    intro p t h
    have := hInv.timeRes p t h
    omega
  case timeAdm =>
    intro d t hd
    by_cases hdc : d = c
    · rw [hdc, upd_same_cl] at hd
      injection hd with h2
      omega
    · rw [upd_ne_cl _ _ hdc] at hd
      have := hInv.timeAdm d t hd
      omega
  case timeApp =>
    intro d t hd
    rw [happF] at hd
    have := hInv.timeApp d t hd
    omega
  case timeDrain =>
    intro d t hd
    rw [hdrF] at hd
    have := hInv.timeDrain d t hd
    omega
  case admitSome =>
    intro d hd
    by_cases hdc : d = c
    · rw [hdc, upd_same_cl]
      rfl
    · rw [upd_ne_cl _ _ hdc]
      rw [hstF d hdc] at hd
      exact hInv.admitSome d hd
  case admitNone =>
    intro d hd
    by_cases hdc : d = c
    · rw [hdc, upd_same_cl] at hd
      rcases hd with h | h | h <;> cases h
    · rw [upd_ne_cl _ _ hdc]
      rw [hstF d hdc] at hd
      exact hInv.admitNone d hd
  case drainOrd =>
    intro d hd
    rw [hdrF] at hd
    rw [hkindF]
    exact hInv.drainOrd d hd
  case logNone =>
    intro d hd
    rw [hdrF] at hd
    exact hInv.logNone d hd
  case logSome =>
    intro d hd
    rw [hdrF] at hd
    have hdc : d ≠ c := by
      intro h
      rw [h] at hd
      exact hd hcdr
    have hold := hInv.logSome d hd
    constructor
    · intro hex
      apply hold.1
      obtain ⟨src2, p, g, hm⟩ := hex
      exact ⟨src2, p, g, hWQsub _ hm⟩
    · intro hnex
      apply hold.2
      rintro ⟨src2, p, g, hm⟩
      exact hnex ⟨src2, p, g, hWQback _ hm hdc⟩
  case waitGuardLane =>
    intro d hd
    by_cases hdc : d = c
    · rw [hdc, upd_same_cl] at hd
      cases hd
    · rw [hstF d hdc] at hd
      rw [hlaneF]
      exact hInv.waitGuardLane d hd
  case drainNone =>
    intro d hd
    rw [hdrF]
    by_cases hdc : d = c
    · rw [hdc]
      exact hcdr
    · rw [hstF d hdc] at hd
      exact hInv.drainNone d hd
  case relDrained =>
    intro d h1 h2
    by_cases hdc : d = c
    · rw [hdc, upd_same_cl] at h1
      cases h1
    · rw [hstF d hdc] at h1
      rw [hkindF] at h2
      rw [hdrF]
      exact hInv.relDrained d h1 h2
  case entryNotIdle =>
    intro e he
    by_cases hec : e.c = c
    · rw [hec, upd_same_cl]
      intro h
      cases h
    · rw [hstF e.c hec]
      exact hInv.entryNotIdle e he
  case chkUnique => exact hInv.chkUnique
  case chkApp =>
    intro e he hkk
    rw [happF]
    exact hInv.chkApp e he hkk
  case guardTimeChain => exact hInv.guardTimeChain
  case vipAppSome =>
    intro d hd
    rw [happF]
    exact hInv.vipAppSome d hd
  case vipAppChain =>
    refine chain'_of_eq_on hInv.vipAppChain ?_
    intro a _ b _ hab
    rw [happF, happF]
    exact hab
  case appStatus =>
    intro d hd
    rw [happF] at hd
    by_cases hdc : d = c
    · rw [hdc, upd_same_cl]
      exact ⟨(by intro h; cases h), (by intro h; cases h)⟩
    · rw [hstF d hdc]
      exact hInv.appStatus d hd
  case ordStatusChain =>
    by_cases hcm : c ∈ s.ordChain
    case neg =>
        refine chain'_of_eq_on hInv.ordStatusChain ?_
        intro a ha b hb hab
        have hac : a ≠ c := fun h => hcm (h ▸ ha)
        have hbc : b ≠ c := fun h => hcm (h ▸ hb)
        rw [hstF a hac, hstF b hbc]
        exact hab
    case pos =>
        obtain ⟨l1, l2, hsp⟩ := List.append_of_mem hcm
        have hnd := hInv.ordNodup
        rw [hsp] at hnd
        have hcl2 : c ∉ l2 := by
          rcases List.nodup_append.mp hnd with ⟨-, hnd2, -⟩
          exact (List.nodup_cons.mp hnd2).1
        have hl1rel : ∀ x ∈ l1, (s.clients x).status = .released := by
          cases List.eq_nil_or_concat l1 with
          | inl h0 =>
              subst h0
              intro x hx
              simp at hx
          | inr h0 =>
              obtain ⟨l1h, a, rfl⟩ := h0
              rw [List.concat_eq_append] at *
              have hsp2 : s.ordChain = l1h ++ a :: c :: l2 := by rw [hsp]; simp
              have hadj : (s.clients c).srcP = (s.clients a).myLock := by
                have hch := hInv.ordLink
                rw [hsp2] at hch
                exact (List.chain'_append_cons_cons.mp hch).2.1
              have hamem : a ∈ s.ordChain := by rw [hsp2]; simp
              have hane : (s.clients a).status ≠ .idle := ((hInv.ordMem a).mp hamem).2.1
              have harel : (s.clients a).status = .released := by
                apply (hInv.statusRes a hane).mp
                rw [← hadj, ← hsrc]
                exact hhot
              intro x hx
              rcases List.mem_append.mp hx with hxh | hxa
              · obtain ⟨u, v, rfl⟩ := List.append_of_mem hxh
                have hsp3 : s.ordChain = u ++ x :: (v ++ a :: (c :: l2)) := by
                  rw [hsp2]; simp
                apply ord_before_released hInv hsp3
                rw [harel]
                intro h
                cases h
              · have : x = a := by simpa using hxa
                rw [this]
                exact harel
        have hl2q : ∀ y ∈ l2, (s.clients y).status = .queued := by
          intro y hy
          obtain ⟨u, v, huv⟩ := List.append_of_mem hy
          by_contra hyq
          have := ord_before_released hInv (by rw [hsp, huv]) hyq
          rw [hcq] at this
          cases this
        rw [hsp]
        refine chain'_rebuild (hsp ▸ hInv.ordStatusChain) ?_ ?_ ?_
        · intro a ha b hb hab
          have hac : a ≠ c := by
            intro h
            rcases List.nodup_append.mp hnd with ⟨-, -, hdisj⟩
            exact hdisj (h ▸ ha) (List.mem_cons_self _ _)
          have hbc : b ≠ c := by
            intro h
            rcases List.nodup_append.mp hnd with ⟨-, -, hdisj⟩
            exact hdisj (h ▸ hb) (List.mem_cons_self _ _)
          rw [hstF a hac, hstF b hbc]
          exact hab
        · intro a b hb
          have hbc : b ≠ c := fun h => hcl2 (h ▸ hb)
          rw [hstF b hbc]
          rw [hl2q b hb]
          intro hcon
          exact absurd rfl hcon
        · intro z hz _ _
          have hznec : z ≠ c := by
            intro h
            rcases List.nodup_append.mp hnd with ⟨-, -, hdisj⟩
            exact hdisj (h ▸ mem_of_getLast?_eq hz) (List.mem_cons_self _ _)
          rw [hstF z hznec]
          exact hl1rel z (mem_of_getLast?_eq hz)
  case vipStatusChain =>
    by_cases hcm : c ∈ s.vipChain
    case neg =>
        refine chain'_of_eq_on hInv.vipStatusChain ?_
        intro a ha b hb hab
        have hac : a ≠ c := fun h => hcm (h ▸ ha)
        have hbc : b ≠ c := fun h => hcm (h ▸ hb)
        rw [hstF a hac, hstF b hbc]
        exact hab
    case pos =>
        obtain ⟨l1, l2, hsp⟩ := List.append_of_mem hcm
        have hnd : (l1 ++ c :: l2).Nodup := by
          have := hInv.vipNodup
          rw [hsp] at this
          exact (List.nodup_append.mp this).2.1
        have hcl2 : c ∉ l2 := by
          rcases List.nodup_append.mp hnd with ⟨-, hnd2, -⟩
          exact (List.nodup_cons.mp hnd2).1
        have hl1rel : ∀ x ∈ l1, (s.clients x).status = .released := by
          cases List.eq_nil_or_concat l1 with
          | inl h0 =>
              subst h0
              intro x hx
              simp at hx
          | inr h0 =>
              obtain ⟨l1h, a, rfl⟩ := h0
              rw [List.concat_eq_append] at *
              have hsp2 : s.vipChain = l1h ++ a :: c :: l2 := by rw [hsp]; simp
              have hadj : (s.clients c).srcP = (s.clients a).myLock := by
                have hch := hInv.vipLink
                rw [hsp2] at hch
                exact (List.chain'_append_cons_cons.mp hch).2.1
              have hamem : a ∈ s.vipChain := by rw [hsp2]; simp
              have hane : (s.clients a).status ≠ .idle :=
                ((hInv.vipMem a).mp (List.mem_append.mpr (Or.inr hamem))).2.1
              have harel : (s.clients a).status = .released := by
                apply (hInv.statusRes a hane).mp
                rw [← hadj, ← hsrc]
                exact hhot
              intro x hx
              rcases List.mem_append.mp hx with hxh | hxa
              · obtain ⟨u, v, rfl⟩ := List.append_of_mem hxh
                have hsp3 : s.vipChain = u ++ x :: (v ++ a :: (c :: l2)) := by
                  rw [hsp2]; simp
                apply vip_before_released hInv hsp3
                rw [harel]
                intro h
                cases h
              · have : x = a := by simpa using hxa
                rw [this]
                exact harel
        have hl2q : ∀ y ∈ l2, (s.clients y).status = .queued := by
          intro y hy
          obtain ⟨u, v, huv⟩ := List.append_of_mem hy
          by_contra hyq
          have := vip_before_released hInv (by rw [hsp, huv]) hyq
          rw [hcq] at this
          cases this
        rw [hsp]
        refine chain'_rebuild (hsp ▸ hInv.vipStatusChain) ?_ ?_ ?_
        · intro a ha b hb hab
          have hac : a ≠ c := by
            intro h
            rcases List.nodup_append.mp hnd with ⟨-, -, hdisj⟩
            exact hdisj (h ▸ ha) (List.mem_cons_self _ _)
          have hbc : b ≠ c := by
            intro h
            rcases List.nodup_append.mp hnd with ⟨-, -, hdisj⟩
            exact hdisj (h ▸ hb) (List.mem_cons_self _ _)
          rw [hstF a hac, hstF b hbc]
          exact hab
        · intro a b hb
          have hbc : b ≠ c := fun h => hcl2 (h ▸ hb)
          rw [hstF b hbc]
          rw [hl2q b hb]
          intro hcon
          exact absurd rfl hcon
        · intro z hz _ _
          have hznec : z ≠ c := by
            intro h
            rcases List.nodup_append.mp hnd with ⟨-, -, hdisj⟩
            exact hdisj (h ▸ mem_of_getLast?_eq hz) (List.mem_cons_self _ _)
          rw [hstF z hznec]
          exact hl1rel z (mem_of_getLast?_eq hz)
  case ordAdmitChain =>
    by_cases hcm : c ∈ s.ordChain
    case neg =>
        refine chain'_of_eq_on hInv.ordAdmitChain ?_
        intro a ha b hb hab
        have hac : a ≠ c := fun h => hcm (h ▸ ha)
        have hbc : b ≠ c := fun h => hcm (h ▸ hb)
        rw [upd_ne_cl _ _ hac, upd_ne_cl _ _ hbc]
        exact hab
    case pos =>
        obtain ⟨l1, l2, hsp⟩ := List.append_of_mem hcm
        have hnd := hInv.ordNodup
        rw [hsp] at hnd
        have hcl2 : c ∉ l2 := by
          rcases List.nodup_append.mp hnd with ⟨-, hnd2, -⟩
          exact (List.nodup_cons.mp hnd2).1
        have hl1rel : ∀ x ∈ l1, (s.clients x).status = .released := by
          cases List.eq_nil_or_concat l1 with
          | inl h0 =>
              subst h0
              intro x hx
              simp at hx
          | inr h0 =>
              obtain ⟨l1h, a, rfl⟩ := h0
              rw [List.concat_eq_append] at *
              have hsp2 : s.ordChain = l1h ++ a :: c :: l2 := by rw [hsp]; simp
              have hadj : (s.clients c).srcP = (s.clients a).myLock := by
                have hch := hInv.ordLink
                rw [hsp2] at hch
                exact (List.chain'_append_cons_cons.mp hch).2.1
              have hamem : a ∈ s.ordChain := by rw [hsp2]; simp
              have hane : (s.clients a).status ≠ .idle := ((hInv.ordMem a).mp hamem).2.1
              have harel : (s.clients a).status = .released := by
                apply (hInv.statusRes a hane).mp
                rw [← hadj, ← hsrc]
                exact hhot
              intro x hx
              rcases List.mem_append.mp hx with hxh | hxa
              · obtain ⟨u, v, rfl⟩ := List.append_of_mem hxh
                have hsp3 : s.ordChain = u ++ x :: (v ++ a :: (c :: l2)) := by
                  rw [hsp2]; simp
                apply ord_before_released hInv hsp3
                rw [harel]
                intro h
                cases h
              · have : x = a := by simpa using hxa
                rw [this]
                exact harel
        have hl2q : ∀ y ∈ l2, (s.clients y).status = .queued := by
          intro y hy
          obtain ⟨u, v, huv⟩ := List.append_of_mem hy
          by_contra hyq
          have := ord_before_released hInv (by rw [hsp, huv]) hyq
          rw [hcq] at this
          cases this
        rw [hsp]
        refine chain'_rebuild (hsp ▸ hInv.ordAdmitChain) ?_ ?_ ?_
        · intro a ha b hb hab
          have hac : a ≠ c := by
            intro h
            rcases List.nodup_append.mp hnd with ⟨-, -, hdisj⟩
            exact hdisj (h ▸ ha) (List.mem_cons_self _ _)
          have hbc : b ≠ c := by
            intro h
            rcases List.nodup_append.mp hnd with ⟨-, -, hdisj⟩
            exact hdisj (h ▸ hb) (List.mem_cons_self _ _)
          rw [upd_ne_cl _ _ hac, upd_ne_cl _ _ hbc]
          exact hab
        · intro a b hb tb htb
          have hbc : b ≠ c := fun h => hcl2 (h ▸ hb)
          rw [upd_ne_cl _ _ hbc] at htb
          rw [hInv.admitNone b (Or.inr (Or.inr (hl2q b hb)))] at htb
          cases htb
        · intro z hz _ tb htb
          have hznec : z ≠ c := by
            intro h
            rcases List.nodup_append.mp hnd with ⟨-, -, hdisj⟩
            exact hdisj (h ▸ mem_of_getLast?_eq hz) (List.mem_cons_self _ _)
          rw [upd_same_cl] at htb
          injection htb with htb2
          have hzrel := hl1rel z (mem_of_getLast?_eq hz)
          have hzsome := hInv.admitSome z (Or.inr (Or.inr hzrel))
          obtain ⟨ta, hta⟩ := Option.isSome_iff_exists.mp hzsome
          refine ⟨ta, by rw [upd_ne_cl _ _ hznec]; exact hta, ?_⟩
          have := hInv.timeAdm z ta hta
          omega
  case vipAdmitChain =>
    by_cases hcm : c ∈ s.vipChain
    case neg =>
        have hcm2 : c ∉ s.vipDone ++ s.vipChain := by
          intro hm
          rcases List.mem_append.mp hm with h | h
          · exact hcnd h
          · exact hcm h
        refine chain'_of_eq_on hInv.vipAdmitChain ?_
        intro a ha b hb hab
        have hac : a ≠ c := fun h => hcm2 (h ▸ ha)
        have hbc : b ≠ c := fun h => hcm2 (h ▸ hb)
        rw [upd_ne_cl _ _ hac, upd_ne_cl _ _ hbc]
        exact hab
    case pos =>
        obtain ⟨l1, l2, hsp⟩ := List.append_of_mem hcm
        have hndA : (s.vipDone ++ (l1 ++ c :: l2)).Nodup := by
          have := hInv.vipNodup
          rw [hsp] at this
          exact this
        have hspA : s.vipDone ++ s.vipChain = (s.vipDone ++ l1) ++ c :: l2 := by
          rw [hsp, List.append_assoc]
        have hcnl : c ∉ s.vipDone ++ l1 := by
          intro hm
          have hndB : ((s.vipDone ++ l1) ++ c :: l2).Nodup := by
            rw [← hspA]
            exact hInv.vipNodup
          rcases List.nodup_append.mp hndB with ⟨-, -, hdisj⟩
          exact hdisj hm (List.mem_cons_self _ _)
        have hcl2 : c ∉ l2 := by
          have hndB : ((s.vipDone ++ l1) ++ c :: l2).Nodup := by
            rw [← hspA]
            exact hInv.vipNodup
          rcases List.nodup_append.mp hndB with ⟨-, hnd2, -⟩
          exact (List.nodup_cons.mp hnd2).1
        have hl1rel : ∀ x ∈ l1, (s.clients x).status = .released := by
          cases List.eq_nil_or_concat l1 with
          | inl h0 =>
              subst h0
              intro x hx
              simp at hx
          | inr h0 =>
              obtain ⟨l1h, a, rfl⟩ := h0
              rw [List.concat_eq_append] at *
              have hsp2 : s.vipChain = l1h ++ a :: c :: l2 := by rw [hsp]; simp
              have hadj : (s.clients c).srcP = (s.clients a).myLock := by
                have hch := hInv.vipLink
                rw [hsp2] at hch
                exact (List.chain'_append_cons_cons.mp hch).2.1
              have hamem : a ∈ s.vipChain := by rw [hsp2]; simp
              have hane : (s.clients a).status ≠ .idle :=
                ((hInv.vipMem a).mp (List.mem_append.mpr (Or.inr hamem))).2.1
              have harel : (s.clients a).status = .released := by
                apply (hInv.statusRes a hane).mp
                rw [← hadj, ← hsrc]
                exact hhot
              intro x hx
              rcases List.mem_append.mp hx with hxh | hxa
              · obtain ⟨u, v, rfl⟩ := List.append_of_mem hxh
                have hsp3 : s.vipChain = u ++ x :: (v ++ a :: (c :: l2)) := by
                  rw [hsp2]; simp
                apply vip_before_released hInv hsp3
                rw [harel]
                intro h
                cases h
              · have : x = a := by simpa using hxa
                rw [this]
                exact harel
        have hl2q : ∀ y ∈ l2, (s.clients y).status = .queued := by
          intro y hy
          obtain ⟨u, v, huv⟩ := List.append_of_mem hy
          by_contra hyq
          have := vip_before_released hInv (by rw [hsp, huv]) hyq
          rw [hcq] at this
          cases this
        rw [hspA]
        refine chain'_rebuild (hspA ▸ hInv.vipAdmitChain) ?_ ?_ ?_
        · intro a ha b hb hab
          have hac : a ≠ c := fun h => hcnl (h ▸ ha)
          have hbc : b ≠ c := fun h => hcnl (h ▸ hb)
          rw [upd_ne_cl _ _ hac, upd_ne_cl _ _ hbc]
          exact hab
        · intro a b hb tb htb
          have hbc : b ≠ c := fun h => hcl2 (h ▸ hb)
          rw [upd_ne_cl _ _ hbc] at htb
          rw [hInv.admitNone b (Or.inr (Or.inr (hl2q b hb)))] at htb
          cases htb
        · intro z hz _ tb htb
          have hznec : z ≠ c := fun h => hcnl (h ▸ mem_of_getLast?_eq hz)
          rw [upd_same_cl] at htb
          injection htb with htb2
          have hzrel : (s.clients z).status = .released := by
            rcases List.mem_append.mp (mem_of_getLast?_eq hz) with hzd | hzl
            · exact hInv.vipDoneRel z hzd
            · exact hl1rel z hzl
          have hzsome := hInv.admitSome z (Or.inr (Or.inr hzrel))
          obtain ⟨ta, hta⟩ := Option.isSome_iff_exists.mp hzsome
          refine ⟨ta, by rw [upd_ne_cl _ _ hznec]; exact hta, ?_⟩
          have := hInv.timeAdm z ta hta
          omega
  case vipActiveHead =>
    intro d hd hne
    by_cases hdc : d = c
    · subst hdc
      have hlc : (s.clients d).lane = .vipL :=
        ((hInv.vipMem d).mp (List.mem_append.mpr (Or.inr hd))).1
      obtain ⟨l1, l2, hsp⟩ := List.append_of_mem hd
      cases List.eq_nil_or_concat l1 with
      | inl h0 =>
          subst h0
          have hhead : s.vipChain.head? = some d := by rw [hsp]; rfl
          have := hInv.vipHeadLink d hhead
          rw [← this, ← hsrc]
          exact hhot
      | inr h0 =>
          obtain ⟨l1h, a, rfl⟩ := h0
          rw [List.concat_eq_append] at *
          have hsp2 : s.vipChain = l1h ++ a :: d :: l2 := by rw [hsp]; simp
          have hadj : (s.clients d).srcP = (s.clients a).myLock := by
            have hch := hInv.vipLink
            rw [hsp2] at hch
            exact (List.chain'_append_cons_cons.mp hch).2.1
          have hamem : a ∈ s.vipChain := by rw [hsp2]; simp
          have hane : (s.clients a).status ≠ .idle :=
            ((hInv.vipMem a).mp (List.mem_append.mpr (Or.inr hamem))).2.1
          have harel : (s.clients a).status = .released := by
            apply (hInv.statusRes a hane).mp
            rw [← hadj, ← hsrc]
            exact hhot
          exact hInv.vipActiveHead a hamem (by rw [harel]; intro h; cases h)
    · rw [hstF d hdc] at hne
      exact hInv.vipActiveHead d hd hne
  case holdOne =>
    intro c1 d1 h1 h2
    by_cases hc1 : c1 = c <;> by_cases hd1 : d1 = c
    · rw [hc1, hd1]
    · exfalso
      rw [hstF d1 hd1] at h2
      cases hlc : (s.clients c).lane with
      | ordL =>
          cases hld : (s.clients d1).lane with
          | ordL =>
              have hd1ne : (s.clients d1).status ≠ .idle := by
                rw [h2]; intro h; cases h
              have hd1m : d1 ∈ s.ordChain := (hInv.ordMem d1).mpr
                ⟨hld, hd1ne, by rw [h2]; intro h; cases h⟩
              exact no_ord_active_hot hInv hd1m
                (by rw [h2]; intro h; cases h) (by rw [h2]; intro h; cases h) hrQ hlc
          | vipL =>
              have hd1ne : (s.clients d1).status ≠ .idle := by
                rw [h2]; intro h; cases h
              have hd1m : d1 ∈ s.vipChain := by
                have := (hInv.vipMem d1).mpr
                  ⟨hld, hd1ne, by rw [h2]; intro h; cases h⟩
                rcases List.mem_append.mp this with hdd | hdv
                · have := hInv.vipDoneRel d1 hdd
                  rw [this] at h2
                  cases h2
                · exact hdv
              have hrvh : res s s.vipHead :=
                hInv.vipActiveHead d1 hd1m (by rw [h2]; intro h; cases h)
              obtain ⟨src2, c2, p2, g2, hm⟩ := hInv.vipHeadRes hrvh
              obtain ⟨hc2rel, -, -, -, -⟩ := hInv.relFinishShape src2 c2 p2 g2 hm
              have hc2ne : (s.clients c2).status ≠ .idle := by
                rw [hc2rel]; intro h; cases h
              have hc2m : c2 ∈ s.ordChain := (hInv.ordMem c2).mpr
                ⟨hInv.ordKindLane c2 (hInv.relKind c2 hc2rel) hc2ne, hc2ne,
                  by rw [hc2rel]; intro h; cases h⟩
              exact no_ord_active_hot hInv hc2m
                (by rw [hc2rel]; intro h; cases h)
                (by rw [hc2rel]; intro h; cases h) hrQ hlc
      | vipL =>
          cases hld : (s.clients d1).lane with
          | vipL =>
              have hd1ne : (s.clients d1).status ≠ .idle := by
                rw [h2]; intro h; cases h
              have hd1m : d1 ∈ s.vipChain := by
                have := (hInv.vipMem d1).mpr
                  ⟨hld, hd1ne, by rw [h2]; intro h; cases h⟩
                rcases List.mem_append.mp this with hdd | hdv
                · have := hInv.vipDoneRel d1 hdd
                  rw [this] at h2
                  cases h2
                · exact hdv
              exact no_vip_active_hot hInv hd1m
                (by rw [h2]; intro h; cases h) (by rw [h2]; intro h; cases h) hrQ hlc
          | ordL =>
              have hcm : c ∈ s.vipChain := by
                have := (hInv.vipMem c).mpr ⟨hlc, hcne, hcnw⟩
                rcases List.mem_append.mp this with hdd | hdv
                · exact absurd hdd hcnd
                · exact hdv
              have hrvh : res s s.vipHead := by
                obtain ⟨l1, l2, hsp⟩ := List.append_of_mem hcm
                cases List.eq_nil_or_concat l1 with
                | inl h0 =>
                    subst h0
                    have hhead : s.vipChain.head? = some c := by rw [hsp]; rfl
                    have := hInv.vipHeadLink c hhead
                    rw [← this, ← hsrc]
                    exact hhot
                | inr h0 =>
                    obtain ⟨l1h, a, rfl⟩ := h0
                    rw [List.concat_eq_append] at *
                    have hsp2 : s.vipChain = l1h ++ a :: c :: l2 := by rw [hsp]; simp
                    have hadj : (s.clients c).srcP = (s.clients a).myLock := by
                      have hch := hInv.vipLink
                      rw [hsp2] at hch
                      exact (List.chain'_append_cons_cons.mp hch).2.1
                    have hamem : a ∈ s.vipChain := by rw [hsp2]; simp
                    have hane : (s.clients a).status ≠ .idle :=
                      ((hInv.vipMem a).mp (List.mem_append.mpr (Or.inr hamem))).2.1
                    have harel : (s.clients a).status = .released := by
                      apply (hInv.statusRes a hane).mp
                      rw [← hadj, ← hsrc]
                      exact hhot
                    exact hInv.vipActiveHead a hamem (by rw [harel]; intro h; cases h)
              obtain ⟨src2, c2, p2, g2, hm⟩ := hInv.vipHeadRes hrvh
              obtain ⟨hc2rel, -, -, -, -⟩ := hInv.relFinishShape src2 c2 p2 g2 hm
              have hc2ne : (s.clients c2).status ≠ .idle := by
                rw [hc2rel]; intro h; cases h
              have hc2m : c2 ∈ s.ordChain := (hInv.ordMem c2).mpr
                ⟨hInv.ordKindLane c2 (hInv.relKind c2 hc2rel) hc2ne, hc2ne,
                  by rw [hc2rel]; intro h; cases h⟩
              have hd1ne : (s.clients d1).status ≠ .idle := by
                rw [h2]; intro h; cases h
              have hd1m : d1 ∈ s.ordChain := (hInv.ordMem d1).mpr
                ⟨hld, hd1ne, by rw [h2]; intro h; cases h⟩
              exact hordHR d1 c2 hd1m hc2m h2 hc2rel
    · exfalso
      rw [hstF c1 hc1] at h1
      cases hlc : (s.clients c).lane with
      | ordL =>
          cases hld : (s.clients c1).lane with
          | ordL =>
              have hc1ne : (s.clients c1).status ≠ .idle := by
                rw [h1]; intro h; cases h
              have hc1m : c1 ∈ s.ordChain := (hInv.ordMem c1).mpr
                ⟨hld, hc1ne, by rw [h1]; intro h; cases h⟩
              exact no_ord_active_hot hInv hc1m
                (by rw [h1]; intro h; cases h) (by rw [h1]; intro h; cases h) hrQ hlc
          | vipL =>
              have hc1ne : (s.clients c1).status ≠ .idle := by
                rw [h1]; intro h; cases h
              have hc1m : c1 ∈ s.vipChain := by
                have := (hInv.vipMem c1).mpr
                  ⟨hld, hc1ne, by rw [h1]; intro h; cases h⟩
                rcases List.mem_append.mp this with hdd | hdv
                · have := hInv.vipDoneRel c1 hdd
                  rw [this] at h1
                  cases h1
                · exact hdv
              have hrvh : res s s.vipHead :=
                hInv.vipActiveHead c1 hc1m (by rw [h1]; intro h; cases h)
              obtain ⟨src2, c2, p2, g2, hm⟩ := hInv.vipHeadRes hrvh
              obtain ⟨hc2rel, -, -, -, -⟩ := hInv.relFinishShape src2 c2 p2 g2 hm
              have hc2ne : (s.clients c2).status ≠ .idle := by
                rw [hc2rel]; intro h; cases h
              have hc2m : c2 ∈ s.ordChain := (hInv.ordMem c2).mpr
                ⟨hInv.ordKindLane c2 (hInv.relKind c2 hc2rel) hc2ne, hc2ne,
                  by rw [hc2rel]; intro h; cases h⟩
              exact no_ord_active_hot hInv hc2m
                (by rw [hc2rel]; intro h; cases h)
                (by rw [hc2rel]; intro h; cases h) hrQ hlc
      | vipL =>
          cases hld : (s.clients c1).lane with
          | vipL =>
              have hc1ne : (s.clients c1).status ≠ .idle := by
                rw [h1]; intro h; cases h
              have hc1m : c1 ∈ s.vipChain := by
                have := (hInv.vipMem c1).mpr
                  ⟨hld, hc1ne, by rw [h1]; intro h; cases h⟩
                rcases List.mem_append.mp this with hdd | hdv
                · have := hInv.vipDoneRel c1 hdd
                  rw [this] at h1
                  cases h1
                · exact hdv
              exact no_vip_active_hot hInv hc1m
                (by rw [h1]; intro h; cases h) (by rw [h1]; intro h; cases h) hrQ hlc
          | ordL =>
              have hcm : c ∈ s.vipChain := by
                have := (hInv.vipMem c).mpr ⟨hlc, hcne, hcnw⟩
                rcases List.mem_append.mp this with hdd | hdv
                · exact absurd hdd hcnd
                · exact hdv
              have hrvh : res s s.vipHead := by
                obtain ⟨l1, l2, hsp⟩ := List.append_of_mem hcm
                cases List.eq_nil_or_concat l1 with
                | inl h0 =>
                    subst h0
                    have hhead : s.vipChain.head? = some c := by rw [hsp]; rfl
                    have := hInv.vipHeadLink c hhead
                    rw [← this, ← hsrc]
                    exact hhot
                | inr h0 =>
                    obtain ⟨l1h, a, rfl⟩ := h0
                    rw [List.concat_eq_append] at *
                    have hsp2 : s.vipChain = l1h ++ a :: c :: l2 := by rw [hsp]; simp
                    have hadj : (s.clients c).srcP = (s.clients a).myLock := by
                      have hch := hInv.vipLink
                      rw [hsp2] at hch
                      exact (List.chain'_append_cons_cons.mp hch).2.1
                    have hamem : a ∈ s.vipChain := by rw [hsp2]; simp
                    have hane : (s.clients a).status ≠ .idle :=
                      ((hInv.vipMem a).mp (List.mem_append.mpr (Or.inr hamem))).2.1
                    have harel : (s.clients a).status = .released := by
                      apply (hInv.statusRes a hane).mp
                      rw [← hadj, ← hsrc]
                      exact hhot
                    exact hInv.vipActiveHead a hamem (by rw [harel]; intro h; cases h)
              obtain ⟨src2, c2, p2, g2, hm⟩ := hInv.vipHeadRes hrvh
              obtain ⟨hc2rel, -, -, -, -⟩ := hInv.relFinishShape src2 c2 p2 g2 hm
              have hc2ne : (s.clients c2).status ≠ .idle := by
                rw [hc2rel]; intro h; cases h
              have hc2m : c2 ∈ s.ordChain := (hInv.ordMem c2).mpr
                ⟨hInv.ordKindLane c2 (hInv.relKind c2 hc2rel) hc2ne, hc2ne,
                  by rw [hc2rel]; intro h; cases h⟩
              have hc1ne : (s.clients c1).status ≠ .idle := by
                rw [h1]; intro h; cases h
              have hc1m : c1 ∈ s.ordChain := (hInv.ordMem c1).mpr
                ⟨hld, hc1ne, by rw [h1]; intro h; cases h⟩
              exact hordHR c1 c2 hc1m hc2m h1 hc2rel
    · rw [hstF c1 hc1] at h1
      rw [hstF d1 hd1] at h2
      exact hInv.holdOne c1 d1 h1 h2
  case ordKindLane =>
    intro d h1 h2
    rw [hkindF] at h1
    rw [hlaneF]
    exact hInv.ordKindLane d h1 (hneF d h2)

end VipM

namespace VipM

theorem addReaction_count (r : Reaction) (s : St) : (addReaction r s).count = s.count := by
  unfold addReaction; split <;> rfl

theorem addReaction_ordChain (r : Reaction) (s : St) :
    (addReaction r s).ordChain = s.ordChain := by
  unfold addReaction; split <;> rfl

theorem addReaction_vipChain (r : Reaction) (s : St) :
    (addReaction r s).vipChain = s.vipChain := by
  unfold addReaction; split <;> rfl

theorem addReaction_vipDone (r : Reaction) (s : St) :
    (addReaction r s).vipDone = s.vipDone := by
  unfold addReaction; split <;> rfl

theorem addReaction_guardChain (r : Reaction) (s : St) :
    (addReaction r s).guardChain = s.guardChain := by
  unfold addReaction; split <;> rfl

theorem addReaction_log (r : Reaction) (s : St) : (addReaction r s).log = s.log := by
  unfold addReaction; split <;> rfl

theorem addReaction_lockTail (r : Reaction) (s : St) :
    (addReaction r s).lockTail = s.lockTail := by
  unfold addReaction; split <;> rfl

theorem addReaction_vipHead (r : Reaction) (s : St) :
    (addReaction r s).vipHead = s.vipHead := by
  unfold addReaction; split <;> rfl

theorem addReaction_vipTail (r : Reaction) (s : St) :
    (addReaction r s).vipTail = s.vipTail := by
  unfold addReaction; split <;> rfl

theorem addReaction_guardTail (r : Reaction) (s : St) :
    (addReaction r s).guardTail = s.guardTail := by
  unfold addReaction; split <;> rfl

theorem addReaction_nextP (r : Reaction) (s : St) :
    (addReaction r s).nextP = s.nextP := by
  unfold addReaction; split <;> rfl

theorem addReaction_time (r : Reaction) (s : St) : (addReaction r s).time = s.time := by
  unfold addReaction; split <;> rfl

end VipM

namespace VipM

theorem inv_fire_relDrain {s : St} {src c p g : Nat} {rest : List Reaction}
    (hInv : Inv s) (hq : s.queue = (.relDrain src c p g : Reaction) :: rest) :
    Inv (fire (.relDrain src c p g) { s with queue := rest }) := by
  have hrQ : (.relDrain src c p g : Reaction) ∈ s.queue := by
    rw [hq]; exact List.mem_cons_self _ _
  have hrWQ : (.relDrain src c p g : Reaction) ∈ s.waiting ++ s.queue :=
    List.mem_append.mpr (Or.inr hrQ)
  obtain ⟨hcrel, hp, hent, hdrnone⟩ := hInv.relDrainShape src c p g hrWQ
  have hhot : res s src := hInv.hotRes _ hrQ
  have hcne : (s.clients c).status ≠ .idle := by rw [hcrel]; intro h; cases h
  have hnvh : ¬ res s s.vipHead := by
    intro hres
    obtain ⟨src2, c2, p2, g2, hm⟩ := hInv.vipHeadRes hres
    obtain ⟨hc2rel, -, -, -, -⟩ := hInv.relFinishShape src2 c2 p2 g2 hm
    have hc2c : c2 = c := releasing_unique hInv hc2rel hcrel
    subst hc2c
    have := react_client_unique hInv hm hrWQ rfl
    cases this
  have hPW := hInv.reactUnique
  rw [hq] at hPW
  rcases List.pairwise_append.mp hPW with ⟨pW, pQ, cross⟩
  have hnotc : ∀ x ∈ s.waiting ++ rest, x.client ≠ c := by
    intro x hx
    rcases List.mem_append.mp hx with hxw | hxr
    · exact cross x hxw _ (List.mem_cons_self _ _)
    · rcases List.pairwise_cons.mp pQ with ⟨hhead, -⟩
      intro hcon
      exact hhead x hxr hcon.symm
  have hWQsub : ∀ x ∈ s.waiting ++ rest, x ∈ s.waiting ++ s.queue := by
    intro x hx
    rcases List.mem_append.mp hx with hxw | hxr
    · exact List.mem_append.mpr (Or.inl hxw)
    · exact List.mem_append.mpr (Or.inr (by rw [hq]; exact List.mem_cons_of_mem _ hxr))
  have hWQback : ∀ x, x ∈ s.waiting ++ s.queue → x.client ≠ c →
      x ∈ s.waiting ++ rest := by
    intro x hx hxc
    rcases List.mem_append.mp hx with hxw | hxq
    · exact List.mem_append.mpr (Or.inl hxw)
    · rw [hq] at hxq
      rcases List.mem_cons.mp hxq with rfl | hxr
      · exact absurd rfl hxc
      · exact List.mem_append.mpr (Or.inr hxr)
  have hres2 : ∀ q, ((addReaction (.relFinish s.vipTail c p g)
      (resolveP s.vipHead { s with queue := rest })).resolvedAt q).isSome ↔
      res s q ∨ q = s.vipHead := by
    intro q
    rw [addReaction_resolvedAt0]
    exact res_resolveP s.vipHead { s with queue := rest } q
  have hat : ∀ q, q ≠ s.vipHead → (addReaction (.relFinish s.vipTail c p g)
      (resolveP s.vipHead { s with queue := rest })).resolvedAt q
      = s.resolvedAt q := by
    intro q hq2
    rw [addReaction_resolvedAt0]
    exact resolveP_at_ne { s with queue := rest } hq2
  have hatH : (addReaction (.relFinish s.vipTail c p g)
      (resolveP s.vipHead { s with queue := rest })).resolvedAt s.vipHead
      = some s.time := by
    rw [addReaction_resolvedAt0]
    exact resolveP_at_self hnvh
  have hWQperm : ((addReaction (.relFinish s.vipTail c p g)
      (resolveP s.vipHead { s with queue := rest })).waiting ++
      (addReaction (.relFinish s.vipTail c p g)
      (resolveP s.vipHead { s with queue := rest })).queue).Perm
      ((s.waiting ++ rest) ++ [(.relFinish s.vipTail c p g : Reaction)]) := by
    refine (addReaction_WQ_perm _ _).trans ?_
    refine List.Perm.append_right _ ?_
    exact resolveP_WQ_perm_v s.vipHead { s with queue := rest }
  have hWQmem : ∀ x : Reaction, x ∈ (addReaction (.relFinish s.vipTail c p g)
      (resolveP s.vipHead { s with queue := rest })).waiting ++
      (addReaction (.relFinish s.vipTail c p g)
      (resolveP s.vipHead { s with queue := rest })).queue ↔
      x ∈ s.waiting ++ rest ∨ x = .relFinish s.vipTail c p g := by
    intro x
    rw [hWQperm.mem_iff]
    simp [List.mem_append]
    tauto
  have hstF : ∀ x, (upd s.clients c
      { s.clients c with drainedAt := some s.time } x).status = (s.clients x).status := by
    intro x
    by_cases hxc : x = c
    · subst hxc; rw [upd_same_cl]
    · rw [upd_ne_cl _ _ hxc]
  have hmyF : ∀ x, (upd s.clients c
      { s.clients c with drainedAt := some s.time } x).myLock = (s.clients x).myLock := by
    intro x
    by_cases hxc : x = c
    · subst hxc; rw [upd_same_cl]
    · rw [upd_ne_cl _ _ hxc]
  have hsrcF : ∀ x, (upd s.clients c
      { s.clients c with drainedAt := some s.time } x).srcP = (s.clients x).srcP := by
    intro x
    by_cases hxc : x = c
    · subst hxc; rw [upd_same_cl]
    · rw [upd_ne_cl _ _ hxc]
  have hkindF : ∀ x, (upd s.clients c
      { s.clients c with drainedAt := some s.time } x).kind = (s.clients x).kind := by
    intro x
    by_cases hxc : x = c
    · subst hxc; rw [upd_same_cl]
    · rw [upd_ne_cl _ _ hxc]
  have hlaneF : ∀ x, (upd s.clients c
      { s.clients c with drainedAt := some s.time } x).lane = (s.clients x).lane := by
    intro x
    by_cases hxc : x = c
    · subst hxc; rw [upd_same_cl]
    · rw [upd_ne_cl _ _ hxc]
  have hadmF : ∀ x, (upd s.clients c
      { s.clients c with drainedAt := some s.time } x).admittedAt
      = (s.clients x).admittedAt := by
    intro x
    by_cases hxc : x = c
    · subst hxc; rw [upd_same_cl]
    · rw [upd_ne_cl _ _ hxc]
  have happF : ∀ x, (upd s.clients c
      { s.clients c with drainedAt := some s.time } x).appendedAt
      = (s.clients x).appendedAt := by
    intro x
    by_cases hxc : x = c
    · subst hxc; rw [upd_same_cl]
    · rw [upd_ne_cl _ _ hxc]
  have hdrFne : ∀ x, x ≠ c → (upd s.clients c
      { s.clients c with drainedAt := some s.time } x).drainedAt
      = (s.clients x).drainedAt := by
    intro x hxc
    rw [upd_ne_cl _ _ hxc]
  have hfil : ∀ d, d ≠ c → List.filter (fun ev => ev.client == d)
      ([.gotGuard c, .headResolved c, .awaitedTail c] : List REvent) = [] := by
    intro d hdc
    apply List.filter_eq_nil_iff.mpr
    intro ev hev
    simp at hev
    rcases hev with rfl | rfl | rfl <;>
      simp [REvent.client] <;> exact Ne.symm hdc
  have hfilc : List.filter (fun ev => ev.client == c)
      ([.gotGuard c, .headResolved c, .awaitedTail c] : List REvent)
      = [.gotGuard c, .headResolved c, .awaitedTail c] := by
    simp [REvent.client]
  have hT : fire (.relDrain src c p g) { s with queue := rest } =
      { addReaction (.relFinish s.vipTail c p g)
          (resolveP s.vipHead { s with queue := rest }) with
        clients := upd s.clients c { s.clients c with drainedAt := some s.time },
        log := s.log ++ [.gotGuard c, .headResolved c, .awaitedTail c],
        time := s.time + 1 } := by
    unfold fire
    rfl
  rw [hT]
  constructor
  all_goals try dsimp only
  case ordNodup => rw [addReaction_ordChain, resolveP_ordChain]; exact hInv.ordNodup
  case vipNodup =>
    rw [addReaction_vipDone, resolveP_vipDone, addReaction_vipChain, resolveP_vipChain]
    exact hInv.vipNodup
  case ordMem =>
    intro d
    rw [addReaction_ordChain, resolveP_ordChain, hlaneF d, hstF d]
    exact hInv.ordMem d
  case vipMem =>
    intro d
    rw [addReaction_vipDone, resolveP_vipDone, addReaction_vipChain, resolveP_vipChain,
      hlaneF d, hstF d]
    exact hInv.vipMem d
  case vipDoneRel =>
    intro d hd
    rw [addReaction_vipDone, resolveP_vipDone] at hd
    rw [hstF d]
    exact hInv.vipDoneRel d hd
  case vipKind =>
    intro d h1 h2
    rw [hlaneF d] at h1
    rw [hstF d] at h2
    rw [hkindF d]
    exact hInv.vipKind d h1 h2
  case relKind =>
    intro d h1
    rw [hstF d] at h1
    rw [hkindF d]
    exact hInv.relKind d h1
  case statusRes =>
    intro d hne
    rw [hstF d] at hne
    rw [hstF d, hmyF d]
    show ((addReaction (.relFinish s.vipTail c p g)
      (resolveP s.vipHead { s with queue := rest })).resolvedAt _).isSome ↔ _
    rw [hres2]
    have hne2 : (s.clients d).myLock ≠ s.vipHead := hInv.vipHeadNotLock d hne
    constructor
    · rintro (hr | hr)
      · exact (hInv.statusRes d hne).mp hr
      · exact absurd hr hne2
    · intro hr
      exact Or.inl ((hInv.statusRes d hne).mpr hr)
  case admSrcRes =>
    intro d hd
    rw [hstF d] at hd
    rw [hsrcF d]
    show ((addReaction (.relFinish s.vipTail c p g)
      (resolveP s.vipHead { s with queue := rest })).resolvedAt _).isSome
    rw [hres2]
    exact Or.inl (hInv.admSrcRes d hd)
  case lockTailEq =>
    rw [addReaction_lockTail, resolveP_lockTail, addReaction_ordChain, resolveP_ordChain,
      hInv.lockTailEq]
    cases hoc : s.ordChain.getLast? with
    | none => rfl
    | some z =>
        show (s.clients z).myLock = (upd s.clients c _ z).myLock
        exact (hmyF z).symm
  case vipTailEq =>
    rw [addReaction_vipTail, resolveP_vipTail, addReaction_vipChain, resolveP_vipChain,
      addReaction_vipHead, resolveP_vipHead, hInv.vipTailEq]
    cases hvc : s.vipChain.getLast? with
    | none => rfl
    | some z =>
        show (s.clients z).myLock = (upd s.clients c _ z).myLock
        exact (hmyF z).symm
  case guardTailEq =>
    rw [addReaction_guardTail, resolveP_guardTail, addReaction_guardChain,
      resolveP_guardChain]
    exact hInv.guardTailEq
  case ordLink =>
    rw [addReaction_ordChain, resolveP_ordChain]
    refine chain'_of_eq_on hInv.ordLink ?_
    intro a _ b _ hab
    rw [hsrcF, hmyF]
    exact hab
  case ordHead =>
    intro d hd
    rw [addReaction_ordChain, resolveP_ordChain] at hd
    rw [hsrcF]
    exact hInv.ordHead d hd
  case vipLink =>
    rw [addReaction_vipChain, resolveP_vipChain]
    refine chain'_of_eq_on hInv.vipLink ?_
    intro a _ b _ hab
    rw [hsrcF, hmyF]
    exact hab
  case vipHeadLink =>
    intro d hd
    rw [addReaction_vipChain, resolveP_vipChain] at hd
    rw [hsrcF, addReaction_vipHead, resolveP_vipHead]
    exact hInv.vipHeadLink d hd
  case ordStatusChain =>
    rw [addReaction_ordChain, resolveP_ordChain]
    refine chain'_of_eq_on hInv.ordStatusChain ?_
    intro a _ b _ hab
    rw [hstF, hstF]
    exact hab
  case vipStatusChain =>
    rw [addReaction_vipChain, resolveP_vipChain]
    refine chain'_of_eq_on hInv.vipStatusChain ?_
    intro a _ b _ hab
    rw [hstF, hstF]
    exact hab
  case thenKeyShape =>
    intro src2 d hr
    rcases (hWQmem _).mp hr with hro | hrn
    · rw [hstF d, hsrcF d]
      exact hInv.thenKeyShape src2 d (hWQsub _ hro)
    · cases hrn
  case vipCheckShape =>
    intro src2 d p2 g2 hr
    rw [addReaction_guardChain, resolveP_guardChain]
    rcases (hWQmem _).mp hr with hro | hrn
    · rw [hstF d, hmyF d]
      exact hInv.vipCheckShape src2 d p2 g2 (hWQsub _ hro)
    · cases hrn
  case relDrainShape =>
    intro src2 d p2 g2 hr
    rw [addReaction_guardChain, resolveP_guardChain]
    rcases (hWQmem _).mp hr with hro | hrn
    · have hdc : d ≠ c := hnotc _ hro
      rw [hstF d, hmyF d, hdrFne d hdc]
      exact hInv.relDrainShape src2 d p2 g2 (hWQsub _ hro)
    · cases hrn
  case relFinishShape =>
    intro src2 d p2 g2 hr
    rw [addReaction_guardChain, resolveP_guardChain, addReaction_vipTail,
      resolveP_vipTail]
    rcases (hWQmem _).mp hr with hro | hrn
    · have hdc : d ≠ c := hnotc _ hro
      rw [hstF d, hmyF d, hdrFne d hdc]
      obtain ⟨h1, h2, h3, ⟨sg, h4, h5⟩, h6⟩ :=
        hInv.relFinishShape src2 d p2 g2 (hWQsub _ hro)
      refine ⟨h1, h2, h3, ⟨sg, h4, ?_⟩, h6⟩
      show ((addReaction (.relFinish s.vipTail c p g)
        (resolveP s.vipHead { s with queue := rest })).resolvedAt sg).isSome
      rw [hres2]
      exact Or.inl h5
    · cases hrn
      rw [hstF c, hmyF c, upd_same_cl]
      refine ⟨hcrel, hp, rfl, ⟨src, hent, ?_⟩, by intro h; cases h⟩
      show ((addReaction (.relFinish s.vipTail c p g)
        (resolveP s.vipHead { s with queue := rest })).resolvedAt src).isSome
      rw [hres2]
      exact Or.inl hhot
  case queuedThenKey =>
    intro d hd
    rw [hstF d] at hd
    rw [hsrcF d]
    have hdc : d ≠ c := by
      intro h
      rw [h, hcrel] at hd
      cases hd
    exact (hWQmem _).mpr (Or.inl (hWQback _ (hInv.queuedThenKey d hd) hdc))
  case waitGuardCheck =>
    intro d hd
    rw [hstF d] at hd
    rw [hmyF d]
    have hdc : d ≠ c := by
      intro h
      rw [h, hcrel] at hd
      cases hd
    obtain ⟨src2, g2, hm⟩ := hInv.waitGuardCheck d hd
    exact ⟨src2, g2, (hWQmem _).mpr (Or.inl (hWQback _ hm hdc))⟩
  case releasingReact =>
    intro d hd
    rw [hstF d] at hd
    rw [hmyF d]
    by_cases hdc : d = c
    · rw [hdc]
      refine ⟨s.vipTail, g, Or.inr ?_⟩
      rw [← hp]
      exact (hWQmem _).mpr (Or.inr rfl)
    · obtain ⟨src2, g2, hm | hm⟩ := hInv.releasingReact d hd
      · exact ⟨src2, g2, Or.inl ((hWQmem _).mpr (Or.inl (hWQback _ hm hdc)))⟩
      · exact ⟨src2, g2, Or.inr ((hWQmem _).mpr (Or.inl (hWQback _ hm hdc)))⟩
  case reactUnique =>
    have hsub : (s.waiting ++ rest).Pairwise (fun r1 r2 => r1.client ≠ r2.client) := by
      refine List.Pairwise.sublist ?_ hInv.reactUnique
      rw [hq]
      exact List.Sublist.append_left (List.sublist_cons_self _ _) _
    have htarget : ((s.waiting ++ rest) ++
        [(.relFinish s.vipTail c p g : Reaction)]).Pairwise
        (fun r1 r2 => r1.client ≠ r2.client) := by
      rw [List.pairwise_append]
      refine ⟨hsub, by simp, ?_⟩
      intro r hr y hy
      simp at hy
      subst hy
      exact hnotc r hr
    exact (List.Perm.pairwise_iff (fun h => Ne.symm h) hWQperm).mpr htarget
  case hotRes =>
    have hbase : ∀ x ∈ ({ s with queue := rest } : St).queue,
        res { s with queue := rest } x.src := by
      intro x hx
      exact hInv.hotRes x (by rw [hq]; exact List.mem_cons_of_mem _ hx)
    exact hot_addReaction _ (hot_resolveP _ hbase)
  case parkedNotRes =>
    have hbase : ∀ x ∈ ({ s with queue := rest } : St).waiting,
        ¬ res { s with queue := rest } x.src := by
      intro x hx
      exact hInv.parkedNotRes x hx
    exact parked_addReaction _ (parked_resolveP _ hbase)
  case guardNodupG =>
    rw [addReaction_guardChain, resolveP_guardChain]
    exact hInv.guardNodupG
  case guardLink =>
    rw [addReaction_guardChain, resolveP_guardChain]
    exact hInv.guardLink
  case guardHead =>
    intro e he
    rw [addReaction_guardChain, resolveP_guardChain] at he
    exact hInv.guardHead e he
  case guardDoneNoReact =>
    intro e he hres r hr
    rw [addReaction_guardChain, resolveP_guardChain] at he
    have hres3 : res s e.g := by
      rcases (hres2 e.g).mp hres with h | h
      · exact h
      · exact absurd h.symm (hInv.vipHeadNotGuard e he)
    rcases (hWQmem r).mp hr with hro | hrn
    · exact hInv.guardDoneNoReact e he hres3 r (hWQsub _ hro)
    · subst hrn
      intro hcon
      have hge : g = e.g := by simpa [Reaction.guard] using hcon
      subst hge
      exact hInv.guardDoneNoReact e he hres3 _ hrWQ rfl
  case guardResChain =>
    rw [addReaction_guardChain, resolveP_guardChain]
    refine chain'_of_eq_on hInv.guardResChain ?_
    intro a ha b hb hab hres
    have hres3 : res s b.g := by
      rcases (hres2 b.g).mp hres with h | h
      · exact h
      · exact absurd h.symm (hInv.vipHeadNotGuard b hb)
    show ((addReaction (.relFinish s.vipTail c p g)
      (resolveP s.vipHead { s with queue := rest })).resolvedAt a.g).isSome
    rw [hres2]
    exact Or.inl (hab hres3)
  case countEq =>
    rw [addReaction_count, resolveP_count, addReaction_ordChain, resolveP_ordChain]
    have hfh : List.filter (fun d => decide ¬((upd s.clients c
        { s.clients c with drainedAt := some s.time } d).status = .released ∧
        (upd s.clients c { s.clients c with drainedAt := some s.time } d).kind
          = .ordKey)) s.ordChain
        = List.filter (fun d => decide ¬((s.clients d).status = .released ∧
          (s.clients d).kind = .ordKey)) s.ordChain := by
      apply List.filter_congr
      intro d _
      rw [hstF d, hkindF d]
    rw [hfh]
    exact hInv.countEq
  case vipNonempty =>
    rw [addReaction_vipChain, resolveP_vipChain, addReaction_count, resolveP_count]
    exact hInv.vipNonempty
  case vipHeadRes =>
    intro _
    refine ⟨s.vipTail, c, p, g, (hWQmem _).mpr (Or.inr rfl)⟩
  case vipHeadNotLock =>
    intro d hd
    rw [hmyF d, addReaction_vipHead, resolveP_vipHead]
    rw [hstF d] at hd
    exact hInv.vipHeadNotLock d hd
  case vipHeadNotGuard =>
    intro e he
    rw [addReaction_guardChain, resolveP_guardChain] at he
    rw [addReaction_vipHead, resolveP_vipHead]
    exact hInv.vipHeadNotGuard e he
  case myLockNotGuard =>
    intro d hd e he
    rw [addReaction_guardChain, resolveP_guardChain] at he
    rw [hmyF d]
    rw [hstF d] at hd
    exact hInv.myLockNotGuard d hd e he
  case lockInj =>
    intro c1 d1 h1 h2 heq
    rw [hmyF, hmyF] at heq
    rw [hstF c1] at h1
    rw [hstF d1] at h2
    exact hInv.lockInj c1 d1 h1 h2 heq
  case lockBound =>
    intro d hd
    rw [hmyF d, addReaction_nextP, resolveP_nextP_v]
    rw [hstF d] at hd
    exact hInv.lockBound d hd
  case guardBound =>
    intro e he
    rw [addReaction_guardChain, resolveP_guardChain] at he
    rw [addReaction_nextP, resolveP_nextP_v]
    exact hInv.guardBound e he
  case vipHeadBound =>
    rw [addReaction_vipHead, resolveP_vipHead, addReaction_nextP, resolveP_nextP_v]
    exact hInv.vipHeadBound
  case fresh =>
    intro q hq2
    rw [addReaction_nextP, resolveP_nextP_v] at hq2
    have hq3 : s.nextP ≤ q := hq2
    have hqvh : q ≠ s.vipHead := by
      have := hInv.vipHeadBound
      omega
    rw [hat q hqvh]
    exact hInv.fresh q hq3
  case nextPBound =>
    rw [addReaction_nextP, resolveP_nextP_v]
    exact hInv.nextPBound
  case resZero =>
    constructor
    · show ((addReaction (.relFinish s.vipTail c p g)
        (resolveP s.vipHead { s with queue := rest })).resolvedAt 0).isSome
      rw [hres2]
      exact Or.inl hInv.resZero.1
    · show ((addReaction (.relFinish s.vipTail c p g)
        (resolveP s.vipHead { s with queue := rest })).resolvedAt 1).isSome
      rw [hres2]
      exact Or.inl hInv.resZero.2
  case timeRes =>
    intro q t h
    by_cases hqvh : q = s.vipHead
    · subst hqvh
      rw [hatH] at h
      injection h with h2
      omega
    · rw [hat q hqvh] at h
      have := hInv.timeRes q t h
      omega
  case timeAdm =>
    intro d t hd
    rw [hadmF d] at hd
    have := hInv.timeAdm d t hd
    omega
  case timeApp =>
    intro d t hd
    rw [happF d] at hd
    have := hInv.timeApp d t hd
    omega
  case timeDrain =>
    intro d t hd
    by_cases hdc : d = c
    · rw [hdc, upd_same_cl] at hd
      injection hd with h2
      omega
    · rw [hdrFne d hdc] at hd
      have := hInv.timeDrain d t hd
      omega
  case admitSome =>
    intro d hd
    rw [hstF d] at hd
    rw [hadmF d]
    exact hInv.admitSome d hd
  case admitNone =>
    intro d hd
    rw [hstF d] at hd
    rw [hadmF d]
    exact hInv.admitNone d hd
  case ordAdmitChain =>
    rw [addReaction_ordChain, resolveP_ordChain]
    refine chain'_of_eq_on hInv.ordAdmitChain ?_
    intro a _ b _ hab
    rw [hadmF, hadmF]
    exact hab
  case vipAdmitChain =>
    rw [addReaction_vipDone, resolveP_vipDone, addReaction_vipChain, resolveP_vipChain]
    refine chain'_of_eq_on hInv.vipAdmitChain ?_
    intro a _ b _ hab
    rw [hadmF, hadmF]
    exact hab
  case drainOrd =>
    intro d hd
    rw [hkindF d]
    by_cases hdc : d = c
    · rw [hdc]
      exact hInv.relKind c hcrel
    · rw [hdrFne d hdc] at hd
      exact hInv.drainOrd d hd
  case logNone =>
    intro d hd
    unfold logFor
    dsimp only
    rw [List.filter_append]
    by_cases hdc : d = c
    · rw [hdc, upd_same_cl] at hd
      cases hd
    · rw [hdrFne d hdc] at hd
      have h0 := hInv.logNone d hd
      unfold logFor at h0
      rw [h0, hfil d hdc]
      rfl
  case logSome =>
    intro d hd
    by_cases hdc : d = c
    · rw [hdc]
      constructor
      · intro _
        unfold logFor canon3
        dsimp only
        rw [List.filter_append]
        have h0 := hInv.logNone c hdrnone
        unfold logFor at h0
        rw [h0, hfilc]
        rfl
      · intro hnex
        exfalso
        apply hnex
        exact ⟨s.vipTail, p, g, (hWQmem _).mpr (Or.inr rfl)⟩
    · rw [hdrFne d hdc] at hd
      have hold := hInv.logSome d hd
      have hflight : (∃ src2 p2 g2, (.relFinish src2 d p2 g2 : Reaction) ∈
          (addReaction (.relFinish s.vipTail c p g)
            (resolveP s.vipHead { s with queue := rest })).waiting ++
          (addReaction (.relFinish s.vipTail c p g)
            (resolveP s.vipHead { s with queue := rest })).queue) ↔
          (∃ src2 p2 g2, (.relFinish src2 d p2 g2 : Reaction) ∈
            s.waiting ++ s.queue) := by
        constructor
        · rintro ⟨src2, p2, g2, hm⟩
          rcases (hWQmem _).mp hm with hro | hrn
          · exact ⟨src2, p2, g2, hWQsub _ hro⟩
          · injection hrn with h1 h2 h3 h4
            exact absurd h2 hdc
        · rintro ⟨src2, p2, g2, hm⟩
          exact ⟨src2, p2, g2, (hWQmem _).mpr (Or.inl (hWQback _ hm hdc))⟩
      have hlogeq : logFor { addReaction (.relFinish s.vipTail c p g)
          (resolveP s.vipHead { s with queue := rest }) with
          clients := upd s.clients c { s.clients c with drainedAt := some s.time },
          log := s.log ++ [.gotGuard c, .headResolved c, .awaitedTail c],
          time := s.time + 1 } d = logFor s d := by
        unfold logFor
        dsimp only
        rw [List.filter_append, hfil d hdc, List.append_nil]
      constructor
      · intro hex
        rw [hlogeq]
        exact hold.1 (hflight.mp hex)
      · intro hnex
        rw [hlogeq]
        exact hold.2 (fun hx => hnex (hflight.mpr hx))
  case holdOne =>
    intro c1 d1 h1 h2
    rw [hstF c1] at h1
    rw [hstF d1] at h2
    exact hInv.holdOne c1 d1 h1 h2
  case vipActiveHead =>
    intro d hd hne
    show ((addReaction (.relFinish s.vipTail c p g)
      (resolveP s.vipHead { s with queue := rest })).resolvedAt _).isSome
    rw [addReaction_vipHead, resolveP_vipHead, hres2]
    exact Or.inr rfl
  case ordKindLane =>
    intro d h1 h2
    rw [hkindF d] at h1
    rw [hstF d] at h2
    rw [hlaneF d]
    exact hInv.ordKindLane d h1 h2
  case waitGuardLane =>
    intro d hd
    rw [hstF d] at hd
    rw [hlaneF d]
    exact hInv.waitGuardLane d hd
  case drainNone =>
    intro d hd
    rw [hstF d] at hd
    by_cases hdc : d = c
    · rw [hdc] at hd
      rw [hcrel] at hd
      rcases hd with h | h | h | h <;> cases h
    · rw [hdrFne d hdc]
      exact hInv.drainNone d hd
  case relDrained =>
    intro d h1 h2
    by_cases hdc : d = c
    · rw [hdc, upd_same_cl]
      intro h
      cases h
    · rw [hstF d] at h1
      rw [hkindF d] at h2
      rw [hdrFne d hdc]
      exact hInv.relDrained d h1 h2
  case entryNotIdle =>
    intro e he
    rw [addReaction_guardChain, resolveP_guardChain] at he
    rw [hstF e.c]
    exact hInv.entryNotIdle e he
  case chkUnique =>
    intro e1 he1 e2 he2
    rw [addReaction_guardChain, resolveP_guardChain] at he1 he2
    exact hInv.chkUnique e1 he1 e2 he2
  case chkApp =>
    intro e he hkk
    rw [addReaction_guardChain, resolveP_guardChain] at he
    rw [happF e.c, hat e.g (fun h => hInv.vipHeadNotGuard e he h.symm)]
    exact hInv.chkApp e he hkk
  case guardTimeChain =>
    rw [addReaction_guardChain, resolveP_guardChain]
    refine chain'_of_eq_on hInv.guardTimeChain ?_
    intro a ha b hb hab
    rw [hat b.g (fun h => hInv.vipHeadNotGuard b hb h.symm),
      hat a.g (fun h => hInv.vipHeadNotGuard a ha h.symm)]
    exact hab
  case vipAppSome =>
    intro d hd
    rw [addReaction_vipDone, resolveP_vipDone, addReaction_vipChain,
      resolveP_vipChain] at hd
    rw [happF d]
    exact hInv.vipAppSome d hd
  case vipAppChain =>
    rw [addReaction_vipDone, resolveP_vipDone, addReaction_vipChain, resolveP_vipChain]
    refine chain'_of_eq_on hInv.vipAppChain ?_
    intro a _ b _ hab
    rw [happF, happF]
    exact hab
  case appStatus =>
    intro d hd
    rw [happF d] at hd
    rw [hstF d]
    exact hInv.appStatus d hd

end VipM

theorem chain'_conj {α : Type} {R S : α → α → Prop} :
    ∀ {l : List α}, List.Chain' R l → List.Chain' S l →
    List.Chain' (fun a b => R a b ∧ S a b) l
  | [], _, _ => List.chain'_nil
  | [a], _, _ => List.chain'_singleton a
  | a :: b :: t, hR, hS => by
      rw [List.chain'_cons] at hR hS ⊢
      exact ⟨⟨hR.1, hS.1⟩, chain'_conj hR.2 hS.2⟩

namespace VipM

/-- Guard-chain entries are determined by their guard lock. -/
theorem gentry_unique {s : St} (hInv : Inv s) {e1 e2 : GEntry}
    (h1 : e1 ∈ s.guardChain) (h2 : e2 ∈ s.guardChain) (hg : e1.g = e2.g) :
    e1 = e2 := by
  by_contra hne
  have key : ∀ (ea eb : GEntry), ∀ u v w, s.guardChain = u ++ ea :: (v ++ eb :: w) →
      ea.g = eb.g → False := by
    intro ea eb u v w hsp hgg
    have hnd := hInv.guardNodupG
    rw [hsp, List.map_append, List.map_cons] at hnd
    rcases List.nodup_append.mp hnd with ⟨-, hnd2, -⟩
    have : ea.g ∉ ((v ++ eb :: w).map GEntry.g) := (List.nodup_cons.mp hnd2).1
    apply this
    rw [hgg, List.map_append, List.map_cons]
    exact List.mem_append.mpr (Or.inr (List.mem_cons_self _ _))
  rcases mem_mem_split h1 h2 hne with ⟨u, v, w, hsp⟩ | ⟨u, v, w, hsp⟩
  · exact key e1 e2 u v w hsp hg
  · exact key e2 e1 u v w hsp hg.symm

end VipM

namespace VipM

theorem inv_fire_relFinish {s : St} {src c p g : Nat} {rest : List Reaction}
    (hInv : Inv s) (hq : s.queue = (.relFinish src c p g : Reaction) :: rest) :
    Inv (fire (.relFinish src c p g) { s with queue := rest }) := by
  have hrQ : (.relFinish src c p g : Reaction) ∈ s.queue := by
    rw [hq]; exact List.mem_cons_self _ _
  have hrWQ : (.relFinish src c p g : Reaction) ∈ s.waiting ++ s.queue :=
    List.mem_append.mpr (Or.inr hrQ)
  obtain ⟨hcrel, hpml, hsrcT, ⟨sg, hent, hsg⟩, hdr⟩ := hInv.relFinishShape src c p g hrWQ
  have hhot : res s src := hInv.hotRes _ hrQ
  have hcne : (s.clients c).status ≠ .idle := by rw [hcrel]; intro h; cases h
  have hkord : (s.clients c).kind = .ordKey := hInv.relKind c hcrel
  have hlane : (s.clients c).lane = .ordL := hInv.ordKindLane c hkord hcne
  have hcnv : c ∉ s.vipDone ++ s.vipChain := by
    intro hm
    have := ((hInv.vipMem c).mp hm).1
    rw [hlane] at this
    cases this
  have hcmo : c ∈ s.ordChain := (hInv.ordMem c).mpr
    ⟨hlane, hcne, by rw [hcrel]; intro h; cases h⟩
  have hnp : ¬ res s p := by
    intro hres
    rw [hpml] at hres
    have := (hInv.statusRes c hcne).mp hres
    rw [hcrel] at this
    cases this
  have hng : ¬ res s g := by
    intro hres
    exact hInv.guardDoneNoReact _ hent hres _ hrWQ rfl
  have hgp : g ≠ p := by
    rw [hpml]
    intro h
    exact hInv.myLockNotGuard c hcne _ hent h.symm
  have hpb := hInv.lockBound c hcne
  have hgb := hInv.guardBound _ hent
  dsimp only at hgb
  have hvipall : ∀ d ∈ s.vipChain, (s.clients d).status = .released :=
    vipChain_released hInv (hsrcT ▸ hhot)
  have hPW := hInv.reactUnique
  rw [hq] at hPW
  rcases List.pairwise_append.mp hPW with ⟨pW, pQ, cross⟩
  have hnotc : ∀ x ∈ s.waiting ++ rest, x.client ≠ c := by
    intro x hx
    rcases List.mem_append.mp hx with hxw | hxr
    · exact cross x hxw _ (List.mem_cons_self _ _)
    · rcases List.pairwise_cons.mp pQ with ⟨hhead, -⟩
      intro hcon
      exact hhead x hxr hcon.symm
  have hWQsub : ∀ x ∈ s.waiting ++ rest, x ∈ s.waiting ++ s.queue := by
    intro x hx
    rcases List.mem_append.mp hx with hxw | hxr
    · exact List.mem_append.mpr (Or.inl hxw)
    · exact List.mem_append.mpr (Or.inr (by rw [hq]; exact List.mem_cons_of_mem _ hxr))
  have hWQback : ∀ x, x ∈ s.waiting ++ s.queue → x.client ≠ c →
      x ∈ s.waiting ++ rest := by
    intro x hx hxc
    rcases List.mem_append.mp hx with hxw | hxq
    · exact List.mem_append.mpr (Or.inl hxw)
    · rw [hq] at hxq
      rcases List.mem_cons.mp hxq with rfl | hxr
      · exact absurd rfl hxc
      · exact List.mem_append.mpr (Or.inr hxr)
  have hngX : ¬ res (resolveP p { s with queue := rest, nextP := s.nextP + 1, vipHead := s.nextP, vipTail := s.nextP, count := s.count - 1 }) g := by
    intro hres
    rcases (res_resolveP p _ g).mp hres with h | h
    · exact hng h
    · exact hgp h
  have hres2 : ∀ q, ((resolveP g (resolveP p { s with queue := rest, nextP := s.nextP + 1, vipHead := s.nextP, vipTail := s.nextP, count := s.count - 1 })).resolvedAt q).isSome ↔
      res s q ∨ q = p ∨ q = g := by
    intro q
    constructor
    · intro h
      rcases (res_resolveP g _ q).mp h with h2 | h2
      · rcases (res_resolveP p _ q).mp h2 with h3 | h3
        · exact Or.inl h3
        · exact Or.inr (Or.inl h3)
      · exact Or.inr (Or.inr h2)
    · intro h
      apply (res_resolveP g _ q).mpr
      rcases h with h3 | h3 | h3
      · exact Or.inl ((res_resolveP p _ q).mpr (Or.inl h3))
      · exact Or.inl ((res_resolveP p _ q).mpr (Or.inr h3))
      · exact Or.inr h3
  have hatp : (resolveP g (resolveP p { s with queue := rest, nextP := s.nextP + 1, vipHead := s.nextP, vipTail := s.nextP, count := s.count - 1 })).resolvedAt p = some s.time := by
    rw [resolveP_at_ne _ (Ne.symm hgp)]
    exact resolveP_at_self hnp
  have hatg : (resolveP g (resolveP p { s with queue := rest, nextP := s.nextP + 1, vipHead := s.nextP, vipTail := s.nextP, count := s.count - 1 })).resolvedAt g = some s.time := by
    have := resolveP_at_self hngX
    rw [resolveP_time_v] at this
    exact this
  have hat : ∀ q, q ≠ p → q ≠ g → (resolveP g (resolveP p { s with queue := rest, nextP := s.nextP + 1, vipHead := s.nextP, vipTail := s.nextP, count := s.count - 1 })).resolvedAt q = s.resolvedAt q := by
    intro q hqp hqg
    rw [resolveP_at_ne _ hqg, resolveP_at_ne _ hqp]
  have hWQperm : ((resolveP g (resolveP p { s with queue := rest, nextP := s.nextP + 1, vipHead := s.nextP, vipTail := s.nextP, count := s.count - 1 })).waiting ++
      (resolveP g (resolveP p { s with queue := rest, nextP := s.nextP + 1, vipHead := s.nextP, vipTail := s.nextP, count := s.count - 1 })).queue).Perm (s.waiting ++ rest) := by
    refine (resolveP_WQ_perm_v _ _).trans ?_
    exact resolveP_WQ_perm_v p { s with queue := rest, nextP := s.nextP + 1, vipHead := s.nextP, vipTail := s.nextP, count := s.count - 1 }
  have hWQmem : ∀ x : Reaction, x ∈ (resolveP g (resolveP p { s with queue := rest, nextP := s.nextP + 1, vipHead := s.nextP, vipTail := s.nextP, count := s.count - 1 })).waiting ++
      (resolveP g (resolveP p { s with queue := rest, nextP := s.nextP + 1, vipHead := s.nextP, vipTail := s.nextP, count := s.count - 1 })).queue ↔ x ∈ s.waiting ++ rest :=
    fun x => hWQperm.mem_iff
  have hstFne : ∀ x, x ≠ c →
      (upd s.clients c { s.clients c with status := .released } x).status
      = (s.clients x).status := by
    intro x hxc
    rw [upd_ne_cl _ _ hxc]
  have hmyF : ∀ x, (upd s.clients c { s.clients c with status := .released } x).myLock
      = (s.clients x).myLock := by
    intro x
    by_cases hxc : x = c
    · subst hxc; rw [upd_same_cl]
    · rw [upd_ne_cl _ _ hxc]
  have hsrcF : ∀ x, (upd s.clients c { s.clients c with status := .released } x).srcP
      = (s.clients x).srcP := by
    intro x
    by_cases hxc : x = c
    · subst hxc; rw [upd_same_cl]
    · rw [upd_ne_cl _ _ hxc]
  have hkindF : ∀ x, (upd s.clients c { s.clients c with status := .released } x).kind
      = (s.clients x).kind := by
    intro x
    by_cases hxc : x = c
    · subst hxc; rw [upd_same_cl]
    · rw [upd_ne_cl _ _ hxc]
  have hlaneF : ∀ x, (upd s.clients c { s.clients c with status := .released } x).lane
      = (s.clients x).lane := by
    intro x
    by_cases hxc : x = c
    · subst hxc; rw [upd_same_cl]
    · rw [upd_ne_cl _ _ hxc]
  have hadmF : ∀ x, (upd s.clients c
      { s.clients c with status := .released } x).admittedAt
      = (s.clients x).admittedAt := by
    intro x
    by_cases hxc : x = c
    · subst hxc; rw [upd_same_cl]
    · rw [upd_ne_cl _ _ hxc]
  have happF : ∀ x, (upd s.clients c
      { s.clients c with status := .released } x).appendedAt
      = (s.clients x).appendedAt := by
    intro x
    by_cases hxc : x = c
    · subst hxc; rw [upd_same_cl]
    · rw [upd_ne_cl _ _ hxc]
  have hdrF : ∀ x, (upd s.clients c
      { s.clients c with status := .released } x).drainedAt
      = (s.clients x).drainedAt := by
    intro x
    by_cases hxc : x = c
    · subst hxc; rw [upd_same_cl]
    · rw [upd_ne_cl _ _ hxc]
  have hneF : ∀ x, (upd s.clients c
      { s.clients c with status := .released } x).status ≠ .idle
      → (s.clients x).status ≠ .idle := by
    intro x
    by_cases hxc : x = c
    · subst hxc; intro _; exact hcne
    · rw [upd_ne_cl _ _ hxc]; exact id
  have hfil : ∀ d, d ≠ c → List.filter (fun ev => ev.client == d)
      ([.reArmed c, .decremented c, .resolvedOwn c, .guardReleased c] : List REvent)
      = [] := by
    intro d hdc
    apply List.filter_eq_nil_iff.mpr
    intro ev hev
    simp at hev
    rcases hev with rfl | rfl | rfl | rfl <;>
      simp [REvent.client] <;> exact Ne.symm hdc
  have hfilc : List.filter (fun ev => ev.client == c)
      ([.reArmed c, .decremented c, .resolvedOwn c, .guardReleased c] : List REvent)
      = [.reArmed c, .decremented c, .resolvedOwn c, .guardReleased c] := by
    simp [REvent.client]
  have hT : fire (.relFinish src c p g) { s with queue := rest } =
      { resolveP g (resolveP p { s with queue := rest, nextP := s.nextP + 1, vipHead := s.nextP, vipTail := s.nextP, count := s.count - 1 }) with
        clients := upd s.clients c { s.clients c with status := .released },
        vipDone := s.vipDone ++ s.vipChain,
        vipChain := [],
        log := s.log ++ [.reArmed c, .decremented c, .resolvedOwn c, .guardReleased c],
        time := s.time + 1 } := by
    unfold fire
    rfl
  rw [hT]
  constructor
  all_goals try dsimp only
  case ordNodup => rw [resolveP_ordChain, resolveP_ordChain]; exact hInv.ordNodup
  case vipNodup =>
    rw [List.append_nil]
    exact hInv.vipNodup
  case ordMem =>
    intro d
    rw [resolveP_ordChain, resolveP_ordChain]
    by_cases hdc : d = c
    · rw [hdc, upd_same_cl]
      have hold := hInv.ordMem c
      rw [hcrel] at hold
      constructor
      · intro hm
        exact ⟨(hold.mp hm).1, (by intro h; cases h), (by intro h; cases h)⟩
      · rintro ⟨hl, -, -⟩
        exact hold.mpr ⟨hl, (by intro h; cases h), (by intro h; cases h)⟩
    · rw [upd_ne_cl _ _ hdc]
      exact hInv.ordMem d
  case vipMem =>
    intro d
    rw [List.append_nil]
    by_cases hdc : d = c
    · rw [hdc]
      constructor
      · intro h
        exact absurd h hcnv
      · rintro ⟨hl, -, -⟩
        rw [hlaneF c, hlane] at hl
        cases hl
    · rw [upd_ne_cl _ _ hdc]
      exact hInv.vipMem d
  case vipDoneRel =>
    intro d hd
    have hdc : d ≠ c := by
      intro h
      exact hcnv (h ▸ hd)
    rw [hstFne d hdc]
    rcases List.mem_append.mp hd with h2 | h2
    · exact hInv.vipDoneRel d h2
    · exact hvipall d h2
  case vipKind =>
    intro d h1 h2
    rw [hlaneF d] at h1
    rw [hkindF d]
    exact hInv.vipKind d h1 (hneF d h2)
  case relKind =>
    intro d h1
    rw [hkindF d]
    by_cases hdc : d = c
    · rw [hdc, upd_same_cl] at h1
      cases h1
    · rw [hstFne d hdc] at h1
      exact hInv.relKind d h1
  case statusRes =>
    intro d hne
    show ((resolveP g (resolveP p _)).resolvedAt _).isSome ↔ _
    rw [hres2, hmyF d]
    by_cases hdc : d = c
    · rw [hdc, upd_same_cl]
      refine ⟨fun _ => rfl, fun _ => Or.inr (Or.inl ?_)⟩
      exact hpml.symm
    · rw [hstFne d hdc]
      rw [upd_ne_cl _ _ hdc] at hne
      have hne2 : (s.clients d).myLock ≠ p := by
        rw [hpml]
        intro hh
        exact hdc (hInv.lockInj d c hne hcne hh)
      have hne3 : (s.clients d).myLock ≠ g := hInv.myLockNotGuard d hne _ hent
      constructor
      · rintro (hr | hr | hr)
        · exact (hInv.statusRes d hne).mp hr
        · exact absurd hr hne2
        · exact absurd hr hne3
      · intro hr
        exact Or.inl ((hInv.statusRes d hne).mpr hr)
  case admSrcRes =>
    intro d hd
    show ((resolveP g (resolveP p _)).resolvedAt _).isSome
    rw [hres2, hsrcF d]
    by_cases hdc : d = c
    · rw [hdc]
      exact Or.inl (hInv.admSrcRes c (Or.inr (Or.inl hcrel)))
    · rw [hstFne d hdc] at hd
      exact Or.inl (hInv.admSrcRes d hd)
  case lockTailEq =>
    rw [resolveP_lockTail, resolveP_lockTail, resolveP_ordChain, resolveP_ordChain,
      hInv.lockTailEq]
    cases hoc : s.ordChain.getLast? with
    | none => rfl
    | some z =>
        show (s.clients z).myLock = (upd s.clients c _ z).myLock
        exact (hmyF z).symm
  case vipTailEq =>
    rw [resolveP_vipTail, resolveP_vipTail, resolveP_vipHead, resolveP_vipHead]
    rfl
  case guardTailEq =>
    rw [resolveP_guardTail, resolveP_guardTail, resolveP_guardChain, resolveP_guardChain]
    exact hInv.guardTailEq
  case ordLink =>
    rw [resolveP_ordChain, resolveP_ordChain]
    refine chain'_of_eq_on hInv.ordLink ?_
    intro a _ b _ hab
    rw [hsrcF, hmyF]
    exact hab
  case ordHead =>
    intro d hd
    rw [resolveP_ordChain, resolveP_ordChain] at hd
    rw [hsrcF]
    exact hInv.ordHead d hd
  case vipLink => exact List.chain'_nil
  case vipHeadLink =>
    intro d hd
    cases hd
  case ordStatusChain =>
    rw [resolveP_ordChain, resolveP_ordChain]
    obtain ⟨l1, l2, hsp⟩ := List.append_of_mem hcmo
    have hnd := hInv.ordNodup
    rw [hsp] at hnd
    have hcl2 : c ∉ l2 := by
      rcases List.nodup_append.mp hnd with ⟨-, hnd2, -⟩
      exact (List.nodup_cons.mp hnd2).1
    have hl2q : ∀ y ∈ l2, (s.clients y).status = .queued := by
      intro y hy
      obtain ⟨u, v, huv⟩ := List.append_of_mem hy
      by_contra hyq
      have := ord_before_released hInv (by rw [hsp, huv]) hyq
      rw [hcrel] at this
      cases this
    rw [hsp]
    refine chain'_rebuild (hsp ▸ hInv.ordStatusChain) ?_ ?_ ?_
    · intro a ha b hb hab
      have hac : a ≠ c := by
        intro h
        rcases List.nodup_append.mp hnd with ⟨-, -, hdisj⟩
        exact hdisj (h ▸ ha) (List.mem_cons_self _ _)
      have hbc : b ≠ c := by
        intro h
        rcases List.nodup_append.mp hnd with ⟨-, -, hdisj⟩
        exact hdisj (h ▸ hb) (List.mem_cons_self _ _)
      rw [hstFne a hac, hstFne b hbc]
      exact hab
    · intro a b hb
      have hbc : b ≠ c := fun h => hcl2 (h ▸ hb)
      rw [hstFne b hbc]
      rw [hl2q b hb]
      intro hcon
      exact absurd rfl hcon
    · intro z hz hzc
      have hznec : z ≠ c := by
        intro h
        rcases List.nodup_append.mp hnd with ⟨-, -, hdisj⟩
        exact hdisj (h ▸ mem_of_getLast?_eq hz) (List.mem_cons_self _ _)
      intro _
      rw [hstFne z hznec]
      apply hzc
      rw [hcrel]
      intro h
      cases h
  case vipStatusChain => exact List.chain'_nil
  case thenKeyShape =>
    intro src2 d hr
    rw [hWQmem] at hr
    have hdc : d ≠ c := hnotc _ hr
    rw [hstFne d hdc, hsrcF d]
    exact hInv.thenKeyShape src2 d (hWQsub _ hr)
  case vipCheckShape =>
    intro src2 d p2 g2 hr
    rw [hWQmem] at hr
    have hdc : d ≠ c := hnotc _ hr
    rw [hstFne d hdc, hmyF d, resolveP_guardChain, resolveP_guardChain]
    exact hInv.vipCheckShape src2 d p2 g2 (hWQsub _ hr)
  case relDrainShape =>
    intro src2 d p2 g2 hr
    rw [hWQmem] at hr
    exfalso
    obtain ⟨hd2, -, -, -⟩ := hInv.relDrainShape src2 d p2 g2 (hWQsub _ hr)
    exact hnotc _ hr (releasing_unique hInv hd2 hcrel)
  case relFinishShape =>
    intro src2 d p2 g2 hr
    rw [hWQmem] at hr
    exfalso
    obtain ⟨hd2, -, -, -, -⟩ := hInv.relFinishShape src2 d p2 g2 (hWQsub _ hr)
    exact hnotc _ hr (releasing_unique hInv hd2 hcrel)
  case queuedThenKey =>
    intro d hd
    by_cases hdc : d = c
    · rw [hdc, upd_same_cl] at hd
      cases hd
    · rw [hstFne d hdc] at hd
      rw [hsrcF d]
      exact (hWQmem _).mpr (hWQback _ (hInv.queuedThenKey d hd) hdc)
  case waitGuardCheck =>
    intro d hd
    by_cases hdc : d = c
    · rw [hdc, upd_same_cl] at hd
      cases hd
    · rw [hstFne d hdc] at hd
      rw [hmyF d]
      obtain ⟨src2, g2, hm⟩ := hInv.waitGuardCheck d hd
      exact ⟨src2, g2, (hWQmem _).mpr (hWQback _ hm hdc)⟩
  case releasingReact =>
    intro d hd
    by_cases hdc : d = c
    · rw [hdc, upd_same_cl] at hd
      cases hd
    · rw [hstFne d hdc] at hd
      exact absurd (releasing_unique hInv hd hcrel) hdc
  case reactUnique =>
    have hsub : (s.waiting ++ rest).Pairwise (fun r1 r2 => r1.client ≠ r2.client) := by
      refine List.Pairwise.sublist ?_ hInv.reactUnique
      rw [hq]
      exact List.Sublist.append_left (List.sublist_cons_self _ _) _
    exact (List.Perm.pairwise_iff (fun h => Ne.symm h) hWQperm).mpr hsub
  case hotRes =>
    have hbase : ∀ x ∈ ({ s with queue := rest, nextP := s.nextP + 1, vipHead := s.nextP, vipTail := s.nextP, count := s.count - 1 } : St).queue,
        res { s with queue := rest, nextP := s.nextP + 1, vipHead := s.nextP, vipTail := s.nextP, count := s.count - 1 } x.src := by
      intro x hx
      exact hInv.hotRes x (by rw [hq]; exact List.mem_cons_of_mem _ hx)
    exact hot_resolveP _ (hot_resolveP _ hbase)
  case parkedNotRes =>
    have hbase : ∀ x ∈ ({ s with queue := rest, nextP := s.nextP + 1, vipHead := s.nextP, vipTail := s.nextP, count := s.count - 1 } : St).waiting,
        ¬ res { s with queue := rest, nextP := s.nextP + 1, vipHead := s.nextP, vipTail := s.nextP, count := s.count - 1 } x.src := by
      intro x hx
      exact hInv.parkedNotRes x hx
    exact parked_resolveP _ (parked_resolveP _ hbase)
  case guardNodupG =>
    rw [resolveP_guardChain, resolveP_guardChain]
    exact hInv.guardNodupG
  case guardLink =>
    rw [resolveP_guardChain, resolveP_guardChain]
    exact hInv.guardLink
  case guardHead =>
    intro e he
    rw [resolveP_guardChain, resolveP_guardChain] at he
    exact hInv.guardHead e he
  case guardDoneNoReact =>
    intro e he hres r hr
    rw [resolveP_guardChain, resolveP_guardChain] at he
    rw [hWQmem] at hr
    have hrcne : r.client ≠ c := hnotc _ hr
    rcases (hres2 e.g).mp hres with h | h | h
    · exact hInv.guardDoneNoReact e he h r (hWQsub _ hr)
    · exact absurd h.symm (by
        rw [hpml]
        exact fun hh => hInv.myLockNotGuard c hcne e he hh)
    · have hee : e = ⟨c, g, sg, .rel⟩ := gentry_unique hInv he hent h
      subst hee
      intro hcon
      rcases hrx : r with ⟨src3, d3⟩ | ⟨src3, d3, p3, g3⟩ | ⟨src3, d3, p3, g3⟩ | ⟨src3, d3, p3, g3⟩
      all_goals rw [hrx] at hcon hr
      all_goals cases hcon
      · obtain ⟨-, -, hent2⟩ := hInv.vipCheckShape _ _ _ _ (hWQsub _ hr)
        have heq := gentry_unique hInv hent2 hent rfl
        have hk : GKind.chk = GKind.rel := congrArg GEntry.k heq
        cases hk
      · obtain ⟨hd2, -, -, -⟩ := hInv.relDrainShape _ _ _ _ (hWQsub _ hr)
        rw [hrx] at hrcne
        exact hrcne (releasing_unique hInv hd2 hcrel)
      · obtain ⟨hd2, -, -, -, -⟩ := hInv.relFinishShape _ _ _ _ (hWQsub _ hr)
        rw [hrx] at hrcne
        exact hrcne (releasing_unique hInv hd2 hcrel)
  case guardResChain =>
    rw [resolveP_guardChain, resolveP_guardChain]
    refine chain'_of_eq_on (chain'_conj hInv.guardLink hInv.guardResChain) ?_
    intro a ha b hb hab hres
    obtain ⟨hlink, hrel⟩ := hab
    show ((resolveP g (resolveP p _)).resolvedAt a.g).isSome
    rw [hres2]
    rcases (hres2 b.g).mp hres with h | h | h
    · exact Or.inl (hrel h)
    · exact absurd h.symm (by
        rw [hpml]
        exact fun hh => hInv.myLockNotGuard c hcne b hb hh)
    · have hbe : b = ⟨c, g, sg, .rel⟩ := gentry_unique hInv hb hent h
      have hag : a.g = sg := by
        rw [← hlink, hbe]
      rw [hag]
      exact Or.inl hsg
  case countEq =>
    rw [resolveP_count, resolveP_count, resolveP_ordChain, resolveP_ordChain]
    obtain ⟨l1, l2, hsp⟩ := List.append_of_mem hcmo
    have hnd := hInv.ordNodup
    rw [hsp] at hnd
    have hcl1 : c ∉ l1 := by
      rcases List.nodup_append.mp hnd with ⟨-, -, hdisj⟩
      intro hx
      exact hdisj hx (List.mem_cons_self _ _)
    have hcl2 : c ∉ l2 := by
      rcases List.nodup_append.mp hnd with ⟨-, hnd2, -⟩
      exact (List.nodup_cons.mp hnd2).1
    have hold := hInv.countEq
    rw [hsp, List.filter_append, List.filter_cons_of_pos (by
      simp [hcrel]), List.length_append, List.length_cons] at hold
    have hcongr1 : List.filter (fun d => decide ¬((upd s.clients c
        { s.clients c with status := .released } d).status = .released ∧
        (upd s.clients c { s.clients c with status := .released } d).kind
          = .ordKey)) l1
        = List.filter (fun d => decide ¬((s.clients d).status = .released ∧
          (s.clients d).kind = .ordKey)) l1 := by
      apply List.filter_congr
      intro d hd
      rw [upd_ne_cl _ _ (fun h => hcl1 (by rw [← h]; exact hd))]
    have hcongr2 : List.filter (fun d => decide ¬((upd s.clients c
        { s.clients c with status := .released } d).status = .released ∧
        (upd s.clients c { s.clients c with status := .released } d).kind
          = .ordKey)) l2
        = List.filter (fun d => decide ¬((s.clients d).status = .released ∧
          (s.clients d).kind = .ordKey)) l2 := by
      apply List.filter_congr
      intro d hd
      rw [upd_ne_cl _ _ (fun h => hcl2 (by rw [← h]; exact hd))]
    rw [hsp, List.filter_append, List.filter_cons_of_neg (by
      simp [upd_same_cl]
      exact hkord), List.length_append, hcongr1, hcongr2]
    push_cast at hold ⊢
    omega
  case vipNonempty =>
    intro h
    exact absurd rfl h
  case vipHeadRes =>
    intro h
    exfalso
    rw [resolveP_vipHead, resolveP_vipHead] at h
    rcases (hres2 s.nextP).mp h with h2 | h2 | h2
    · have := hInv.fresh s.nextP le_rfl
      unfold res at h2
      rw [this] at h2
      simp at h2
    · omega
    · omega
  case vipHeadNotLock =>
    intro d hd
    rw [hmyF d, resolveP_vipHead, resolveP_vipHead]
    show (s.clients d).myLock ≠ s.nextP
    have := hInv.lockBound d (hneF d hd)
    omega
  case vipHeadNotGuard =>
    intro e he
    rw [resolveP_guardChain, resolveP_guardChain] at he
    rw [resolveP_vipHead, resolveP_vipHead]
    show s.nextP ≠ e.g
    have := (hInv.guardBound e he).1
    omega
  case myLockNotGuard =>
    intro d hd e he
    rw [resolveP_guardChain, resolveP_guardChain] at he
    rw [hmyF d]
    exact hInv.myLockNotGuard d (hneF d hd) e he
  case lockInj =>
    intro c1 d1 h1 h2 heq
    rw [hmyF, hmyF] at heq
    exact hInv.lockInj c1 d1 (hneF c1 h1) (hneF d1 h2) heq
  case lockBound =>
    intro d hd
    rw [hmyF d, resolveP_nextP_v, resolveP_nextP_v]
    have := hInv.lockBound d (hneF d hd)
    constructor
    · show (s.clients d).myLock < s.nextP + 1
      omega
    · exact this.2
  case guardBound =>
    intro e he
    rw [resolveP_guardChain, resolveP_guardChain] at he
    rw [resolveP_nextP_v, resolveP_nextP_v]
    have := hInv.guardBound e he
    refine ⟨by show e.g < s.nextP + 1; omega, this.2.1,
      by show e.sg < s.nextP + 1; omega⟩
  case vipHeadBound =>
    rw [resolveP_vipHead, resolveP_vipHead, resolveP_nextP_v, resolveP_nextP_v]
    have := hInv.nextPBound
    constructor
    · show 2 ≤ s.nextP
      omega
    · show s.nextP < s.nextP + 1
      omega
  case fresh =>
    intro q hq2
    rw [resolveP_nextP_v, resolveP_nextP_v] at hq2
    have hq3 : s.nextP + 1 ≤ q := hq2
    rw [hat q (by omega) (by omega)]
    exact hInv.fresh q (by omega)
  case nextPBound =>
    rw [resolveP_nextP_v, resolveP_nextP_v]
    have := hInv.nextPBound
    show 3 ≤ s.nextP + 1
    omega
  case resZero =>
    constructor
    · show ((resolveP g (resolveP p _)).resolvedAt 0).isSome
      rw [hres2]
      exact Or.inl hInv.resZero.1
    · show ((resolveP g (resolveP p _)).resolvedAt 1).isSome
      rw [hres2]
      exact Or.inl hInv.resZero.2
  case timeRes =>
    intro q t h
    by_cases hqp : q = p
    · subst hqp
      rw [hatp] at h
      injection h with h2
      omega
    · by_cases hqg : q = g
      · subst hqg
        rw [hatg] at h
        injection h with h2
        omega
      · rw [hat q hqp hqg] at h
        have := hInv.timeRes q t h
        omega
  case timeAdm =>
    intro d t hd
    rw [hadmF d] at hd
    have := hInv.timeAdm d t hd
    omega
  case timeApp =>
    intro d t hd
    rw [happF d] at hd
    have := hInv.timeApp d t hd
    omega
  case timeDrain =>
    intro d t hd
    rw [hdrF d] at hd
    have := hInv.timeDrain d t hd
    omega
  case admitSome =>
    intro d hd
    rw [hadmF d]
    by_cases hdc : d = c
    · rw [hdc]
      exact hInv.admitSome c (Or.inr (Or.inl hcrel))
    · rw [hstFne d hdc] at hd
      exact hInv.admitSome d hd
  case admitNone =>
    intro d hd
    rw [hadmF d]
    by_cases hdc : d = c
    · rw [hdc, upd_same_cl] at hd
      rcases hd with h | h | h <;> cases h
    · rw [hstFne d hdc] at hd
      exact hInv.admitNone d hd
  case ordAdmitChain =>
    rw [resolveP_ordChain, resolveP_ordChain]
    refine chain'_of_eq_on hInv.ordAdmitChain ?_
    intro a _ b _ hab
    rw [hadmF, hadmF]
    exact hab
  case vipAdmitChain =>
    rw [List.append_nil]
    refine chain'_of_eq_on hInv.vipAdmitChain ?_
    intro a _ b _ hab
    rw [hadmF, hadmF]
    exact hab
  case drainOrd =>
    intro d hd
    rw [hdrF d] at hd
    rw [hkindF d]
    exact hInv.drainOrd d hd
  case logNone =>
    intro d hd
    rw [hdrF d] at hd
    have hdc : d ≠ c := by
      intro h
      rw [h] at hd
      exact hdr hd
    unfold logFor
    dsimp only
    rw [List.filter_append]
    have h0 := hInv.logNone d hd
    unfold logFor at h0
    rw [h0, hfil d hdc]
    rfl
  case logSome =>
    intro d hd
    rw [hdrF d] at hd
    by_cases hdc : d = c
    · constructor
      · rintro ⟨src2, p2, g2, hm⟩
        exfalso
        rw [hWQmem] at hm
        exact hnotc _ hm (show (Reaction.relFinish src2 d p2 g2).client = c from hdc)
      · intro _
        rw [hdc]
        unfold logFor canon7
        dsimp only
        rw [List.filter_append]
        have h3 := (hInv.logSome c hdr).1 ⟨src, p, g, hrWQ⟩
        unfold logFor canon3 at h3
        rw [h3, hfilc]
        rfl
    · have hnof : ¬ ∃ src2 p2 g2, (.relFinish src2 d p2 g2 : Reaction) ∈
          s.waiting ++ s.queue := by
        rintro ⟨src2, p2, g2, hm⟩
        obtain ⟨hd2, -, -, -, -⟩ := hInv.relFinishShape src2 d p2 g2 hm
        exact hdc (releasing_unique hInv hd2 hcrel)
      have h7 := (hInv.logSome d hd).2 hnof
      have hlogeq : List.filter (fun ev => ev.client == d)
          (s.log ++ [.reArmed c, .decremented c, .resolvedOwn c, .guardReleased c])
          = logFor s d := by
        unfold logFor
        rw [List.filter_append, hfil d hdc]
        exact List.append_nil _
      constructor
      · rintro ⟨src2, p2, g2, hm⟩
        exfalso
        rw [hWQmem] at hm
        obtain ⟨hd2, -, -, -, -⟩ := hInv.relFinishShape src2 d p2 g2 (hWQsub _ hm)
        exact hdc (releasing_unique hInv hd2 hcrel)
      · intro _
        show List.filter _ _ = _
        rw [hlogeq]
        exact h7
  case holdOne =>
    intro c1 d1 h1 h2
    by_cases hc1 : c1 = c
    · rw [hc1, upd_same_cl] at h1
      cases h1
    · by_cases hd1 : d1 = c
      · rw [hd1, upd_same_cl] at h2
        cases h2
      · rw [hstFne c1 hc1] at h1
        rw [hstFne d1 hd1] at h2
        exact hInv.holdOne c1 d1 h1 h2
  case vipActiveHead =>
    intro d hd
    cases hd
  case ordKindLane =>
    intro d h1 h2
    rw [hkindF d] at h1
    rw [hlaneF d]
    exact hInv.ordKindLane d h1 (hneF d h2)
  case waitGuardLane =>
    intro d hd
    by_cases hdc : d = c
    · rw [hdc, upd_same_cl] at hd
      cases hd
    · rw [hstFne d hdc] at hd
      rw [hlaneF d]
      exact hInv.waitGuardLane d hd
  case drainNone =>
    intro d hd
    rw [hdrF d]
    by_cases hdc : d = c
    · rw [hdc, upd_same_cl] at hd
      rcases hd with h | h | h | h <;> cases h
    · rw [hstFne d hdc] at hd
      exact hInv.drainNone d hd
  case relDrained =>
    intro d h1 h2
    rw [hdrF d]
    by_cases hdc : d = c
    · rw [hdc]
      exact hdr
    · rw [hstFne d hdc] at h1
      rw [hkindF d] at h2
      exact hInv.relDrained d h1 h2
  case entryNotIdle =>
    intro e he
    rw [resolveP_guardChain, resolveP_guardChain] at he
    by_cases hec : e.c = c
    · rw [hec, upd_same_cl]
      intro h
      cases h
    · rw [hstFne e.c hec]
      exact hInv.entryNotIdle e he
  case chkUnique =>
    intro e1 he1 e2 he2
    rw [resolveP_guardChain, resolveP_guardChain] at he1 he2
    exact hInv.chkUnique e1 he1 e2 he2
  case chkApp =>
    intro e he hkk
    rw [resolveP_guardChain, resolveP_guardChain] at he
    have hegp : e.g ≠ p := by
      rw [hpml]
      exact fun h => hInv.myLockNotGuard c hcne e he h.symm
    have hegg : e.g ≠ g := by
      intro h
      have := gentry_unique hInv he hent h
      rw [this] at hkk
      cases hkk
    rw [happF e.c, hat e.g hegp hegg]
    exact hInv.chkApp e he hkk
  case guardTimeChain =>
    rw [resolveP_guardChain, resolveP_guardChain]
    refine chain'_of_eq_on (chain'_conj hInv.guardLink hInv.guardTimeChain) ?_
    intro a ha b hb hab t2 ht2
    obtain ⟨hlink, htime⟩ := hab
    have hagp : a.g ≠ p := by
      rw [hpml]
      exact fun h => hInv.myLockNotGuard c hcne a ha h.symm
    by_cases hbg : b.g = g
    · have hbe : b = ⟨c, g, sg, .rel⟩ := gentry_unique hInv hb hent hbg
      have hag : a.g = sg := by rw [← hlink, hbe]
      have hres_ag : res s a.g := by rw [hag]; exact hsg
      have hagg : a.g ≠ g := by
        intro hcon2
        apply hng
        rw [← hcon2]
        exact hres_ag
      obtain ⟨t1, ht1⟩ := Option.isSome_iff_exists.mp hres_ag
      refine ⟨t1, ?_, ?_⟩
      · rw [hat a.g hagp hagg]
        exact ht1
      · rw [hbg, hatg] at ht2
        injection ht2 with ht2e
        have := hInv.timeRes _ t1 ht1
        omega
    · have hbgp : b.g ≠ p := by
        rw [hpml]
        exact fun h => hInv.myLockNotGuard c hcne b hb h.symm
      rw [hat b.g hbgp hbg] at ht2
      obtain ⟨t1, ht1, hlt⟩ := htime t2 ht2
      have hagg : a.g ≠ g := by
        intro h
        have : res s a.g := by
          unfold res
          rw [ht1]
          rfl
        rw [h] at this
        exact hng this
      refine ⟨t1, ?_, hlt⟩
      rw [hat a.g hagp hagg]
      exact ht1
  case vipAppSome =>
    intro d hd
    rw [List.append_nil] at hd
    rw [happF d]
    exact hInv.vipAppSome d hd
  case vipAppChain =>
    rw [List.append_nil]
    refine chain'_of_eq_on hInv.vipAppChain ?_
    intro a _ b _ hab
    rw [happF, happF]
    exact hab
  case appStatus =>
    intro d hd
    rw [happF d] at hd
    by_cases hdc : d = c
    · rw [hdc, upd_same_cl]
      exact ⟨(by intro h; cases h), (by intro h; cases h)⟩
    · rw [hstFne d hdc]
      exact hInv.appStatus d hd

end VipM

namespace VipM

theorem inv_fire_vipCheck_pos {s : St} {src c p g : Nat} {rest : List Reaction}
    (hInv : Inv s) (hq : s.queue = (.vipCheck src c p g : Reaction) :: rest)
    (hcnt : 0 < s.count) :
    Inv (fire (.vipCheck src c p g) { s with queue := rest }) := by
  have hrQ : (.vipCheck src c p g : Reaction) ∈ s.queue := by
    rw [hq]; exact List.mem_cons_self _ _
  have hrWQ : (.vipCheck src c p g : Reaction) ∈ s.waiting ++ s.queue :=
    List.mem_append.mpr (Or.inr hrQ)
  obtain ⟨hwt, hpml, hent⟩ := hInv.vipCheckShape src c p g hrWQ
  have hhot : res s src := hInv.hotRes _ hrQ
  have hcne : (s.clients c).status ≠ .idle := by rw [hwt]; intro h; cases h
  have hlanec : (s.clients c).lane = .vipL := hInv.waitGuardLane c hwt
  have hkc : (s.clients c).kind = .simpleKey := hInv.vipKind c hlanec hcne
  have hng : ¬ res s g := by
    intro hres
    exact hInv.guardDoneNoReact _ hent hres _ hrWQ rfl
  have hnp : ¬ res s p := by
    intro hres
    rw [hpml] at hres
    have := (hInv.statusRes c hcne).mp hres
    rw [hwt] at this
    cases this
  have hnml : ¬ res s (s.clients c).myLock := by
    rw [← hpml]
    exact hnp
  have hcno : c ∉ s.ordChain := fun hm => ((hInv.ordMem c).mp hm).2.2 hwt
  have hcnv : c ∉ s.vipDone ++ s.vipChain := fun hm => ((hInv.vipMem c).mp hm).2.2 hwt
  have hadmn : (s.clients c).admittedAt = none := hInv.admitNone c (Or.inr (Or.inl hwt))
  have happn : (s.clients c).appendedAt = none := by
    by_contra hcon
    exact (hInv.appStatus c hcon).2 hwt
  have hdrn : (s.clients c).drainedAt = none := hInv.drainNone c
    (Or.inr (Or.inl hwt))
  have hgb := hInv.guardBound _ hent
  dsimp only at hgb
  have hpb := hInv.lockBound c hcne
  have hnoRF := no_relFinish_of_vipCheck_hot hInv hrQ
  have hnrVH : ¬ res s s.vipHead := by
    intro h
    obtain ⟨a1, a2, a3, a4, hm⟩ := hInv.vipHeadRes h
    exact hnoRF a1 a2 a3 a4 hm
  have hPW := hInv.reactUnique
  rw [hq] at hPW
  rcases List.pairwise_append.mp hPW with ⟨pW, pQ, cross⟩
  have hnotc : ∀ x ∈ s.waiting ++ rest, x.client ≠ c := by
    intro x hx
    rcases List.mem_append.mp hx with hxw | hxr
    · exact cross x hxw _ (List.mem_cons_self _ _)
    · rcases List.pairwise_cons.mp pQ with ⟨hhead, -⟩
      intro hcon
      exact hhead x hxr hcon.symm
  have hWQsub : ∀ x ∈ s.waiting ++ rest, x ∈ s.waiting ++ s.queue := by
    intro x hx
    rcases List.mem_append.mp hx with hxw | hxr
    · exact List.mem_append.mpr (Or.inl hxw)
    · exact List.mem_append.mpr (Or.inr (by rw [hq]; exact List.mem_cons_of_mem _ hxr))
  have hWQback : ∀ x, x ∈ s.waiting ++ s.queue → x.client ≠ c →
      x ∈ s.waiting ++ rest := by
    intro x hx hxc
    rcases List.mem_append.mp hx with hxw | hxq
    · exact List.mem_append.mpr (Or.inl hxw)
    · rw [hq] at hxq
      rcases List.mem_cons.mp hxq with rfl | hxr
      · exact absurd rfl hxc
      · exact List.mem_append.mpr (Or.inr hxr)
  have hlastVip : ∀ z, s.vipChain.getLast? = some z →
      s.vipTail = (s.clients z).myLock := by
    intro z hz
    rw [hInv.vipTailEq, hz]
    rfl
  have hvtnil : s.vipChain = [] → s.vipTail = s.vipHead := by
    intro h
    rw [hInv.vipTailEq, h]
    rfl
  have hres2 : ∀ q, ((resolveP g { addReaction (.thenKey s.vipTail c) { s with queue := rest } with vipTail := p }).resolvedAt q).isSome ↔ res s q ∨ q = g := by
    intro q
    constructor
    · intro h
      rcases (res_resolveP g { addReaction (.thenKey s.vipTail c) { s with queue := rest } with vipTail := p } q).mp h with h2 | h2
      · exact Or.inl ((res_addReaction (.thenKey s.vipTail c) { s with queue := rest } q).mp h2)
      · exact Or.inr h2
    · rintro (h | h)
      · exact (res_resolveP g { addReaction (.thenKey s.vipTail c) { s with queue := rest } with vipTail := p } q).mpr (Or.inl ((res_addReaction (.thenKey s.vipTail c) { s with queue := rest } q).mpr h))
      · exact (res_resolveP g { addReaction (.thenKey s.vipTail c) { s with queue := rest } with vipTail := p } q).mpr (Or.inr h)
  have hatg : (resolveP g { addReaction (.thenKey s.vipTail c) { s with queue := rest } with vipTail := p }).resolvedAt g = some s.time := by
    have hngB : ¬ res { addReaction (.thenKey s.vipTail c) { s with queue := rest } with vipTail := p } g := fun h => hng ((res_addReaction (.thenKey s.vipTail c) { s with queue := rest } g).mp h)
    have h1 := resolveP_at_self hngB
    have h2 : ({ addReaction (.thenKey s.vipTail c) { s with queue := rest } with vipTail := p } : St).time = s.time := by
      show (addReaction (.thenKey s.vipTail c) { s with queue := rest }).time = s.time
      rw [addReaction_time]
    rw [h2] at h1
    exact h1
  have hat : ∀ q, q ≠ g → (resolveP g { addReaction (.thenKey s.vipTail c) { s with queue := rest } with vipTail := p }).resolvedAt q = s.resolvedAt q := by
    intro q hqg
    rw [resolveP_at_ne _ hqg]
    show (addReaction (.thenKey s.vipTail c) { s with queue := rest }).resolvedAt q = s.resolvedAt q
    rw [addReaction_resolvedAt0]
  have hWQperm : ((resolveP g { addReaction (.thenKey s.vipTail c) { s with queue := rest } with vipTail := p }).waiting ++ (resolveP g { addReaction (.thenKey s.vipTail c) { s with queue := rest } with vipTail := p }).queue).Perm
      ((s.waiting ++ rest) ++ [(.thenKey s.vipTail c : Reaction)]) := by
    refine (resolveP_WQ_perm_v g { addReaction (.thenKey s.vipTail c) { s with queue := rest } with vipTail := p }).trans ?_
    exact addReaction_WQ_perm (.thenKey s.vipTail c) { s with queue := rest }
  have hWQmem : ∀ x : Reaction, x ∈ (resolveP g { addReaction (.thenKey s.vipTail c) { s with queue := rest } with vipTail := p }).waiting ++ (resolveP g { addReaction (.thenKey s.vipTail c) { s with queue := rest } with vipTail := p }).queue ↔
      x = (.thenKey s.vipTail c : Reaction) ∨ x ∈ s.waiting ++ rest := by
    intro x
    rw [hWQperm.mem_iff]
    constructor
    · intro h
      rcases List.mem_append.mp h with h2 | h2
      · exact Or.inr h2
      · exact Or.inl (by simpa using h2)
    · rintro (h2 | h2)
      · exact List.mem_append.mpr (Or.inr (by simp [h2]))
      · exact List.mem_append.mpr (Or.inl h2)
  have hordC : (resolveP g { addReaction (.thenKey s.vipTail c) { s with queue := rest } with vipTail := p }).ordChain = s.ordChain := by
    rw [resolveP_ordChain]
    show (addReaction (.thenKey s.vipTail c) { s with queue := rest }).ordChain = s.ordChain
    rw [addReaction_ordChain]
  have hvipC : (resolveP g { addReaction (.thenKey s.vipTail c) { s with queue := rest } with vipTail := p }).vipChain = s.vipChain := by
    rw [resolveP_vipChain]
    show (addReaction (.thenKey s.vipTail c) { s with queue := rest }).vipChain = s.vipChain
    rw [addReaction_vipChain]
  have hvipD : (resolveP g { addReaction (.thenKey s.vipTail c) { s with queue := rest } with vipTail := p }).vipDone = s.vipDone := by
    rw [resolveP_vipDone]
    show (addReaction (.thenKey s.vipTail c) { s with queue := rest }).vipDone = s.vipDone
    rw [addReaction_vipDone]
  have hguardC : (resolveP g { addReaction (.thenKey s.vipTail c) { s with queue := rest } with vipTail := p }).guardChain = s.guardChain := by
    rw [resolveP_guardChain]
    show (addReaction (.thenKey s.vipTail c) { s with queue := rest }).guardChain = s.guardChain
    rw [addReaction_guardChain]
  have hlogE : (resolveP g { addReaction (.thenKey s.vipTail c) { s with queue := rest } with vipTail := p }).log = s.log := by
    rw [resolveP_log]
    show (addReaction (.thenKey s.vipTail c) { s with queue := rest }).log = s.log
    rw [addReaction_log]
  have hlockT : (resolveP g { addReaction (.thenKey s.vipTail c) { s with queue := rest } with vipTail := p }).lockTail = s.lockTail := by
    rw [resolveP_lockTail]
    show (addReaction (.thenKey s.vipTail c) { s with queue := rest }).lockTail = s.lockTail
    rw [addReaction_lockTail]
  have hvipH : (resolveP g { addReaction (.thenKey s.vipTail c) { s with queue := rest } with vipTail := p }).vipHead = s.vipHead := by
    rw [resolveP_vipHead]
    show (addReaction (.thenKey s.vipTail c) { s with queue := rest }).vipHead = s.vipHead
    rw [addReaction_vipHead]
  have hvipT : (resolveP g { addReaction (.thenKey s.vipTail c) { s with queue := rest } with vipTail := p }).vipTail = p := by
    rw [resolveP_vipTail]
  have hguardT : (resolveP g { addReaction (.thenKey s.vipTail c) { s with queue := rest } with vipTail := p }).guardTail = s.guardTail := by
    rw [resolveP_guardTail]
    show (addReaction (.thenKey s.vipTail c) { s with queue := rest }).guardTail = s.guardTail
    rw [addReaction_guardTail]
  have hnextP : (resolveP g { addReaction (.thenKey s.vipTail c) { s with queue := rest } with vipTail := p }).nextP = s.nextP := by
    rw [resolveP_nextP_v]
    show (addReaction (.thenKey s.vipTail c) { s with queue := rest }).nextP = s.nextP
    rw [addReaction_nextP]
  have hcountE : (resolveP g { addReaction (.thenKey s.vipTail c) { s with queue := rest } with vipTail := p }).count = s.count := by
    rw [resolveP_count]
    show (addReaction (.thenKey s.vipTail c) { s with queue := rest }).count = s.count
    rw [addReaction_count]
  have hmyF : ∀ x, (upd s.clients c { s.clients c with status := .queued, lane := .vipL, srcP := s.vipTail, appendedAt := some s.time } x).myLock = (s.clients x).myLock := by
    intro x
    by_cases hxc : x = c
    · subst hxc; rw [upd_same_cl]
    · rw [upd_ne_cl _ _ hxc]
  have hkindF : ∀ x, (upd s.clients c { s.clients c with status := .queued, lane := .vipL, srcP := s.vipTail, appendedAt := some s.time } x).kind = (s.clients x).kind := by
    intro x
    by_cases hxc : x = c
    · subst hxc; rw [upd_same_cl]
    · rw [upd_ne_cl _ _ hxc]
  have hadmF : ∀ x, (upd s.clients c { s.clients c with status := .queued, lane := .vipL, srcP := s.vipTail, appendedAt := some s.time } x).admittedAt = (s.clients x).admittedAt := by
    intro x
    by_cases hxc : x = c
    · subst hxc; rw [upd_same_cl]
    · rw [upd_ne_cl _ _ hxc]
  have hdrF : ∀ x, (upd s.clients c { s.clients c with status := .queued, lane := .vipL, srcP := s.vipTail, appendedAt := some s.time } x).drainedAt = (s.clients x).drainedAt := by
    intro x
    by_cases hxc : x = c
    · subst hxc; rw [upd_same_cl]
    · rw [upd_ne_cl _ _ hxc]
  have hstFne : ∀ x, x ≠ c → (upd s.clients c { s.clients c with status := .queued, lane := .vipL, srcP := s.vipTail, appendedAt := some s.time } x).status = (s.clients x).status := by
    intro x hxc
    rw [upd_ne_cl _ _ hxc]
  have hsrcFne : ∀ x, x ≠ c → (upd s.clients c { s.clients c with status := .queued, lane := .vipL, srcP := s.vipTail, appendedAt := some s.time } x).srcP = (s.clients x).srcP := by
    intro x hxc
    rw [upd_ne_cl _ _ hxc]
  have hlaneFne : ∀ x, x ≠ c → (upd s.clients c { s.clients c with status := .queued, lane := .vipL, srcP := s.vipTail, appendedAt := some s.time } x).lane = (s.clients x).lane := by
    intro x hxc
    rw [upd_ne_cl _ _ hxc]
  have happFne : ∀ x, x ≠ c →
      (upd s.clients c { s.clients c with status := .queued, lane := .vipL, srcP := s.vipTail, appendedAt := some s.time } x).appendedAt = (s.clients x).appendedAt := by
    intro x hxc
    rw [upd_ne_cl _ _ hxc]
  have hneF : ∀ x, (upd s.clients c { s.clients c with status := .queued, lane := .vipL, srcP := s.vipTail, appendedAt := some s.time } x).status ≠ .idle →
      (s.clients x).status ≠ .idle := by
    intro x
    by_cases hxc : x = c
    · subst hxc; intro _; exact hcne
    · rw [upd_ne_cl _ _ hxc]; exact id
  have hT : fire (.vipCheck src c p g) { s with queue := rest } =
      { resolveP g { addReaction (.thenKey s.vipTail c) { s with queue := rest } with vipTail := p } with
        clients := upd s.clients c { s.clients c with status := .queued, lane := .vipL, srcP := s.vipTail, appendedAt := some s.time },
        vipChain := s.vipChain ++ [c],
        time := s.time + 1 } := by
    have hc2 : (0 < ({ s with queue := rest } : St).count) := hcnt
    simp only [fire]
    rw [if_pos hc2]
  rw [hT]
  constructor
  all_goals try dsimp only
  case ordNodup => rw [hordC]; exact hInv.ordNodup
  case vipNodup =>
    rw [hvipD, ← List.append_assoc]
    refine List.Nodup.append hInv.vipNodup (by simp) ?_
    intro a ha hb
    simp at hb
    subst hb
    exact hcnv ha
  case ordMem =>
    intro d
    rw [hordC]
    by_cases hdc : d = c
    · rw [hdc, upd_same_cl]
      refine ⟨fun hm => absurd hm hcno, ?_⟩
      rintro ⟨hl, -, -⟩
      cases hl
    · rw [upd_ne_cl _ _ hdc]
      exact hInv.ordMem d
  case vipMem =>
    intro d
    rw [hvipD]
    by_cases hdc : d = c
    · rw [hdc, upd_same_cl]
      constructor
      · intro _
        exact ⟨rfl, (by intro h; cases h), (by intro h; cases h)⟩
      · intro _
        exact List.mem_append.mpr (Or.inr (List.mem_append.mpr
          (Or.inr (List.mem_singleton.mpr rfl))))
    · rw [upd_ne_cl _ _ hdc, ← List.append_assoc]
      have h0 := hInv.vipMem d
      simp only [List.mem_append] at h0 ⊢
      simp only [List.mem_singleton, hdc, or_false]
      exact h0
  case vipDoneRel =>
    intro d hd
    rw [hvipD] at hd
    have hdc : d ≠ c := fun h => hcnv (h ▸ List.mem_append.mpr (Or.inl hd))
    rw [upd_ne_cl _ _ hdc]
    exact hInv.vipDoneRel d hd
  case vipKind =>
    intro d h1 h2
    by_cases hdc : d = c
    · rw [hdc, upd_same_cl]
      exact hkc
    · rw [upd_ne_cl _ _ hdc] at h1 h2 ⊢
      exact hInv.vipKind d h1 h2
  case relKind =>
    intro d h1
    by_cases hdc : d = c
    · rw [hdc, upd_same_cl] at h1
      cases h1
    · rw [upd_ne_cl _ _ hdc] at h1 ⊢
      exact hInv.relKind d h1
  case statusRes =>
    intro d hne
    show ((resolveP g { addReaction (.thenKey s.vipTail c) { s with queue := rest } with vipTail := p }).resolvedAt _).isSome ↔ _
    rw [hres2]
    by_cases hdc : d = c
    · rw [hdc, upd_same_cl]
      constructor
      · rintro (h | h)
        · exact absurd h hnml
        · exact absurd h (hInv.myLockNotGuard c hcne _ hent)
      · intro h
        cases h
    · rw [upd_ne_cl _ _ hdc] at hne ⊢
      have hne3 : (s.clients d).myLock ≠ g := hInv.myLockNotGuard d hne _ hent
      constructor
      · rintro (h | h)
        · exact (hInv.statusRes d hne).mp h
        · exact absurd h hne3
      · intro h
        exact Or.inl ((hInv.statusRes d hne).mpr h)
  case admSrcRes =>
    intro d hd
    show ((resolveP g { addReaction (.thenKey s.vipTail c) { s with queue := rest } with vipTail := p }).resolvedAt _).isSome
    rw [hres2]
    by_cases hdc : d = c
    · rw [hdc, upd_same_cl] at hd
      rcases hd with h | h | h <;> cases h
    · rw [upd_ne_cl _ _ hdc] at hd ⊢
      exact Or.inl (hInv.admSrcRes d hd)
  case lockTailEq =>
    rw [hlockT, hordC, hInv.lockTailEq]
    cases hoc : s.ordChain.getLast? with
    | none => rfl
    | some z =>
        show (s.clients z).myLock = (upd s.clients c { s.clients c with status := .queued, lane := .vipL, srcP := s.vipTail, appendedAt := some s.time } z).myLock
        exact (hmyF z).symm
  case vipTailEq =>
    rw [hvipT, List.getLast?_concat]
    show p = (upd s.clients c { s.clients c with status := .queued, lane := .vipL, srcP := s.vipTail, appendedAt := some s.time } c).myLock
    rw [upd_same_cl]
    exact hpml
  case guardTailEq =>
    rw [hguardT, hguardC]
    exact hInv.guardTailEq
  case ordLink =>
    rw [hordC]
    refine chain'_of_eq_on hInv.ordLink ?_
    intro a _ b hb hab
    rw [hsrcFne b (fun h => hcno (h ▸ hb)), hmyF a]
    exact hab
  case ordHead =>
    intro d hd
    rw [hordC] at hd
    have hdc : d ≠ c := fun h => hcno (h ▸ List.mem_of_mem_head? hd)
    rw [hsrcFne d hdc]
    exact hInv.ordHead d hd
  case vipLink =>
    apply chain'_concat_of
    · refine chain'_of_eq_on hInv.vipLink ?_
      intro a _ b hb hab
      have hbc : b ≠ c := fun h => hcnv (h ▸ List.mem_append.mpr (Or.inr hb))
      rw [hsrcFne b hbc, hmyF a]
      exact hab
    · intro z hz
      have hzc : z ≠ c := fun h =>
        hcnv (h ▸ List.mem_append.mpr (Or.inr (mem_of_getLast?_eq hz)))
      rw [upd_same_cl, hmyF z]
      show s.vipTail = (s.clients z).myLock
      exact hlastVip z hz
  case vipHeadLink =>
    intro d hd
    rw [hvipH]
    cases hvc : s.vipChain with
    | nil =>
        rw [hvc] at hd
        simp at hd
        subst hd
        rw [upd_same_cl]
        show s.vipTail = s.vipHead
        exact hvtnil hvc
    | cons h0 t =>
        rw [hvc] at hd
        simp at hd
        subst hd
        have h0mem : h0 ∈ s.vipChain := by rw [hvc]; exact List.mem_cons_self _ _
        have h0c : h0 ≠ c := fun h => hcnv (h ▸ List.mem_append.mpr (Or.inr h0mem))
        rw [hsrcFne h0 h0c]
        exact hInv.vipHeadLink h0 (by rw [hvc]; rfl)
  case ordStatusChain =>
    rw [hordC]
    refine chain'_of_eq_on hInv.ordStatusChain ?_
    intro a ha b hb hab
    rw [hstFne a (fun h => hcno (h ▸ ha)), hstFne b (fun h => hcno (h ▸ hb))]
    exact hab
  case vipStatusChain =>
    apply chain'_concat_of
    · refine chain'_of_eq_on hInv.vipStatusChain ?_
      intro a ha b hb hab
      have hac : a ≠ c := fun h => hcnv (h ▸ List.mem_append.mpr (Or.inr ha))
      have hbc : b ≠ c := fun h => hcnv (h ▸ List.mem_append.mpr (Or.inr hb))
      rw [hstFne a hac, hstFne b hbc]
      exact hab
    · intro z _
      intro hcon
      exact absurd (by rw [upd_same_cl]) hcon
  case thenKeyShape =>
    intro src2 d hr
    rcases (hWQmem _).mp hr with hrn | hro
    · cases hrn
      rw [upd_same_cl]
      exact ⟨rfl, rfl⟩
    · have hdc : d ≠ c := hnotc _ hro
      rw [upd_ne_cl _ _ hdc]
      exact hInv.thenKeyShape src2 d (hWQsub _ hro)
  case vipCheckShape =>
    intro src2 d p2 g2 hr
    rcases (hWQmem _).mp hr with hrn | hro
    · cases hrn
    · have hdc : d ≠ c := hnotc _ hro
      rw [upd_ne_cl _ _ hdc, hguardC]
      exact hInv.vipCheckShape src2 d p2 g2 (hWQsub _ hro)
  case relDrainShape =>
    intro src2 d p2 g2 hr
    rcases (hWQmem _).mp hr with hrn | hro
    · cases hrn
    · have hdc : d ≠ c := hnotc _ hro
      rw [upd_ne_cl _ _ hdc, hguardC]
      exact hInv.relDrainShape src2 d p2 g2 (hWQsub _ hro)
  case relFinishShape =>
    intro src2 d p2 g2 hr
    rcases (hWQmem _).mp hr with hrn | hro
    · cases hrn
    · exact absurd (hWQsub _ hro) (hnoRF src2 d p2 g2)
  case queuedThenKey =>
    intro d hd
    by_cases hdc : d = c
    · rw [hdc, upd_same_cl]
      exact (hWQmem _).mpr (Or.inl rfl)
    · rw [upd_ne_cl _ _ hdc] at hd ⊢
      exact (hWQmem _).mpr (Or.inr (hWQback _ (hInv.queuedThenKey d hd) hdc))
  case waitGuardCheck =>
    intro d hd
    by_cases hdc : d = c
    · rw [hdc, upd_same_cl] at hd
      cases hd
    · rw [upd_ne_cl _ _ hdc] at hd ⊢
      obtain ⟨s2, g2, hm⟩ := hInv.waitGuardCheck d hd
      exact ⟨s2, g2, (hWQmem _).mpr (Or.inr (hWQback _ hm (fun h2 => hdc h2)))⟩
  case releasingReact =>
    intro d hd
    by_cases hdc : d = c
    · rw [hdc, upd_same_cl] at hd
      cases hd
    · rw [upd_ne_cl _ _ hdc] at hd ⊢
      obtain ⟨s2, g2, hm | hm⟩ := hInv.releasingReact d hd
      · exact ⟨s2, g2, Or.inl ((hWQmem _).mpr (Or.inr (hWQback _ hm (fun h2 => hdc h2))))⟩
      · exact ⟨s2, g2, Or.inr ((hWQmem _).mpr (Or.inr (hWQback _ hm (fun h2 => hdc h2))))⟩
  case reactUnique =>
    have hsub : (s.waiting ++ rest).Pairwise (fun r1 r2 => r1.client ≠ r2.client) := by
      refine List.Pairwise.sublist ?_ hInv.reactUnique
      rw [hq]
      exact List.Sublist.append_left (List.sublist_cons_self _ _) _
    have htarget : ((s.waiting ++ rest) ++
        [(.thenKey s.vipTail c : Reaction)]).Pairwise
          (fun r1 r2 => r1.client ≠ r2.client) := by
      rw [List.pairwise_append]
      refine ⟨hsub, by simp, ?_⟩
      intro r hr y hy
      simp at hy
      subst hy
      exact hnotc r hr
    exact (List.Perm.pairwise_iff (fun h => Ne.symm h) hWQperm).mpr htarget
  case hotRes =>
    have hbase : ∀ x ∈ ({ s with queue := rest } : St).queue,
        res { s with queue := rest } x.src := by
      intro x hx
      exact hInv.hotRes x (by rw [hq]; exact List.mem_cons_of_mem _ hx)
    exact hot_resolveP g (hot_addReaction _ hbase)
  case parkedNotRes =>
    have hbase : ∀ x ∈ ({ s with queue := rest } : St).waiting,
        ¬ res { s with queue := rest } x.src := by
      intro x hx
      exact hInv.parkedNotRes x hx
    exact parked_resolveP g (parked_addReaction _ hbase)
  case guardNodupG =>
    rw [hguardC]
    exact hInv.guardNodupG
  case guardLink =>
    rw [hguardC]
    exact hInv.guardLink
  case guardHead =>
    intro e he
    rw [hguardC] at he
    exact hInv.guardHead e he
  case guardDoneNoReact =>
    intro e he hres r hr
    rw [hguardC] at he
    rcases (hres2 e.g).mp hres with h | h
    · rcases (hWQmem _).mp hr with hrn | hro
      · cases hrn
        intro hcon
        cases hcon
      · exact hInv.guardDoneNoReact e he h r (hWQsub _ hro)
    · have hee : e = ⟨c, g, src, .chk⟩ := gentry_unique hInv he hent h
      subst hee
      intro hcon
      rcases (hWQmem _).mp hr with hrn | hro
      · cases hrn
        cases hcon
      · have hrcne : r.client ≠ c := hnotc _ hro
        rcases hrx : r with ⟨s3, d3⟩ | ⟨s3, d3, p3, g3⟩ | ⟨s3, d3, p3, g3⟩ | ⟨s3, d3, p3, g3⟩
        all_goals rw [hrx] at hcon hro
        all_goals cases hcon
        · obtain ⟨-, -, hent2⟩ := hInv.vipCheckShape _ _ _ _ (hWQsub _ hro)
          have heq := gentry_unique hInv hent2 hent rfl
          have hd3 : d3 = c := congrArg GEntry.c heq
          rw [hrx] at hrcne
          exact hrcne hd3
        · obtain ⟨-, -, hent2, -⟩ := hInv.relDrainShape _ _ _ _ (hWQsub _ hro)
          have heq := gentry_unique hInv hent2 hent rfl
          have hk : GKind.rel = GKind.chk := congrArg GEntry.k heq
          cases hk
        · exact hnoRF _ _ _ _ (hWQsub _ hro)
  case guardResChain =>
    rw [hguardC]
    refine chain'_of_eq_on (chain'_conj hInv.guardLink hInv.guardResChain) ?_
    intro a _ b hb hab hres
    obtain ⟨hlink, hrel⟩ := hab
    show ((resolveP g { addReaction (.thenKey s.vipTail c) { s with queue := rest } with vipTail := p }).resolvedAt a.g).isSome
    rw [hres2]
    rcases (hres2 b.g).mp hres with h | h
    · exact Or.inl (hrel h)
    · have hbe : b = ⟨c, g, src, .chk⟩ := gentry_unique hInv hb hent h
      have hag : a.g = src := by rw [← hlink, hbe]
      rw [hag]
      exact Or.inl hhot
  case countEq =>
    rw [hcountE, hordC]
    have hcongr : List.filter (fun d => decide ¬((upd s.clients c { s.clients c with status := .queued, lane := .vipL, srcP := s.vipTail, appendedAt := some s.time } d).status
        = .released ∧ (upd s.clients c { s.clients c with status := .queued, lane := .vipL, srcP := s.vipTail, appendedAt := some s.time } d).kind = .ordKey)) s.ordChain
        = List.filter (fun d => decide ¬((s.clients d).status = .released ∧
          (s.clients d).kind = .ordKey)) s.ordChain := by
      apply List.filter_congr
      intro d hd
      rw [upd_ne_cl _ _ (fun h => hcno (by rw [← h]; exact hd))]
    rw [hcongr]
    exact hInv.countEq
  case vipNonempty =>
    intro _
    rw [hcountE]
    exact hcnt
  case vipHeadRes =>
    intro h
    exfalso
    rw [hvipH] at h
    rcases (hres2 s.vipHead).mp h with h2 | h2
    · exact hnrVH h2
    · exact hInv.vipHeadNotGuard _ hent h2
  case vipHeadNotLock =>
    intro d hd
    rw [hmyF d, hvipH]
    exact hInv.vipHeadNotLock d (hneF d hd)
  case vipHeadNotGuard =>
    intro e he
    rw [hguardC] at he
    rw [hvipH]
    exact hInv.vipHeadNotGuard e he
  case myLockNotGuard =>
    intro d hd e he
    rw [hguardC] at he
    rw [hmyF d]
    exact hInv.myLockNotGuard d (hneF d hd) e he
  case lockInj =>
    intro c1 d1 h1 h2 heq
    rw [hmyF, hmyF] at heq
    exact hInv.lockInj c1 d1 (hneF c1 h1) (hneF d1 h2) heq
  case lockBound =>
    intro d hd
    rw [hmyF d, hnextP]
    exact hInv.lockBound d (hneF d hd)
  case guardBound =>
    intro e he
    rw [hguardC] at he
    rw [hnextP]
    exact hInv.guardBound e he
  case vipHeadBound =>
    rw [hvipH, hnextP]
    exact hInv.vipHeadBound
  case fresh =>
    intro q hq2
    rw [hnextP] at hq2
    have hqg : q ≠ g := by
      intro h
      rw [h] at hq2
      omega
    rw [hat q hqg]
    exact hInv.fresh q hq2
  case nextPBound =>
    rw [hnextP]
    exact hInv.nextPBound
  case resZero =>
    constructor
    · show ((resolveP g { addReaction (.thenKey s.vipTail c) { s with queue := rest } with vipTail := p }).resolvedAt 0).isSome
      rw [hres2]
      exact Or.inl hInv.resZero.1
    · show ((resolveP g { addReaction (.thenKey s.vipTail c) { s with queue := rest } with vipTail := p }).resolvedAt 1).isSome
      rw [hres2]
      exact Or.inl hInv.resZero.2
  case timeRes =>
    intro q t h
    by_cases hqg : q = g
    · subst hqg
      rw [hatg] at h
      injection h with h2
      omega
    · rw [hat q hqg] at h
      have := hInv.timeRes q t h
      omega
  case timeAdm =>
    intro d t hd
    rw [hadmF d] at hd
    have := hInv.timeAdm d t hd
    omega
  case timeApp =>
    intro d t hd
    by_cases hdc : d = c
    · rw [hdc, upd_same_cl] at hd
      injection hd with h2
      omega
    · rw [upd_ne_cl _ _ hdc] at hd
      have := hInv.timeApp d t hd
      omega
  case timeDrain =>
    intro d t hd
    rw [hdrF d] at hd
    have := hInv.timeDrain d t hd
    omega
  case admitSome =>
    intro d hd
    rw [hadmF d]
    by_cases hdc : d = c
    · rw [hdc, upd_same_cl] at hd
      rcases hd with h | h | h <;> cases h
    · rw [upd_ne_cl _ _ hdc] at hd
      exact hInv.admitSome d hd
  case admitNone =>
    intro d hd
    rw [hadmF d]
    by_cases hdc : d = c
    · rw [hdc]
      exact hadmn
    · rw [upd_ne_cl _ _ hdc] at hd
      exact hInv.admitNone d hd
  case ordAdmitChain =>
    rw [hordC]
    refine chain'_of_eq_on hInv.ordAdmitChain ?_
    intro a _ b _ hab
    rw [hadmF, hadmF]
    exact hab
  case vipAdmitChain =>
    rw [hvipD, ← List.append_assoc]
    apply chain'_concat_of
    · refine chain'_of_eq_on hInv.vipAdmitChain ?_
      intro a _ b _ hab
      rw [hadmF, hadmF]
      exact hab
    · intro z _ tb htb
      rw [hadmF c, hadmn] at htb
      cases htb
  case drainOrd =>
    intro d hd
    rw [hdrF d] at hd
    rw [hkindF d]
    exact hInv.drainOrd d hd
  case logNone =>
    intro d hd
    rw [hdrF d] at hd
    show List.filter _ (resolveP g { addReaction (.thenKey s.vipTail c) { s with queue := rest } with vipTail := p }).log = []
    rw [hlogE]
    exact hInv.logNone d hd
  case logSome =>
    intro d hd
    rw [hdrF d] at hd
    constructor
    · rintro ⟨s2, p2, g2, hm⟩
      exfalso
      rcases (hWQmem _).mp hm with hrn | hro
      · cases hrn
      · exact hnoRF _ _ _ _ (hWQsub _ hro)
    · intro _
      have h7 := (hInv.logSome d hd).2 (by
        rintro ⟨s2, p2, g2, hm⟩
        exact hnoRF _ _ _ _ hm)
      show List.filter _ (resolveP g { addReaction (.thenKey s.vipTail c) { s with queue := rest } with vipTail := p }).log = _
      rw [hlogE]
      exact h7
  case holdOne =>
    intro c1 d1 h1 h2
    by_cases hc1 : c1 = c
    · rw [hc1, upd_same_cl] at h1
      cases h1
    · by_cases hd1 : d1 = c
      · rw [hd1, upd_same_cl] at h2
        cases h2
      · rw [upd_ne_cl _ _ hc1] at h1
        rw [upd_ne_cl _ _ hd1] at h2
        exact hInv.holdOne c1 d1 h1 h2
  case vipActiveHead =>
    intro d hd hdne
    exfalso
    rcases List.mem_append.mp hd with hdo | hdn
    · have hdc : d ≠ c := fun h => hcnv (h ▸ List.mem_append.mpr (Or.inr hdo))
      rw [hstFne d hdc] at hdne
      exact hnrVH (hInv.vipActiveHead d hdo hdne)
    · have hdc : d = c := by simpa using hdn
      rw [hdc, upd_same_cl] at hdne
      exact absurd rfl hdne
  case ordKindLane =>
    intro d h1 h2
    rw [hkindF d] at h1
    by_cases hdc : d = c
    · rw [hdc, hkc] at h1
      cases h1
    · rw [upd_ne_cl _ _ hdc]
      exact hInv.ordKindLane d h1 (hneF d h2)
  case waitGuardLane =>
    intro d hd
    by_cases hdc : d = c
    · rw [hdc, upd_same_cl] at hd
      cases hd
    · rw [upd_ne_cl _ _ hdc] at hd ⊢
      exact hInv.waitGuardLane d hd
  case drainNone =>
    intro d _
    rw [hdrF d]
    by_cases hdc : d = c
    · rw [hdc]
      exact hdrn
    · rename_i hd
      rw [upd_ne_cl _ _ hdc] at hd
      exact hInv.drainNone d hd
  case relDrained =>
    intro d h1 h2
    rw [hdrF d]
    by_cases hdc : d = c
    · rw [hdc, upd_same_cl] at h1
      cases h1
    · rw [upd_ne_cl _ _ hdc] at h1
      rw [hkindF d] at h2
      exact hInv.relDrained d h1 h2
  case entryNotIdle =>
    intro e he
    rw [hguardC] at he
    by_cases hec : e.c = c
    · rw [hec, upd_same_cl]
      intro h
      cases h
    · rw [upd_ne_cl _ _ hec]
      exact hInv.entryNotIdle e he
  case chkUnique =>
    intro e1 he1 e2 he2
    rw [hguardC] at he1 he2
    exact hInv.chkUnique e1 he1 e2 he2
  case chkApp =>
    intro e he hkk
    rw [hguardC] at he
    by_cases hec : e.c = c
    · have hee : e = ⟨c, g, src, .chk⟩ := hInv.chkUnique e he _ hent hkk rfl hec
      rw [hee]
      dsimp only
      rw [upd_same_cl, hatg]
    · have hgg : e.g ≠ g := fun h => hec (congrArg GEntry.c (gentry_unique hInv he hent h))
      rw [happFne e.c hec, hat e.g hgg]
      exact hInv.chkApp e he hkk
  case guardTimeChain =>
    rw [hguardC]
    refine chain'_of_eq_on (chain'_conj hInv.guardLink hInv.guardTimeChain) ?_
    intro a _ b hb hab t2 ht2
    obtain ⟨hlink, htime⟩ := hab
    by_cases hbg : b.g = g
    · have hbe : b = ⟨c, g, src, .chk⟩ := gentry_unique hInv hb hent hbg
      have hag : a.g = src := by rw [← hlink, hbe]
      have hres_ag : res s a.g := by rw [hag]; exact hhot
      have hagg : a.g ≠ g := by
        intro h2
        apply hng
        rw [← h2]
        exact hres_ag
      obtain ⟨t1, ht1⟩ := Option.isSome_iff_exists.mp hres_ag
      refine ⟨t1, ?_, ?_⟩
      · rw [hat a.g hagg]
        exact ht1
      · rw [hbg, hatg] at ht2
        injection ht2 with h2
        have := hInv.timeRes _ t1 ht1
        omega
    · rw [hat b.g hbg] at ht2
      obtain ⟨t1, ht1, hlt⟩ := htime t2 ht2
      have hagg : a.g ≠ g := by
        intro h
        apply hng
        rw [← h]
        unfold res
        rw [ht1]
        rfl
      exact ⟨t1, by rw [hat a.g hagg]; exact ht1, hlt⟩
  case vipAppSome =>
    intro d hd
    rw [hvipD, ← List.append_assoc] at hd
    rcases List.mem_append.mp hd with hdo | hdn
    · have hdc : d ≠ c := fun h => hcnv (h ▸ hdo)
      rw [happFne d hdc]
      exact hInv.vipAppSome d hdo
    · have hdc : d = c := by simpa using hdn
      rw [hdc, upd_same_cl]
      rfl
  case vipAppChain =>
    rw [hvipD, ← List.append_assoc]
    apply chain'_concat_of
    · refine chain'_of_eq_on hInv.vipAppChain ?_
      intro a ha b hb hab tb htb
      have hac : a ≠ c := fun h => hcnv (h ▸ ha)
      have hbc : b ≠ c := fun h => hcnv (h ▸ hb)
      rw [happFne b hbc] at htb
      obtain ⟨ta, hta, h⟩ := hab tb htb
      exact ⟨ta, by rw [happFne a hac]; exact hta, h⟩
    · intro z hz tb htb
      rw [upd_same_cl] at htb
      have hz2 : z ∈ s.vipDone ++ s.vipChain := mem_of_getLast?_eq hz
      have hzc : z ≠ c := fun h => hcnv (h ▸ hz2)
      obtain ⟨ta, hta⟩ := Option.isSome_iff_exists.mp (hInv.vipAppSome z hz2)
      refine ⟨ta, by rw [happFne z hzc]; exact hta, ?_⟩
      have := hInv.timeApp z ta hta
      injection htb with h2
      omega
  case appStatus =>
    intro d hd
    by_cases hdc : d = c
    · rw [hdc, upd_same_cl]
      exact ⟨(by intro h; cases h), (by intro h; cases h)⟩
    · rw [happFne d hdc] at hd
      rw [upd_ne_cl _ _ hdc]
      exact hInv.appStatus d hd

end VipM

namespace VipM

theorem inv_fire_vipCheck_neg {s : St} {src c p g : Nat} {rest : List Reaction}
    (hInv : Inv s) (hq : s.queue = (.vipCheck src c p g : Reaction) :: rest)
    (hcnt : ¬ 0 < s.count) :
    Inv (fire (.vipCheck src c p g) { s with queue := rest }) := by
  have hrQ : (.vipCheck src c p g : Reaction) ∈ s.queue := by
    rw [hq]; exact List.mem_cons_self _ _
  have hrWQ : (.vipCheck src c p g : Reaction) ∈ s.waiting ++ s.queue :=
    List.mem_append.mpr (Or.inr hrQ)
  obtain ⟨hwt, hpml, hent⟩ := hInv.vipCheckShape src c p g hrWQ
  have hhot : res s src := hInv.hotRes _ hrQ
  have hcne : (s.clients c).status ≠ .idle := by rw [hwt]; intro h; cases h
  have hlanec : (s.clients c).lane = .vipL := hInv.waitGuardLane c hwt
  have hkc : (s.clients c).kind = .simpleKey := hInv.vipKind c hlanec hcne
  have hng : ¬ res s g := by
    intro hres
    exact hInv.guardDoneNoReact _ hent hres _ hrWQ rfl
  have hnp : ¬ res s p := by
    intro hres
    rw [hpml] at hres
    have := (hInv.statusRes c hcne).mp hres
    rw [hwt] at this
    cases this
  have hnml : ¬ res s (s.clients c).myLock := by
    rw [← hpml]
    exact hnp
  have hcno : c ∉ s.ordChain := fun hm => ((hInv.ordMem c).mp hm).2.2 hwt
  have hcnv : c ∉ s.vipDone ++ s.vipChain := fun hm => ((hInv.vipMem c).mp hm).2.2 hwt
  have hadmn : (s.clients c).admittedAt = none := hInv.admitNone c (Or.inr (Or.inl hwt))
  have hdrn : (s.clients c).drainedAt = none := hInv.drainNone c (Or.inr (Or.inl hwt))
  have hgb := hInv.guardBound _ hent
  dsimp only at hgb
  have hpb := hInv.lockBound c hcne
  have hnoRF := no_relFinish_of_vipCheck_hot hInv hrQ
  have hnrVH : ¬ res s s.vipHead := by
    intro h
    obtain ⟨a1, a2, a3, a4, hm⟩ := hInv.vipHeadRes h
    exact hnoRF a1 a2 a3 a4 hm
  have hvcnil : s.vipChain = [] := by
    by_contra hcon
    exact hcnt (hInv.vipNonempty hcon)
  have hPW := hInv.reactUnique
  rw [hq] at hPW
  rcases List.pairwise_append.mp hPW with ⟨pW, pQ, cross⟩
  have hnotc : ∀ x ∈ s.waiting ++ rest, x.client ≠ c := by
    intro x hx
    rcases List.mem_append.mp hx with hxw | hxr
    · exact cross x hxw _ (List.mem_cons_self _ _)
    · rcases List.pairwise_cons.mp pQ with ⟨hhead, -⟩
      intro hcon
      exact hhead x hxr hcon.symm
  have hWQsub : ∀ x ∈ s.waiting ++ rest, x ∈ s.waiting ++ s.queue := by
    intro x hx
    rcases List.mem_append.mp hx with hxw | hxr
    · exact List.mem_append.mpr (Or.inl hxw)
    · exact List.mem_append.mpr (Or.inr (by rw [hq]; exact List.mem_cons_of_mem _ hxr))
  have hWQback : ∀ x, x ∈ s.waiting ++ s.queue → x.client ≠ c →
      x ∈ s.waiting ++ rest := by
    intro x hx hxc
    rcases List.mem_append.mp hx with hxw | hxq
    · exact List.mem_append.mpr (Or.inl hxw)
    · rw [hq] at hxq
      rcases List.mem_cons.mp hxq with rfl | hxr
      · exact absurd rfl hxc
      · exact List.mem_append.mpr (Or.inr hxr)
  have hlastOrd : ∀ z, s.ordChain.getLast? = some z →
      s.lockTail = (s.clients z).myLock := by
    intro z hz
    rw [hInv.lockTailEq, hz]
    rfl
  have hltnil : s.ordChain = [] → s.lockTail = 0 := by
    intro h
    rw [hInv.lockTailEq, h]
    rfl
  have hres2 : ∀ q, ((addReaction (.thenKey s.lockTail c) (resolveP g { s with queue := rest })).resolvedAt q).isSome ↔ res s q ∨ q = g := by
    intro q
    constructor
    · intro h
      have h2 := (res_addReaction (.thenKey s.lockTail c)
        (resolveP g { s with queue := rest }) q).mp h
      exact (res_resolveP g { s with queue := rest } q).mp h2
    · intro h
      exact (res_addReaction (.thenKey s.lockTail c)
        (resolveP g { s with queue := rest }) q).mpr
        ((res_resolveP g { s with queue := rest } q).mpr h)
  have hatg : (addReaction (.thenKey s.lockTail c) (resolveP g { s with queue := rest })).resolvedAt g = some s.time := by
    rw [addReaction_resolvedAt0]
    exact resolveP_at_self hng
  have hat : ∀ q, q ≠ g → (addReaction (.thenKey s.lockTail c) (resolveP g { s with queue := rest })).resolvedAt q = s.resolvedAt q := by
    intro q hqg
    rw [addReaction_resolvedAt0, resolveP_at_ne _ hqg]
  have hWQperm : ((addReaction (.thenKey s.lockTail c) (resolveP g { s with queue := rest })).waiting ++ (addReaction (.thenKey s.lockTail c) (resolveP g { s with queue := rest })).queue).Perm
      ((s.waiting ++ rest) ++ [(.thenKey s.lockTail c : Reaction)]) := by
    refine (addReaction_WQ_perm (.thenKey s.lockTail c)
      (resolveP g { s with queue := rest })).trans ?_
    exact (resolveP_WQ_perm_v g { s with queue := rest }).append_right _
  have hWQmem : ∀ x : Reaction, x ∈ (addReaction (.thenKey s.lockTail c) (resolveP g { s with queue := rest })).waiting ++ (addReaction (.thenKey s.lockTail c) (resolveP g { s with queue := rest })).queue ↔
      x = (.thenKey s.lockTail c : Reaction) ∨ x ∈ s.waiting ++ rest := by
    intro x
    rw [hWQperm.mem_iff]
    constructor
    · intro h
      rcases List.mem_append.mp h with h2 | h2
      · exact Or.inr h2
      · exact Or.inl (by simpa using h2)
    · rintro (h2 | h2)
      · exact List.mem_append.mpr (Or.inr (by simp [h2]))
      · exact List.mem_append.mpr (Or.inl h2)
  have hvipC : (addReaction (.thenKey s.lockTail c) (resolveP g { s with queue := rest })).vipChain = s.vipChain := by
    rw [addReaction_vipChain, resolveP_vipChain]
  have hvipD : (addReaction (.thenKey s.lockTail c) (resolveP g { s with queue := rest })).vipDone = s.vipDone := by
    rw [addReaction_vipDone, resolveP_vipDone]
  have hguardC : (addReaction (.thenKey s.lockTail c) (resolveP g { s with queue := rest })).guardChain = s.guardChain := by
    rw [addReaction_guardChain, resolveP_guardChain]
  have hlogE : (addReaction (.thenKey s.lockTail c) (resolveP g { s with queue := rest })).log = s.log := by
    rw [addReaction_log, resolveP_log]
  have hvipH : (addReaction (.thenKey s.lockTail c) (resolveP g { s with queue := rest })).vipHead = s.vipHead := by
    rw [addReaction_vipHead, resolveP_vipHead]
  have hvipT : (addReaction (.thenKey s.lockTail c) (resolveP g { s with queue := rest })).vipTail = s.vipTail := by
    rw [addReaction_vipTail, resolveP_vipTail]
  have hguardT : (addReaction (.thenKey s.lockTail c) (resolveP g { s with queue := rest })).guardTail = s.guardTail := by
    rw [addReaction_guardTail, resolveP_guardTail]
  have hnextP : (addReaction (.thenKey s.lockTail c) (resolveP g { s with queue := rest })).nextP = s.nextP := by
    rw [addReaction_nextP, resolveP_nextP_v]
  have hmyF : ∀ x, (upd s.clients c { s.clients c with status := .queued, lane := .ordL, srcP := s.lockTail, appendedAt := some s.time } x).myLock = (s.clients x).myLock := by
    intro x
    by_cases hxc : x = c
    · subst hxc; rw [upd_same_cl]
    · rw [upd_ne_cl _ _ hxc]
  have hkindF : ∀ x, (upd s.clients c { s.clients c with status := .queued, lane := .ordL, srcP := s.lockTail, appendedAt := some s.time } x).kind = (s.clients x).kind := by
    intro x
    by_cases hxc : x = c
    · subst hxc; rw [upd_same_cl]
    · rw [upd_ne_cl _ _ hxc]
  have hadmF : ∀ x, (upd s.clients c { s.clients c with status := .queued, lane := .ordL, srcP := s.lockTail, appendedAt := some s.time } x).admittedAt = (s.clients x).admittedAt := by
    intro x
    by_cases hxc : x = c
    · subst hxc; rw [upd_same_cl]
    · rw [upd_ne_cl _ _ hxc]
  have hdrF : ∀ x, (upd s.clients c { s.clients c with status := .queued, lane := .ordL, srcP := s.lockTail, appendedAt := some s.time } x).drainedAt = (s.clients x).drainedAt := by
    intro x
    by_cases hxc : x = c
    · subst hxc; rw [upd_same_cl]
    · rw [upd_ne_cl _ _ hxc]
  have hstFne : ∀ x, x ≠ c → (upd s.clients c { s.clients c with status := .queued, lane := .ordL, srcP := s.lockTail, appendedAt := some s.time } x).status = (s.clients x).status := by
    intro x hxc
    rw [upd_ne_cl _ _ hxc]
  have hsrcFne : ∀ x, x ≠ c → (upd s.clients c { s.clients c with status := .queued, lane := .ordL, srcP := s.lockTail, appendedAt := some s.time } x).srcP = (s.clients x).srcP := by
    intro x hxc
    rw [upd_ne_cl _ _ hxc]
  have hlaneFne : ∀ x, x ≠ c → (upd s.clients c { s.clients c with status := .queued, lane := .ordL, srcP := s.lockTail, appendedAt := some s.time } x).lane = (s.clients x).lane := by
    intro x hxc
    rw [upd_ne_cl _ _ hxc]
  have happFne : ∀ x, x ≠ c →
      (upd s.clients c { s.clients c with status := .queued, lane := .ordL, srcP := s.lockTail, appendedAt := some s.time } x).appendedAt = (s.clients x).appendedAt := by
    intro x hxc
    rw [upd_ne_cl _ _ hxc]
  have hneF : ∀ x, (upd s.clients c { s.clients c with status := .queued, lane := .ordL, srcP := s.lockTail, appendedAt := some s.time } x).status ≠ .idle →
      (s.clients x).status ≠ .idle := by
    intro x
    by_cases hxc : x = c
    · subst hxc; intro _; exact hcne
    · rw [upd_ne_cl _ _ hxc]; exact id
  have hT : fire (.vipCheck src c p g) { s with queue := rest } =
      { addReaction (.thenKey s.lockTail c) (resolveP g { s with queue := rest }) with
        lockTail := p,
        count := s.count + 1,
        clients := upd s.clients c { s.clients c with status := .queued, lane := .ordL, srcP := s.lockTail, appendedAt := some s.time },
        ordChain := s.ordChain ++ [c],
        time := s.time + 1 } := by
    have hc2 : ¬ (0 < ({ s with queue := rest } : St).count) := hcnt
    simp only [fire]
    rw [if_neg hc2]
  rw [hT]
  constructor
  all_goals try dsimp only
  case ordNodup =>
    refine List.Nodup.append hInv.ordNodup (by simp) ?_
    intro a ha hb
    simp at hb
    subst hb
    exact hcno ha
  case vipNodup =>
    rw [hvipD, hvipC]
    exact hInv.vipNodup
  case ordMem =>
    intro d
    by_cases hdc : d = c
    · rw [hdc, upd_same_cl]
      refine ⟨fun _ => ⟨rfl, (by intro h; cases h), (by intro h; cases h)⟩, fun _ => ?_⟩
      exact List.mem_append.mpr (Or.inr (List.mem_singleton.mpr rfl))
    · rw [upd_ne_cl _ _ hdc]
      simp only [List.mem_append, List.mem_singleton, hdc, or_false]
      exact hInv.ordMem d
  case vipMem =>
    intro d
    rw [hvipD, hvipC]
    by_cases hdc : d = c
    · rw [hdc, upd_same_cl]
      refine ⟨fun hm => absurd hm hcnv, ?_⟩
      rintro ⟨hl, -, -⟩
      cases hl
    · rw [upd_ne_cl _ _ hdc]
      exact hInv.vipMem d
  case vipDoneRel =>
    intro d hd
    rw [hvipD] at hd
    have hdc : d ≠ c := fun h => hcnv (h ▸ List.mem_append.mpr (Or.inl hd))
    rw [upd_ne_cl _ _ hdc]
    exact hInv.vipDoneRel d hd
  case vipKind =>
    intro d h1 h2
    by_cases hdc : d = c
    · rw [hdc, upd_same_cl] at h1
      cases h1
    · rw [upd_ne_cl _ _ hdc] at h1 h2 ⊢
      exact hInv.vipKind d h1 h2
  case relKind =>
    intro d h1
    by_cases hdc : d = c
    · rw [hdc, upd_same_cl] at h1
      cases h1
    · rw [upd_ne_cl _ _ hdc] at h1 ⊢
      exact hInv.relKind d h1
  case statusRes =>
    intro d hne
    show ((addReaction (.thenKey s.lockTail c) (resolveP g { s with queue := rest })).resolvedAt _).isSome ↔ _
    rw [hres2]
    by_cases hdc : d = c
    · rw [hdc, upd_same_cl]
      constructor
      · rintro (h | h)
        · exact absurd h hnml
        · exact absurd h (hInv.myLockNotGuard c hcne _ hent)
      · intro h
        cases h
    · rw [upd_ne_cl _ _ hdc] at hne ⊢
      have hne3 : (s.clients d).myLock ≠ g := hInv.myLockNotGuard d hne _ hent
      constructor
      · rintro (h | h)
        · exact (hInv.statusRes d hne).mp h
        · exact absurd h hne3
      · intro h
        exact Or.inl ((hInv.statusRes d hne).mpr h)
  case admSrcRes =>
    intro d hd
    show ((addReaction (.thenKey s.lockTail c) (resolveP g { s with queue := rest })).resolvedAt _).isSome
    rw [hres2]
    by_cases hdc : d = c
    · rw [hdc, upd_same_cl] at hd
      rcases hd with h | h | h <;> cases h
    · rw [upd_ne_cl _ _ hdc] at hd ⊢
      exact Or.inl (hInv.admSrcRes d hd)
  case lockTailEq =>
    rw [List.getLast?_concat]
    show p = (upd s.clients c { s.clients c with status := .queued, lane := .ordL, srcP := s.lockTail, appendedAt := some s.time } c).myLock
    rw [upd_same_cl]
    exact hpml
  case vipTailEq =>
    rw [hvipT, hvipH, hvipC, hvcnil]
    rw [hInv.vipTailEq, hvcnil]
    rfl
  case guardTailEq =>
    rw [hguardT, hguardC]
    exact hInv.guardTailEq
  case ordLink =>
    apply chain'_concat_of
    · refine chain'_of_eq_on hInv.ordLink ?_
      intro a _ b hb hab
      rw [hsrcFne b (fun h => hcno (h ▸ hb)), hmyF a]
      exact hab
    · intro z hz
      have hzc : z ≠ c := fun h => hcno (h ▸ mem_of_getLast?_eq hz)
      rw [upd_same_cl, hmyF z]
      show s.lockTail = (s.clients z).myLock
      exact hlastOrd z hz
  case ordHead =>
    intro d hd
    cases hoc : s.ordChain with
    | nil =>
        rw [hoc] at hd
        simp at hd
        subst hd
        rw [upd_same_cl]
        show s.lockTail = 0
        exact hltnil hoc
    | cons h0 t =>
        rw [hoc] at hd
        simp at hd
        subst hd
        have h0mem : h0 ∈ s.ordChain := by rw [hoc]; exact List.mem_cons_self _ _
        have h0c : h0 ≠ c := fun h => hcno (h ▸ h0mem)
        rw [hsrcFne h0 h0c]
        exact hInv.ordHead h0 (by rw [hoc]; rfl)
  case vipLink =>
    rw [hvipC]
    refine chain'_of_eq_on hInv.vipLink ?_
    intro a ha b hb hab
    have hac : a ≠ c := fun h => hcnv (h ▸ List.mem_append.mpr (Or.inr ha))
    have hbc : b ≠ c := fun h => hcnv (h ▸ List.mem_append.mpr (Or.inr hb))
    rw [hsrcFne b hbc, hmyF a]
    exact hab
  case vipHeadLink =>
    intro d hd
    rw [hvipC] at hd
    rw [hvipH]
    have hdc : d ≠ c := fun h =>
      hcnv (h ▸ List.mem_append.mpr (Or.inr (List.mem_of_mem_head? hd)))
    rw [hsrcFne d hdc]
    exact hInv.vipHeadLink d hd
  case ordStatusChain =>
    apply chain'_concat_of
    · refine chain'_of_eq_on hInv.ordStatusChain ?_
      intro a ha b hb hab
      rw [hstFne a (fun h => hcno (h ▸ ha)), hstFne b (fun h => hcno (h ▸ hb))]
      exact hab
    · intro z _
      intro hcon
      exact absurd (by rw [upd_same_cl]) hcon
  case vipStatusChain =>
    rw [hvipC]
    refine chain'_of_eq_on hInv.vipStatusChain ?_
    intro a ha b hb hab
    have hac : a ≠ c := fun h => hcnv (h ▸ List.mem_append.mpr (Or.inr ha))
    have hbc : b ≠ c := fun h => hcnv (h ▸ List.mem_append.mpr (Or.inr hb))
    rw [hstFne a hac, hstFne b hbc]
    exact hab
  case thenKeyShape =>
    intro src2 d hr
    rcases (hWQmem _).mp hr with hrn | hro
    · cases hrn
      rw [upd_same_cl]
      exact ⟨rfl, rfl⟩
    · have hdc : d ≠ c := hnotc _ hro
      rw [upd_ne_cl _ _ hdc]
      exact hInv.thenKeyShape src2 d (hWQsub _ hro)
  case vipCheckShape =>
    intro src2 d p2 g2 hr
    rcases (hWQmem _).mp hr with hrn | hro
    · cases hrn
    · have hdc : d ≠ c := hnotc _ hro
      rw [upd_ne_cl _ _ hdc, hguardC]
      exact hInv.vipCheckShape src2 d p2 g2 (hWQsub _ hro)
  case relDrainShape =>
    intro src2 d p2 g2 hr
    rcases (hWQmem _).mp hr with hrn | hro
    · cases hrn
    · have hdc : d ≠ c := hnotc _ hro
      rw [upd_ne_cl _ _ hdc, hguardC]
      exact hInv.relDrainShape src2 d p2 g2 (hWQsub _ hro)
  case relFinishShape =>
    intro src2 d p2 g2 hr
    rcases (hWQmem _).mp hr with hrn | hro
    · cases hrn
    · exact absurd (hWQsub _ hro) (hnoRF src2 d p2 g2)
  case queuedThenKey =>
    intro d hd
    by_cases hdc : d = c
    · rw [hdc, upd_same_cl]
      exact (hWQmem _).mpr (Or.inl rfl)
    · rw [upd_ne_cl _ _ hdc] at hd ⊢
      exact (hWQmem _).mpr (Or.inr (hWQback _ (hInv.queuedThenKey d hd) hdc))
  case waitGuardCheck =>
    intro d hd
    by_cases hdc : d = c
    · rw [hdc, upd_same_cl] at hd
      cases hd
    · rw [upd_ne_cl _ _ hdc] at hd ⊢
      obtain ⟨s2, g2, hm⟩ := hInv.waitGuardCheck d hd
      exact ⟨s2, g2, (hWQmem _).mpr (Or.inr (hWQback _ hm (fun h2 => hdc h2)))⟩
  case releasingReact =>
    intro d hd
    by_cases hdc : d = c
    · rw [hdc, upd_same_cl] at hd
      cases hd
    · rw [upd_ne_cl _ _ hdc] at hd ⊢
      obtain ⟨s2, g2, hm | hm⟩ := hInv.releasingReact d hd
      · exact ⟨s2, g2, Or.inl ((hWQmem _).mpr (Or.inr (hWQback _ hm (fun h2 => hdc h2))))⟩
      · exact ⟨s2, g2, Or.inr ((hWQmem _).mpr (Or.inr (hWQback _ hm (fun h2 => hdc h2))))⟩
  case reactUnique =>
    have hsub : (s.waiting ++ rest).Pairwise (fun r1 r2 => r1.client ≠ r2.client) := by
      refine List.Pairwise.sublist ?_ hInv.reactUnique
      rw [hq]
      exact List.Sublist.append_left (List.sublist_cons_self _ _) _
    have htarget : ((s.waiting ++ rest) ++
        [(.thenKey s.lockTail c : Reaction)]).Pairwise
          (fun r1 r2 => r1.client ≠ r2.client) := by
      rw [List.pairwise_append]
      refine ⟨hsub, by simp, ?_⟩
      intro r hr y hy
      simp at hy
      subst hy
      exact hnotc r hr
    exact (List.Perm.pairwise_iff (fun h => Ne.symm h) hWQperm).mpr htarget
  case hotRes =>
    have hbase : ∀ x ∈ ({ s with queue := rest } : St).queue,
        res { s with queue := rest } x.src := by
      intro x hx
      exact hInv.hotRes x (by rw [hq]; exact List.mem_cons_of_mem _ hx)
    exact hot_addReaction _ (hot_resolveP g hbase)
  case parkedNotRes =>
    have hbase : ∀ x ∈ ({ s with queue := rest } : St).waiting,
        ¬ res { s with queue := rest } x.src := by
      intro x hx
      exact hInv.parkedNotRes x hx
    exact parked_addReaction _ (parked_resolveP g hbase)
  case guardNodupG =>
    rw [hguardC]
    exact hInv.guardNodupG
  case guardLink =>
    rw [hguardC]
    exact hInv.guardLink
  case guardHead =>
    intro e he
    rw [hguardC] at he
    exact hInv.guardHead e he
  case guardDoneNoReact =>
    intro e he hres r hr
    rw [hguardC] at he
    rcases (hres2 e.g).mp hres with h | h
    · rcases (hWQmem _).mp hr with hrn | hro
      · cases hrn
        intro hcon
        cases hcon
      · exact hInv.guardDoneNoReact e he h r (hWQsub _ hro)
    · have hee : e = ⟨c, g, src, .chk⟩ := gentry_unique hInv he hent h
      subst hee
      intro hcon
      rcases (hWQmem _).mp hr with hrn | hro
      · cases hrn
        cases hcon
      · have hrcne : r.client ≠ c := hnotc _ hro
        rcases hrx : r with ⟨s3, d3⟩ | ⟨s3, d3, p3, g3⟩ | ⟨s3, d3, p3, g3⟩ | ⟨s3, d3, p3, g3⟩
        all_goals rw [hrx] at hcon hro
        all_goals cases hcon
        · obtain ⟨-, -, hent2⟩ := hInv.vipCheckShape _ _ _ _ (hWQsub _ hro)
          have heq := gentry_unique hInv hent2 hent rfl
          have hd3 : d3 = c := congrArg GEntry.c heq
          rw [hrx] at hrcne
          exact hrcne hd3
        · obtain ⟨-, -, hent2, -⟩ := hInv.relDrainShape _ _ _ _ (hWQsub _ hro)
          have heq := gentry_unique hInv hent2 hent rfl
          have hk : GKind.rel = GKind.chk := congrArg GEntry.k heq
          cases hk
        · exact hnoRF _ _ _ _ (hWQsub _ hro)
  case guardResChain =>
    rw [hguardC]
    refine chain'_of_eq_on (chain'_conj hInv.guardLink hInv.guardResChain) ?_
    intro a _ b hb hab hres
    obtain ⟨hlink, hrel⟩ := hab
    show ((addReaction (.thenKey s.lockTail c) (resolveP g { s with queue := rest })).resolvedAt a.g).isSome
    rw [hres2]
    rcases (hres2 b.g).mp hres with h | h
    · exact Or.inl (hrel h)
    · have hbe : b = ⟨c, g, src, .chk⟩ := gentry_unique hInv hb hent h
      have hag : a.g = src := by rw [← hlink, hbe]
      rw [hag]
      exact Or.inl hhot
  case countEq =>
    have hfc : List.filter (fun d => decide ¬((upd s.clients c { s.clients c with status := .queued, lane := .ordL, srcP := s.lockTail, appendedAt := some s.time } d).status
        = .released ∧ (upd s.clients c { s.clients c with status := .queued, lane := .ordL, srcP := s.lockTail, appendedAt := some s.time } d).kind = .ordKey)) [c] = [c] := by
      simp [upd_same_cl]
    have hfh : List.filter (fun d => decide ¬((upd s.clients c { s.clients c with status := .queued, lane := .ordL, srcP := s.lockTail, appendedAt := some s.time } d).status
        = .released ∧ (upd s.clients c { s.clients c with status := .queued, lane := .ordL, srcP := s.lockTail, appendedAt := some s.time } d).kind = .ordKey)) s.ordChain
        = List.filter (fun d => decide ¬((s.clients d).status = .released ∧
          (s.clients d).kind = .ordKey)) s.ordChain := by
      apply List.filter_congr
      intro d hd
      have hdc : d ≠ c := fun h => hcno (h ▸ hd)
      rw [upd_ne_cl _ _ hdc]
    rw [List.filter_append, hfc, hfh, List.length_append, List.length_singleton]
    have := hInv.countEq
    push_cast
    omega
  case vipNonempty =>
    intro h
    rw [hvipC, hvcnil] at h
    exact absurd rfl h
  case vipHeadRes =>
    intro h
    exfalso
    rw [hvipH] at h
    rcases (hres2 s.vipHead).mp h with h2 | h2
    · exact hnrVH h2
    · exact hInv.vipHeadNotGuard _ hent h2
  case vipHeadNotLock =>
    intro d hd
    rw [hmyF d, hvipH]
    exact hInv.vipHeadNotLock d (hneF d hd)
  case vipHeadNotGuard =>
    intro e he
    rw [hguardC] at he
    rw [hvipH]
    exact hInv.vipHeadNotGuard e he
  case myLockNotGuard =>
    intro d hd e he
    rw [hguardC] at he
    rw [hmyF d]
    exact hInv.myLockNotGuard d (hneF d hd) e he
  case lockInj =>
    intro c1 d1 h1 h2 heq
    rw [hmyF, hmyF] at heq
    exact hInv.lockInj c1 d1 (hneF c1 h1) (hneF d1 h2) heq
  case lockBound =>
    intro d hd
    rw [hmyF d, hnextP]
    exact hInv.lockBound d (hneF d hd)
  case guardBound =>
    intro e he
    rw [hguardC] at he
    rw [hnextP]
    exact hInv.guardBound e he
  case vipHeadBound =>
    rw [hvipH, hnextP]
    exact hInv.vipHeadBound
  case fresh =>
    intro q hq2
    rw [hnextP] at hq2
    have hqg : q ≠ g := by
      intro h
      rw [h] at hq2
      omega
    rw [hat q hqg]
    exact hInv.fresh q hq2
  case nextPBound =>
    rw [hnextP]
    exact hInv.nextPBound
  case resZero =>
    constructor
    · show ((addReaction (.thenKey s.lockTail c) (resolveP g { s with queue := rest })).resolvedAt 0).isSome
      rw [hres2]
      exact Or.inl hInv.resZero.1
    · show ((addReaction (.thenKey s.lockTail c) (resolveP g { s with queue := rest })).resolvedAt 1).isSome
      rw [hres2]
      exact Or.inl hInv.resZero.2
  case timeRes =>
    intro q t h
    by_cases hqg : q = g
    · subst hqg
      rw [hatg] at h
      injection h with h2
      omega
    · rw [hat q hqg] at h
      have := hInv.timeRes q t h
      omega
  case timeAdm =>
    intro d t hd
    rw [hadmF d] at hd
    have := hInv.timeAdm d t hd
    omega
  case timeApp =>
    intro d t hd
    by_cases hdc : d = c
    · rw [hdc, upd_same_cl] at hd
      injection hd with h2
      omega
    · rw [upd_ne_cl _ _ hdc] at hd
      have := hInv.timeApp d t hd
      omega
  case timeDrain =>
    intro d t hd
    rw [hdrF d] at hd
    have := hInv.timeDrain d t hd
    omega
  case admitSome =>
    intro d hd
    rw [hadmF d]
    by_cases hdc : d = c
    · rw [hdc, upd_same_cl] at hd
      rcases hd with h | h | h <;> cases h
    · rw [upd_ne_cl _ _ hdc] at hd
      exact hInv.admitSome d hd
  case admitNone =>
    intro d hd
    rw [hadmF d]
    by_cases hdc : d = c
    · rw [hdc]
      exact hadmn
    · rw [upd_ne_cl _ _ hdc] at hd
      exact hInv.admitNone d hd
  case ordAdmitChain =>
    apply chain'_concat_of
    · refine chain'_of_eq_on hInv.ordAdmitChain ?_
      intro a _ b _ hab
      rw [hadmF, hadmF]
      exact hab
    · intro z _ tb htb
      rw [hadmF c, hadmn] at htb
      cases htb
  case vipAdmitChain =>
    rw [hvipD, hvipC]
    refine chain'_of_eq_on hInv.vipAdmitChain ?_
    intro a _ b _ hab
    rw [hadmF, hadmF]
    exact hab
  case drainOrd =>
    intro d hd
    rw [hdrF d] at hd
    rw [hkindF d]
    exact hInv.drainOrd d hd
  case logNone =>
    intro d hd
    rw [hdrF d] at hd
    show List.filter _ (addReaction (.thenKey s.lockTail c) (resolveP g { s with queue := rest })).log = []
    rw [hlogE]
    exact hInv.logNone d hd
  case logSome =>
    intro d hd
    rw [hdrF d] at hd
    constructor
    · rintro ⟨s2, p2, g2, hm⟩
      exfalso
      rcases (hWQmem _).mp hm with hrn | hro
      · cases hrn
      · exact hnoRF _ _ _ _ (hWQsub _ hro)
    · intro _
      have h7 := (hInv.logSome d hd).2 (by
        rintro ⟨s2, p2, g2, hm⟩
        exact hnoRF _ _ _ _ hm)
      show List.filter _ (addReaction (.thenKey s.lockTail c) (resolveP g { s with queue := rest })).log = _
      rw [hlogE]
      exact h7
  case holdOne =>
    intro c1 d1 h1 h2
    by_cases hc1 : c1 = c
    · rw [hc1, upd_same_cl] at h1
      cases h1
    · by_cases hd1 : d1 = c
      · rw [hd1, upd_same_cl] at h2
        cases h2
      · rw [upd_ne_cl _ _ hc1] at h1
        rw [upd_ne_cl _ _ hd1] at h2
        exact hInv.holdOne c1 d1 h1 h2
  case vipActiveHead =>
    intro d hd
    rw [hvipC, hvcnil] at hd
    cases hd
  case ordKindLane =>
    intro d h1 h2
    rw [hkindF d] at h1
    by_cases hdc : d = c
    · rw [hdc, upd_same_cl]
    · rw [upd_ne_cl _ _ hdc]
      exact hInv.ordKindLane d h1 (hneF d h2)
  case waitGuardLane =>
    intro d hd
    by_cases hdc : d = c
    · rw [hdc, upd_same_cl] at hd
      cases hd
    · rw [upd_ne_cl _ _ hdc] at hd ⊢
      exact hInv.waitGuardLane d hd
  case drainNone =>
    intro d hd
    rw [hdrF d]
    by_cases hdc : d = c
    · rw [hdc]
      exact hdrn
    · rw [upd_ne_cl _ _ hdc] at hd
      exact hInv.drainNone d hd
  case relDrained =>
    intro d h1 h2
    rw [hdrF d]
    by_cases hdc : d = c
    · rw [hdc, upd_same_cl] at h1
      cases h1
    · rw [upd_ne_cl _ _ hdc] at h1
      rw [hkindF d] at h2
      exact hInv.relDrained d h1 h2
  case entryNotIdle =>
    intro e he
    rw [hguardC] at he
    by_cases hec : e.c = c
    · rw [hec, upd_same_cl]
      intro h
      cases h
    · rw [upd_ne_cl _ _ hec]
      exact hInv.entryNotIdle e he
  case chkUnique =>
    intro e1 he1 e2 he2
    rw [hguardC] at he1 he2
    exact hInv.chkUnique e1 he1 e2 he2
  case chkApp =>
    intro e he hkk
    rw [hguardC] at he
    by_cases hec : e.c = c
    · have hee : e = ⟨c, g, src, .chk⟩ := hInv.chkUnique e he _ hent hkk rfl hec
      rw [hee]
      dsimp only
      rw [upd_same_cl, hatg]
    · have hgg : e.g ≠ g := fun h => hec (congrArg GEntry.c (gentry_unique hInv he hent h))
      rw [happFne e.c hec, hat e.g hgg]
      exact hInv.chkApp e he hkk
  case guardTimeChain =>
    rw [hguardC]
    refine chain'_of_eq_on (chain'_conj hInv.guardLink hInv.guardTimeChain) ?_
    intro a _ b hb hab t2 ht2
    obtain ⟨hlink, htime⟩ := hab
    by_cases hbg : b.g = g
    · have hbe : b = ⟨c, g, src, .chk⟩ := gentry_unique hInv hb hent hbg
      have hag : a.g = src := by rw [← hlink, hbe]
      have hres_ag : res s a.g := by rw [hag]; exact hhot
      have hagg : a.g ≠ g := by
        intro h2
        apply hng
        rw [← h2]
        exact hres_ag
      obtain ⟨t1, ht1⟩ := Option.isSome_iff_exists.mp hres_ag
      refine ⟨t1, ?_, ?_⟩
      · rw [hat a.g hagg]
        exact ht1
      · rw [hbg, hatg] at ht2
        injection ht2 with h2
        have := hInv.timeRes _ t1 ht1
        omega
    · rw [hat b.g hbg] at ht2
      obtain ⟨t1, ht1, hlt⟩ := htime t2 ht2
      have hagg : a.g ≠ g := by
        intro h
        apply hng
        rw [← h]
        unfold res
        rw [ht1]
        rfl
      exact ⟨t1, by rw [hat a.g hagg]; exact ht1, hlt⟩
  case vipAppSome =>
    intro d hd
    rw [hvipD, hvipC] at hd
    have hdc : d ≠ c := fun h => hcnv (h ▸ hd)
    rw [happFne d hdc]
    exact hInv.vipAppSome d hd
  case vipAppChain =>
    rw [hvipD, hvipC]
    refine chain'_of_eq_on hInv.vipAppChain ?_
    intro a ha b hb hab tb htb
    have hac : a ≠ c := fun h => hcnv (h ▸ ha)
    have hbc : b ≠ c := fun h => hcnv (h ▸ hb)
    rw [happFne b hbc] at htb
    obtain ⟨ta, hta, h⟩ := hab tb htb
    exact ⟨ta, by rw [happFne a hac]; exact hta, h⟩
  case appStatus =>
    intro d hd
    by_cases hdc : d = c
    · rw [hdc, upd_same_cl]
      exact ⟨(by intro h; cases h), (by intro h; cases h)⟩
    · rw [happFne d hdc] at hd
      rw [upd_ne_cl _ _ hdc]
      exact hInv.appStatus d hd

theorem inv_fire_vipCheck {s : St} {src c p g : Nat} {rest : List Reaction}
    (hInv : Inv s) (hq : s.queue = (.vipCheck src c p g : Reaction) :: rest) :
    Inv (fire (.vipCheck src c p g) { s with queue := rest }) := by
  by_cases hcnt : 0 < s.count
  · exact inv_fire_vipCheck_pos hInv hq hcnt
  · exact inv_fire_vipCheck_neg hInv hq hcnt

end VipM

namespace VipM

theorem inv_fire {s : St} {r : Reaction} {rest : List Reaction}
    (hInv : Inv s) (hq : s.queue = r :: rest) :
    Inv (fire r { s with queue := rest }) := by
  rcases r with ⟨src, c⟩ | ⟨src, c, p, g⟩ | ⟨src, c, p, g⟩ | ⟨src, c, p, g⟩
  · exact inv_fire_thenKey hInv hq
  · exact inv_fire_vipCheck hInv hq
  · exact inv_fire_relDrain hInv hq
  · exact inv_fire_relFinish hInv hq

theorem inv_stepG {s t : St} (hInv : Inv s) (h : StepG s t) : Inv t := by
  cases h with
  | lockCall c hc => exact inv_doLock hInv hc
  | lockVipCall c hc => exact inv_doLockVip hInv hc
  | releaseSimple c hk hc => exact inv_doReleaseSimple hInv hk hc
  | releaseOrd c hk hc => exact inv_doReleaseOrd hInv hk hc
  | fireHead r rest hq => exact inv_fire hInv hq

theorem inv_reachableG {s : St} (h : ReachableG s) : Inv s := by
  unfold ReachableG at h
  induction h with
  | refl => exact inv_init
  | tail _ hstep ih => exact inv_stepG ih hstep

end VipM

namespace VipM

theorem reach_c1 : ReachableG c1 :=
  Relation.ReflTransGen.refl.tail (.lockVipCall init 0 (by decide))

theorem reach_f8 : ReachableG f8 := by
  have h1 : StepG init f1 := .lockCall init 0 (by decide)
  have h2 : StepG f1 f2 := stepG_fire f1 (by decide)
  have h3 : StepG f2 f3 := .lockVipCall f2 3 (by decide)
  have h4 : StepG f3 f4 := stepG_fire f3 (by decide)
  have h5 : StepG f4 f5 := .releaseOrd f4 0 (by decide) (by decide)
  have h6 : StepG f5 f6 := stepG_fire f5 (by decide)
  have h7 : StepG f6 f7 := stepG_fire f6 (by decide)
  have h8 : StepG f7 f8 := .releaseSimple f7 3 (by decide) (by decide)
  exact Relation.ReflTransGen.refl |>.tail h1 |>.tail h2 |>.tail h3 |>.tail h4
    |>.tail h5 |>.tail h6 |>.tail h7 |>.tail h8

theorem reach_g11 : ReachableG g11 := by
  have h1 : StepG init g1 := .lockCall init 0 (by decide)
  have h2 : StepG g1 g2 := stepG_fire g1 (by decide)
  have h3 : StepG g2 g3 := .lockVipCall g2 1 (by decide)
  have h4 : StepG g3 g4 := stepG_fire g3 (by decide)
  have h5 : StepG g4 g5 := .lockVipCall g4 2 (by decide)
  have h6 : StepG g5 g6 := stepG_fire g5 (by decide)
  have h7 : StepG g6 g7 := .releaseOrd g6 0 (by decide) (by decide)
  have h8 : StepG g7 g8 := stepG_fire g7 (by decide)
  have h9 : StepG g8 g9 := stepG_fire g8 (by decide)
  have h10 : StepG g9 g10 := .releaseSimple g9 1 (by decide) (by decide)
  have h11 : StepG g10 g11 := stepG_fire g10 (by decide)
  exact Relation.ReflTransGen.refl |>.tail h1 |>.tail h2 |>.tail h3 |>.tail h4
    |>.tail h5 |>.tail h6 |>.tail h7 |>.tail h8 |>.tail h9 |>.tail h10 |>.tail h11

/-- C1 (amended to protocol-compliant behaviours): in every state reachable
while each admitted waiter invokes its unlock closure at most once, at most
one request is in the holding state.  The original universally quantified
claim is refuted by double_release_two_holders. -/
theorem vip_mutual_exclusion {s : St} (h : ReachableG s) :
    ∀ c d, (s.clients c).status = .holding → (s.clients d).status = .holding →
    c = d :=
  (inv_reachableG h).holdOne

theorem vip_mutual_exclusion_witness :
    ReachableG c3 ∧ (c3.clients 0).status = .holding ∧ (0 : Nat) = 0 :=
  ⟨reach_c3, by decide, vip_mutual_exclusion reach_c3 0 0 (by decide) (by decide)⟩

/-- C2 (amended): what the guard protocol does guarantee in
protocol-compliant runs: (i) while the final drain step (relFinish) of an
ordinary release is scheduled, every request in the VIP chain of the episode
has already been fully released, and (ii) while a drain is in flight no
ordinary waiter's admission reaction is scheduled - every scheduled
admission (thenKey) belongs to a VIP-lane request.  The original claim is
refuted by fallback_holder_skips_vip: a holder whose key is a plain VIP key
(the idle fallback) skips the drain, and a VIP that joins mid-drain is
admitted before, but released after, the next ordinary waiter is admitted. -/
theorem vip_drain_completes {s : St} (h : ReachableG s) :
    (∀ src c p g, (.relFinish src c p g : Reaction) ∈ s.queue →
      ∀ d ∈ s.vipChain, (s.clients d).status = .released) ∧
    (∀ src c p g, (.relFinish src c p g : Reaction) ∈ s.waiting ++ s.queue →
      ∀ src2 d, (.thenKey src2 d : Reaction) ∈ s.queue →
      (s.clients d).lane = .vipL) := by
  have hInv := inv_reachableG h
  constructor
  · intro src c p g hm d hd
    obtain ⟨-, -, hsrcT, -, -⟩ := hInv.relFinishShape src c p g
      (List.mem_append.mpr (Or.inr hm))
    have hhot : res s src := hInv.hotRes _ hm
    refine vipChain_released hInv ?_ d hd
    rw [← hsrcT]
    exact hhot
  · intro src c p g hm src2 d hd
    obtain ⟨hrel, -, -, -, -⟩ := hInv.relFinishShape src c p g hm
    cases hl : (s.clients d).lane with
    | vipL => rfl
    | ordL => exact (no_ord_thenKey_hot_while_releasing hInv hrel hd hl).elim

theorem vip_drain_completes_witness :
    ReachableG f8 ∧ (.relFinish 4 0 3 6 : Reaction) ∈ f8.queue ∧
      f8.vipChain = [3] ∧ (f8.clients 3).status = .released :=
  ⟨reach_f8, by decide, by decide,
    (vip_drain_completes reach_f8).1 4 0 3 6 (by decide) 3 (by decide)⟩

/-- C3: ordinary admission is FIFO, on both mutexes.  In every
protocol-compliant reachable state, whenever request x was appended to the
ordinary chain before request d and d has been admitted, x was admitted
strictly earlier (the chains record call order, admittedAt records admission
time). -/
theorem ordinary_fifo :
    (∀ s : St, ReachableG s → ∀ u x v d w, s.ordChain = u ++ x :: (v ++ d :: w) →
      ∀ td, (s.clients d).admittedAt = some td →
      ∃ tx, (s.clients x).admittedAt = some tx ∧ tx < td) ∧
    (∀ s : PlainM.PSt, PlainM.PReachableG s →
      ∀ u x v d w, s.hist = u ++ x :: (v ++ d :: w) →
      ∀ td, (s.clients d).admittedAt = some td →
      ∃ tx, (s.clients x).admittedAt = some tx ∧ tx < td) := by
  constructor
  · intro s h u x v d w hsplit td htd
    have hInv := inv_reachableG h
    exact chain_rel_of_split hInv.ordAdmitChain
      (fun a b c2 => otime_trans (fun z => (s.clients z).admittedAt) a b c2)
      u x v d w hsplit td htd
  · intro s h u x v d w hsplit td htd
    exact PlainM.fifo_hist h hsplit htd

theorem ordinary_fifo_witness :
    ReachableG e8 ∧ e8.ordChain = [] ++ 0 :: ([] ++ 1 :: []) ∧
      (e8.clients 1).admittedAt = some 8 ∧
      (∃ tx, (e8.clients 0).admittedAt = some tx ∧ tx < 8) ∧
      PlainM.PReachableG PlainM.q5 ∧
      PlainM.q5.hist = [] ++ 0 :: ([] ++ 1 :: []) ∧
      (PlainM.q5.clients 1).admittedAt = some 5 ∧
      (∃ tx, (PlainM.q5.clients 0).admittedAt = some tx ∧ tx < 5) :=
  ⟨reach_e8, by decide, by decide,
    ordinary_fifo.1 e8 reach_e8 [] 0 [] 1 [] (by decide) 8 (by decide),
    PlainM.reach_q5, by decide, by decide,
    ordinary_fifo.2 PlainM.q5 PlainM.reach_q5 [] 0 [] 1 [] (by decide) 5 (by decide)⟩

/-- C4: VIP requests are admitted FIFO among themselves.  The guard chain
records the call order of the guard-mutex acquisitions (one chk entry per
lockVip call); whenever the chk entry of VIP request e1.c precedes the chk
entry of VIP request e2.c and e2.c has been admitted, e1.c was admitted
strictly earlier. -/
theorem vip_fifo {s : St} (h : ReachableG s) :
    ∀ u e1 v e2 w, s.guardChain = u ++ e1 :: (v ++ e2 :: w) →
    e1.k = .chk → e2.k = .chk →
    (s.clients e1.c).lane = .vipL → (s.clients e2.c).lane = .vipL →
    ∀ t2, (s.clients e2.c).admittedAt = some t2 →
    ∃ t1, (s.clients e1.c).admittedAt = some t1 ∧ t1 < t2 := by
  intro u e1 v e2 w hsplit hk1 hk2 hl1 hl2 t2 ht2
  have hInv := inv_reachableG h
  have he1 : e1 ∈ s.guardChain := by rw [hsplit]; simp
  have he2 : e2 ∈ s.guardChain := by rw [hsplit]; simp
  have hne2 : (s.clients e2.c).status ≠ .idle := by
    intro hcon
    rw [hInv.admitNone e2.c (Or.inl hcon)] at ht2
    cases ht2
  have hnw2 : (s.clients e2.c).status ≠ .waitGuard := by
    intro hcon
    rw [hInv.admitNone e2.c (Or.inr (Or.inl hcon))] at ht2
    cases ht2
  have hm2 : e2.c ∈ s.vipDone ++ s.vipChain := (hInv.vipMem e2.c).mpr ⟨hl2, hne2, hnw2⟩
  have happ1 : (s.clients e1.c).appendedAt = s.resolvedAt e1.g := hInv.chkApp e1 he1 hk1
  have happ2 : (s.clients e2.c).appendedAt = s.resolvedAt e2.g := hInv.chkApp e2 he2 hk2
  obtain ⟨tg2, htg2⟩ := Option.isSome_iff_exists.mp (hInv.vipAppSome e2.c hm2)
  have hgt := chain_rel_of_split hInv.guardTimeChain
    (fun a b c2 => otime_trans (fun e => s.resolvedAt e.g) a b c2)
    u e1 v e2 w hsplit
  obtain ⟨tg1, htg1, hlt⟩ := hgt tg2 (by rw [← happ2]; exact htg2)
  have happ1v : (s.clients e1.c).appendedAt = some tg1 := by rw [happ1]; exact htg1
  have hne1 := hInv.appStatus e1.c (by rw [happ1v]; intro hcon; cases hcon)
  have hm1 : e1.c ∈ s.vipDone ++ s.vipChain :=
    (hInv.vipMem e1.c).mpr ⟨hl1, hne1.1, hne1.2⟩
  have hgne : e1.g ≠ e2.g := by
    intro hcon
    have hnd := hInv.guardNodupG
    rw [hsplit, List.map_append, List.map_cons] at hnd
    rcases List.nodup_append.mp hnd with ⟨-, hnd2, -⟩
    rcases List.nodup_cons.mp hnd2 with ⟨hnin, -⟩
    apply hnin
    rw [hcon, List.map_append, List.map_cons]
    exact List.mem_append.mpr (Or.inr (List.mem_cons_self _ _))
  have hcne : e1.c ≠ e2.c := by
    intro hcon
    exact hgne (congrArg GEntry.g (hInv.chkUnique e1 he1 e2 he2 hk1 hk2 hcon))
  rcases mem_mem_split hm1 hm2 hcne with ⟨u2, v2, w2, hsp2⟩ | ⟨u2, v2, w2, hsp2⟩
  · exact chain_rel_of_split hInv.vipAdmitChain
      (fun a b c2 => otime_trans (fun z => (s.clients z).admittedAt) a b c2)
      u2 e1.c v2 e2.c w2 hsp2 t2 ht2
  · exfalso
    obtain ⟨ta, hta, hlt2⟩ := chain_rel_of_split hInv.vipAppChain
      (fun a b c2 => otime_trans (fun z => (s.clients z).appendedAt) a b c2)
      u2 e2.c v2 e1.c w2 hsp2 tg1 happ1v
    rw [hta] at htg2
    injection htg2 with he
    omega

theorem vip_fifo_witness :
    ReachableG g11 ∧
      g11.guardChain = [] ++ (⟨1, 5, 1, .chk⟩ : GEntry) ::
        ([] ++ (⟨2, 7, 5, .chk⟩ : GEntry) :: [(⟨0, 8, 7, .rel⟩ : GEntry)]) ∧
      (g11.clients 2).admittedAt = some 11 ∧
      (∃ t1, (g11.clients 1).admittedAt = some t1 ∧ t1 < 11) :=
  ⟨reach_g11, by decide, by decide,
    vip_fifo reach_g11 [] ⟨1, 5, 1, .chk⟩ [] ⟨2, 7, 5, .chk⟩ [⟨0, 8, 7, .rel⟩]
      (by decide) (by decide) (by decide) (by decide) (by decide) 11 (by decide)⟩

/-- C5 (amended): when a vipCheck fires on an idle mutex (ordinary-waiter
count at most 0), the request is appended to the ordinary chain - not the
VIP chain - with lane ordL, the count is incremented, and its admission
reaction is scheduled immediately (the ordinary tail lock is already
resolved when the count is 0).  The further claim that this is equivalent to
an ordinary lock request is refuted by idle_vip_not_equivalent: the
fallback request keeps its simple VIP key, so its release never decrements
the count. -/
theorem idle_vip_fallback {s : St} (h : ReachableG s) {src c p g : Nat}
    {rest : List Reaction} (hq : s.queue = (.vipCheck src c p g : Reaction) :: rest)
    (hcnt : s.count ≤ 0) :
    (stepFire s).ordChain = s.ordChain ++ [c] ∧
    (stepFire s).vipChain = s.vipChain ∧
    (stepFire s).count = s.count + 1 ∧
    ((stepFire s).clients c).status = .queued ∧
    ((stepFire s).clients c).lane = .ordL ∧
    (.thenKey s.lockTail c : Reaction) ∈ (stepFire s).queue := by
  have hInv := inv_reachableG h
  have hcnt2 : ¬ 0 < ({ s with queue := rest } : St).count := by
    show ¬ 0 < s.count
    omega
  have hsf : stepFire s = fire (.vipCheck src c p g) { s with queue := rest } := by
    unfold stepFire
    rw [hq]
  have hT : stepFire s =
      { addReaction (.thenKey s.lockTail c) (resolveP g { s with queue := rest }) with
        lockTail := p,
        count := s.count + 1,
        clients := upd s.clients c { s.clients c with status := .queued, lane := .ordL, srcP := s.lockTail, appendedAt := some s.time },
        ordChain := s.ordChain ++ [c],
        time := s.time + 1 } := by
    rw [hsf]
    simp only [fire]
    rw [if_neg hcnt2]
  have hres0 : res s s.lockTail := res_lockTail_of_count_zero hInv hcnt
  have hresLT : res (resolveP g { s with queue := rest }) s.lockTail :=
    (res_resolveP g { s with queue := rest } s.lockTail).mpr (Or.inl hres0)
  rw [hT]
  dsimp only
  refine ⟨rfl, ?_, rfl, ?_, ?_, ?_⟩
  · rw [addReaction_vipChain, resolveP_vipChain]
  · rw [upd_same_cl]
  · rw [upd_same_cl]
  · rw [@addReaction_pos_v (.thenKey s.lockTail c) _ hresLT]
    exact List.mem_append.mpr (Or.inr (List.mem_singleton.mpr rfl))

theorem idle_vip_fallback_witness :
    ReachableG c1 ∧ c1.queue = (.vipCheck 1 0 3 4 : Reaction) :: [] ∧ c1.count ≤ 0 ∧
      ((stepFire c1).ordChain = c1.ordChain ++ [0] ∧
        (stepFire c1).vipChain = c1.vipChain ∧
        (stepFire c1).count = c1.count + 1 ∧
        ((stepFire c1).clients 0).status = .queued ∧
        ((stepFire c1).clients 0).lane = .ordL ∧
        (.thenKey c1.lockTail 0 : Reaction) ∈ (stepFire c1).queue) :=
  ⟨reach_c1, by decide, by decide,
    @idle_vip_fallback c1 reach_c1 1 0 3 4 [] (by decide) (by decide)⟩

/-- C6: the ordered release sequence of an ordinary holder.  In every
protocol-compliant reachable state, (i) a fully released ordKey request has
the complete seven-step log in order - got the guard, resolved the VIP head
sentinel, awaited the VIP tail, re-armed a fresh sentinel, decremented the
count, resolved its own lock, released the guard last - and (ii) while the
relFinish continuation is still pending, the request has exactly the first
three steps logged, and the awaited tail recorded in the continuation is the
VIP tail of the state (stable while the guard is held). -/
theorem ordinary_release_sequence {s : St} (h : ReachableG s) :
    (∀ c, (s.clients c).status = .released → (s.clients c).kind = .ordKey →
      logFor s c = canon7 c) ∧
    (∀ src c p g, (.relFinish src c p g : Reaction) ∈ s.waiting ++ s.queue →
      logFor s c = canon3 c ∧ src = s.vipTail ∧
      (s.clients c).status = .releasing) := by
  have hInv := inv_reachableG h
  constructor
  · intro c hrel hkind
    have hdr := hInv.relDrained c hrel hkind
    refine (hInv.logSome c hdr).2 ?_
    rintro ⟨src, p, g, hm⟩
    obtain ⟨hst, -, -, -, -⟩ := hInv.relFinishShape src c p g hm
    rw [hrel] at hst
    cases hst
  · intro src c p g hm
    obtain ⟨hst, -, hsrcT, -, hdr⟩ := hInv.relFinishShape src c p g hm
    exact ⟨(hInv.logSome c hdr).1 ⟨src, p, g, hm⟩, hsrcT, hst⟩

theorem ordinary_release_sequence_witness :
    ReachableG b5 ∧ (b5.clients 0).status = .released ∧
      (b5.clients 0).kind = .ordKey ∧ logFor b5 0 = canon7 0 ∧
      ReachableG f8 ∧ (.relFinish 4 0 3 6 : Reaction) ∈ f8.waiting ++ f8.queue ∧
      logFor f8 0 = canon3 0 :=
  ⟨reach_b5, by decide, by decide,
    (ordinary_release_sequence reach_b5).1 0 (by decide) (by decide),
    reach_f8, by decide,
    ((ordinary_release_sequence reach_f8).2 4 0 3 6 (by decide)).1⟩

/-- C8 (amended): release idempotence holds for the plain mutex and for the
simple VIP unlock closure: invoking the release function again on a released
request only advances time and leaves every other component of the state
unchanged (resolving an already-resolved promise is a no-op, and the status
write is the value it already has).  For the VipMutex ordinary unlock
closure the claim is refuted by double_release_changes_count: the second
invocation re-runs the whole _getKey body and decrements the count again. -/
theorem release_idempotent_simple :
    (∀ s : St, ReachableG s → ∀ c, (s.clients c).kind = .simpleKey →
      (s.clients c).status = .released →
      doReleaseSimple c s = { s with time := s.time + 1 }) ∧
    (∀ s : PlainM.PSt, PlainM.PReachableG s → ∀ c (args : List PlainM.Val),
      (s.clients c).status = .released →
      PlainM.prelease c args s = { s with time := s.time + 1 }) := by
  constructor
  · intro s h c _ hc
    have hInv := inv_reachableG h
    have hcne : (s.clients c).status ≠ .idle := by rw [hc]; intro h2; cases h2
    have hres : res s (s.clients c).myLock := (hInv.statusRes c hcne).mpr hc
    have h1 : resolveP (s.clients c).myLock s = s := resolveP_pos_v hres
    have h2 : upd s.clients c { s.clients c with status := .released } = s.clients := by
      funext d
      by_cases hdc : d = c
      · rw [hdc, upd_same_cl, ← hc]
      · rw [upd_ne_cl _ _ hdc]
    unfold doReleaseSimple
    rw [h1, h2]
  · intro s h c args hc
    have hInv := PlainM.pinv_reachableG h
    have hcne : (s.clients c).status ≠ .idle := by rw [hc]; intro h2; cases h2
    have hres : PlainM.pres s (s.clients c).myLock := (hInv.statusRes c hcne).mpr hc
    have h1 : PlainM.resolveP (s.clients c).myLock .undef s = s :=
      PlainM.resolveP_pos hres
    have h2 : PlainM.upd s.clients c { s.clients c with status := .released }
        = s.clients := by
      funext d
      by_cases hdc : d = c
      · rw [hdc, PlainM.upd_same, ← hc]
      · rw [PlainM.upd_ne _ _ hdc]
    unfold PlainM.prelease
    rw [h1, h2]

theorem release_idempotent_simple_witness :
    ReachableG c4 ∧ (c4.clients 0).kind = .simpleKey ∧
      (c4.clients 0).status = .released ∧
      doReleaseSimple 0 c4 = { c4 with time := c4.time + 1 } ∧
      PlainM.PReachableG PlainM.q5 ∧ (PlainM.q5.clients 0).status = .released ∧
      PlainM.prelease 0 [.keyFn 7, .undef] PlainM.q5
        = { PlainM.q5 with time := PlainM.q5.time + 1 } :=
  ⟨reach_c4, by decide, by decide,
    release_idempotent_simple.1 c4 reach_c4 0 (by decide) (by decide),
    PlainM.reach_q5, by decide,
    release_idempotent_simple.2 PlainM.q5 PlainM.reach_q5 0 [.keyFn 7, .undef]
      (by decide)⟩

/-- C9: run acquires, runs the task with the forwarded arguments, and
invokes the release closure on every exit path: after admission, the
try/finally body leaves the state exactly as one doRelease call does -
whether the executor returns a value or fails - and propagates the
executor's own outcome unchanged to the caller. -/
theorem run_release_and_propagate {ε α : Type} (c : Nat)
    (executor : List Nat → Except ε α) (args : List Nat) (s : St) :
    (runBody c executor args s).1 = doRelease c s ∧
    (runBody c executor args s).2 = executor args := by
  unfold runBody tryFinally
  cases executor args <;> exact ⟨rfl, rfl⟩

/-- C10: release arguments are discarded.  Invoking a plain-mutex unlock
closure with any argument list produces the very same state as invoking it
with none, and in every protocol-compliant reachable state every fulfilled
promise of the heap carries undefined (resolve() is called with no
arguments), while a holder's key promise delivered exactly its own unlock
closure - never a value supplied by the releasing caller. -/
theorem release_args_discarded :
    (∀ (c : Nat) (args : List PlainM.Val) (s : PlainM.PSt),
      PlainM.prelease c args s = PlainM.prelease c [] s) ∧
    (∀ s : PlainM.PSt, PlainM.PReachableG s →
      (∀ p v, s.resolvedVal p = some v → v = .undef) ∧
      (∀ c, (s.clients c).status = .holding →
        (s.clients c).received = some (.keyFn c))) := by
  constructor
  · intro c args s
    rfl
  · intro s h
    have hInv := PlainM.pinv_reachableG h
    exact ⟨hInv.valUndef, hInv.recvOwn⟩

theorem release_args_discarded_witness :
    PlainM.prelease 0 [.keyFn 7, .undef] PlainM.q3 = PlainM.prelease 0 [] PlainM.q3 ∧
      PlainM.PReachableG PlainM.q5 ∧
      (PlainM.q5.clients 1).received = some (.keyFn 1) :=
  ⟨release_args_discarded.1 0 [.keyFn 7, .undef] PlainM.q3,
    PlainM.reach_q5,
    (release_args_discarded.2 PlainM.q5 PlainM.reach_q5).2 1 (by decide)⟩

end VipM
